import Mathlib

/-!
# Transport catalogue: a shallow embedding and its verified properties

Conventions of the embedding.

* `double` values are exact rationals (`ℚ`): the catalogue "does not model NaN or
  infinity", and every property below is a statement of exact arithmetic.
* The three libm functions used by `geo::ComputeDistance` (`sin`, `cos`, `acos`)
  are a parameter (`Libm`).
* `const Stop*` / `const Bus*` are ordinals: the pointer to the element that was
  pushed when the deque held `p` elements is the number `p`.  The deques grow at
  the front only, so an ordinal never moves.
* `std::unordered_map` is an association list with at most one pair per key.
* A function that can throw, or read through an invalid pointer or index, returns
  `Except Fault _`.
-/

namespace trc

/-- Ways an operation can fail to return normally. -/
inductive Fault where
  /-- The exception `std::out_of_range` thrown by a container's checked lookup. -/
  | out_of_range
  /-- The exception `std::logic_error`. -/
  | logic_error
  /-- A read through a pointer or an index that does not designate an element. -/
  | undefined_behaviour
  /-- A loop of the embedding used up its iteration budget. -/
  | out_of_fuel
deriving DecidableEq, Repr

instance instDecidableEqExceptFault {α : Type} [DecidableEq α] : DecidableEq (Except Fault α)
  | .ok a, .ok b => if h : a = b then isTrue (by rw [h]) else isFalse (by intro e; cases e; exact h rfl)
  | .error a, .error b =>
    if h : a = b then isTrue (by rw [h]) else isFalse (by intro e; cases e; exact h rfl)
  | .ok _, .error _ => isFalse (by intro e; cases e)
  | .error _, .ok _ => isFalse (by intro e; cases e)

/-! ## Finite maps -/

/-- Stand-in for `std::unordered_map<κ, ν>`. -/
abbrev AssocMap (κ ν : Type) := List (κ × ν)

namespace AssocMap

variable {κ ν : Type} [DecidableEq κ]

/-- The value stored under `k`, if any (`find`). -/
def find? : AssocMap κ ν → κ → Option ν
  | [], _ => none
  | (k', v) :: m, k => if k' = k then some v else find? m k

/-- Whether `k` is a key (`count(k) != 0`). -/
def count (m : AssocMap κ ν) (k : κ) : Bool := (find? m k).isSome

/-- Checked lookup (`at`): throws `std::out_of_range` for a missing key. -/
def get (m : AssocMap κ ν) (k : κ) : Except Fault ν :=
  match find? m k with
  | some v => .ok v
  | none => .error .out_of_range

/-- Assignment `m[k] = v`: overwrites the value of an existing key, else adds the pair. -/
def insert : AssocMap κ ν → κ → ν → AssocMap κ ν
  | [], k, v => [(k, v)]
  | (k', v') :: m, k, v => if k' = k then (k', v) :: m else (k', v') :: insert m k v

/-- Access `m[k]` with a read-modify-write of the value: a missing key is first
created with the default value `d`. -/
def modify : AssocMap κ ν → κ → ν → (ν → ν) → AssocMap κ ν
  | [], k, d, f => [(k, f d)]
  | (k', v') :: m, k, d, f => if k' = k then (k', f v') :: m else (k', v') :: modify m k d f

end AssocMap

/-! ## geo.h -/

namespace geo

/-- The libm functions `sin`, `cos` and `acos` on exact reals. -/
structure Libm where
  sin : ℚ → ℚ
  cos : ℚ → ℚ
  acos : ℚ → ℚ

/-- Type `geo::Coordinates`; `operator==` compares both fields. -/
structure Coordinates where
  lat : ℚ
  lng : ℚ
deriving DecidableEq

/-- Constant `dr = 3.1415926535 / 180.` -/
def dr : ℚ := 31415926535 / 10000000000 / 180

/-- Constant `earth_r = 6371'000.0`. -/
def earth_r : ℚ := 6371000

/-- Function `geo::ComputeDistance`. -/
def ComputeDistance (m : Libm) (from_ to_ : Coordinates) : ℚ :=
  if from_ = to_ then 0
  else
    m.acos (m.sin (from_.lat * dr) * m.sin (to_.lat * dr) +
            m.cos (from_.lat * dr) * m.cos (to_.lat * dr) *
              m.cos (|from_.lng - to_.lng| * dr)) * earth_r

end geo

open geo

/-! ## domain.h -/

/-- Type `trc::Stop`. -/
structure Stop where
  id : Nat
  name : String
  coordinates : Coordinates
deriving DecidableEq

/-- A `const Stop*`: the ordinal of the stop in insertion order. -/
abbrev StopPtr := Nat

/-- A `const Bus*`: the ordinal of the bus in insertion order. -/
abbrev BusPtr := Nat

/-- Type `trc::Bus`. -/
structure Bus where
  name : String := ""
  route : List StopPtr := []
  route_length : ℚ := 0
  curvature : ℚ := 0
  is_roundtrip : Bool := false
deriving DecidableEq

/-! ## transport_catalogue.h / transport_catalogue.cpp -/

/-- Type `TransportCatalogue::BusInfo`. -/
structure BusInfo where
  stop_count : Nat
  unique_stop_count : Nat
  route_length : ℚ
  curvature : ℚ
deriving DecidableEq

/-- Class `trc::TransportCatalogue`: its private members.  The deques are listed
front first. -/
structure TransportCatalogue where
  stops_ : List Stop := []
  buses_ : List Bus := []
  stop_id_to_stop_ : AssocMap Nat StopPtr := []
  stop_name_to_stop_ : AssocMap String StopPtr := []
  bus_name_to_bus_ : AssocMap String BusPtr := []
  stop_to_stop_to_distance_ : AssocMap StopPtr (AssocMap StopPtr ℚ) := []
  stop_name_to_buses_ : AssocMap String (List BusPtr) := []
deriving DecidableEq

namespace TransportCatalogue

/-- The default-constructed catalogue. -/
def empty : TransportCatalogue := {}

/-- Dereference of a `const Stop*`. -/
def stopAt (c : TransportCatalogue) (p : StopPtr) : Except Fault Stop :=
  match c.stops_.reverse[p]? with
  | some s => .ok s
  | none => .error .undefined_behaviour

/-- Dereference of a `const Bus*`. -/
def busAt (c : TransportCatalogue) (p : BusPtr) : Except Fault Bus :=
  match c.buses_.reverse[p]? with
  | some b => .ok b
  | none => .error .undefined_behaviour

/-- Unchecked `vector::operator[]`. -/
def index {α : Type} (v : List α) (i : Nat) : Except Fault α :=
  match v[i]? with
  | some a => .ok a
  | none => .error .undefined_behaviour

/-- Method `AddStop`. -/
def AddStop (c : TransportCatalogue) (stop : Stop) : TransportCatalogue :=
  let p : StopPtr := c.stops_.length
  { c with
    stops_ := stop :: c.stops_
    stop_id_to_stop_ := c.stop_id_to_stop_.insert stop.id p
    stop_name_to_stop_ := c.stop_name_to_stop_.insert stop.name p
    stop_name_to_buses_ := c.stop_name_to_buses_.modify stop.name [] id }

/-- Method `AddDistance`. -/
def AddDistance (c : TransportCatalogue) (stop_from stop_to : String) (distance : ℚ) :
    Except Fault TransportCatalogue := do
  let from_ ← c.stop_name_to_stop_.get stop_from
  let to_ ← c.stop_name_to_stop_.get stop_to
  pure { c with
    stop_to_stop_to_distance_ :=
      c.stop_to_stop_to_distance_.modify from_ [] (fun row => row.insert to_ distance) }

/-- The entry `stop_to_stop_to_distance_[a][b]` when both keys are present
(`count(a) && at(a).count(b)`, then `at(a).at(b)`). -/
def tableEntry (c : TransportCatalogue) (a b : StopPtr) : Option ℚ :=
  match c.stop_to_stop_to_distance_.find? a with
  | some row => row.find? b
  | none => none

/-- Method `GetDistance`. -/
def GetDistance (m : Libm) (c : TransportCatalogue) (from_ to_ : StopPtr) : Except Fault ℚ :=
  match c.tableEntry from_ to_ with
  | some d => .ok d
  | none =>
    match c.tableEntry to_ from_ with
    | some d => .ok d
    | none => do
      let a ← c.stopAt from_
      let b ← c.stopAt to_
      pure (ComputeDistance m a.coordinates b.coordinates)

/-- Method `ComputeRouteLength`. -/
def ComputeRouteLength (m : Libm) (c : TransportCatalogue) (bus : Bus) : Except Fault ℚ :=
  if bus.route.length = 0 then .ok 0
  else if bus.route.length = 1 then do
    let r0 ← index bus.route 0
    match c.tableEntry r0 r0 with
    | some d => pure d
    | none => pure 0
  else
    (List.range' 1 (bus.route.length - 1)).foldlM
      (fun route_length i => do
        let a ← index bus.route (i - 1)
        let b ← index bus.route i
        let d ← GetDistance m c a b
        pure (route_length + d)) 0

/-- Method `ComputeRouteGeographicLength`. -/
def ComputeRouteGeographicLength (m : Libm) (c : TransportCatalogue) (bus : Bus) :
    Except Fault ℚ :=
  if bus.route.length < 2 then .ok 0
  else
    (List.range' 1 (bus.route.length - 1)).foldlM
      (fun route_geo_length i => do
        let a ← index bus.route (i - 1)
        let b ← index bus.route i
        let sa ← c.stopAt a
        let sb ← c.stopAt b
        pure (route_geo_length + ComputeDistance m sa.coordinates sb.coordinates)) 0

/-- Conversion of a `size_t` value to `int` (two's complement, 32 bits). -/
def toInt32 (n : Nat) : Int :=
  if n % 2 ^ 32 < 2 ^ 31 then (n % 2 ^ 32 : Nat) else (n % 2 ^ 32 : Nat) - 2 ^ 32

/-- The initial value `int i = bus.route.size() - 2`: a `size_t` subtraction
(modulo `2^64`) converted to `int`. -/
def reverseStart (size : Nat) : Int :=
  toInt32 ((size % 2 ^ 64 + 2 ^ 64 - 2) % 2 ^ 64)

/-- The loop `for (i; i >= 0; i--) route.push_back(route[i])`, entered with
`i + 1 = n`. -/
def pushReversed : Nat → List StopPtr → Except Fault (List StopPtr)
  | 0, route => .ok route
  | i + 1, route => do
    let p ← index route i
    pushReversed i (route ++ [p])

/-- The second loop of `AddBus`: a bus that is not a round trip gets the way back
appended. -/
def expandRoute (declared : List StopPtr) (is_roundtrip : Bool) :
    Except Fault (List StopPtr) :=
  if !is_roundtrip then pushReversed (reverseStart declared.length + 1).toNat declared
  else pure declared

/-- Method `AddBus(const Bus&)`: links a finished bus into the store. -/
def AddBusObject (c : TransportCatalogue) (bus : Bus) : Except Fault TransportCatalogue := do
  let b : BusPtr := c.buses_.length
  let stop_name_to_buses ← bus.route.foldlM
    (fun index_ stop => do
      let s ← c.stopAt stop
      pure (index_.modify s.name [] (fun buses => buses ++ [b])))
    c.stop_name_to_buses_
  pure { c with
    buses_ := bus :: c.buses_
    bus_name_to_bus_ := c.bus_name_to_bus_.insert bus.name b
    stop_name_to_buses_ := stop_name_to_buses }

/-- Method `AddBus(bus_name, route, is_roundtrip)`. -/
def AddBus (m : Libm) (c : TransportCatalogue) (bus_name : String) (route : List String)
    (is_roundtrip : Bool) : Except Fault TransportCatalogue := do
  let declared ← route.mapM (fun stop => c.stop_name_to_stop_.get stop)
  let full ← expandRoute declared is_roundtrip
  let bus : Bus := { name := bus_name, route := full, is_roundtrip := is_roundtrip }
  let route_length ← ComputeRouteLength m c bus
  let route_geo_length ← ComputeRouteGeographicLength m c bus
  AddBusObject c
    { bus with route_length := route_length, curvature := route_length / route_geo_length }

/-- Insertion into a `std::set<std::string>`, kept as a strictly ascending list;
`std::string` compares its characters lexicographically. -/
def setInsert (x : String) : List String → List String
  | [] => [x]
  | y :: ys =>
    if x.data < y.data then x :: y :: ys
    else if y.data < x.data then y :: setInsert x ys
    else y :: ys

/-- Method `GetStopInfo`. -/
def GetStopInfo (c : TransportCatalogue) (stop_name : String) :
    Except Fault (Option (List String)) :=
  match c.stop_name_to_buses_.find? stop_name with
  | none => .ok none
  | some ptrs => do
    let buses ← ptrs.foldlM
      (fun buses bus => do
        let b ← c.busAt bus
        pure (setInsert b.name buses)) []
    pure (some buses)

/-- Method `GetBusInfo`. -/
def GetBusInfo (c : TransportCatalogue) (bus_name : String) : Except Fault (Option BusInfo) :=
  match c.bus_name_to_bus_.find? bus_name with
  | none => .ok none
  | some p => do
    let bus ← c.busAt p
    pure (some
      { stop_count := bus.route.length
        unique_stop_count := bus.route.dedup.length
        route_length := bus.route_length
        curvature := bus.curvature })

/-- Method `GetStopByName`. -/
def GetStopByName (c : TransportCatalogue) (stop_name : String) : Except Fault StopPtr :=
  c.stop_name_to_stop_.get stop_name

/-- Method `GetStopCount`. -/
def GetStopCount (c : TransportCatalogue) : Nat := c.stops_.length

end TransportCatalogue

/-- The catalogues reachable from the empty one by `AddStop`, `AddDistance` and
`AddBus(bus_name, route, is_roundtrip)` calls that returned normally. -/
inductive Built (m : Libm) : TransportCatalogue → Prop
  | empty : Built m TransportCatalogue.empty
  | add_stop {c : TransportCatalogue} (stop : Stop) : Built m c → Built m (c.AddStop stop)
  | add_distance {c c' : TransportCatalogue} (stop_from stop_to : String) (distance : ℚ) :
      Built m c → c.AddDistance stop_from stop_to distance = .ok c' → Built m c'
  | add_bus {c c' : TransportCatalogue} (bus_name : String) (route : List String)
      (is_roundtrip : Bool) :
      Built m c → TransportCatalogue.AddBus m c bus_name route is_roundtrip = .ok c' →
      Built m c'

/-- Whether the pointer `p` designates a stop whose name is `n`. -/
def TransportCatalogue.stopNamed (c : TransportCatalogue) (n : String) (p : StopPtr) : Bool :=
  decide ((c.stops_.reverse[p]?).map Stop.name = some n)

/-- Consistency of the indices of a catalogue with its two deques. -/
structure TransportCatalogue.Consistent (c : TransportCatalogue) : Prop where
  name_valid : ∀ n p, c.stop_name_to_stop_.find? n = some p →
    ∃ s, c.stops_.reverse[p]? = some s ∧ s.name = n
  name_known : ∀ s ∈ c.stops_, (c.stop_name_to_stop_.find? s.name).isSome = true
  route_valid : ∀ b ∈ c.buses_, ∀ p ∈ b.route, p < c.stops_.length
  bus_index_some : ∀ n p, c.bus_name_to_bus_.find? n = some p →
    ∃ b, c.buses_.reverse[p]? = some b ∧ b.name = n ∧
      c.buses_.find? (fun b => decide (b.name = n)) = some b
  bus_index_none : ∀ n, c.bus_name_to_bus_.find? n = none → ∀ b ∈ c.buses_, b.name ≠ n
  buses_keys : ∀ n, (c.stop_name_to_buses_.find? n).isSome = true ↔ ∃ s ∈ c.stops_, s.name = n
  buses_count : ∀ n l, c.stop_name_to_buses_.find? n = some l → ∀ bp,
    l.count bp =
      match c.buses_.reverse[bp]? with
      | some b => b.route.countP (c.stopNamed n)
      | none => 0

/-! ## graph.h -/

namespace graph

abbrev VertexId := Nat

abbrev EdgeId := Nat

/-- Modelled from the spec: `graph.h` is not among the sources.  "An edge stores
`(from, to, payload)`." -/
structure Edge (Weight : Type) where
  from_ : VertexId
  to_ : VertexId
  weight : Weight
deriving DecidableEq

/-- Modelled from the spec: `graph.h` is not among the sources.  "A directed
multigraph with vertices addressed by dense integer ids and edges addressed by
insertion id." -/
structure DirectedWeightedGraph (Weight : Type) where
  vertex_count : Nat
  edges_ : List (Edge Weight)
deriving DecidableEq

namespace DirectedWeightedGraph

variable {Weight : Type}

/-- Modelled from the spec: the missing constructor `DirectedWeightedGraph(vertex_count)`,
a graph without edges. -/
def ofVertexCount (vertex_count : Nat) : DirectedWeightedGraph Weight :=
  { vertex_count := vertex_count, edges_ := [] }

/-- Modelled from the spec: the missing `add_edge`; the new edge gets the next
insertion id. -/
def AddEdge (g : DirectedWeightedGraph Weight) (edge : Edge Weight) :
    DirectedWeightedGraph Weight :=
  { g with edges_ := g.edges_ ++ [edge] }

/-- Modelled from the spec: the missing `vertex_count`. -/
def GetVertexCount (g : DirectedWeightedGraph Weight) : Nat := g.vertex_count

/-- Modelled from the spec: the missing `edge_count`. -/
def GetEdgeCount (g : DirectedWeightedGraph Weight) : Nat := g.edges_.length

/-- Modelled from the spec: the missing `edge(id)`. -/
def GetEdge (g : DirectedWeightedGraph Weight) (edge_id : EdgeId) :
    Except Fault (Edge Weight) :=
  match g.edges_[edge_id]? with
  | some e => .ok e
  | none => .error .out_of_range

/-- Modelled from the spec: the missing `incident_edges(vertex)`, the ids of the
edges leaving `vertex`, in insertion order. -/
def GetIncidentEdges (g : DirectedWeightedGraph Weight) (vertex : VertexId) : List EdgeId :=
  (List.range g.edges_.length).filter
    (fun id => match g.edges_[id]? with
      | some e => decide (e.from_ = vertex)
      | none => false)

end DirectedWeightedGraph

end graph

/-! ## transport_router.h: the edge payload -/

/-- Type `TransportRouter::Settings`. -/
structure Settings where
  bus_wait_time : ℚ := 0
  bus_velocity : ℚ := 0
deriving DecidableEq

/-- Type `TransportRouter::EdgeInfo`, the edge payload (`Weight`). -/
structure EdgeInfo where
  time : ℚ := 0
  span_count : Nat := 0
  bus_name : String := ""
deriving DecidableEq

namespace EdgeInfo

/-- The converting constructor `EdgeInfo(double time)`. -/
def ofTime (time : ℚ) : EdgeInfo := { time := time }

/-- Member `operator<`. -/
def lt (a other : EdgeInfo) : Bool := decide (a.time < other.time)

/-- Member `operator>`. -/
def gt (a other : EdgeInfo) : Bool := decide (a.time > other.time)

/-- Member `operator+`, which returns a `double`. -/
def add (a other : EdgeInfo) : ℚ := a.time + other.time

end EdgeInfo

/-! ## router.h -/

namespace graph

/-- Modelled from the spec: `router.h` is not among the sources.  For one source,
"for every vertex v: the best accumulated weight and the predecessor edge id". -/
structure RouteInternalData where
  weight : EdgeInfo
  prev_edge : Option EdgeId
deriving DecidableEq

/-- Modelled from the spec: the missing result type of `build_route`,
`{total_time, edges = [edge_ids in order from s to t]}`. -/
structure RouteInfo where
  weight : EdgeInfo
  edges : List EdgeId
deriving DecidableEq

/-- Modelled from the spec: the working state of the missing one-to-all Dijkstra
search. -/
structure SearchState where
  data : VertexId → Option RouteInternalData
  settled : VertexId → Bool

/-- Modelled from the spec: the missing `router.h`, which is a shortest-path engine
over a graph. -/
structure Router where
  graph_ : DirectedWeightedGraph EdgeInfo
deriving DecidableEq

namespace Router

/-- Modelled from the spec: the start of the missing Dijkstra search: the source
has weight zero and no predecessor ("absent if v = s"), nothing else is reached. -/
def initial (source : VertexId) : SearchState :=
  { data := fun v => if v = source then some { weight := {}, prev_edge := none } else none
    settled := fun _ => false }

/-- Modelled from the spec: the vertex the missing Dijkstra search settles next: an
unsettled reached vertex of least weight, the one of least id among equals. -/
def nextVertex (g : DirectedWeightedGraph EdgeInfo) (st : SearchState) :
    Option (VertexId × RouteInternalData) :=
  (List.range g.vertex_count).foldl
    (fun best v =>
      if st.settled v then best
      else
        match st.data v with
        | none => best
        | some dv =>
          match best with
          | none => some (v, dv)
          | some (u, du) => if dv.weight.lt du.weight then some (v, dv) else some (u, du))
    none

/-- Modelled from the spec: the relaxation of one edge leaving the vertex just
settled with weight `du`, in the missing Dijkstra search: an unsettled target takes
the new weight and this edge as predecessor when it was unreached or is improved. -/
def relaxEdge (g : DirectedWeightedGraph EdgeInfo) (du : EdgeInfo) (st : SearchState)
    (edge_id : EdgeId) : SearchState :=
  match g.edges_[edge_id]? with
  | none => st
  | some e =>
    if st.settled e.to_ then st
    else
      let candidate := EdgeInfo.ofTime (du.add e.weight)
      let improved : SearchState :=
        { st with
          data := fun v =>
            if v = e.to_ then some { weight := candidate, prev_edge := some edge_id }
            else st.data v }
      match st.data e.to_ with
      | none => improved
      | some old => if candidate.lt old.weight then improved else st

/-- Modelled from the spec: one round of the missing Dijkstra search: `u` is
settled and its incident edges are relaxed in insertion order. -/
def settle (g : DirectedWeightedGraph EdgeInfo) (u : VertexId) (du : RouteInternalData)
    (st : SearchState) : SearchState :=
  (g.GetIncidentEdges u).foldl (relaxEdge g du.weight)
    { st with settled := fun v => if v = u then true else st.settled v }

/-- Modelled from the spec: the rounds of the missing Dijkstra search, at most
`fuel` of them. -/
def search (g : DirectedWeightedGraph EdgeInfo) : Nat → SearchState → SearchState
  | 0, st => st
  | fuel + 1, st =>
    match nextVertex g st with
    | none => st
    | some (u, du) => search g fuel (settle g u du st)

/-- Modelled from the spec: the missing one-to-all Dijkstra search from `source`;
one round per vertex suffices. -/
def dijkstra (g : DirectedWeightedGraph EdgeInfo) (source : VertexId) : SearchState :=
  search g g.vertex_count (initial source)

/-- Modelled from the spec: the predecessor reconstruction of the missing engine:
from `v` back along the predecessor edges, collecting the edge ids so that they end
up in order from the source. -/
def walkBack (g : DirectedWeightedGraph EdgeInfo) (st : SearchState) :
    Nat → VertexId → List EdgeId → Except Fault (List EdgeId)
  | 0, _, _ => .error .out_of_fuel
  | fuel + 1, v, acc =>
    match st.data v with
    | none => .ok acc
    | some d =>
      match d.prev_edge with
      | none => .ok acc
      | some edge_id =>
        match g.edges_[edge_id]? with
        | none => .error .out_of_range
        | some e => walkBack g st fuel e.from_ (edge_id :: acc)

/-- Modelled from the spec: the missing `build_route(s, t)`: "absent (if
unreachable) or a structure `{total_time, edges = [edge_ids in order from s to t]}`". -/
def BuildRoute (r : Router) (from_ to_ : VertexId) : Except Fault (Option RouteInfo) :=
  let st := dijkstra r.graph_ from_
  match st.data to_ with
  | none => .ok none
  | some d => do
    let edges ← walkBack r.graph_ st (r.graph_.vertex_count + 2) to_ []
    pure (some { weight := d.weight, edges := edges })

end Router

/-- A list of edge ids that leads from the first vertex to the last one, every edge
leaving the vertex the previous one enters. -/
inductive Walk (g : DirectedWeightedGraph EdgeInfo) : VertexId → List EdgeId → VertexId → Prop
  | nil (v : VertexId) : Walk g v [] v
  | cons {u t : VertexId} {edge_id : EdgeId} {rest : List EdgeId} (e : Edge EdgeInfo) :
      g.edges_[edge_id]? = some e → e.from_ = u → Walk g e.to_ rest t →
      Walk g u (edge_id :: rest) t

/-- The time of the edge with the given id (`0` for an id without edge). -/
def edgeTime (g : DirectedWeightedGraph EdgeInfo) (edge_id : EdgeId) : ℚ :=
  match g.edges_[edge_id]? with
  | some e => e.weight.time
  | none => 0

/-- The sum of the times of the edges of a path. -/
def pathTime (g : DirectedWeightedGraph EdgeInfo) (edges : List EdgeId) : ℚ :=
  (edges.map (edgeTime g)).sum

/-- The facts about a state of the search from `source` that hold after `k` rounds. -/
structure SearchInv (g : DirectedWeightedGraph EdgeInfo) (source : VertexId) (k : Nat)
    (st : SearchState) : Prop where
  root : ∀ v d, st.data v = some d → d.prev_edge = none → v = source ∧ d.weight = {}
  step : ∀ v d edge_id, st.data v = some d → d.prev_edge = some edge_id →
    ∃ e du, g.edges_[edge_id]? = some e ∧ e.to_ = v ∧ st.settled e.from_ = true ∧
      st.data e.from_ = some du ∧ d.weight.time = du.weight.time + e.weight.time
  reached : ∀ v, st.settled v = true → (st.data v).isSome = true
  source_data : st.data source = some { weight := {}, prev_edge := none }
  source_first : st.settled source = true ∨ ∀ v, (st.data v).isSome = true → v = source
  ranked : ∃ rank : VertexId → Nat,
    (∀ v, st.settled v = true → rank v ≤ k) ∧
    (∀ v d edge_id e, st.settled v = true → st.data v = some d →
      d.prev_edge = some edge_id → g.edges_[edge_id]? = some e → rank e.from_ < rank v)

end graph

/-! ## transport_router.h / transport_router.cpp -/

open graph

/-- Type `TransportRouter::WaitItem`. -/
structure WaitItem where
  stop_name : String
  time : ℚ
deriving DecidableEq

/-- Type `TransportRouter::BusItem`. -/
structure BusItem where
  bus_name : String
  span_count : Nat
  time : ℚ
deriving DecidableEq

/-- Type `TransportRouter::Item`, a variant. -/
inductive Item where
  | wait (item : WaitItem)
  | bus (item : BusItem)
deriving DecidableEq

/-- The `time` field of either alternative. -/
def Item.time : Item → ℚ
  | .wait w => w.time
  | .bus b => b.time

/-- Type `TransportRouter::RouteInfo`. -/
structure RouteInfo where
  items : List Item
  total_time : ℚ
deriving DecidableEq

/-- Class `trc::TransportRouter`: its private members. -/
structure TransportRouter where
  transport_catalogue_ : TransportCatalogue
  router_settings_ : Settings
  stop_id_to_stop_ : List StopPtr
  stop_name_to_index_ : AssocMap String Nat
  transport_graph_ : DirectedWeightedGraph EdgeInfo
  router_ : Router
deriving DecidableEq

namespace TransportRouter

/-- Checked `vector::at`: throws `std::out_of_range` past the end. -/
def vectorAt {α : Type} (v : List α) (i : Nat) : Except Fault α :=
  match v[i]? with
  | some a => .ok a
  | none => .error .out_of_range

/-- Method `InitIdToStop`: the `index`-th entry points to the `index`-th stop of
the deque, counted from the front. -/
def InitIdToStop (transport_catalogue : TransportCatalogue) : List StopPtr :=
  (List.range transport_catalogue.stops_.length).map
    (fun index_ => transport_catalogue.stops_.length - 1 - index_)

/-- Method `InitStopNameToId`. -/
def InitStopNameToId (transport_catalogue : TransportCatalogue)
    (stop_id_to_stop : List StopPtr) : Except Fault (AssocMap String Nat) :=
  (List.range stop_id_to_stop.length).foldlM
    (fun stop_name_to_index i => do
      let p ← TransportCatalogue.index stop_id_to_stop i
      let s ← transport_catalogue.stopAt p
      pure (stop_name_to_index.insert s.name i))
    []

/-- Method `CalculateDriveTimeMinutes`. -/
def CalculateDriveTimeMinutes (r : TransportRouter) (distance : ℚ) : ℚ :=
  let distance_km := distance / 1000
  let time_h := distance_km / r.router_settings_.bus_velocity
  time_h * 60

/-- The vertex `stop_name_to_index_.at(bus.route[i]->name)`. -/
def routeVertex (r : TransportRouter) (bus : Bus) (i : Nat) : Except Fault Nat := do
  let p ← TransportCatalogue.index bus.route i
  let s ← r.transport_catalogue_.stopAt p
  r.stop_name_to_index_.get s.name

/-- Method `AddRoundTrip`. -/
def AddRoundTrip (m : Libm) (r : TransportRouter) (bus : Bus)
    (g : DirectedWeightedGraph EdgeInfo) : Except Fault (DirectedWeightedGraph EdgeInfo) :=
  (List.range bus.route.length).foldlM
    (fun g i => do
      let inner ← (List.range' (i + 1) (bus.route.length - (i + 1))).foldlM
        (fun (st : ℚ × DirectedWeightedGraph EdgeInfo) j => do
          let a ← vectorAt bus.route (j - 1)
          let b ← vectorAt bus.route j
          let d ← TransportCatalogue.GetDistance m r.transport_catalogue_ a b
          let accumulated_distance := st.1 + d
          let span_count := j - i
          let vi ← r.routeVertex bus i
          let vj ← r.routeVertex bus j
          let edge_to_stop_exit : Edge EdgeInfo :=
            { from_ := vi
              to_ := vj + r.stop_id_to_stop_.length
              weight :=
                { time := r.CalculateDriveTimeMinutes accumulated_distance
                  span_count := span_count
                  bus_name := bus.name } }
          pure (accumulated_distance, st.2.AddEdge edge_to_stop_exit))
        (0, g)
      pure inner.2)
    g

/-- Method `AddLinearTrip`. -/
def AddLinearTrip (m : Libm) (r : TransportRouter) (bus : Bus)
    (g : DirectedWeightedGraph EdgeInfo) : Except Fault (DirectedWeightedGraph EdgeInfo) :=
  let mid_stop := bus.route.length / 2 + 1
  (List.range mid_stop).foldlM
    (fun g i => do
      let inner ← (List.range' (i + 1) (mid_stop - (i + 1))).foldlM
        (fun (st : (ℚ × ℚ) × DirectedWeightedGraph EdgeInfo) j => do
          let a ← vectorAt bus.route (j - 1)
          let b ← vectorAt bus.route j
          let d ← TransportCatalogue.GetDistance m r.transport_catalogue_ a b
          let accumulated_distance := st.1.1 + d
          let d_reverse ← TransportCatalogue.GetDistance m r.transport_catalogue_ b a
          let accumulated_distance_reverse := st.1.2 + d_reverse
          let span_count := j - i
          let vi ← r.routeVertex bus i
          let vj ← r.routeVertex bus j
          let edge_to_stop_exit : Edge EdgeInfo :=
            { from_ := vi
              to_ := vj + r.stop_id_to_stop_.length
              weight :=
                { time := r.CalculateDriveTimeMinutes accumulated_distance
                  span_count := span_count
                  bus_name := bus.name } }
          let edge_to_stop_exit_reverse : Edge EdgeInfo :=
            { from_ := vj
              to_ := vi + r.stop_id_to_stop_.length
              weight :=
                { time := r.CalculateDriveTimeMinutes accumulated_distance_reverse
                  span_count := span_count
                  bus_name := bus.name } }
          pure ((accumulated_distance, accumulated_distance_reverse),
            (st.2.AddEdge edge_to_stop_exit).AddEdge edge_to_stop_exit_reverse))
        ((0, 0), g)
      pure inner.2)
    g

/-- Method `AddRouteToGraph`. -/
def AddRouteToGraph (m : Libm) (r : TransportRouter) (bus : Bus)
    (g : DirectedWeightedGraph EdgeInfo) : Except Fault (DirectedWeightedGraph EdgeInfo) :=
  if bus.is_roundtrip then AddRoundTrip m r bus g else AddLinearTrip m r bus g

/-- The first loop of `BuildGraph`: one wait edge per stop. -/
def addWaitEdges (r : TransportRouter) (g : DirectedWeightedGraph EdgeInfo) :
    DirectedWeightedGraph EdgeInfo :=
  (List.range r.stop_id_to_stop_.length).foldl
    (fun g stop_id =>
      g.AddEdge
        { from_ := stop_id + r.stop_id_to_stop_.length
          to_ := stop_id
          weight := { time := r.router_settings_.bus_wait_time, span_count := 0, bus_name := "" } })
    g

/-- Method `BuildGraph`. -/
def BuildGraph (m : Libm) (r : TransportRouter) :
    Except Fault (DirectedWeightedGraph EdgeInfo) :=
  let g : DirectedWeightedGraph EdgeInfo :=
    DirectedWeightedGraph.ofVertexCount (2 * r.stop_id_to_stop_.length)
  r.transport_catalogue_.buses_.foldlM (fun g bus => AddRouteToGraph m r bus g)
    (addWaitEdges r g)

/-- The constructor `TransportRouter(router_settings, transport_catalogue)`: the
members are initialised in declaration order. -/
def create (m : Libm) (router_settings : Settings) (transport_catalogue : TransportCatalogue) :
    Except Fault TransportRouter := do
  let stop_id_to_stop := InitIdToStop transport_catalogue
  let stop_name_to_index ← InitStopNameToId transport_catalogue stop_id_to_stop
  let partly : TransportRouter :=
    { transport_catalogue_ := transport_catalogue
      router_settings_ := router_settings
      stop_id_to_stop_ := stop_id_to_stop
      stop_name_to_index_ := stop_name_to_index
      transport_graph_ := DirectedWeightedGraph.ofVertexCount 0
      router_ := { graph_ := DirectedWeightedGraph.ofVertexCount 0 } }
  let transport_graph ← BuildGraph m partly
  pure { partly with transport_graph_ := transport_graph, router_ := { graph_ := transport_graph } }

/-- The body of the loop of `BuildRoute`: the item decoded from one edge id. -/
def decodeEdge (r : TransportRouter) (edge_id : EdgeId) : Except Fault Item := do
  let stop_count := r.transport_catalogue_.GetStopCount
  let edge ← r.transport_graph_.GetEdge edge_id
  if edge.weight.span_count = 0 then
    let stop_index := if edge.to_ ≥ stop_count then edge.to_ - stop_count else edge.to_
    let p ← vectorAt r.stop_id_to_stop_ stop_index
    let s ← r.transport_catalogue_.stopAt p
    pure (Item.wait { stop_name := s.name, time := edge.weight.time })
  else
    pure (Item.bus
      { bus_name := edge.weight.bus_name
        span_count := edge.weight.span_count
        time := edge.weight.time })

/-- Method `BuildRoute`. -/
def BuildRoute (r : TransportRouter) (from_stop to_stop : String) :
    Except Fault (Option RouteInfo) := do
  let from_index ← r.stop_name_to_index_.get from_stop
  let route_start : VertexId := from_index + r.stop_id_to_stop_.length
  let to_index ← r.stop_name_to_index_.get to_stop
  let route_end : VertexId := to_index + r.stop_id_to_stop_.length
  let route_info_raw ← r.router_.BuildRoute route_start route_end
  match route_info_raw with
  | none => pure none
  | some raw =>
    let items ← raw.edges.mapM (decodeEdge r)
    pure (some { items := items, total_time := raw.weight.time })

/-- The two kinds of edges of the routing graph over `n` stops: a wait edge goes
from the wait side `k + n` of a stop to its ride side `k`, with the wait time, span
count 0 and no bus name; a ride edge goes from a ride side to a wait side and spans
at least one stop. -/
def EdgeShape (n : Nat) (wait : ℚ) (e : Edge EdgeInfo) : Prop :=
  (e.from_ = e.to_ + n ∧ e.to_ < n ∧
    e.weight = { time := wait, span_count := 0, bus_name := "" }) ∨
  (e.from_ < n ∧ n ≤ e.to_ ∧ e.to_ < 2 * n ∧ 1 ≤ e.weight.span_count)

/-- A graph over the vertices of the router `r` all of whose edges are wait edges
or ride edges. -/
def GraphOk (r : TransportRouter) (g : DirectedWeightedGraph EdgeInfo) : Prop :=
  g.vertex_count = 2 * r.stop_id_to_stop_.length ∧
  ∀ e ∈ g.edges_, EdgeShape r.stop_id_to_stop_.length r.router_settings_.bus_wait_time e

/-- The name index of a router maps a name to the position of a stop of that name. -/
def IndexValid (r : TransportRouter) : Prop :=
  ∀ name i, r.stop_name_to_index_.find? name = some i →
    i < r.stop_id_to_stop_.length ∧
    ∃ p s, r.stop_id_to_stop_[i]? = some p ∧ r.transport_catalogue_.stopAt p = .ok s ∧
      s.name = name

end TransportRouter

/-! ## json.h / json_builder.h / json_builder.cpp -/

namespace json

/-- Modelled from the spec: `json.h` is not among the sources.  A JSON value: null,
an array, a dict (a `std::map`, kept here as a list ascending in the key), a
boolean, an `int`, a `double` or a string. -/
inductive Node where
  | null
  | array (items : List Node)
  | dict (entries : List (String × Node))
  | bool (b : Bool)
  | int (n : Int)
  | double (x : ℚ)
  | string (s : String)

/-- Modelled from the spec: the missing `Node::AsString`, which raises a logic
error for a node that is not a string. -/
def Node.AsString : Node → Except Fault String
  | .string s => .ok s
  | _ => .error .logic_error

/-- Modelled from the spec: `std::map::insert` on the missing `json::Dict`: the
pair goes to its place in key order, and an existing key keeps its value. -/
def dictInsert (key : String) (value : Node) : List (String × Node) → List (String × Node)
  | [] => [(key, value)]
  | (k, v) :: rest =>
    if key.data < k.data then (key, value) :: (k, v) :: rest
    else if k.data < key.data then (k, v) :: dictInsert key value rest
    else (k, v) :: rest

/-- Type `Builder::NodeState`. -/
inductive NodeState where
  | COMPLETE_OBJ
  | KEY
  | ARRAY_START
  | DICT_START
deriving DecidableEq

/-- Type `Builder::HelperNode`; `node` is a `unique_ptr`, absent when null. -/
structure HelperNode where
  state : NodeState
  node : Option Node

/-- Class `json::Builder`: the stack `nodes_`, top first. -/
structure Builder where
  nodes_ : List HelperNode := []

namespace Builder

/-- Dereference of the `unique_ptr` of a stack entry. -/
def deref (h : HelperNode) : Except Fault Node :=
  match h.node with
  | some n => .ok n
  | none => .error .undefined_behaviour

/-- Method `Build`. -/
def Build (b : Builder) : Except Fault Node :=
  match b.nodes_ with
  | [top] => deref top
  | _ => .error .logic_error

/-- Method `Value`. -/
def Value (b : Builder) (value : Node) : Builder :=
  { nodes_ := { state := .COMPLETE_OBJ, node := some value } :: b.nodes_ }

/-- Method `Key`. -/
def Key (b : Builder) (key : String) : Builder :=
  { nodes_ := { state := .KEY, node := some (.string key) } :: b.nodes_ }

/-- Method `StartArray`. -/
def StartArray (b : Builder) : Builder :=
  { nodes_ := { state := .ARRAY_START, node := none } :: b.nodes_ }

/-- Method `StartDict`. -/
def StartDict (b : Builder) : Builder :=
  { nodes_ := { state := .DICT_START, node := none } :: b.nodes_ }

/-- The `while` loop of `EndArray`: pops complete values down to the nearest
`ARRAY_START`; returns the popped values (top first) and the remaining stack. -/
def popArrayItems : List HelperNode → List Node → Except Fault (List Node × List HelperNode)
  | [], popped => .ok (popped, [])
  | top :: rest, popped =>
    if top.state = .ARRAY_START then .ok (popped, top :: rest)
    else if top.state ≠ .COMPLETE_OBJ then .error .logic_error
    else do
      let node ← deref top
      popArrayItems rest (popped ++ [node])

/-- Method `EndArray`. -/
def EndArray (b : Builder) : Except Fault Builder := do
  let (popped, remaining) ← popArrayItems b.nodes_ []
  match remaining with
  | [] => .error .logic_error
  | _ :: below =>
    pure { nodes_ := { state := .COMPLETE_OBJ, node := some (.array popped.reverse) } :: below }

/-- The `while` loop of `EndDict` with `GetKeyValuePair` inlined: pops value/key
pairs down to the nearest `DICT_START`. -/
def popDictEntries :
    List HelperNode → List (String × Node) → Except Fault (List (String × Node) × List HelperNode)
  | [], entries => .ok (entries, [])
  | [top], entries =>
    if top.state = .DICT_START then .ok (entries, [top])
    else .error .logic_error
  | top :: next :: rest, entries =>
    if top.state = .DICT_START then .ok (entries, top :: next :: rest)
    else if top.state ≠ .KEY ∧ top.state ≠ .COMPLETE_OBJ then .error .logic_error
    else if top.state ≠ .COMPLETE_OBJ then .error .logic_error
    else if next.state ≠ .KEY then .error .logic_error
    else do
      let value ← deref top
      let key_node ← deref next
      let key ← key_node.AsString
      popDictEntries rest (dictInsert key value entries)

/-- Method `EndDict`. -/
def EndDict (b : Builder) : Except Fault Builder := do
  let (entries, remaining) ← popDictEntries b.nodes_ []
  match remaining with
  | [] => .error .logic_error
  | _ :: below =>
    pure { nodes_ := { state := .COMPLETE_OBJ, node := some (.dict entries) } :: below }

end Builder

end json

/-! ## json_reader.h: stat requests -/

namespace io

/-- Type `io::GetStopRequest`. -/
structure GetStopRequest where
  id : Int
  name : String

/-- Type `io::GetBusRequest`. -/
structure GetBusRequest where
  id : Int
  name : String

/-- Type `io::GetRouteRequest`. -/
structure GetRouteRequest where
  id : Int
  from_stop : String
  to_stop : String

end io

/-! ## request_handler.h / request_handler.cpp -/

namespace rh

open json

/-- Class `StatRequestHandler::StatHandler`: the responses collected so far, the
catalogue and the router. -/
structure StatHandler where
  responses_ : List Node
  transport_catalogue_ : TransportCatalogue
  router_ : TransportRouter

namespace StatHandler

/-- The conversion `static_cast<int>` of a `size_t`. -/
def toInt (n : Nat) : Int := TransportCatalogue.toInt32 n

/-- Method `HandleNotFound`. -/
def HandleNotFound (h : StatHandler) (id : Int) : Except Fault StatHandler := do
  let closed ← ((((({} : Builder).StartDict.Key "request_id").Value (.int id)).Key
    "error_message").Value (.string "not found")).EndDict
  let response ← closed.Build
  pure { h with responses_ := h.responses_ ++ [response] }

/-- The call operator for `io::GetStopRequest`. -/
def handleStop (h : StatHandler) (get_stop_request : io.GetStopRequest) :
    Except Fault StatHandler := do
  let stop_info ← h.transport_catalogue_.GetStopInfo get_stop_request.name
  match stop_info with
  | some names =>
    let buses := names.map Node.string
    let closed ← ((((({} : Builder).StartDict.Key "buses").Value (.array buses)).Key
      "request_id").Value (.int get_stop_request.id)).EndDict
    let response ← closed.Build
    pure { h with responses_ := h.responses_ ++ [response] }
  | none => h.HandleNotFound get_stop_request.id

/-- The call operator for `io::GetBusRequest`. -/
def handleBus (h : StatHandler) (get_bus_request : io.GetBusRequest) :
    Except Fault StatHandler := do
  let bus_info ← h.transport_catalogue_.GetBusInfo get_bus_request.name
  match bus_info with
  | some info =>
    let closed ← ((((((((((({} : Builder).StartDict.Key "curvature").Value
      (.double info.curvature)).Key "request_id").Value (.int get_bus_request.id)).Key
      "route_length").Value (.double info.route_length)).Key "stop_count").Value
      (.int (toInt info.stop_count))).Key "unique_stop_count").Value
      (.int (toInt info.unique_stop_count))).EndDict
    let response ← closed.Build
    pure { h with responses_ := h.responses_ ++ [response] }
  | none => h.HandleNotFound get_bus_request.id

/-- The call operators of `ItemVisitor`: the JSON object of one route item. -/
def visitItem : Item → Except Fault Node
  | .wait wait_item => do
    let closed ← ((((((({} : Builder).StartDict.Key "stop_name").Value
      (.string wait_item.stop_name)).Key "time").Value (.double wait_item.time)).Key
      "type").Value (.string "Wait")).EndDict
    closed.Build
  | .bus bus_item => do
    let closed ← ((((((((({} : Builder).StartDict.Key "bus").Value
      (.string bus_item.bus_name)).Key "span_count").Value
      (.int (toInt bus_item.span_count))).Key "time").Value (.double bus_item.time)).Key
      "type").Value (.string "Bus")).EndDict
    closed.Build

/-- The call operator for `io::GetRouteRequest`. -/
def handleRoute (h : StatHandler) (get_route_request : io.GetRouteRequest) :
    Except Fault StatHandler := do
  let route_info ← h.router_.BuildRoute get_route_request.from_stop get_route_request.to_stop
  match route_info with
  | some info =>
    let items ← info.items.mapM visitItem
    let closed ← ((((((({} : Builder).StartDict.Key "items").Value (.array items)).Key
      "total_time").Value (.double info.total_time)).Key "request_id").Value
      (.int get_route_request.id)).EndDict
    let response ← closed.Build
    pure { h with responses_ := h.responses_ ++ [response] }
  | none => h.HandleNotFound get_route_request.id

end StatHandler

end rh

/-! ## Calls as steps of the store -/

namespace TransportCatalogue

/-- A call `AddDistance(stop_from, stop_to, distance)` as a step of the store: the
only write is the last statement, after both checked lookups. -/
def AddDistanceCall (c : TransportCatalogue) (stop_from stop_to : String) (distance : ℚ) :
    TransportCatalogue × Except Fault Unit :=
  match c.AddDistance stop_from stop_to distance with
  | .ok c' => (c', .ok ())
  | .error e => (c, .error e)

end TransportCatalogue

/-! ## svg.h / svg.cpp -/

namespace svg

/-- Type `svg::Point`. -/
structure Point where
  x : ℚ := 0
  y : ℚ := 0
deriving DecidableEq

/-- Type `svg::Rgb`: three `uint8_t` channels. -/
structure Rgb where
  red : Nat := 0
  green : Nat := 0
  blue : Nat := 0
deriving DecidableEq

/-- Type `svg::Rgba`: three `uint8_t` channels and a `double` opacity. -/
structure Rgba where
  red : Nat := 0
  green : Nat := 0
  blue : Nat := 0
  opacity : ℚ := 1
deriving DecidableEq

/-- Type `svg::Color`, the variant of `std::monostate`, a string, `Rgb` and `Rgba`. -/
inductive Color where
  | none
  | str (color : String)
  | rgb (color : Rgb)
  | rgba (color : Rgba)
deriving DecidableEq

/-- Type `svg::StrokeLineCap`. -/
inductive StrokeLineCap where
  | BUTT
  | ROUND
  | SQUARE
deriving DecidableEq

/-- Type `svg::StrokeLineJoin`. -/
inductive StrokeLineJoin where
  | ARCS
  | BEVEL
  | MITER
  | MITER_CLIP
  | ROUND
deriving DecidableEq

/-- Class `svg::PathProps`: its private members, each a `std::optional`. -/
structure PathProps where
  fill_color_ : Option Color := Option.none
  stroke_color_ : Option Color := Option.none
  stroke_width_ : Option ℚ := Option.none
  stroke_line_cap_ : Option StrokeLineCap := Option.none
  stroke_line_join_ : Option StrokeLineJoin := Option.none
deriving DecidableEq

/-- Class `svg::Circle`: its private members and its `PathProps` base. -/
structure Circle where
  center_ : Point := {}
  radius_ : ℚ := 1
  props : PathProps := {}
deriving DecidableEq

/-- Class `svg::Polyline`: its private members and its `PathProps` base. -/
structure Polyline where
  points_ : List Point := []
  props : PathProps := {}
deriving DecidableEq

/-- Class `svg::Text`: its private members and its `PathProps` base. -/
structure Text where
  position_ : Point := {}
  offset_ : Point := {}
  font_size_ : Nat := 1
  font_family_ : Option String := Option.none
  font_weight_ : Option String := Option.none
  data_ : String := ""
  props : PathProps := {}
deriving DecidableEq

/-- The objects a document can hold (the classes derived from `svg::Object`). -/
inductive Object where
  | circle (o : Circle)
  | polyline (o : Polyline)
  | text (o : Text)
deriving DecidableEq

/-- Class `svg::Document`: the objects in insertion order. -/
structure Document where
  objects_ : List Object := []
deriving DecidableEq

/-- Method `Document::AddPtr` (and `ObjectContainer::Add`, which forwards to it). -/
def Document.Add (d : Document) (o : Object) : Document :=
  { objects_ := d.objects_ ++ [o] }

end svg

/-! ## map_renderer.h / map_renderer.cpp -/

namespace render

/-- Constant `EPSILON = 1e-6`. -/
def EPSILON : ℚ := 1 / 1000000

/-- Function `IsZero`. -/
def IsZero (value : ℚ) : Bool := decide (|value| < EPSILON)

/-- Class `SphereProjector`: its private members. -/
structure SphereProjector where
  padding_ : ℚ := 0
  min_lng_ : ℚ := 0
  max_lat_ : ℚ := 0
  zoom_coeff_ : ℚ := 0
deriving DecidableEq

namespace SphereProjector

/-- The constructor `SphereProjector(min_lat, max_lat, min_lng, max_lng, max_width,
max_height, padding)`. -/
def create (min_lat max_lat min_lng max_lng max_width max_height padding : ℚ) :
    SphereProjector :=
  let width_zoom : Option ℚ :=
    if !IsZero (max_lng - min_lng) then some ((max_width - 2 * padding) / (max_lng - min_lng))
    else none
  let height_zoom : Option ℚ :=
    if !IsZero (max_lat - min_lat) then some ((max_height - 2 * padding) / (max_lat - min_lat))
    else none
  let zoom_coeff : ℚ :=
    match width_zoom, height_zoom with
    | some w, some h => if h < w then h else w
    | some w, none => w
    | none, some h => h
    | none, none => 0
  { padding_ := padding, min_lng_ := min_lng, max_lat_ := max_lat, zoom_coeff_ := zoom_coeff }

/-- The call operator `operator()(geo::Coordinates)`. -/
def project (p : SphereProjector) (coords : Coordinates) : svg.Point :=
  { x := (coords.lng - p.min_lng_) * p.zoom_coeff_ + p.padding_
    y := (p.max_lat_ - coords.lat) * p.zoom_coeff_ + p.padding_ }

end SphereProjector

/-- Type `RenderSettings`. -/
structure RenderSettings where
  width : ℚ
  height : ℚ
  padding : ℚ
  line_width : ℚ
  stop_radius : ℚ
  bus_label_font_size : Int
  bus_label_offset : svg.Point
  stop_label_font_size : Int
  stop_label_offset : svg.Point
  underlayer_color : svg.Color
  underlayer_width : ℚ
  color_palette : List svg.Color
deriving DecidableEq

/-- Type `RouteTextObjectProperties`. -/
structure RouteTextObjectProperties where
  offset : svg.Point
  font_size : Int
  font_family : String
  font_color : svg.Color
  underlayer_color : svg.Color
  underlayer_width : ℚ
  stroke_line_cap : svg.StrokeLineCap
  stroke_line_join : svg.StrokeLineJoin

/-- Constant `DEFAULT_FONT`. -/
def DEFAULT_FONT : String := "Verdana"

/-- Constant `DEFAULT_FONT_WEIGHT`. -/
def DEFAULT_FONT_WEIGHT : String := "bold"

/-- Constant `DEFAULT_FILL_COLOR_STOP`. -/
def DEFAULT_FILL_COLOR_STOP : svg.Color := .str "white"

/-- Constant `DEFAULT_FILL_COLOR_STOP_NAME`. -/
def DEFAULT_FILL_COLOR_STOP_NAME : svg.Color := .str "black"

/-- The conversion of an `int` to the `uint32_t` parameter of `Text::SetFontSize`. -/
def toUInt32 (z : Int) : Nat := (z % 2 ^ 32).toNat

/-- Function `PreBuildUnderLayerAndName`. -/
def PreBuildUnderLayerAndName (name : String) (text_properties : RouteTextObjectProperties) :
    svg.Text × svg.Text :=
  ({ data_ := name
     offset_ := text_properties.offset
     font_size_ := toUInt32 text_properties.font_size
     font_family_ := some text_properties.font_family
     props :=
       { fill_color_ := some text_properties.underlayer_color
         stroke_color_ := some text_properties.underlayer_color
         stroke_width_ := some text_properties.underlayer_width
         stroke_line_cap_ := some text_properties.stroke_line_cap
         stroke_line_join_ := some text_properties.stroke_line_join } },
   { data_ := name
     offset_ := text_properties.offset
     font_size_ := toUInt32 text_properties.font_size
     font_family_ := some text_properties.font_family
     props := { fill_color_ := some text_properties.font_color } })

/-- Method `RouteLine::Draw`. -/
def RouteLineDraw (c : TransportCatalogue) (route : List StopPtr) (projector : SphereProjector)
    (stroke_color : svg.Color) (stroke_width : ℚ) (stroke_line_cap : svg.StrokeLineCap)
    (stroke_line_join : svg.StrokeLineJoin) (fill_color : svg.Color)
    (container : svg.Document) : Except Fault svg.Document := do
  let points ← route.mapM (fun stop => do
    let s ← c.stopAt stop
    pure (projector.project s.coordinates))
  pure (container.Add (.polyline
    { points_ := points
      props :=
        { stroke_width_ := some stroke_width
          stroke_color_ := some stroke_color
          fill_color_ := some fill_color
          stroke_line_cap_ := some stroke_line_cap
          stroke_line_join_ := some stroke_line_join } }))

/-- Method `RouteName::Draw`. -/
def RouteNameDraw (c : TransportCatalogue) (route : List StopPtr) (projector : SphereProjector)
    (name : String) (is_roundtrip : Bool) (text_properties : RouteTextObjectProperties)
    (font_weight : String) (container : svg.Document) : Except Fault svg.Document := do
  let built := PreBuildUnderLayerAndName name text_properties
  let underlayer : svg.Text := { built.1 with font_weight_ := some font_weight }
  let route_name : svg.Text := { built.2 with font_weight_ := some font_weight }
  let first_ptr ← TransportCatalogue.index route 0
  let first ← c.stopAt first_ptr
  let mid_ptr ← TransportCatalogue.index route (route.length / 2)
  let mid ← c.stopAt mid_ptr
  if is_roundtrip ||
      IsZero ((first.coordinates.lat - mid.coordinates.lat) +
        (first.coordinates.lng - mid.coordinates.lng)) then
    pure ((container.Add
      (.text { underlayer with position_ := projector.project first.coordinates })).Add
      (.text { route_name with position_ := projector.project first.coordinates }))
  else
    pure ((((container.Add
      (.text { underlayer with position_ := projector.project first.coordinates })).Add
      (.text { route_name with position_ := projector.project first.coordinates })).Add
      (.text { underlayer with position_ := projector.project mid.coordinates })).Add
      (.text { route_name with position_ := projector.project mid.coordinates }))

/-- Insertion into a `std::set` whose comparison looks at a string key of the
elements only; the set is kept as the list ascending in the key, and an element
whose key is already in the set is not inserted. -/
def setInsertBy {α : Type} (key : α → String) (a : α) : List α → List α
  | [] => [a]
  | x :: xs =>
    if (key a).data < (key x).data then a :: x :: xs
    else if (key x).data < (key a).data then x :: setInsertBy key a xs
    else x :: xs

/-- Insertion into a `std::set<Bus>`; `operator<` of `Bus` compares the names. -/
abbrev insertBus (b : Bus) (sorted : List Bus) : List Bus :=
  setInsertBy Bus.name b sorted

/-- The construction `std::set<Bus> sorted_buses(buses.begin(), buses.end())`. -/
def sortedBuses (buses : List Bus) : List Bus :=
  buses.foldl (fun sorted b => insertBus b sorted) []

/-- Insertion into a `std::set<const Stop*, StopPtrCompare>`, which compares the
names of the designated stops; the set is kept as the ascending list of the
pointers together with the stops they designate. -/
abbrev insertStop (p : StopPtr × Stop) (stops : List (StopPtr × Stop)) :
    List (StopPtr × Stop) :=
  setInsertBy (fun q => q.2.name) p stops

/-- Method `RouteStops::Draw`. -/
def RouteStopsDraw (stops : List (StopPtr × Stop)) (projector : SphereProjector) (radius : ℚ)
    (fill_color : svg.Color) (container : svg.Document) : svg.Document :=
  stops.foldl
    (fun container stop =>
      container.Add (.circle
        { center_ := projector.project stop.2.coordinates
          radius_ := radius
          props := { fill_color_ := some fill_color } }))
    container

/-- Method `RouteStopNames::Draw`. -/
def RouteStopNamesDraw (stops : List (StopPtr × Stop)) (projector : SphereProjector)
    (text_properties : RouteTextObjectProperties) (container : svg.Document) : svg.Document :=
  stops.foldl
    (fun container stop =>
      let built := PreBuildUnderLayerAndName stop.2.name text_properties
      (container.Add
        (.text { built.1 with position_ := projector.project stop.2.coordinates })).Add
        (.text { built.2 with position_ := projector.project stop.2.coordinates }))
    container

/-- Class `MapRenderer`: its private members. -/
structure MapRenderer where
  settings_ : RenderSettings
  current_color_ : Nat
  document_ : svg.Document
deriving DecidableEq

namespace MapRenderer

/-- The constructor `MapRenderer(RenderSettings&&)`. -/
def create (settings : RenderSettings) : MapRenderer :=
  { settings_ := settings, current_color_ := 0, document_ := {} }

/-- The update of `current_color_` after a bus.  For an empty palette the index
expression before it has already left the defined behaviour, so the subtraction is
never reached with size 0. -/
def nextColor (r : MapRenderer) : Nat :=
  if r.current_color_ = r.settings_.color_palette.length - 1 then 0 else r.current_color_ + 1

/-- The body of the inner loop of `MinMaxLatLng`: the four comparisons that widen
the box (min_lat, max_lat, min_lng, max_lng) by the coordinates of a stop. -/
def extendBox (box : ℚ × ℚ × ℚ × ℚ) (s : Stop) : ℚ × ℚ × ℚ × ℚ :=
  let min_lat := if s.coordinates.lat < box.1 then s.coordinates.lat else box.1
  let max_lat := if s.coordinates.lat > box.2.1 then s.coordinates.lat else box.2.1
  let min_lng := if s.coordinates.lng < box.2.2.1 then s.coordinates.lng else box.2.2.1
  let max_lng := if s.coordinates.lng > box.2.2.2 then s.coordinates.lng else box.2.2.2
  (min_lat, max_lat, min_lng, max_lng)

/-- Method `MinMaxLatLng`. -/
def MinMaxLatLng (c : TransportCatalogue) (buses : List Bus) : Except Fault (ℚ × ℚ × ℚ × ℚ) :=
  match buses.find? (fun bus => !bus.route.isEmpty) with
  | none => .ok (0, 0, 0, 0)
  | some first_bus => do
    let p0 ← TransportCatalogue.index first_bus.route 0
    let s0 ← c.stopAt p0
    buses.foldlM
      (fun box bus =>
        bus.route.foldlM
          (fun (box : ℚ × ℚ × ℚ × ℚ) stop => do
            let s ← c.stopAt stop
            pure (extendBox box s))
          box)
      (s0.coordinates.lat, s0.coordinates.lat, s0.coordinates.lng, s0.coordinates.lng)

/-- The first loop of `Render`: the route polylines. -/
def drawLines (c : TransportCatalogue) (projector : SphereProjector)
    (sorted_buses : List Bus) (r : MapRenderer) : Except Fault MapRenderer :=
  sorted_buses.foldlM
    (fun r bus =>
      if bus.route.isEmpty then pure r
      else do
        let color ← TransportCatalogue.index r.settings_.color_palette r.current_color_
        let document ← RouteLineDraw c bus.route projector color r.settings_.line_width
          .ROUND .ROUND .none r.document_
        pure { r with document_ := document, current_color_ := r.nextColor })
    r

/-- The second loop of `Render`: the route labels. -/
def drawNames (c : TransportCatalogue) (projector : SphereProjector)
    (sorted_buses : List Bus) (r : MapRenderer) : Except Fault MapRenderer :=
  sorted_buses.foldlM
    (fun r bus =>
      if bus.route.isEmpty then pure r
      else do
        let color ← TransportCatalogue.index r.settings_.color_palette r.current_color_
        let document ← RouteNameDraw c bus.route projector bus.name bus.is_roundtrip
          { offset := r.settings_.bus_label_offset
            font_size := r.settings_.bus_label_font_size
            font_family := DEFAULT_FONT
            font_color := color
            underlayer_color := r.settings_.underlayer_color
            underlayer_width := r.settings_.underlayer_width
            stroke_line_cap := .ROUND
            stroke_line_join := .ROUND }
          DEFAULT_FONT_WEIGHT r.document_
        pure { r with document_ := document, current_color_ := r.nextColor })
    r

/-- The third loop of `Render`: the set of the stops of all routes. -/
def collectStops (c : TransportCatalogue) (sorted_buses : List Bus) :
    Except Fault (List (StopPtr × Stop)) :=
  sorted_buses.foldlM
    (fun stops bus =>
      bus.route.foldlM
        (fun stops stop => do
          let s ← c.stopAt stop
          pure (insertStop (stop, s) stops))
        stops)
    []

/-- Method `Render` up to its last statement: the renderer after the four layers
were added to `document_`.  The stop pointers of the buses point into the store `c`. -/
def draw (r : MapRenderer) (c : TransportCatalogue) (buses : List Bus) :
    Except Fault MapRenderer := do
  let sorted_buses := sortedBuses buses
  let box ← MinMaxLatLng c sorted_buses
  let projector_ := SphereProjector.create box.1 box.2.1 box.2.2.1 box.2.2.2
    r.settings_.width r.settings_.height r.settings_.padding
  let r1 ← drawLines c projector_ sorted_buses r
  let r2 ← drawNames c projector_ sorted_buses { r1 with current_color_ := 0 }
  let r3 : MapRenderer := { r2 with current_color_ := 0 }
  let stops ← collectStops c sorted_buses
  let with_stops := RouteStopsDraw stops projector_ r3.settings_.stop_radius
    DEFAULT_FILL_COLOR_STOP r3.document_
  let with_names := RouteStopNamesDraw stops projector_
    { offset := r3.settings_.stop_label_offset
      font_size := r3.settings_.stop_label_font_size
      font_family := DEFAULT_FONT
      font_color := DEFAULT_FILL_COLOR_STOP_NAME
      underlayer_color := r3.settings_.underlayer_color
      underlayer_width := r3.settings_.underlayer_width
      stroke_line_cap := .ROUND
      stroke_line_join := .ROUND }
    with_stops
  pure { r3 with document_ := with_names }

end MapRenderer

end render

/-! ### The drawn document in closed form

The definitions of this section are not in the source: they describe the document
that `MapRenderer::Render` builds as a function of the buses with their stop
pointers resolved, and are related to the embedding of the code by theorems. -/

namespace render

/-- A bus with its stop pointers resolved to the designated stops. -/
structure DrawnBus where
  name : String
  is_roundtrip : Bool
  stops : List Stop
deriving DecidableEq

/-- The resolution of the stop pointers of a bus in the store `c`. -/
def resolveBus (c : TransportCatalogue) (bus : Bus) : Except Fault DrawnBus := do
  let stops ← bus.route.mapM c.stopAt
  pure { name := bus.name, is_roundtrip := bus.is_roundtrip, stops := stops }

/-- The buses with a non-empty route. -/
def nonEmpty (ds : List DrawnBus) : List DrawnBus :=
  ds.filter (fun d => !d.stops.isEmpty)

/-- The bounding box that `MinMaxLatLng` computes, on resolved buses. -/
def boxOf (ds : List DrawnBus) : ℚ × ℚ × ℚ × ℚ :=
  match ds.find? (fun d => !d.stops.isEmpty) with
  | none => (0, 0, 0, 0)
  | some first_bus =>
    match first_bus.stops[0]? with
    | none => (0, 0, 0, 0)
    | some s0 =>
      ds.foldl (fun box d => d.stops.foldl MapRenderer.extendBox box)
        (s0.coordinates.lat, s0.coordinates.lat, s0.coordinates.lng, s0.coordinates.lng)

/-- The projector that `Render` builds for resolved buses. -/
def projectorOf (settings : RenderSettings) (ds : List DrawnBus) : SphereProjector :=
  SphereProjector.create (boxOf ds).1 (boxOf ds).2.1 (boxOf ds).2.2.1 (boxOf ds).2.2.2
    settings.width settings.height settings.padding

/-- The colour of the palette used for the `i`-th bus with a non-empty route. -/
def paletteColor (settings : RenderSettings) (i : Nat) : svg.Color :=
  settings.color_palette.getD (i % settings.color_palette.length) .none

/-- The polyline of a route (layer 1). -/
def lineObject (projector : SphereProjector) (settings : RenderSettings) (color : svg.Color)
    (stops : List Stop) : svg.Object :=
  .polyline
    { points_ := stops.map (fun s => projector.project s.coordinates)
      props :=
        { stroke_width_ := some settings.line_width
          stroke_color_ := some color
          fill_color_ := some .none
          stroke_line_cap_ := some .ROUND
          stroke_line_join_ := some .ROUND } }

/-- The text properties of the bus labels of colour `color`. -/
def busTextProperties (settings : RenderSettings) (color : svg.Color) :
    RouteTextObjectProperties :=
  { offset := settings.bus_label_offset
    font_size := settings.bus_label_font_size
    font_family := DEFAULT_FONT
    font_color := color
    underlayer_color := settings.underlayer_color
    underlayer_width := settings.underlayer_width
    stroke_line_cap := .ROUND
    stroke_line_join := .ROUND }

/-- The text properties of the stop labels. -/
def stopTextProperties (settings : RenderSettings) : RouteTextObjectProperties :=
  { offset := settings.stop_label_offset
    font_size := settings.stop_label_font_size
    font_family := DEFAULT_FONT
    font_color := DEFAULT_FILL_COLOR_STOP_NAME
    underlayer_color := settings.underlayer_color
    underlayer_width := settings.underlayer_width
    stroke_line_cap := .ROUND
    stroke_line_join := .ROUND }

/-- One label pair of a bus: the underlayer text, then the name text, at `position`. -/
def busLabelPair (name : String) (text_properties : RouteTextObjectProperties)
    (position : svg.Point) : List svg.Object :=
  [.text { (PreBuildUnderLayerAndName name text_properties).1 with
      font_weight_ := some DEFAULT_FONT_WEIGHT, position_ := position },
   .text { (PreBuildUnderLayerAndName name text_properties).2 with
      font_weight_ := some DEFAULT_FONT_WEIGHT, position_ := position }]

/-- The labels of a bus (layer 2): one pair at the first stop, and a second pair at
the stop in the middle of the route when the test of `RouteName::Draw` fails. -/
def busLabels (projector : SphereProjector) (settings : RenderSettings) (color : svg.Color)
    (d : DrawnBus) : List svg.Object :=
  match d.stops[0]?, d.stops[d.stops.length / 2]? with
  | some first, some mid =>
    busLabelPair d.name (busTextProperties settings color) (projector.project first.coordinates) ++
      (if d.is_roundtrip ||
          IsZero ((first.coordinates.lat - mid.coordinates.lat) +
            (first.coordinates.lng - mid.coordinates.lng)) then []
       else busLabelPair d.name (busTextProperties settings color)
         (projector.project mid.coordinates))
  | _, _ => []

/-- The circle of a stop (layer 3). -/
def stopCircle (projector : SphereProjector) (settings : RenderSettings) (s : Stop) :
    svg.Object :=
  .circle
    { center_ := projector.project s.coordinates
      radius_ := settings.stop_radius
      props := { fill_color_ := some DEFAULT_FILL_COLOR_STOP } }

/-- The label pair of a stop (layer 4). -/
def stopLabelPair (projector : SphereProjector) (settings : RenderSettings) (s : Stop) :
    List svg.Object :=
  [.text { (PreBuildUnderLayerAndName s.name (stopTextProperties settings)).1 with
      position_ := projector.project s.coordinates },
   .text { (PreBuildUnderLayerAndName s.name (stopTextProperties settings)).2 with
      position_ := projector.project s.coordinates }]

/-- The set of the stops of all routes, ascending in the name. -/
def stopSet (ds : List DrawnBus) : List Stop :=
  ds.foldl (fun stops d => d.stops.foldl (fun stops s => setInsertBy Stop.name s stops) stops) []

/-- Layer 1: the polylines of the buses with a non-empty route. -/
def layer1 (settings : RenderSettings) (ds : List DrawnBus) : List svg.Object :=
  (nonEmpty ds).enum.map
    (fun id => lineObject (projectorOf settings ds) settings (paletteColor settings id.1) id.2.stops)

/-- Layer 2: the labels of the buses with a non-empty route. -/
def layer2 (settings : RenderSettings) (ds : List DrawnBus) : List svg.Object :=
  ((nonEmpty ds).enum.map
    (fun id => busLabels (projectorOf settings ds) settings (paletteColor settings id.1) id.2)).flatten

/-- Layer 3: the circles of the stops. -/
def layer3 (settings : RenderSettings) (ds : List DrawnBus) : List svg.Object :=
  (stopSet ds).map (stopCircle (projectorOf settings ds) settings)

/-- Layer 4: the labels of the stops. -/
def layer4 (settings : RenderSettings) (ds : List DrawnBus) : List svg.Object :=
  ((stopSet ds).map (stopLabelPair (projectorOf settings ds) settings)).flatten

end render

/-! ## svg.cpp: the text of a document

A stream is the text written to it so far; a function that writes to a stream
returns the text it writes.  The text of a `double` written with `operator<<` is
the parameter `fmt`; a `char` of a `std::string` is a character of a `String`. -/

namespace svg

/-- The text of `out << static_cast<uint32_t>(n)` and of `out << font_size_`. -/
def printUInt (n : Nat) : String := toString n

/-- The visitor `ColorPrinter` applied by `operator<<(std::ostream&, Color)`. -/
def Color.print (fmt : ℚ → String) : Color → String
  | .none => "none"
  | .str color => color
  | .rgb c =>
    "rgb(" ++ printUInt c.red ++ "," ++ printUInt c.green ++ "," ++ printUInt c.blue ++ ")"
  | .rgba c =>
    "rgba(" ++ printUInt c.red ++ "," ++ printUInt c.green ++ "," ++
      printUInt c.blue ++ "," ++ fmt c.opacity ++ ")"

/-- Function `operator<<(std::ostream&, StrokeLineCap)`. -/
def StrokeLineCap.print : StrokeLineCap → String
  | .BUTT => "butt"
  | .ROUND => "round"
  | .SQUARE => "square"

/-- Function `operator<<(std::ostream&, StrokeLineJoin)`. -/
def StrokeLineJoin.print : StrokeLineJoin → String
  | .ARCS => "arcs"
  | .BEVEL => "bevel"
  | .MITER => "miter"
  | .MITER_CLIP => "miter-clip"
  | .ROUND => "round"

/-- Type `svg::RenderContext` without its stream. -/
structure RenderContext where
  indent_step : Int := 0
  indent : Int := 0
deriving DecidableEq

/-- Method `RenderContext::Indented`. -/
def RenderContext.Indented (context : RenderContext) : RenderContext :=
  { indent_step := context.indent_step, indent := context.indent + context.indent_step }

/-- Method `RenderContext::RenderIndent`: `indent` spaces. -/
def RenderContext.RenderIndent (context : RenderContext) : String :=
  String.mk (List.replicate context.indent.toNat ' ')

/-- Method `PathProps::RenderAttrs`. -/
def PathProps.RenderAttrs (fmt : ℚ → String) (p : PathProps) : String :=
  (match p.fill_color_ with
    | some color => " fill=\"" ++ color.print fmt ++ "\""
    | none => "") ++
  (match p.stroke_color_ with
    | some color => " stroke=\"" ++ color.print fmt ++ "\""
    | none => "") ++
  (match p.stroke_width_ with
    | some width => " stroke-width=\"" ++ fmt width ++ "\""
    | none => "") ++
  (match p.stroke_line_cap_ with
    | some line_cap => " stroke-linecap=\"" ++ line_cap.print ++ "\""
    | none => "") ++
  (match p.stroke_line_join_ with
    | some line_join => " stroke-linejoin=\"" ++ line_join.print ++ "\""
    | none => "")

/-- The table `Text::special_char_to_escaping_seq`; its keys are the double quote
(code 34), the apostrophe (code 39), `<`, `>` and `&`. -/
def special_char_to_escaping_seq : AssocMap Char String :=
  [(Char.ofNat 34, "&quot;"), (Char.ofNat 39, "&apos;"), ('<', "&lt;"), ('>', "&gt;"),
   ('&', "&amp;")]

/-- Method `Text::FormatStringData`; `count(c)` followed by `at(c)` is one look-up. -/
def Text.FormatStringData (data : String) : String :=
  data.data.foldl
    (fun out c =>
      match special_char_to_escaping_seq.find? c with
      | some seq => out ++ seq
      | none => out.push c)
    ""

/-- Method `Circle::RenderObject`. -/
def Circle.RenderObject (fmt : ℚ → String) (o : Circle) : String :=
  "<circle" ++
  " cx=\"" ++ fmt o.center_.x ++ "\"" ++
  " cy=\"" ++ fmt o.center_.y ++ "\"" ++
  " r=\"" ++ fmt o.radius_ ++ "\"" ++
  o.props.RenderAttrs fmt ++
  "/>"

/-- Method `Polyline::FormatPoints`. -/
def Polyline.FormatPoints (fmt : ℚ → String) (o : Polyline) : String :=
  (o.points_.foldl
    (fun (st : Bool × String) point =>
      if st.1 then (false, st.2 ++ fmt point.x ++ "," ++ fmt point.y)
      else (st.1, st.2 ++ " " ++ fmt point.x ++ "," ++ fmt point.y))
    (true, "\"")).2 ++ "\""

/-- Method `Polyline::RenderObject`. -/
def Polyline.RenderObject (fmt : ℚ → String) (o : Polyline) : String :=
  "<polyline points=" ++ o.FormatPoints fmt ++ o.props.RenderAttrs fmt ++ "/>"

/-- Method `Text::RenderObject`. -/
def Text.RenderObject (fmt : ℚ → String) (o : Text) : String :=
  "<text" ++
  o.props.RenderAttrs fmt ++
  " x=\"" ++ fmt o.position_.x ++ "\"" ++
  " y=\"" ++ fmt o.position_.y ++ "\"" ++
  " dx=\"" ++ fmt o.offset_.x ++ "\"" ++
  " dy=\"" ++ fmt o.offset_.y ++ "\"" ++
  " font-size=\"" ++ printUInt o.font_size_ ++ "\"" ++
  (match o.font_family_ with
    | some font_family => " font-family=\"" ++ Text.FormatStringData font_family ++ "\""
    | none => "") ++
  (match o.font_weight_ with
    | some font_weight => " font-weight=\"" ++ Text.FormatStringData font_weight ++ "\""
    | none => "") ++
  ">" ++
  Text.FormatStringData o.data_ ++
  "</text>"

/-- The virtual method `RenderObject` of the three classes of objects. -/
def Object.RenderObject (fmt : ℚ → String) : Object → String
  | .circle o => o.RenderObject fmt
  | .polyline o => o.RenderObject fmt
  | .text o => o.RenderObject fmt

/-- Method `Object::Render`; `std::endl` writes a newline. -/
def Object.Render (fmt : ℚ → String) (context : RenderContext) (o : Object) : String :=
  context.RenderIndent ++ o.RenderObject fmt ++ "\n"

/-- Method `Document::Render`. -/
def Document.Render (fmt : ℚ → String) (d : Document) : String :=
  let context : RenderContext := { indent_step := 2, indent := 0 }
  d.objects_.foldl (fun out object => out ++ object.Render fmt context.Indented)
    ("<?xml version=\"1.0\" encoding=\"UTF-8\" ?>\n" ++
      "<svg xmlns=\"http://www.w3.org/2000/svg\" version=\"1.1\">\n") ++
  "</svg>"

/-- The escape of one character as the specification lists it. -/
def escapeOf (c : Char) : String :=
  if c = Char.ofNat 34 then "&quot;"
  else if c = Char.ofNat 39 then "&apos;"
  else if c = '<' then "&lt;"
  else if c = '>' then "&gt;"
  else if c = '&' then "&amp;"
  else String.singleton c

end svg

/-! ## json_builder.h: sequences of calls on a builder -/

namespace json

/-- One call of a public method of `json::Builder` other than `Build`. -/
inductive Call where
  | Value (value : Node)
  | Key (key : String)
  | StartArray
  | EndArray
  | StartDict
  | EndDict

namespace Builder

/-- The effect of one call on the builder. -/
def call (b : Builder) : Call → Except Fault Builder
  | .Value value => .ok (b.Value value)
  | .Key key => .ok (b.Key key)
  | .StartArray => .ok b.StartArray
  | .EndArray => b.EndArray
  | .StartDict => .ok b.StartDict
  | .EndDict => b.EndDict

/-- The calls of a sequence made one after the other; the first exception ends
the sequence. -/
def run (calls : List Call) (b : Builder) : Except Fault Builder :=
  calls.foldlM call b

/-- A sequence of calls on a fresh builder, followed by `Build`. -/
def buildFrom (calls : List Call) : Except Fault Node := do
  let b ← run calls {}
  b.Build

end Builder

/-- The sequences of calls that describe exactly one complete JSON value: a single
`Value`; `StartArray`, the sequences of any number of values, `EndArray`;
`StartDict`, any number of times a `Key` and the sequence of a value, `EndDict`. -/
inductive IsValue : List Call → Prop
  | value (v : Node) : IsValue [.Value v]
  | array (items : List (List Call)) (h : ∀ s ∈ items, IsValue s) :
      IsValue (Call.StartArray :: (items.flatten ++ [Call.EndArray]))
  | dict (entries : List (String × List Call)) (h : ∀ e ∈ entries, IsValue e.2) :
      IsValue (Call.StartDict ::
        ((entries.map (fun e => Call.Key e.1 :: e.2)).flatten ++ [Call.EndDict]))

/-- The calls that account for one entry of the stack of a builder: a complete
value for a `COMPLETE_OBJ` entry, which holds a node; the `Key` call for a `KEY`
entry, which holds the key; the opening call for a start marker. -/
def Seg (h : HelperNode) (seg : List Call) : Prop :=
  (h.state = .COMPLETE_OBJ ∧ (∃ n, h.node = some n) ∧ IsValue seg) ∨
  (h.state = .KEY ∧ ∃ k, h.node = some (.string k) ∧ seg = [.Key k]) ∨
  (h.state = .ARRAY_START ∧ h.node = none ∧ seg = [.StartArray]) ∨
  (h.state = .DICT_START ∧ h.node = none ∧ seg = [.StartDict])

/-- The stack (top first) of a builder after the calls `calls` that all returned:
each entry is accounted for by a segment of the calls, the bottom entry first. -/
inductive Stk : List HelperNode → List Call → Prop
  | nil : Stk [] []
  | push (h : HelperNode) (seg : List Call) (stack : List HelperNode) (calls : List Call) :
      Stk stack calls → Seg h seg → Stk (h :: stack) (calls ++ seg)

end json

namespace json

/-- A part of the stack of a builder (top first) made of pairs of a `COMPLETE_OBJ`
entry above a `KEY` entry. -/
inductive Pairs : List HelperNode → Prop
  | nil : Pairs []
  | cons (v k : HelperNode) (rest : List HelperNode) :
      v.state = .COMPLETE_OBJ → k.state = .KEY → Pairs rest → Pairs (v :: k :: rest)

/-- The entries of a stack hold what their state announces: a node for a
`COMPLETE_OBJ` entry, a string node for a `KEY` entry. -/
def Filled (l : List HelperNode) : Prop :=
  ∀ h ∈ l, (h.state = .COMPLETE_OBJ → ∃ n, h.node = some n) ∧
    (h.state = .KEY → ∃ k, h.node = some (.string k))

end json

/-! ## map_renderer.cpp: `Render` with its output -/

namespace render

/-- Method `MapRenderer::Render`: the four layers are added to `document_`, which
is then written to `out`; the result is the renderer after the call and the text
written. -/
def MapRenderer.Render (fmt : ℚ → String) (r : MapRenderer) (c : TransportCatalogue)
    (buses : List Bus) : Except Fault (MapRenderer × String) := do
  let r' ← r.draw c buses
  pure (r', r'.document_.Render fmt)

end render

/-! ## request_handler.cpp: the stat requests -/

namespace io

/-- Type `io::GetMapRequest`. -/
structure GetMapRequest where
  id : Int

/-- Type `io::StatRequest`, a variant. -/
inductive StatRequest where
  | stop (request : GetStopRequest)
  | bus (request : GetBusRequest)
  | map (request : GetMapRequest)
  | route (request : GetRouteRequest)
  | unknown

/-- The `id` of a request, absent for an `UnknownRequest`. -/
def StatRequest.id : StatRequest → Option Int
  | .stop request => some request.id
  | .bus request => some request.id
  | .map request => some request.id
  | .route request => some request.id
  | .unknown => none

end io

namespace rh

open json

namespace StatHandler

/-- The call operator for `io::GetMapRequest`; `map_renderer_` is a reference to a
renderer owned by the caller, passed in and out here. -/
def handleMap (fmt : ℚ → String) (h : StatHandler) (map_renderer : render.MapRenderer)
    (get_map_request : io.GetMapRequest) :
    Except Fault (StatHandler × render.MapRenderer) := do
  let rendered ← map_renderer.Render fmt h.transport_catalogue_ h.transport_catalogue_.buses_
  let closed ← ((((({} : Builder).StartDict.Key "map").Value (.string rendered.2)).Key
    "request_id").Value (.int get_map_request.id)).EndDict
  let response ← closed.Build
  pure ({ h with responses_ := h.responses_ ++ [response] }, rendered.1)

end StatHandler

end rh

namespace rh

end rh

/-! ## transport_router.cpp: the edges of one bus in closed form -/

namespace TransportRouter

/-- The sum of `GetDistance(route[k - 1], route[k])` for `k` in `(i, j]`. -/
def segmentDistance (m : Libm) (c : TransportCatalogue) (route : List StopPtr) (i j : Nat) :
    Except Fault ℚ :=
  (List.range' (i + 1) (j - i)).foldlM
    (fun acc k => do
      let a ← vectorAt route (k - 1)
      let b ← vectorAt route k
      let d ← TransportCatalogue.GetDistance m c a b
      pure (acc + d))
    0

/-- The sum of `GetDistance(route[k], route[k - 1])` for `k` in `(i, j]`. -/
def segmentDistanceReverse (m : Libm) (c : TransportCatalogue) (route : List StopPtr)
    (i j : Nat) : Except Fault ℚ :=
  (List.range' (i + 1) (j - i)).foldlM
    (fun acc k => do
      let a ← vectorAt route (k - 1)
      let b ← vectorAt route k
      let d ← TransportCatalogue.GetDistance m c b a
      pure (acc + d))
    0

/-- The pairs `(i, j)` with `i < j < n`, in the order of the two nested loops. -/
def pairs (n : Nat) : List (Nat × Nat) :=
  ((List.range n).map (fun i => (List.range' (i + 1) (n - (i + 1))).map (fun j => (i, j)))).flatten

/-- The edge of the bus from its `i`-th to its `j`-th route position: it leaves the
ride vertex of `route[i]`, enters the wait vertex of `route[j]`, spans `j - i` stops
and takes the drive time of the road distance along the route. -/
def IsRideEdge (m : Libm) (r : TransportRouter) (bus : Bus) (i j : Nat)
    (e : Edge EdgeInfo) : Prop :=
  ∃ vi vj D, r.routeVertex bus i = .ok vi ∧ r.routeVertex bus j = .ok vj ∧
    segmentDistance m r.transport_catalogue_ bus.route i j = .ok D ∧
    e = { from_ := vi
          to_ := vj + r.stop_id_to_stop_.length
          weight :=
            { time := r.CalculateDriveTimeMinutes D
              span_count := j - i
              bus_name := bus.name } }

/-- The edge of the bus back from its `j`-th to its `i`-th route position, with the
road distances taken in the reverse direction. -/
def IsReverseRideEdge (m : Libm) (r : TransportRouter) (bus : Bus) (i j : Nat)
    (e : Edge EdgeInfo) : Prop :=
  ∃ vi vj D, r.routeVertex bus i = .ok vi ∧ r.routeVertex bus j = .ok vj ∧
    segmentDistanceReverse m r.transport_catalogue_ bus.route i j = .ok D ∧
    e = { from_ := vj
          to_ := vi + r.stop_id_to_stop_.length
          weight :=
            { time := r.CalculateDriveTimeMinutes D
              span_count := j - i
              bus_name := bus.name } }

end TransportRouter

namespace TransportRouter

/-- The wait edge of the stop with index `stop_id`, as `BuildGraph` builds it. -/
def waitEdge (r : TransportRouter) (stop_id : Nat) : Edge EdgeInfo :=
  { from_ := stop_id + r.stop_id_to_stop_.length
    to_ := stop_id
    weight := { time := r.router_settings_.bus_wait_time, span_count := 0, bus_name := "" } }

/-- A graph over 2N vertices whose edges are the N wait edges in the order of the
stops, followed by edges that leave ride vertices and span at least one stop. -/
def WaitThenRides (r : TransportRouter) (g : DirectedWeightedGraph EdgeInfo) : Prop :=
  g.vertex_count = 2 * r.stop_id_to_stop_.length ∧
  ∃ rest, g.edges_ = (List.range r.stop_id_to_stop_.length).map r.waitEdge ++ rest ∧
    ∀ e ∈ rest, e.from_ < r.stop_id_to_stop_.length ∧ 1 ≤ e.weight.span_count

end TransportRouter

/-! ## serialization.h / serialization.cpp -/

namespace AssocMap

variable {κ ν : Type} [DecidableEq κ]

/-- Insertion `m.emplace(k, v)`: adds the pair unless the key is present. -/
def emplace : AssocMap κ ν → κ → ν → AssocMap κ ν
  | [], k, v => [(k, v)]
  | (k', v') :: m, k, v => if k' = k then (k', v') :: m else (k', v') :: emplace m k v

end AssocMap

namespace trc_serialization

/-- Modelled from the spec: the generated header `transport_catalogue.pb.h` is not
among the sources.  "stops (id, name, lat, lng)": the coordinates of a stop.  A
field of a message holds the value that was set. -/
structure Coordinates where
  lat : ℚ := 0
  lng : ℚ := 0
deriving DecidableEq

/-- Modelled from the spec: the generated header is not among the sources.  "stops
(id, name, lat, lng)". -/
structure Stop where
  id : Nat := 0
  name : String := ""
  coordinates : Coordinates := {}
deriving DecidableEq

/-- Modelled from the spec: the generated header is not among the sources.
"distances (from_id, [(to_id, meters)])": one pair `(to_id, meters)`. -/
structure DistanceInfo where
  to_stop_id : Nat := 0
  distance : ℚ := 0
deriving DecidableEq

/-- Modelled from the spec: the generated header is not among the sources.
"distances (from_id, [(to_id, meters)])". -/
structure StopDistances where
  from_stop_id : Nat := 0
  distance_info : List DistanceInfo := []
deriving DecidableEq

/-- Modelled from the spec: the generated header is not among the sources.  "buses
(name, [stop_id], route_length, curvature, is_roundtrip)". -/
structure Bus where
  name : String := ""
  stop : List Nat := []
  route_length : ℚ := 0
  curvature : ℚ := 0
  is_roundtrip : Bool := false
deriving DecidableEq

/-- Modelled from the spec: the generated header is not among the sources.  The
catalogue part of the persisted triple: repeated stops, distances and buses. -/
structure TransportCatalogue where
  stop : List Stop := []
  distance : List StopDistances := []
  bus : List Bus := []
deriving DecidableEq

/-- Modelled from the spec: the generated header is not among the sources.  A point
of the render settings (a label offset). -/
structure Point where
  x : ℚ := 0
  y : ℚ := 0
deriving DecidableEq

/-- Modelled from the spec: the generated header is not among the sources.  The
`rgb` alternative of a color. -/
structure Rgb where
  r : Nat := 0
  g : Nat := 0
  b : Nat := 0
deriving DecidableEq

/-- Modelled from the spec: the generated header is not among the sources.  The
`rgba` alternative of a color. -/
structure Rgba where
  r : Nat := 0
  g : Nat := 0
  b : Nat := 0
  a : ℚ := 0
deriving DecidableEq

/-- Modelled from the spec: the generated header is not among the sources.  "a
color is one of rgb, rgba, or string, or none": the `oneof` of the message, with the
case in which no alternative is set. -/
inductive Color where
  | COLOR_NOT_SET
  | kRgbColor (rgb_color : Rgb)
  | kRgbaColor (rgba_color : Rgba)
  | kStrColor (str_color : String)
deriving DecidableEq

/-- Modelled from the spec: the generated header is not among the sources.  "render
settings (every numeric and color field, palette as a repeated color)". -/
structure RenderSettings where
  width : ℚ := 0
  height : ℚ := 0
  padding : ℚ := 0
  line_width : ℚ := 0
  stop_radius : ℚ := 0
  bus_label_font_size : Int := 0
  bus_label_offset : Point := {}
  stop_label_font_size : Int := 0
  stop_label_offset : Point := {}
  underlayer_color : Color := .COLOR_NOT_SET
  underlayer_width : ℚ := 0
  color_palette : List Color := []
deriving DecidableEq

/-- Modelled from the spec: the generated header is not among the sources.  "router
settings (bus_wait_time, bus_velocity)". -/
structure RouterSettings where
  bus_wait_time : ℚ := 0
  bus_velocity : ℚ := 0
deriving DecidableEq

/-- Modelled from the spec: the generated header is not among the sources.  "the
triple (catalogue, render settings, routing settings)". -/
structure SerializationData where
  transport_catalogue : TransportCatalogue := {}
  render_settings : RenderSettings := {}
  router_settings : RouterSettings := {}
deriving DecidableEq

end trc_serialization

/-- Type `Serializer::Data`. -/
structure Serializer.Data where
  trc : TransportCatalogue
  render_settings : render.RenderSettings
  router_settings : Settings
deriving DecidableEq

namespace Serializer

/-- Function `Convert(geo::Coordinates)`. -/
def ConvertCoordinates (c : Coordinates) : trc_serialization.Coordinates :=
  { lat := c.lat, lng := c.lng }

/-- Function `Convert(const trc_serialization::Coordinates&)`. -/
def ConvertSerCoordinates (ser_c : trc_serialization.Coordinates) : Coordinates :=
  { lat := ser_c.lat, lng := ser_c.lng }

/-- Function `Convert(const Stop&)`. -/
def ConvertStop (s : Stop) : trc_serialization.Stop :=
  { id := s.id, name := s.name, coordinates := ConvertCoordinates s.coordinates }

/-- Function `Convert(const trc_serialization::Stop&)`. -/
def ConvertSerStop (ser_s : trc_serialization.Stop) : Stop :=
  { id := ser_s.id, name := ser_s.name, coordinates := ConvertSerCoordinates ser_s.coordinates }

/-- Function `Convert(std::pair<const Stop*, double>)`; the pointer points into the
store `c`. -/
def ConvertDistanceInfo (c : TransportCatalogue) (di : StopPtr × ℚ) :
    Except Fault trc_serialization.DistanceInfo := do
  let to_stop ← c.stopAt di.1
  pure { to_stop_id := to_stop.id, distance := di.2 }

/-- Function `Convert(const trc_serialization::DistanceInfo&, stop_id_to_stop)`. -/
def ConvertSerDistanceInfo (ser_di : trc_serialization.DistanceInfo)
    (stop_id_to_stop : AssocMap Nat StopPtr) : Except Fault (StopPtr × ℚ) := do
  let to_stop ← stop_id_to_stop.get ser_di.to_stop_id
  pure (to_stop, ser_di.distance)

/-- Function `Convert(const std::pair<const Stop*, std::unordered_map<const Stop*,
double>>&)`; the pointers point into the store `c`. -/
def ConvertStopDistances (c : TransportCatalogue) (sd : StopPtr × AssocMap StopPtr ℚ) :
    Except Fault trc_serialization.StopDistances := do
  let from_stop ← c.stopAt sd.1
  let distance_info ← sd.2.mapM (ConvertDistanceInfo c)
  pure { from_stop_id := from_stop.id, distance_info := distance_info }

/-- Function `Convert(const trc_serialization::StopDistances&, stop_id_to_stop)`. -/
def ConvertSerStopDistances (ser_sd : trc_serialization.StopDistances)
    (stop_id_to_stop : AssocMap Nat StopPtr) :
    Except Fault (StopPtr × AssocMap StopPtr ℚ) := do
  let from_stop ← stop_id_to_stop.get ser_sd.from_stop_id
  let to_stop_to_distance ← ser_sd.distance_info.foldlM
    (fun (to_stop_to_distance : AssocMap StopPtr ℚ) ser_di => do
      let di ← ConvertSerDistanceInfo ser_di stop_id_to_stop
      pure (to_stop_to_distance.emplace di.1 di.2))
    []
  pure (from_stop, to_stop_to_distance)

/-- Function `Convert(const Bus&)`; the pointers of the route point into the store
`c`. -/
def ConvertBus (c : TransportCatalogue) (b : Bus) : Except Fault trc_serialization.Bus := do
  let stop ← b.route.mapM (fun stop => do
    let s ← c.stopAt stop
    pure s.id)
  pure { name := b.name
         stop := stop
         route_length := b.route_length
         curvature := b.curvature
         is_roundtrip := b.is_roundtrip }

/-- Function `Convert(const trc_serialization::Bus&, stop_id_to_stop)`. -/
def ConvertSerBus (ser_b : trc_serialization.Bus) (stop_id_to_stop : AssocMap Nat StopPtr) :
    Except Fault Bus := do
  let route ← ser_b.stop.mapM (fun id => stop_id_to_stop.get id)
  pure { name := ser_b.name
         route := route
         route_length := ser_b.route_length
         curvature := ser_b.curvature
         is_roundtrip := ser_b.is_roundtrip }

/-- Function `Convert(const TransportCatalogue&)`. -/
def ConvertTransportCatalogue (trc : TransportCatalogue) :
    Except Fault trc_serialization.TransportCatalogue := do
  let stop := trc.stops_.map ConvertStop
  let distance ← trc.stop_to_stop_to_distance_.mapM (ConvertStopDistances trc)
  let bus ← trc.buses_.mapM (ConvertBus trc)
  pure { stop := stop, distance := distance, bus := bus }

/-- Function `Convert(const trc_serialization::TransportCatalogue&)`. -/
def ConvertSerTransportCatalogue (ser_trc : trc_serialization.TransportCatalogue) :
    Except Fault TransportCatalogue := do
  let trc := ser_trc.stop.foldl
    (fun (trc : TransportCatalogue) ser_s => trc.AddStop (ConvertSerStop ser_s))
    TransportCatalogue.empty
  let trc ← ser_trc.distance.foldlM
    (fun (trc : TransportCatalogue) ser_sd => do
      let sd ← ConvertSerStopDistances ser_sd trc.stop_id_to_stop_
      sd.2.foldlM
        (fun (trc : TransportCatalogue) (di : StopPtr × ℚ) => do
          let from_stop ← trc.stopAt sd.1
          let to_stop ← trc.stopAt di.1
          trc.AddDistance from_stop.name to_stop.name di.2)
        trc)
    trc
  ser_trc.bus.foldlM
    (fun (trc : TransportCatalogue) ser_b => do
      let bus ← ConvertSerBus ser_b trc.stop_id_to_stop_
      trc.AddBusObject bus)
    trc

/-- Function `Convert(svg::Point)`. -/
def ConvertPoint (p : svg.Point) : trc_serialization.Point := { x := p.x, y := p.y }

/-- Function `Convert(const trc_serialization::Point&)`. -/
def ConvertSerPoint (ser_p : trc_serialization.Point) : svg.Point :=
  { x := ser_p.x, y := ser_p.y }

/-- Function `Convert(svg::Rgb)`. -/
def ConvertRgb (rgb : svg.Rgb) : trc_serialization.Rgb :=
  { r := rgb.red, g := rgb.green, b := rgb.blue }

/-- Function `Convert(const trc_serialization::Rgb&)`. -/
def ConvertSerRgb (ser_rgb : trc_serialization.Rgb) : svg.Rgb :=
  { red := ser_rgb.r, green := ser_rgb.g, blue := ser_rgb.b }

/-- Function `Convert(svg::Rgba)`. -/
def ConvertRgba (rgba : svg.Rgba) : trc_serialization.Rgba :=
  { r := rgba.red, g := rgba.green, b := rgba.blue, a := rgba.opacity }

/-- Function `Convert(const trc_serialization::Rgba&)`. -/
def ConvertSerRgba (ser_rgba : trc_serialization.Rgba) : svg.Rgba :=
  { red := ser_rgba.r, green := ser_rgba.g, blue := ser_rgba.b, opacity := ser_rgba.a }

/-- Function `Convert(const svg::Color&)`: the visitor `ColorSerializer`. -/
def ConvertColor : svg.Color → trc_serialization.Color
  | .str str => .kStrColor str
  | .none => .kStrColor "none"
  | .rgb rgb => .kRgbColor (ConvertRgb rgb)
  | .rgba rgba => .kRgbaColor (ConvertRgba rgba)

/-- Function `Convert(const trc_serialization::Color&)`. -/
def ConvertSerColor : trc_serialization.Color → svg.Color
  | .kRgbColor rgb_color => .rgb (ConvertSerRgb rgb_color)
  | .kRgbaColor rgba_color => .rgba (ConvertSerRgba rgba_color)
  | .kStrColor str_color => .str str_color
  | .COLOR_NOT_SET => .str "none"

/-- Function `Convert(const render::RenderSettings&)`. -/
def ConvertRenderSettings (rs : render.RenderSettings) : trc_serialization.RenderSettings :=
  { width := rs.width
    height := rs.height
    padding := rs.padding
    line_width := rs.line_width
    stop_radius := rs.stop_radius
    bus_label_font_size := rs.bus_label_font_size
    bus_label_offset := ConvertPoint rs.bus_label_offset
    stop_label_font_size := rs.stop_label_font_size
    stop_label_offset := ConvertPoint rs.stop_label_offset
    underlayer_color := ConvertColor rs.underlayer_color
    underlayer_width := rs.underlayer_width
    color_palette := rs.color_palette.map ConvertColor }

/-- Function `Convert(const trc_serialization::RenderSettings&)`. -/
def ConvertSerRenderSettings (ser_rs : trc_serialization.RenderSettings) :
    render.RenderSettings :=
  { width := ser_rs.width
    height := ser_rs.height
    padding := ser_rs.padding
    line_width := ser_rs.line_width
    stop_radius := ser_rs.stop_radius
    bus_label_font_size := ser_rs.bus_label_font_size
    bus_label_offset := ConvertSerPoint ser_rs.bus_label_offset
    stop_label_font_size := ser_rs.stop_label_font_size
    stop_label_offset := ConvertSerPoint ser_rs.stop_label_offset
    underlayer_color := ConvertSerColor ser_rs.underlayer_color
    underlayer_width := ser_rs.underlayer_width
    color_palette := ser_rs.color_palette.map ConvertSerColor }

/-- Function `Convert(TransportRouter::Settings)`. -/
def ConvertRouterSettings (rs : Settings) : trc_serialization.RouterSettings :=
  { bus_wait_time := rs.bus_wait_time, bus_velocity := rs.bus_velocity }

/-- Function `Convert(const trc_serialization::RouterSettings&)`. -/
def ConvertSerRouterSettings (ser_rs : trc_serialization.RouterSettings) : Settings :=
  { bus_wait_time := ser_rs.bus_wait_time, bus_velocity := ser_rs.bus_velocity }

/-- Function `Convert(const TransportCatalogue&, const render::RenderSettings&,
const TransportRouter::Settings&)`: the message that `Save` writes. -/
def Convert (trc : TransportCatalogue) (rs : render.RenderSettings)
    (router_settings : Settings) : Except Fault trc_serialization.SerializationData := do
  let transport_catalogue ← ConvertTransportCatalogue trc
  pure { transport_catalogue := transport_catalogue
         render_settings := ConvertRenderSettings rs
         router_settings := ConvertRouterSettings router_settings }

/-- Function `Convert(const trc_serialization::SerializationData&)`: the data
that `Load` returns for the message it read. -/
def ConvertSerializationData (ser_data : trc_serialization.SerializationData) :
    Except Fault Data := do
  let trc ← ConvertSerTransportCatalogue ser_data.transport_catalogue
  pure { trc := trc
         render_settings := ConvertSerRenderSettings ser_data.render_settings
         router_settings := ConvertSerRouterSettings ser_data.router_settings }

end Serializer

/-- Well-formedness of the distance table of a catalogue: the keys of the table and
of every row are distinct, they designate stops of the catalogue, and no row is
empty. -/
structure TransportCatalogue.TableValid (c : TransportCatalogue) : Prop where
  keys : (c.stop_to_stop_to_distance_.map Prod.fst).Nodup
  rows : ∀ e ∈ c.stop_to_stop_to_distance_,
    e.1 < c.stops_.length ∧ (e.2.map Prod.fst).Nodup ∧ e.2 ≠ [] ∧
      ∀ x ∈ e.2, x.1 < c.stops_.length

/-! ### The decoded catalogue in closed form

The definitions of this section are not in the source: the decoder adds the stops
of the message, which are listed from the front of the deque, one by one to the
front of a new deque, so that the stop with the ordinal `p` among `n` stops gets the
ordinal `n - 1 - p` in the decoded catalogue. -/

namespace Serializer

/-- The ordinal in the decoded catalogue of the stop with the ordinal `p` among `n`
stops. -/
def mirror (n : Nat) (p : StopPtr) : StopPtr := if p < n then n - 1 - p else p

/-- The bus with the pointers of its route translated to the decoded catalogue. -/
def mirrorBus (n : Nat) (b : Bus) : Bus := { b with route := b.route.map (mirror n) }

/-- A row of the distance table with its pointers translated to the decoded
catalogue. -/
def mirrorRow (n : Nat) (e : StopPtr × AssocMap StopPtr ℚ) : StopPtr × AssocMap StopPtr ℚ :=
  (mirror n e.1, e.2.map (fun x => (mirror n x.1, x.2)))

end Serializer

/-! ## domain.cpp: the stop-id generator; request_handler.cpp: the base requests -/

namespace io

end io

namespace rh

namespace BaseRequestHandler

end BaseRequestHandler

end rh

/-! ### The bounding box of the stops

The definitions of this section are not in the source: they name the relations
between a stop and the four numbers (min_lat, max_lat, min_lng, max_lng) that
`MinMaxLatLng` returns. -/

namespace render

end render

namespace svg

/-- The five entities of the specification with the characters they stand for
(not in the source: the table read backwards). -/
def entityTable : List (String × Char) :=
  [("&quot;", Char.ofNat 34), ("&apos;", Char.ofNat 39), ("&lt;", '<'), ("&gt;", '>'),
   ("&amp;", '&')]

/-- The first entity of a table that starts the text, with its character and the
text after it (not in the source). -/
def stripEntity : List (String × Char) → List Char → Option (Char × List Char)
  | [], _ => none
  | (entity, c) :: table, text =>
    if entity.data.isPrefixOf text then some (c, text.drop entity.data.length)
    else stripEntity table text

/-- Left-to-right scan of the specification's inverse: an entity at the cursor is
replaced by its character, any other character is kept (not in the source; the
fuel bounds the number of steps, the text's length always suffices). -/
def unescapeChars : Nat → List Char → List Char
  | 0, _ => []
  | _, [] => []
  | fuel + 1, x :: text =>
    match stripEntity entityTable (x :: text) with
    | some (c, rest) => c :: unescapeChars fuel rest
    | none => x :: unescapeChars fuel text

/-- Replacement of the five entities by their characters, scanning left to right
(not in the source: the inverse the specification describes). -/
def unescapeEntities (s : String) : String :=
  ⟨unescapeChars s.length s.data⟩

end svg

namespace TransportRouter

open graph

/-- The value of `GetDistance`, zero where it raises (not in the source: a total
form for sums of distances). -/
def distanceOrZero (m : Libm) (c : TransportCatalogue) (a b : StopPtr) : ℚ :=
  match TransportCatalogue.GetDistance m c a b with
  | .ok d => d
  | .error _ => 0

/-- The ride edge from route position `ij.1` to route position `ij.2` as a value
(not in the source: the edge that `IsRideEdge` describes; its fields are zero where
a look-up raises). -/
def rideEdgeOf (m : Libm) (r : TransportRouter) (bus : Bus) (ij : Nat × Nat) :
    Edge EdgeInfo :=
  { from_ :=
      match r.routeVertex bus ij.1 with
      | .ok v => v
      | .error _ => 0
    to_ :=
      (match r.routeVertex bus ij.2 with
        | .ok v => v
        | .error _ => 0) + r.stop_id_to_stop_.length
    weight :=
      { time := r.CalculateDriveTimeMinutes
          (match segmentDistance m r.transport_catalogue_ bus.route ij.1 ij.2 with
            | .ok D => D
            | .error _ => 0)
        span_count := ij.2 - ij.1
        bus_name := bus.name } }

/-- The edges of the round-trip rule that stay within one half of a route of
`size` positions, as the specification selects them (not in the source): of the
edges `round`, listed in the order of the pairs `i < j`, those whose pair lies in
the outbound half `[0, size / 2]` or in the return half `[size / 2, size - 1]`. -/
def roundTripEdgesWithinHalves (size : Nat) (round : List (Edge EdgeInfo)) :
    List (Edge EdgeInfo) :=
  (((pairs size).zip round).filter
    (fun p => decide (p.1.2 ≤ size / 2) || decide (size / 2 ≤ p.1.1))).map Prod.snd

end TransportRouter

namespace Serializer

/-- The state of the decoder after its first loop (not in the source): the later
loops keep the deque of stops and the id index of `D`, and the indices and the
distance table stay well formed. -/
def DecodeInv (D trc : TransportCatalogue) : Prop :=
  trc.stops_ = D.stops_ ∧ trc.stop_id_to_stop_ = D.stop_id_to_stop_ ∧
    trc.Consistent ∧ trc.TableValid

/-- Two buses with the same name, lengths, round-trip flag and number of route
positions (not in the source). -/
def SameBus (b b' : Bus) : Prop :=
  b'.name = b.name ∧ b'.route_length = b.route_length ∧ b'.curvature = b.curvature ∧
    b'.is_roundtrip = b.is_roundtrip ∧ b'.route.length = b.route.length

end Serializer

/-! ## Example data -/

namespace Example

open TransportCatalogue

/-- A stand-in for libm, used to run the definitions on concrete data. -/
def libm : Libm := ⟨fun x => x, fun x => 1 - x, fun x => x⟩

/-- Three stops `A`, `B`, `C`. -/
def stopsABC : TransportCatalogue :=
  ((empty.AddStop ⟨0, "A", ⟨0, 0⟩⟩).AddStop ⟨1, "B", ⟨1, 1⟩⟩).AddStop ⟨2, "C", ⟨2, 2⟩⟩

/-- The stops `A`, `B`, `C` with road distances `A -> B = 600` and `B -> C = 400`. -/
def roadsABC : Except Fault TransportCatalogue := do
  let c ← stopsABC.AddDistance "A" "B" 600
  c.AddDistance "B" "C" 400

/-- The value of `roadsABC`. -/
def roads : TransportCatalogue :=
  match roadsABC with
  | .ok c => c
  | .error _ => empty

/-- The catalogue `roads` with the bus `l` declared `A, B, C`, not a round trip. -/
def lineL : TransportCatalogue :=
  match AddBus libm roads "l" ["A", "B", "C"] false with
  | .ok c => c
  | .error _ => empty

/-- The catalogue `lineL` after a second `AddBus` with the name `l`. -/
def lineLL : TransportCatalogue :=
  match AddBus libm lineL "l" ["A"] true with
  | .ok c => c
  | .error _ => empty

/-- The catalogue `stopsABC` with the bus `one` declared `A`, not a round trip. -/
def lineOne : TransportCatalogue :=
  match AddBus libm stopsABC "one" ["A"] false with
  | .ok c => c
  | .error _ => empty

/-- Two stops with `A -> B = 1000` and the round-trip bus `l` declared `A, B, A`. -/
def roundAB : TransportCatalogue :=
  match (do
    let c ← ((empty.AddStop ⟨0, "A", ⟨0, 0⟩⟩).AddStop ⟨1, "B", ⟨1, 1⟩⟩).AddDistance "A" "B" 1000
    AddBus libm c "l" ["A", "B", "A"] true) with
  | .ok c => c
  | .error _ => empty

/-- The routing settings of the example: 6 minutes of waiting, 40 km/h. -/
def settings : Settings := { bus_wait_time := 6, bus_velocity := 40 }

/-- The router over `roundAB`. -/
def routerAB : TransportRouter :=
  match TransportRouter.create libm settings roundAB with
  | .ok r => r
  | .error _ =>
    { transport_catalogue_ := empty
      router_settings_ := settings
      stop_id_to_stop_ := []
      stop_name_to_index_ := []
      transport_graph_ := DirectedWeightedGraph.ofVertexCount 0
      router_ := { graph_ := DirectedWeightedGraph.ofVertexCount 0 } }

/-- A stat handler over `roundAB` and its router, without responses yet. -/
def handler : rh.StatHandler :=
  { responses_ := [], transport_catalogue_ := roundAB, router_ := routerAB }

/-- Render settings of the examples: a palette of two colours. -/
def renderSettings : render.RenderSettings :=
  { width := 200
    height := 200
    padding := 30
    line_width := 14
    stop_radius := 5
    bus_label_font_size := 20
    bus_label_offset := ⟨7, 15⟩
    stop_label_font_size := 18
    stop_label_offset := ⟨7, -3⟩
    underlayer_color := .rgba ⟨255, 255, 255, 85 / 100⟩
    underlayer_width := 3
    color_palette := [.str "green", .rgb ⟨255, 160, 0⟩] }

/-- Four buses over the stops `A`, `B`, `C` of `stopsABC`, out of name order; the
bus `b` has an empty route. -/
def busesOutOfOrder : List Bus :=
  [{ name := "d", route := [2, 0, 2] },
   { name := "a", route := [0, 1, 0], is_roundtrip := true },
   { name := "c", route := [1, 2, 1] },
   { name := "b", route := [] }]

/-- Two buses with the same name `x` over the stops of `stopsABC`: the first visits
`A` only, the second `B` only. -/
def busesSameName : List Bus :=
  [{ name := "x", route := [0], is_roundtrip := true },
   { name := "x", route := [1], is_roundtrip := true }]

/-- Two stops `A` = (0, 0) and `B` = (1, -1) and the bus `l` declared `A, B`, not a
round trip, so that its route is `A, B, A`. -/
def lineDiag : TransportCatalogue :=
  match AddBus libm ((empty.AddStop ⟨0, "A", ⟨0, 0⟩⟩).AddStop ⟨1, "B", ⟨1, -1⟩⟩)
      "l" ["A", "B"] false with
  | .ok c => c
  | .error _ => empty

/-- A fresh renderer with the render settings of the examples. -/
def rendererAB : render.MapRenderer := render.MapRenderer.create renderSettings

/-- The two stops of `roundAB` with the road distance `A -> B = 1000`, before the
bus is added. -/
def roadAB : TransportCatalogue :=
  match ((empty.AddStop ⟨0, "A", ⟨0, 0⟩⟩).AddStop ⟨1, "B", ⟨1, 1⟩⟩).AddDistance "A" "B" 1000 with
  | .ok c => c
  | .error _ => empty

/-- A stand-in for the text of a `double`: numerator, a slash, denominator. -/
def fmt (x : ℚ) : String := toString x.num ++ "/" ++ toString x.den

/-- The router over `lineL` (stops `A`, `B`, `C`, roads `A -> B = 600` and
`B -> C = 400`, the bus `l` over `A, B, C, B, A`). -/
def routerL : TransportRouter :=
  match TransportRouter.create libm settings lineL with
  | .ok r => r
  | .error _ =>
    { transport_catalogue_ := empty
      router_settings_ := settings
      stop_id_to_stop_ := []
      stop_name_to_index_ := []
      transport_graph_ := DirectedWeightedGraph.ofVertexCount 0
      router_ := { graph_ := DirectedWeightedGraph.ofVertexCount 0 } }

/-- Two stops `A` = (0, 0) and `B` = (1, 1) that were given the same id 0, and the
round-trip bus `l` declared `A, B, A`. -/
def sameId : TransportCatalogue :=
  match AddBus libm ((empty.AddStop ⟨0, "A", ⟨0, 0⟩⟩).AddStop ⟨0, "B", ⟨1, 1⟩⟩)
      "l" ["A", "B", "A"] true with
  | .ok c => c
  | .error _ => empty

/-- The bus `l` of `lineL` as `AddBus` stored it. -/
def busL : Bus :=
  match lineL.buses_ with
  | bus :: _ => bus
  | [] => {}


/-- Two stops that were both given the name `A`, with the ids 0 and 1. -/
def sameName : TransportCatalogue :=
  (empty.AddStop ⟨0, "A", ⟨0, 0⟩⟩).AddStop ⟨1, "A", ⟨1, 1⟩⟩

end Example

/-! ## Theorems -/

/-! ### Faults, folds and finite maps -/

theorem Except.bind_eq_ok {α β : Type} {x : Except Fault α} {f : α → Except Fault β} {b : β} :
    (x >>= f) = .ok b ↔ ∃ a, x = .ok a ∧ f a = .ok b := by
  cases x with
  | error e => simp [bind, Except.bind]
  | ok a => simp [bind, Except.bind]

theorem foldlM_ok_inv {α β : Type} (Q : β → Prop) (f : β → α → Except Fault β) :
    ∀ (l : List α) (b r : β), Q b →
      (∀ b a b', a ∈ l → Q b → f b a = .ok b' → Q b') → l.foldlM f b = .ok r → Q r := by
  intro l
  induction l with
  | nil =>
    intro b r hb _ h
    simp only [List.foldlM_nil, pure, Except.pure, Except.ok.injEq] at h
    exact h ▸ hb
  | cons a l ih =>
    intro b r hb hstep h
    rw [List.foldlM_cons, Except.bind_eq_ok] at h
    obtain ⟨b', hb', hr⟩ := h
    exact ih b' r (hstep b a b' (List.mem_cons_self _ _) hb hb')
      (fun b a' b'' ha' => hstep b a' b'' (List.mem_cons_of_mem _ ha')) hr

theorem foldlM_ok_of_step {α β : Type} (Q : β → Prop) (f : β → α → Except Fault β) :
    ∀ (l : List α) (b : β), Q b →
      (∀ b a, a ∈ l → Q b → ∃ b', f b a = .ok b' ∧ Q b') →
      ∃ r, l.foldlM f b = .ok r ∧ Q r := by
  intro l
  induction l with
  | nil =>
    intro b hb _
    exact ⟨b, rfl, hb⟩
  | cons a l ih =>
    intro b hb hstep
    obtain ⟨b', hb', hq⟩ := hstep b a (List.mem_cons_self _ _) hb
    obtain ⟨r, hr, hqr⟩ := ih b' hq (fun b a' ha' => hstep b a' (List.mem_cons_of_mem _ ha'))
    refine ⟨r, ?_, hqr⟩
    rw [List.foldlM_cons, Except.bind_eq_ok]
    exact ⟨b', hb', hr⟩

theorem mapM_ok_forall₂ {α β : Type} (f : α → Except Fault β) :
    ∀ (l : List α) (r : List β), l.mapM f = .ok r ↔ List.Forall₂ (fun a b => f a = .ok b) l r := by
  intro l
  induction l with
  | nil =>
    intro r
    simp only [List.mapM_nil, pure, Except.pure, Except.ok.injEq]
    constructor
    · rintro rfl; exact List.Forall₂.nil
    · intro h; cases h; rfl
  | cons a l ih =>
    intro r
    rw [List.mapM_cons]
    constructor
    · intro h
      rw [Except.bind_eq_ok] at h
      obtain ⟨b, hb, h⟩ := h
      rw [Except.bind_eq_ok] at h
      obtain ⟨bs, hbs, h⟩ := h
      simp only [pure, Except.pure, Except.ok.injEq] at h
      subst h
      exact List.Forall₂.cons hb ((ih bs).1 hbs)
    · intro h
      cases h with
      | cons hb hbs =>
        rw [Except.bind_eq_ok]
        refine ⟨_, hb, ?_⟩
        rw [Except.bind_eq_ok]
        exact ⟨_, (ih _).2 hbs, rfl⟩

namespace AssocMap

variable {κ ν : Type} [DecidableEq κ]

theorem find?_insert (m : AssocMap κ ν) (k : κ) (v : ν) (k' : κ) :
    find? (insert m k v) k' = if k = k' then some v else find? m k' := by
  induction m with
  | nil => simp [insert, find?]
  | cons kv m ih =>
    obtain ⟨k0, v0⟩ := kv
    by_cases h : k0 = k
    · subst h
      by_cases h' : k0 = k' <;> simp [insert, find?, h']
    · by_cases h' : k0 = k'
      · subst h'
        have : ¬ k = k0 := fun e => h e.symm
        simp [insert, find?, h, this]
      · simp [insert, find?, h, h', ih]

theorem find?_modify (m : AssocMap κ ν) (k : κ) (d : ν) (f : ν → ν) (k' : κ) :
    find? (modify m k d f) k' =
      if k = k' then some (f ((find? m k).getD d)) else find? m k' := by
  induction m with
  | nil => simp [modify, find?]
  | cons kv m ih =>
    obtain ⟨k0, v0⟩ := kv
    by_cases h : k0 = k
    · subst h
      by_cases h' : k0 = k' <;> simp [modify, find?, h']
    · by_cases h' : k0 = k'
      · subst h'
        have : ¬ k = k0 := fun e => h e.symm
        simp [modify, find?, h, this]
      · simp [modify, find?, h, h', ih]

theorem get_eq_ok (m : AssocMap κ ν) (k : κ) (v : ν) : get m k = .ok v ↔ find? m k = some v := by
  unfold get
  cases find? m k <;> simp

end AssocMap

/-! ### The catalogue's indices -/

namespace TransportCatalogue

theorem stopAt_eq_ok (c : TransportCatalogue) (p : StopPtr) (s : Stop) :
    c.stopAt p = .ok s ↔ c.stops_.reverse[p]? = some s := by
  unfold stopAt
  cases c.stops_.reverse[p]? <;> simp

theorem busAt_eq_ok (c : TransportCatalogue) (p : BusPtr) (b : Bus) :
    c.busAt p = .ok b ↔ c.buses_.reverse[p]? = some b := by
  unfold busAt
  cases c.buses_.reverse[p]? <;> simp

theorem index_eq_ok {α : Type} (v : List α) (i : Nat) (a : α) :
    index v i = .ok a ↔ v[i]? = some a := by
  unfold index
  cases v[i]? <;> simp

theorem stopAt_of_lt (c : TransportCatalogue) (p : StopPtr) (h : p < c.stops_.length) :
    ∃ s, c.stopAt p = .ok s ∧ s ∈ c.stops_ := by
  have h' : p < c.stops_.reverse.length := by simpa using h
  refine ⟨c.stops_.reverse[p], ?_, ?_⟩
  · rw [stopAt_eq_ok]; exact List.getElem?_eq_getElem h'
  · exact List.mem_reverse.1 (List.getElem_mem h')

theorem reverse_cons_getElem? {α : Type} (x : α) (l : List α) (p : Nat) (h : p < l.length) :
    (x :: l).reverse[p]? = l.reverse[p]? := by
  rw [List.reverse_cons, List.getElem?_append_left (by simpa using h)]

theorem reverse_cons_getElem?_length {α : Type} (x : α) (l : List α) :
    (x :: l).reverse[l.length]? = some x := by
  rw [List.reverse_cons, List.getElem?_append_right (by simp)]
  simp

theorem reverse_cons_getElem?_gt {α : Type} (x : α) (l : List α) (p : Nat) (h : l.length < p) :
    (x :: l).reverse[p]? = none := by
  rw [List.getElem?_eq_none_iff]
  simp
  omega

theorem reverse_getElem?_lt {α : Type} (l : List α) (p : Nat) (a : α)
    (h : l.reverse[p]? = some a) : p < l.length := by
  have := (List.getElem?_eq_some_iff.1 h).1
  simpa using this

/-- The loop that appends the way back: `n` elements are appended, the first `n`
of the route in reverse order. -/
theorem pushReversed_eq (n : Nat) : ∀ (route : List StopPtr), n ≤ route.length →
    pushReversed n route = .ok (route ++ (route.take n).reverse) := by
  induction n with
  | zero => intro route _; simp [pushReversed]
  | succ i ih =>
    intro route h
    have hi : i < route.length := h
    have h1 : index route i = .ok route[i] := by
      rw [index_eq_ok]; exact List.getElem?_eq_getElem hi
    rw [pushReversed, h1]
    show pushReversed i (route ++ [route[i]]) = _
    rw [ih (route ++ [route[i]]) (by simp; omega)]
    have h2 : (route ++ [route[i]]).take i = route.take i := by
      rw [List.take_append_of_le_length (by omega)]
    have h3 : route.take (i + 1) = route.take i ++ [route[i]] := by
      rw [List.take_succ, List.getElem?_eq_getElem hi]; rfl
    rw [h2, h3, List.reverse_append, List.append_assoc]
    rfl

theorem reverseStart_add_one_toNat_le (size : Nat) :
    (reverseStart size + 1).toNat ≤ size - 1 := by
  unfold reverseStart toInt32
  split <;> omega

theorem reverseStart_add_one_toNat (size : Nat) (h : size < 2 ^ 31) :
    (reverseStart size + 1).toNat = size - 1 := by
  unfold reverseStart toInt32
  split <;> omega

theorem GetDistance_ok_of_valid (m : Libm) (c : TransportCatalogue) (a b : StopPtr)
    (ha : a < c.stops_.length) (hb : b < c.stops_.length) :
    ∃ d, GetDistance m c a b = .ok d := by
  obtain ⟨sa, hsa, _⟩ := c.stopAt_of_lt a ha
  obtain ⟨sb, hsb, _⟩ := c.stopAt_of_lt b hb
  unfold GetDistance
  cases c.tableEntry a b with
  | some d => exact ⟨d, rfl⟩
  | none =>
    cases c.tableEntry b a with
    | some d => exact ⟨d, rfl⟩
    | none => exact ⟨_, by simp only [hsa, hsb]; rfl⟩

theorem index_ok_of_lt {α : Type} (v : List α) (i : Nat) (h : i < v.length) :
    index v i = .ok v[i] := by
  rw [index_eq_ok]; exact List.getElem?_eq_getElem h

theorem ComputeRouteLength_ok_of_valid (m : Libm) (c : TransportCatalogue) (bus : Bus)
    (h : ∀ p ∈ bus.route, p < c.stops_.length) : ∃ d, ComputeRouteLength m c bus = .ok d := by
  unfold ComputeRouteLength
  by_cases h0 : bus.route.length = 0
  · exact ⟨0, by rw [if_pos h0]⟩
  · rw [if_neg h0]
    by_cases h1 : bus.route.length = 1
    · rw [if_pos h1, index_ok_of_lt bus.route 0 (by omega)]
      show ∃ d, (match c.tableEntry bus.route[0] bus.route[0] with
        | some d => pure d
        | none => pure 0) = Except.ok d
      cases c.tableEntry bus.route[0] bus.route[0] with
      | some d => exact ⟨d, rfl⟩
      | none => exact ⟨0, rfl⟩
    · rw [if_neg h1]
      obtain ⟨r, hr, _⟩ := foldlM_ok_of_step (fun _ : ℚ => True)
        (fun route_length i => do
          let a ← index bus.route (i - 1)
          let b ← index bus.route i
          let d ← GetDistance m c a b
          pure (route_length + d))
        (List.range' 1 (bus.route.length - 1)) 0 trivial
        (by
          intro acc i hi _
          rw [List.mem_range'_1] at hi
          have hi1 : i - 1 < bus.route.length := by omega
          have hi2 : i < bus.route.length := by omega
          obtain ⟨d, hd⟩ := GetDistance_ok_of_valid m c bus.route[i - 1] bus.route[i]
            (h _ (List.getElem_mem hi1)) (h _ (List.getElem_mem hi2))
          refine ⟨acc + d, ?_, trivial⟩
          simp only [index_ok_of_lt bus.route (i - 1) hi1, index_ok_of_lt bus.route i hi2]
          show (GetDistance m c bus.route[i - 1] bus.route[i] >>= fun d => pure (acc + d)) = _
          rw [hd]; rfl)
      exact ⟨r, hr⟩

theorem ComputeRouteGeographicLength_ok_of_valid (m : Libm) (c : TransportCatalogue) (bus : Bus)
    (h : ∀ p ∈ bus.route, p < c.stops_.length) :
    ∃ d, ComputeRouteGeographicLength m c bus = .ok d := by
  unfold ComputeRouteGeographicLength
  by_cases h0 : bus.route.length < 2
  · exact ⟨0, by rw [if_pos h0]⟩
  · rw [if_neg h0]
    obtain ⟨r, hr, _⟩ := foldlM_ok_of_step (fun _ : ℚ => True)
      (fun route_geo_length i => do
        let a ← index bus.route (i - 1)
        let b ← index bus.route i
        let sa ← c.stopAt a
        let sb ← c.stopAt b
        pure (route_geo_length + ComputeDistance m sa.coordinates sb.coordinates))
      (List.range' 1 (bus.route.length - 1)) 0 trivial
      (by
        intro acc i hi _
        rw [List.mem_range'_1] at hi
        have hi1 : i - 1 < bus.route.length := by omega
        have hi2 : i < bus.route.length := by omega
        obtain ⟨sa, hsa, _⟩ := c.stopAt_of_lt _ (h _ (List.getElem_mem hi1))
        obtain ⟨sb, hsb, _⟩ := c.stopAt_of_lt _ (h _ (List.getElem_mem hi2))
        refine ⟨acc + ComputeDistance m sa.coordinates sb.coordinates, ?_, trivial⟩
        simp only [index_ok_of_lt bus.route (i - 1) hi1, index_ok_of_lt bus.route i hi2]
        show (c.stopAt bus.route[i - 1] >>= fun sa => c.stopAt bus.route[i] >>= fun sb =>
          pure (acc + ComputeDistance m sa.coordinates sb.coordinates)) = _
        rw [hsa]
        show (c.stopAt bus.route[i] >>= fun sb =>
          pure (acc + ComputeDistance m sa.coordinates sb.coordinates)) = _
        rw [hsb]; rfl)
    exact ⟨r, hr⟩

/-- What the linking loop of `AddBus` does to the stop -> buses index: the list of
every visited stop name grows by one copy of the new bus per visit. -/
theorem link_fold (c : TransportCatalogue) (b : BusPtr) :
    ∀ (route : List StopPtr) (idx : AssocMap String (List BusPtr)),
      (∀ p ∈ route, ∃ s, c.stops_.reverse[p]? = some s ∧ (idx.find? s.name).isSome = true) →
      ∃ res, route.foldlM
          (fun index_ stop => do
            let s ← c.stopAt stop
            pure (AssocMap.modify index_ s.name [] (fun buses => buses ++ [b]))) idx = .ok res ∧
        ∀ n, res.find? n =
          (idx.find? n).map (fun l => l ++ List.replicate (route.countP (c.stopNamed n)) b) := by
  intro route
  induction route with
  | nil =>
    intro idx _
    refine ⟨idx, rfl, ?_⟩
    intro n
    cases idx.find? n <;> simp
  | cons p rest ih =>
    intro idx h
    obtain ⟨s, hs, hkey⟩ := h p (List.mem_cons_self _ _)
    have hstep : ∀ p' ∈ rest, ∃ s', c.stops_.reverse[p']? = some s' ∧
        ((AssocMap.modify idx s.name [] (fun buses => buses ++ [b])).find? s'.name).isSome
          = true := by
      intro p' hp'
      obtain ⟨s', hs', hkey'⟩ := h p' (List.mem_cons_of_mem _ hp')
      refine ⟨s', hs', ?_⟩
      rw [AssocMap.find?_modify]
      split
      · rfl
      · exact hkey'
    obtain ⟨res, hres, hfind⟩ := ih _ hstep
    refine ⟨res, ?_, ?_⟩
    · rw [List.foldlM_cons, (c.stopAt_eq_ok p s).2 hs]
      exact hres
    · intro n
      rw [hfind n, AssocMap.find?_modify]
      have hnamed : c.stopNamed n p = decide (s.name = n) := by
        simp [stopNamed, hs]
      by_cases hn : s.name = n
      · subst hn
        obtain ⟨l, hl⟩ := Option.isSome_iff_exists.1 hkey
        have hc : List.countP (c.stopNamed s.name) (p :: rest) =
            List.countP (c.stopNamed s.name) rest + 1 :=
          List.countP_cons_of_pos _ _ (by simp [hnamed])
        simp [hl, hc, List.replicate_succ]
      · have hc : List.countP (c.stopNamed n) (p :: rest) = List.countP (c.stopNamed n) rest :=
          List.countP_cons_of_neg _ _ (by simp [hnamed, hn])
        simp [hn, hc]

theorem AddBusObject_eq_ok (c c' : TransportCatalogue) (bus : Bus)
    (h : c.AddBusObject bus = .ok c') :
    ∃ idx, bus.route.foldlM
        (fun index_ stop => do
          let s ← c.stopAt stop
          pure (AssocMap.modify index_ s.name [] (fun buses => buses ++ [c.buses_.length])))
        c.stop_name_to_buses_ = .ok idx ∧
      c' = { c with
        buses_ := bus :: c.buses_
        bus_name_to_bus_ := c.bus_name_to_bus_.insert bus.name c.buses_.length
        stop_name_to_buses_ := idx } := by
  unfold AddBusObject at h
  rw [Except.bind_eq_ok] at h
  obtain ⟨idx, hidx, h⟩ := h
  refine ⟨idx, hidx, ?_⟩
  simp only [pure, Except.pure, Except.ok.injEq] at h
  exact h.symm

/-- The steps of a successful `AddBus(bus_name, route, is_roundtrip)`. -/
theorem AddBus_eq_ok (m : Libm) (c c' : TransportCatalogue) (bus_name : String)
    (route : List String) (is_roundtrip : Bool)
    (h : AddBus m c bus_name route is_roundtrip = .ok c') :
    ∃ declared full route_length route_geo_length,
      route.mapM (fun stop => c.stop_name_to_stop_.get stop) = .ok declared ∧
      full = (if is_roundtrip then declared
        else declared ++ (declared.take (reverseStart declared.length + 1).toNat).reverse) ∧
      ComputeRouteLength m c { name := bus_name, route := full, is_roundtrip := is_roundtrip }
        = .ok route_length ∧
      ComputeRouteGeographicLength m c
        { name := bus_name, route := full, is_roundtrip := is_roundtrip }
        = .ok route_geo_length ∧
      c.AddBusObject
        { name := bus_name, route := full, route_length := route_length,
          curvature := route_length / route_geo_length, is_roundtrip := is_roundtrip }
        = .ok c' := by
  unfold AddBus at h
  rw [Except.bind_eq_ok] at h
  obtain ⟨declared, hdecl, h⟩ := h
  rw [Except.bind_eq_ok] at h
  obtain ⟨full, hfull, h⟩ := h
  rw [Except.bind_eq_ok] at h
  obtain ⟨rl, hrl, h⟩ := h
  rw [Except.bind_eq_ok] at h
  obtain ⟨gl, hgl, h⟩ := h
  refine ⟨declared, full, rl, gl, hdecl, ?_, hrl, hgl, h⟩
  unfold expandRoute at hfull
  cases is_roundtrip with
  | true =>
    simp only [Bool.not_true, Bool.false_eq_true, if_false, pure, Except.pure,
      Except.ok.injEq] at hfull
    simp [hfull]
  | false =>
    simp only [Bool.not_false, if_true] at hfull
    rw [pushReversed_eq _ _
      (le_trans (reverseStart_add_one_toNat_le _) (Nat.sub_le _ _))] at hfull
    simp only [Except.ok.injEq] at hfull
    simp [hfull]

theorem Consistent_empty : Consistent empty := by
  constructor <;> simp [empty, AssocMap.find?]

theorem Consistent_AddStop (c : TransportCatalogue) (stop : Stop) (hc : c.Consistent) :
    (c.AddStop stop).Consistent := by
  have hnamed : ∀ n p, p < c.stops_.length → (c.AddStop stop).stopNamed n p = c.stopNamed n p := by
    intro n p hp
    simp only [stopNamed, AddStop, reverse_cons_getElem? stop c.stops_ p hp]
  constructor
  · intro n p hp
    simp only [AddStop, AssocMap.find?_insert] at hp ⊢
    by_cases hn : stop.name = n
    · rw [if_pos hn] at hp
      simp only [Option.some.injEq] at hp
      subst hp
      exact ⟨stop, reverse_cons_getElem?_length _ _, hn⟩
    · rw [if_neg hn] at hp
      obtain ⟨s, hs, hsn⟩ := hc.name_valid n p hp
      exact ⟨s, by rw [reverse_cons_getElem? _ _ _ (reverse_getElem?_lt _ _ _ hs)]; exact hs, hsn⟩
  · intro s hs
    simp only [AddStop, AssocMap.find?_insert] at hs ⊢
    by_cases hn : stop.name = s.name
    · rw [if_pos hn]; rfl
    · rw [if_neg hn]
      rcases List.mem_cons.1 hs with h | h
      · exact absurd (by rw [h]) hn
      · exact hc.name_known s h
  · intro b hb p hp
    have hlt : p < c.stops_.length := hc.route_valid b hb p hp
    exact Nat.lt_succ_of_lt hlt
  · intro n p hp
    exact hc.bus_index_some n p hp
  · intro n hn
    exact hc.bus_index_none n hn
  · intro n
    simp only [AddStop, AssocMap.find?_modify, List.mem_cons]
    by_cases hn : stop.name = n
    · rw [if_pos hn]
      simp only [Option.isSome_some, true_iff]
      exact ⟨stop, Or.inl rfl, hn⟩
    · rw [if_neg hn, hc.buses_keys n]
      constructor
      · rintro ⟨s, hs, hsn⟩; exact ⟨s, Or.inr hs, hsn⟩
      · rintro ⟨s, hs | hs, hsn⟩
        · exact absurd (by rw [← hs]; exact hsn) hn
        · exact ⟨s, hs, hsn⟩
  · intro n l hl bp
    have hcount : ∀ b, c.buses_.reverse[bp]? = some b →
        b.route.countP ((c.AddStop stop).stopNamed n) = b.route.countP (c.stopNamed n) := by
      intro b hb
      have hmem : b ∈ c.buses_ :=
        List.mem_reverse.1 (List.getElem?_mem hb)
      apply List.countP_congr
      intro p hp
      rw [hnamed n p (hc.route_valid b hmem p hp)]
    have hgoal : ∀ l0, c.stop_name_to_buses_.find? n = some l0 → l0.count bp =
        match (c.AddStop stop).buses_.reverse[bp]? with
        | some b => b.route.countP ((c.AddStop stop).stopNamed n)
        | none => 0 := by
      intro l0 hl0
      rw [hc.buses_count n l0 hl0 bp]
      show _ = match c.buses_.reverse[bp]? with
        | some b => b.route.countP ((c.AddStop stop).stopNamed n)
        | none => 0
      cases hb : c.buses_.reverse[bp]? with
      | none => rfl
      | some b => exact (hcount b hb).symm
    simp only [AddStop, AssocMap.find?_modify] at hl
    by_cases hn : stop.name = n
    · rw [if_pos hn] at hl
      simp only [id, Option.some.injEq] at hl
      cases hfind : c.stop_name_to_buses_.find? stop.name with
      | some l0 =>
        rw [hfind] at hl
        simp only [Option.getD_some] at hl
        subst hl
        exact hgoal l0 (hn ▸ hfind)
      | none =>
        rw [hfind] at hl
        simp only [Option.getD_none] at hl
        subst hl
        have hno : ∀ s ∈ c.stops_, s.name ≠ n := by
          intro s hs hsn
          have := (hc.buses_keys n).2 ⟨s, hs, hsn⟩
          rw [← hn, hfind] at this
          exact absurd this (by simp)
        show 0 = match c.buses_.reverse[bp]? with
          | some b => b.route.countP ((c.AddStop stop).stopNamed n)
          | none => 0
        cases hb : c.buses_.reverse[bp]? with
        | none => rfl
        | some b =>
          show 0 = b.route.countP ((c.AddStop stop).stopNamed n)
          rw [hcount b hb]
          symm
          rw [List.countP_eq_zero]
          intro p hp hnamed'
          simp only [stopNamed, decide_eq_true_eq] at hnamed'
          cases hs : c.stops_.reverse[p]? with
          | none => rw [hs] at hnamed'; simp at hnamed'
          | some s0 =>
            rw [hs] at hnamed'
            simp only [Option.map_some', Option.some.injEq] at hnamed'
            exact hno s0 (List.mem_reverse.1 (List.getElem?_mem hs)) hnamed'
    · rw [if_neg hn] at hl
      exact hgoal l hl

theorem Consistent_AddDistance (c c' : TransportCatalogue) (a b : String) (d : ℚ)
    (hc : c.Consistent) (h : c.AddDistance a b d = .ok c') : c'.Consistent := by
  unfold AddDistance at h
  rw [Except.bind_eq_ok] at h
  obtain ⟨x, _, h⟩ := h
  rw [Except.bind_eq_ok] at h
  obtain ⟨y, _, h⟩ := h
  simp only [pure, Except.pure, Except.ok.injEq] at h
  subst h
  exact ⟨hc.name_valid, hc.name_known, hc.route_valid, hc.bus_index_some, hc.bus_index_none,
    hc.buses_keys, hc.buses_count⟩

theorem Consistent_AddBusObject (c c' : TransportCatalogue) (bus : Bus) (hc : c.Consistent)
    (hv : ∀ p ∈ bus.route, p < c.stops_.length) (h : c.AddBusObject bus = .ok c') :
    c'.Consistent := by
  obtain ⟨idx, hidx, hc'⟩ := AddBusObject_eq_ok c c' bus h
  have hkeys : ∀ p ∈ bus.route, ∃ s, c.stops_.reverse[p]? = some s ∧
      (c.stop_name_to_buses_.find? s.name).isSome = true := by
    intro p hp
    obtain ⟨s, hs, hmem⟩ := c.stopAt_of_lt p (hv p hp)
    exact ⟨s, (c.stopAt_eq_ok p s).1 hs, (hc.buses_keys s.name).2 ⟨s, hmem, rfl⟩⟩
  obtain ⟨res, hres, hfind⟩ := link_fold c c.buses_.length bus.route c.stop_name_to_buses_ hkeys
  rw [hidx] at hres
  simp only [Except.ok.injEq] at hres
  subst hres
  subst hc'
  constructor
  · exact hc.name_valid
  · exact hc.name_known
  · intro b hb p hp
    rcases List.mem_cons.1 hb with hb | hb
    · subst hb; exact hv p hp
    · exact hc.route_valid b hb p hp
  · intro n p hp
    simp only [AssocMap.find?_insert] at hp
    by_cases hn : bus.name = n
    · rw [if_pos hn] at hp
      simp only [Option.some.injEq] at hp
      subst hp
      exact ⟨bus, reverse_cons_getElem?_length _ _, hn, by simp [List.find?, hn]⟩
    · rw [if_neg hn] at hp
      obtain ⟨b, hb, hbn, hfirst⟩ := hc.bus_index_some n p hp
      refine ⟨b, ?_, hbn, ?_⟩
      · show (bus :: c.buses_).reverse[p]? = some b
        rw [reverse_cons_getElem? _ _ _ (reverse_getElem?_lt _ _ _ hb)]; exact hb
      · show (bus :: c.buses_).find? _ = some b
        rw [List.find?_cons_of_neg _ (by simpa using hn)]; exact hfirst
  · intro n hn b hb
    simp only [AssocMap.find?_insert] at hn
    by_cases hbn : bus.name = n
    · rw [if_pos hbn] at hn; exact absurd hn (by simp)
    · rw [if_neg hbn] at hn
      rcases List.mem_cons.1 hb with hb | hb
      · subst hb; exact hbn
      · exact hc.bus_index_none n hn b hb
  · intro n
    show (idx.find? n).isSome = true ↔ _
    rw [hfind n, Option.isSome_map']
    exact hc.buses_keys n
  · intro n l hl bp
    have hl' : idx.find? n = some l := hl
    rw [hfind n] at hl'
    cases hold : c.stop_name_to_buses_.find? n with
    | none => rw [hold] at hl'; simp at hl'
    | some l0 =>
      rw [hold] at hl'
      simp only [Option.map_some', Option.some.injEq] at hl'
      subst hl'
      rw [List.count_append, hc.buses_count n l0 hold bp, List.count_replicate]
      show _ = match (bus :: c.buses_).reverse[bp]? with
        | some b => b.route.countP (c.stopNamed n)
        | none => 0
      rcases Nat.lt_trichotomy bp c.buses_.length with hlt | heq | hgt
      · rw [reverse_cons_getElem? _ _ _ hlt]
        have : ¬ c.buses_.length = bp := by omega
        simp [this]
      · subst heq
        rw [reverse_cons_getElem?_length]
        have hnone : c.buses_.reverse[c.buses_.length]? = none := by
          rw [List.getElem?_eq_none_iff]; simp
        rw [hnone]
        simp
      · rw [reverse_cons_getElem?_gt _ _ _ hgt]
        have hnone : c.buses_.reverse[bp]? = none := by
          rw [List.getElem?_eq_none_iff]; simp; omega
        have : ¬ c.buses_.length = bp := by omega
        rw [hnone]
        simp [this]

theorem declared_valid (c : TransportCatalogue) (hc : c.Consistent) (route : List String)
    (declared : List StopPtr)
    (h : route.mapM (fun stop => c.stop_name_to_stop_.get stop) = .ok declared) :
    List.Forall₂ (fun n p => c.stop_name_to_stop_.find? n = some p ∧
      ∃ s, c.stopAt p = .ok s ∧ s.name = n) route declared := by
  rw [mapM_ok_forall₂] at h
  refine h.imp ?_
  intro n p hnp
  rw [AssocMap.get_eq_ok] at hnp
  obtain ⟨s, hs, hsn⟩ := hc.name_valid n p hnp
  exact ⟨hnp, s, (c.stopAt_eq_ok p s).2 hs, hsn⟩

theorem forall₂_right_mem {α β : Type} {R : α → β → Prop} {l : List α} {r : List β}
    (h : List.Forall₂ R l r) : ∀ b ∈ r, ∃ a ∈ l, R a b := by
  induction h with
  | nil => intro b hb; cases hb
  | cons hab _ ih =>
    intro b hb
    rcases List.mem_cons.1 hb with hb | hb
    · subst hb; exact ⟨_, List.mem_cons_self _ _, hab⟩
    · obtain ⟨a, ha, hr⟩ := ih b hb
      exact ⟨a, List.mem_cons_of_mem _ ha, hr⟩

theorem full_route_valid (c : TransportCatalogue) (hc : c.Consistent) (route : List String)
    (declared full : List StopPtr) (is_roundtrip : Bool)
    (h : route.mapM (fun stop => c.stop_name_to_stop_.get stop) = .ok declared)
    (hfull : full = (if is_roundtrip then declared
        else declared ++ (declared.take (reverseStart declared.length + 1).toNat).reverse)) :
    ∀ p ∈ full, p < c.stops_.length := by
  have hd : ∀ p ∈ declared, p < c.stops_.length := by
    intro p hp
    obtain ⟨n, _, _, s, hs, _⟩ := forall₂_right_mem (declared_valid c hc route declared h) p hp
    exact reverse_getElem?_lt _ _ _ ((c.stopAt_eq_ok p s).1 hs)
  intro p hp
  subst hfull
  split at hp
  · exact hd p hp
  · rcases List.mem_append.1 hp with hp | hp
    · exact hd p hp
    · exact hd p (List.mem_of_mem_take (List.mem_reverse.1 hp))

theorem Consistent_AddBus (m : Libm) (c c' : TransportCatalogue) (bus_name : String)
    (route : List String) (is_roundtrip : Bool) (hc : c.Consistent)
    (h : AddBus m c bus_name route is_roundtrip = .ok c') : c'.Consistent := by
  obtain ⟨declared, full, rl, gl, hdecl, hfull, _, _, hobj⟩ :=
    AddBus_eq_ok m c c' bus_name route is_roundtrip h
  exact Consistent_AddBusObject c c' _ hc
    (full_route_valid c hc route declared full is_roundtrip hdecl hfull) hobj

theorem Consistent_of_Built (m : Libm) (c : TransportCatalogue) (h : Built m c) :
    c.Consistent := by
  induction h with
  | empty => exact Consistent_empty
  | add_stop stop _ ih => exact Consistent_AddStop _ stop ih
  | add_distance a b d _ h ih => exact Consistent_AddDistance _ _ a b d ih h
  | add_bus n r rt _ h ih => exact Consistent_AddBus m _ _ n r rt ih h

theorem mapM_ok_of_forall {α β : Type} (f : α → Except Fault β) :
    ∀ (l : List α), (∀ a ∈ l, ∃ b, f a = .ok b) → ∃ r, l.mapM f = .ok r := by
  intro l
  induction l with
  | nil => intro _; exact ⟨[], rfl⟩
  | cons a l ih =>
    intro h
    obtain ⟨b, hb⟩ := h a (List.mem_cons_self _ _)
    obtain ⟨r, hr⟩ := ih (fun a' ha' => h a' (List.mem_cons_of_mem _ ha'))
    exact ⟨b :: r, (mapM_ok_forall₂ f _ _).2
      (List.Forall₂.cons hb ((mapM_ok_forall₂ f _ _).1 hr))⟩

theorem AddBusObject_ok_of_valid (c : TransportCatalogue) (bus : Bus) (hc : c.Consistent)
    (hv : ∀ p ∈ bus.route, p < c.stops_.length) : ∃ c', c.AddBusObject bus = .ok c' := by
  have hkeys : ∀ p ∈ bus.route, ∃ s, c.stops_.reverse[p]? = some s ∧
      (c.stop_name_to_buses_.find? s.name).isSome = true := by
    intro p hp
    obtain ⟨s, hs, hmem⟩ := c.stopAt_of_lt p (hv p hp)
    exact ⟨s, (c.stopAt_eq_ok p s).1 hs, (hc.buses_keys s.name).2 ⟨s, hmem, rfl⟩⟩
  obtain ⟨res, hres, _⟩ := link_fold c c.buses_.length bus.route c.stop_name_to_buses_ hkeys
  refine ⟨{ c with
    buses_ := bus :: c.buses_
    bus_name_to_bus_ := c.bus_name_to_bus_.insert bus.name c.buses_.length
    stop_name_to_buses_ := res }, ?_⟩
  unfold AddBusObject
  rw [Except.bind_eq_ok]
  exact ⟨res, hres, rfl⟩

/-- `AddBus` returns normally when every stop name of the route is known. -/
theorem AddBus_ok_of_known (m : Libm) (c : TransportCatalogue) (hc : c.Consistent)
    (bus_name : String) (route : List String) (is_roundtrip : Bool)
    (hknown : ∀ s ∈ route, c.stop_name_to_stop_.count s = true) :
    ∃ c', AddBus m c bus_name route is_roundtrip = .ok c' := by
  obtain ⟨declared, hdecl⟩ := mapM_ok_of_forall (fun stop => c.stop_name_to_stop_.get stop) route
    (by
      intro s hs
      obtain ⟨p, hp⟩ := Option.isSome_iff_exists.1 (hknown s hs)
      exact ⟨p, (AssocMap.get_eq_ok _ _ _).2 hp⟩)
  have hexp : expandRoute declared is_roundtrip = .ok (if is_roundtrip then declared
      else declared ++ (declared.take (reverseStart declared.length + 1).toNat).reverse) := by
    unfold expandRoute
    cases is_roundtrip with
    | true => rfl
    | false =>
      simp only [Bool.not_false, if_true, Bool.false_eq_true, if_false]
      exact pushReversed_eq _ _ (le_trans (reverseStart_add_one_toNat_le _) (Nat.sub_le _ _))
  have hv := full_route_valid c hc route declared _ is_roundtrip hdecl rfl
  obtain ⟨rl, hrl⟩ := ComputeRouteLength_ok_of_valid m c
    { name := bus_name, route := (if is_roundtrip then declared
      else declared ++ (declared.take (reverseStart declared.length + 1).toNat).reverse),
      is_roundtrip := is_roundtrip } hv
  obtain ⟨gl, hgl⟩ := ComputeRouteGeographicLength_ok_of_valid m c
    { name := bus_name, route := (if is_roundtrip then declared
      else declared ++ (declared.take (reverseStart declared.length + 1).toNat).reverse),
      is_roundtrip := is_roundtrip } hv
  obtain ⟨c', hc'⟩ := AddBusObject_ok_of_valid c
    { name := bus_name, route := (if is_roundtrip then declared
      else declared ++ (declared.take (reverseStart declared.length + 1).toNat).reverse),
      route_length := rl, curvature := rl / gl, is_roundtrip := is_roundtrip } hc hv
  refine ⟨c', ?_⟩
  unfold AddBus
  rw [Except.bind_eq_ok]
  refine ⟨declared, hdecl, ?_⟩
  rw [Except.bind_eq_ok]
  refine ⟨_, hexp, ?_⟩
  rw [Except.bind_eq_ok]
  refine ⟨rl, hrl, ?_⟩
  rw [Except.bind_eq_ok]
  exact ⟨gl, hgl, hc'⟩

theorem take_pred_reverse {α : Type} (l : List α) :
    (l.take (l.length - 1)).reverse = l.reverse.tail := by
  rcases List.eq_nil_or_concat l with h | ⟨l', a, h⟩
  · subst h; rfl
  · subst h
    simp

theorem append_reverse_tail_palindrome {α : Type} (l : List α) :
    (l ++ l.reverse.tail).reverse = l ++ l.reverse.tail := by
  rcases List.eq_nil_or_concat l with h | ⟨l', a, h⟩
  · subst h; rfl
  · subst h
    simp

theorem length_append_reverse_tail {α : Type} (l : List α) (h : 1 ≤ l.length) :
    (l ++ l.reverse.tail).length = 2 * l.length - 1 := by
  simp
  omega

theorem forall₂_length_eq {α β : Type} {R : α → β → Prop} {l : List α} {r : List β}
    (h : List.Forall₂ R l r) : l.length = r.length := by
  induction h with
  | nil => rfl
  | cons _ _ ih => simp [ih]

/-- A loop that adds up the values of its steps returns their sum. -/
theorem foldlM_sum (f : Nat → Except Fault ℚ) : ∀ (n s : Nat) (acc r : ℚ),
    (List.range' s n).foldlM (fun a i => f i >>= fun d => pure (a + d)) acc = .ok r →
    (∀ i, s ≤ i → i < s + n → ∃ x, f i = .ok x) ∧
    r = acc + ∑ i ∈ Finset.Ico s (s + n),
      (match f i with
        | .ok x => x
        | .error _ => 0) := by
  intro n
  induction n with
  | zero =>
    intro s acc r h
    simp only [List.range', List.foldlM_nil, pure, Except.pure, Except.ok.injEq] at h
    refine ⟨fun i h1 h2 => by omega, ?_⟩
    simp [h]
  | succ n ih =>
    intro s acc r h
    rw [List.range', List.foldlM_cons, Except.bind_eq_ok] at h
    obtain ⟨acc', hacc', h⟩ := h
    rw [Except.bind_eq_ok] at hacc'
    obtain ⟨d0, hd0, hacc'⟩ := hacc'
    simp only [pure, Except.pure, Except.ok.injEq] at hacc'
    subst hacc'
    obtain ⟨hall, hr⟩ := ih (s + 1) (acc + d0) r h
    refine ⟨?_, ?_⟩
    · intro i h1 h2
      by_cases hi : i = s
      · subst hi; exact ⟨d0, hd0⟩
      · exact hall i (by omega) (by omega)
    · rw [hr, Finset.sum_eq_sum_Ico_succ_bot (by omega : s < s + (n + 1))]
      have : s + 1 + n = s + (n + 1) := by omega
      rw [this, hd0]
      ring

theorem GetBusInfo_after_AddBusObject (c c' : TransportCatalogue) (bus : Bus)
    (h : c.AddBusObject bus = .ok c') :
    c'.buses_ = bus :: c.buses_ ∧
    GetBusInfo c' bus.name = .ok (some
      { stop_count := bus.route.length
        unique_stop_count := bus.route.dedup.length
        route_length := bus.route_length
        curvature := bus.curvature }) := by
  obtain ⟨idx, _, hceq⟩ := AddBusObject_eq_ok c c' bus h
  have hfind : c'.bus_name_to_bus_.find? bus.name = some c.buses_.length := by
    rw [hceq]; simp [AssocMap.find?_insert]
  have hbus : c'.busAt c.buses_.length = .ok bus := by
    rw [busAt_eq_ok, hceq]
    exact reverse_cons_getElem?_length _ _
  refine ⟨by rw [hceq], ?_⟩
  simp only [GetBusInfo, hfind, hbus]
  rfl

theorem data_lt_iff (x y : String) : x.data < y.data ↔ x < y :=
  String.lt_iff_toList_lt.symm

theorem mem_setInsert (x y : String) (l : List String) :
    y ∈ setInsert x l ↔ y = x ∨ y ∈ l := by
  induction l with
  | nil => simp [setInsert]
  | cons z zs ih =>
    unfold setInsert
    by_cases h1 : x.data < z.data
    · rw [if_pos h1]; simp
    · rw [if_neg h1]
      by_cases h2 : z.data < x.data
      · rw [if_pos h2]
        simp only [List.mem_cons, ih]
        tauto
      · rw [if_neg h2]
        rw [data_lt_iff] at h1 h2
        have hxz : x = z := le_antisymm (not_lt.1 h2) (not_lt.1 h1)
        subst hxz
        simp

theorem sorted_setInsert (x : String) (l : List String) (h : l.Sorted (· < ·)) :
    (setInsert x l).Sorted (· < ·) := by
  induction l with
  | nil => simp [setInsert]
  | cons z zs ih =>
    rw [List.sorted_cons] at h
    unfold setInsert
    by_cases h1 : x.data < z.data
    · rw [if_pos h1]
      rw [data_lt_iff] at h1
      rw [List.sorted_cons]
      refine ⟨?_, List.sorted_cons.2 h⟩
      intro b hb
      rcases List.mem_cons.1 hb with hb | hb
      · rw [hb]; exact h1
      · exact lt_trans h1 (h.1 b hb)
    · rw [if_neg h1]
      by_cases h2 : z.data < x.data
      · rw [if_pos h2]
        rw [data_lt_iff] at h2
        rw [List.sorted_cons]
        refine ⟨?_, ih h.2⟩
        intro b hb
        rcases (mem_setInsert x b zs).1 hb with hb | hb
        · rw [hb]; exact h2
        · exact h.1 b hb
      · rw [if_neg h2]
        exact List.sorted_cons.2 h

/-- The loop of `GetStopInfo` over valid bus pointers: the result is the ascending
list of the names of the designated buses. -/
theorem names_fold (c : TransportCatalogue) :
    ∀ (ptrs : List BusPtr) (init : List String),
      (∀ bp ∈ ptrs, ∃ b, c.buses_.reverse[bp]? = some b) → init.Sorted (· < ·) →
      ∃ res, ptrs.foldlM
          (fun buses bus => do
            let b ← c.busAt bus
            pure (setInsert b.name buses)) init = .ok res ∧
        res.Sorted (· < ·) ∧
        ∀ x, x ∈ res ↔ x ∈ init ∨ ∃ bp ∈ ptrs, ∃ b, c.buses_.reverse[bp]? = some b ∧ b.name = x := by
  intro ptrs
  induction ptrs with
  | nil =>
    intro init _ hs
    exact ⟨init, rfl, hs, by simp⟩
  | cons bp rest ih =>
    intro init hv hs
    obtain ⟨b, hb⟩ := hv bp (List.mem_cons_self _ _)
    obtain ⟨res, hres, hsorted, hmem⟩ := ih (setInsert b.name init)
      (fun bp' hbp' => hv bp' (List.mem_cons_of_mem _ hbp')) (sorted_setInsert _ _ hs)
    refine ⟨res, ?_, hsorted, ?_⟩
    · rw [List.foldlM_cons, (c.busAt_eq_ok bp b).2 hb]
      exact hres
    · intro x
      rw [hmem x, mem_setInsert]
      constructor
      · rintro ((h | h) | ⟨bp', hbp', b', hb', hx⟩)
        · exact Or.inr ⟨bp, List.mem_cons_self _ _, b, hb, h.symm⟩
        · exact Or.inl h
        · exact Or.inr ⟨bp', List.mem_cons_of_mem _ hbp', b', hb', hx⟩
      · rintro (h | ⟨bp', hbp', b', hb', hx⟩)
        · exact Or.inl (Or.inr h)
        · rcases List.mem_cons.1 hbp' with h | h
          · subst h
            rw [hb] at hb'
            simp only [Option.some.injEq] at hb'
            subst hb'
            exact Or.inl (Or.inl hx.symm)
          · exact Or.inr ⟨bp', h, b', hb', hx⟩

/-- With unique stop names, a valid pointer designates a stop named `n` exactly
when it is the pointer of that stop. -/
theorem stopNamed_iff_eq (c : TransportCatalogue) (hu : (c.stops_.map Stop.name).Nodup)
    (p q : StopPtr) (s : Stop) (hp : c.stops_.reverse[p]? = some s) :
    c.stopNamed s.name q = true ↔ q = p := by
  simp only [stopNamed, decide_eq_true_eq]
  constructor
  · intro hq
    cases hq' : c.stops_.reverse[q]? with
    | none => rw [hq'] at hq; simp at hq
    | some s' =>
      rw [hq'] at hq
      simp only [Option.map_some', Option.some.injEq] at hq
      have hu' : (c.stops_.reverse.map Stop.name).Nodup := by
        rw [List.map_reverse]; exact List.nodup_reverse.2 hu
      have hpl : p < (c.stops_.reverse.map Stop.name).length := by
        simpa using reverse_getElem?_lt _ _ _ hp
      have hql : q < (c.stops_.reverse.map Stop.name).length := by
        simpa using reverse_getElem?_lt _ _ _ hq'
      have e1 : (c.stops_.reverse.map Stop.name)[p] = s.name := by
        obtain ⟨_, this⟩ := List.getElem?_eq_some_iff.1 hp
        rw [List.getElem_map, this]
      have e2 : (c.stops_.reverse.map Stop.name)[q] = s.name := by
        obtain ⟨_, this⟩ := List.getElem?_eq_some_iff.1 hq'
        rw [List.getElem_map, this, hq]
      exact (@List.Nodup.getElem_inj_iff _ _ hu' q hql p hpl).1 (e2.trans e1.symm)
  · rintro rfl
    rw [hp]; rfl

end TransportCatalogue

/-! ### The shortest-path engine -/

namespace graph

namespace Router

theorem foldl_inv {α β : Type} (Q : β → Prop) (f : β → α → β) :
    ∀ (l : List α) (b : β), Q b → (∀ b a, a ∈ l → Q b → Q (f b a)) → Q (l.foldl f b) := by
  intro l
  induction l with
  | nil => intro b hb _; exact hb
  | cons a l ih =>
    intro b hb hstep
    exact ih (f b a) (hstep b a (List.mem_cons_self _ _) hb)
      (fun b a' ha' => hstep b a' (List.mem_cons_of_mem _ ha'))

theorem SearchInv_initial (g : DirectedWeightedGraph EdgeInfo) (source : VertexId) :
    SearchInv g source 0 (initial source) := by
  constructor
  · intro v d hd hp
    simp only [initial] at hd
    by_cases hv : v = source
    · rw [if_pos hv] at hd
      simp only [Option.some.injEq] at hd
      exact ⟨hv, by rw [← hd]⟩
    · rw [if_neg hv] at hd; exact absurd hd (by simp)
  · intro v d edge_id hd hp
    simp only [initial] at hd
    by_cases hv : v = source
    · rw [if_pos hv] at hd
      simp only [Option.some.injEq] at hd
      rw [← hd] at hp
      exact absurd hp (by simp)
    · rw [if_neg hv] at hd; exact absurd hd (by simp)
  · intro v hv
    simp [initial] at hv
  · simp [initial]
  · right
    intro v hv
    simp only [initial] at hv
    by_cases h : v = source
    · exact h
    · rw [if_neg h] at hv; exact absurd hv (by simp)
  · exact ⟨fun _ => 0, fun v hv => by simp [initial] at hv, fun v d edge_id e hv => by
      simp [initial] at hv⟩

theorem SearchInv_mono (g : DirectedWeightedGraph EdgeInfo) (source : VertexId) (k k' : Nat)
    (st : SearchState) (hk : k ≤ k') (h : SearchInv g source k st) :
    SearchInv g source k' st := by
  obtain ⟨rank, hr1, hr2⟩ := h.ranked
  exact ⟨h.root, h.step, h.reached, h.source_data, h.source_first,
    ⟨rank, fun v hv => le_trans (hr1 v hv) hk, hr2⟩⟩

/-- Marking an unsettled reached vertex as settled. -/
theorem SearchInv_mark (g : DirectedWeightedGraph EdgeInfo) (source : VertexId) (k : Nat)
    (st : SearchState) (u : VertexId) (du : RouteInternalData)
    (h : SearchInv g source k st) (hu : st.settled u = false) (hdu : st.data u = some du) :
    SearchInv g source (k + 1)
      { st with settled := fun v => if v = u then true else st.settled v } := by
  obtain ⟨rank, hr1, hr2⟩ := h.ranked
  constructor
  · exact h.root
  · intro v d edge_id hd hp
    obtain ⟨e, du', he, hto, hset, hdata, hw⟩ := h.step v d edge_id hd hp
    refine ⟨e, du', he, hto, ?_, hdata, hw⟩
    show (if e.from_ = u then true else st.settled e.from_) = true
    rw [hset]; simp
  · intro v hv
    by_cases hvu : v = u
    · subst hvu
      show (st.data v).isSome = true
      rw [hdu]; rfl
    · have hv' : st.settled v = true := by simpa [hvu] using hv
      exact h.reached v hv'
  · exact h.source_data
  · by_cases hus : u = source
    · left
      show (if source = u then true else st.settled source) = true
      rw [if_pos hus.symm]
    · rcases h.source_first with h1 | h1
      · left
        show (if source = u then true else st.settled source) = true
        rw [h1]; simp
      · exact absurd (h1 u (by rw [hdu]; rfl)) hus
  · refine ⟨fun v => if v = u then k + 1 else rank v, ?_, ?_⟩
    · intro v hv
      by_cases hvu : v = u
      · simp [hvu]
      · have hv' : st.settled v = true := by simpa [hvu] using hv
        have := hr1 v hv'
        simp only [hvu, if_false]
        omega
    · intro v d edge_id e hv hd hp he
      obtain ⟨e', du', he', hto, hset, hdata, hw⟩ := h.step v d edge_id hd hp
      rw [he] at he'
      simp only [Option.some.injEq] at he'
      subst he'
      have hfu : e.from_ ≠ u := by
        intro hfu
        rw [hfu, hu] at hset
        exact absurd hset (by simp)
      by_cases hvu : v = u
      · have := hr1 e.from_ hset
        simp only [hfu, hvu, if_false, if_true]
        omega
      · have hv' : st.settled v = true := by simpa [hvu] using hv
        have := hr2 v d edge_id e hv' hd hp he
        simp only [hfu, hvu, if_false]
        exact this

/-- Relaxing an edge that leaves a settled vertex `u` whose weight is `du`. -/
theorem SearchInv_relax (g : DirectedWeightedGraph EdgeInfo) (source : VertexId) (k : Nat)
    (st : SearchState) (u : VertexId) (du : RouteInternalData) (edge_id : EdgeId)
    (h : SearchInv g source k st) (hu : st.settled u = true) (hdu : st.data u = some du)
    (hfrom : ∀ e, g.edges_[edge_id]? = some e → e.from_ = u) :
    SearchInv g source k (relaxEdge g du.weight st edge_id) ∧
    (relaxEdge g du.weight st edge_id).settled = st.settled ∧
    (relaxEdge g du.weight st edge_id).data u = some du := by
  unfold relaxEdge
  cases he : g.edges_[edge_id]? with
  | none => exact ⟨h, rfl, hdu⟩
  | some e =>
    simp only
    by_cases hset : st.settled e.to_ = true
    · rw [if_pos hset]; exact ⟨h, rfl, hdu⟩
    · rw [if_neg hset]
      have hset' : st.settled e.to_ = false := by simpa using hset
      have hne : ∀ v, st.settled v = true → v ≠ e.to_ := by
        intro v hv hve
        rw [hve, hset'] at hv
        exact absurd hv (by simp)
      have hss : st.settled source = true := by
        rcases h.source_first with h1 | h1
        · exact h1
        · have := h1 u (by rw [hdu]; rfl)
          rw [← this]; exact hu
      have himproved : SearchInv g source k
          { st with
            data := fun v =>
              if v = e.to_ then
                some { weight := EdgeInfo.ofTime (du.weight.add e.weight),
                       prev_edge := some edge_id }
              else st.data v } ∧
          ({ st with
            data := fun v =>
              if v = e.to_ then
                some { weight := EdgeInfo.ofTime (du.weight.add e.weight),
                       prev_edge := some edge_id }
              else st.data v } : SearchState).data u = some du := by
        refine ⟨?_, ?_⟩
        · obtain ⟨rank, hr1, hr2⟩ := h.ranked
          constructor
          · intro v d hd hp
            by_cases hv : v = e.to_
            · simp only [hv, if_true, Option.some.injEq] at hd
              rw [← hd] at hp
              exact absurd hp (by simp)
            · simp only [hv, if_false] at hd
              exact h.root v d hd hp
          · intro v d edge_id' hd hp
            by_cases hv : v = e.to_
            · simp only [hv, if_true, Option.some.injEq] at hd
              rw [← hd] at hp
              simp only [Option.some.injEq] at hp
              subst hp
              refine ⟨e, du, he, hv.symm, ?_, ?_, ?_⟩
              · rw [hfrom e he]; exact hu
              · rw [hfrom e he]
                simp only [hne u hu, if_false]
                exact hdu
              · rw [← hd]; rfl
            · simp only [hv, if_false] at hd
              obtain ⟨e', du', he', hto, hset'', hdata, hw⟩ := h.step v d edge_id' hd hp
              refine ⟨e', du', he', hto, hset'', ?_, hw⟩
              simp only [hne _ hset'', if_false]
              exact hdata
          · intro v hv
            simp only [hne v hv, if_false]
            exact h.reached v hv
          · simp only [hne source hss, if_false]
            exact h.source_data
          · exact Or.inl hss
          · refine ⟨rank, hr1, ?_⟩
            intro v d edge_id' e' hv hd hp he'
            simp only [hne v hv, if_false] at hd
            exact hr2 v d edge_id' e' hv hd hp he'
        · simp only [hne u hu, if_false]
          exact hdu
      cases hold : st.data e.to_ with
      | none => exact ⟨himproved.1, rfl, himproved.2⟩
      | some old =>
        simp only
        by_cases hlt : (EdgeInfo.ofTime (du.weight.add e.weight)).lt old.weight = true
        · rw [if_pos hlt]; exact ⟨himproved.1, rfl, himproved.2⟩
        · rw [if_neg hlt]; exact ⟨h, rfl, hdu⟩

theorem mem_GetIncidentEdges (g : DirectedWeightedGraph EdgeInfo) (u : VertexId)
    (edge_id : EdgeId) (h : edge_id ∈ g.GetIncidentEdges u) :
    ∀ e, g.edges_[edge_id]? = some e → e.from_ = u := by
  intro e he
  simp only [DirectedWeightedGraph.GetIncidentEdges, List.mem_filter, he, decide_eq_true_eq] at h
  exact h.2

theorem SearchInv_settle (g : DirectedWeightedGraph EdgeInfo) (source : VertexId) (k : Nat)
    (st : SearchState) (u : VertexId) (du : RouteInternalData)
    (h : SearchInv g source k st) (hu : st.settled u = false) (hdu : st.data u = some du) :
    SearchInv g source (k + 1) (settle g u du st) := by
  have hmark := SearchInv_mark g source k st u du h hu hdu
  have := foldl_inv
    (fun st' : SearchState => SearchInv g source (k + 1) st' ∧ st'.settled u = true ∧
      st'.data u = some du)
    (relaxEdge g du.weight) (g.GetIncidentEdges u)
    { st with settled := fun v => if v = u then true else st.settled v }
    ⟨hmark, by simp, hdu⟩
    (by
      intro st' edge_id hmem ⟨hinv, hset, hdata⟩
      obtain ⟨h1, h2, h3⟩ := SearchInv_relax g source (k + 1) st' u du edge_id hinv hset hdata
        (mem_GetIncidentEdges g u edge_id hmem)
      exact ⟨h1, by rw [h2]; exact hset, h3⟩)
  exact this.1

theorem nextVertex_spec (g : DirectedWeightedGraph EdgeInfo) (st : SearchState)
    (u : VertexId) (du : RouteInternalData) (h : nextVertex g st = some (u, du)) :
    st.settled u = false ∧ st.data u = some du := by
  have := foldl_inv
    (fun best : Option (VertexId × RouteInternalData) =>
      ∀ u du, best = some (u, du) → st.settled u = false ∧ st.data u = some du)
    (fun best v =>
      if st.settled v then best
      else
        match st.data v with
        | none => best
        | some dv =>
          match best with
          | none => some (v, dv)
          | some (u, du) => if dv.weight.lt du.weight then some (v, dv) else some (u, du))
    (List.range g.vertex_count) none
    (by intro u du h; exact absurd h (by simp))
    (by
      intro best v _ hbest u du hres
      by_cases hs : st.settled v = true
      · simp only [hs, if_true] at hres
        exact hbest u du hres
      · simp only [hs] at hres
        have hs' : st.settled v = false := by simpa using hs
        cases hd : st.data v with
        | none =>
          simp only [hd] at hres
          exact hbest u du hres
        | some dv =>
          simp only [hd] at hres
          cases hb : best with
          | none =>
            simp only [hb, Bool.false_eq_true, if_false, Option.some.injEq, Prod.mk.injEq] at hres
            obtain ⟨h1, h2⟩ := hres
            subst h1; subst h2
            exact ⟨hs', hd⟩
          | some ub =>
            obtain ⟨u0, du0⟩ := ub
            simp only [hb, Bool.false_eq_true, if_false] at hres
            by_cases hlt : dv.weight.lt du0.weight = true
            · simp only [hlt, if_true, Option.some.injEq, Prod.mk.injEq] at hres
              obtain ⟨h1, h2⟩ := hres
              subst h1; subst h2
              exact ⟨hs', hd⟩
            · simp only [hlt, Bool.false_eq_true, if_false, Option.some.injEq,
                Prod.mk.injEq] at hres
              obtain ⟨h1, h2⟩ := hres
              subst h1; subst h2
              exact hbest u0 du0 hb)
  exact this u du h

theorem SearchInv_search (g : DirectedWeightedGraph EdgeInfo) (source : VertexId) :
    ∀ (fuel k : Nat) (st : SearchState), SearchInv g source k st →
      SearchInv g source (k + fuel) (search g fuel st) := by
  intro fuel
  induction fuel with
  | zero => intro k st h; exact h
  | succ fuel ih =>
    intro k st h
    unfold search
    cases hn : nextVertex g st with
    | none => exact SearchInv_mono g source k _ st (by omega) h
    | some ud =>
      obtain ⟨u, du⟩ := ud
      obtain ⟨hu, hdu⟩ := nextVertex_spec g st u du hn
      have := ih (k + 1) _ (SearchInv_settle g source k st u du h hu hdu)
      have e : k + 1 + fuel = k + (fuel + 1) := by omega
      rw [e] at this
      exact this

theorem SearchInv_dijkstra (g : DirectedWeightedGraph EdgeInfo) (source : VertexId) :
    SearchInv g source g.vertex_count (dijkstra g source) := by
  have := SearchInv_search g source g.vertex_count 0 (initial source) (SearchInv_initial g source)
  simpa [dijkstra] using this

theorem Walk_append_edge (g : DirectedWeightedGraph EdgeInfo) (s : VertexId)
    (path : List EdgeId) (edge_id : EdgeId) (e : Edge EdgeInfo) (v : VertexId)
    (hw : Walk g s path v) (he : g.edges_[edge_id]? = some e) (hv : e.from_ = v) :
    Walk g s (path ++ [edge_id]) e.to_ := by
  induction hw with
  | nil v => exact Walk.cons e he hv (Walk.nil _)
  | cons e' he' hu _ ih => exact Walk.cons e' he' hu (ih hv)

theorem Walk_ne_cons (g : DirectedWeightedGraph EdgeInfo) (s t : VertexId)
    (path : List EdgeId) (hw : Walk g s path t) (hne : s ≠ t) :
    ∃ edge_id rest e, path = edge_id :: rest ∧ g.edges_[edge_id]? = some e ∧ e.from_ = s := by
  cases hw with
  | nil => exact absurd rfl hne
  | cons e he hfrom _ => exact ⟨_, _, e, rfl, he, hfrom⟩

theorem pathTime_append_edge (g : DirectedWeightedGraph EdgeInfo) (path : List EdgeId)
    (edge_id : EdgeId) :
    pathTime g (path ++ [edge_id]) = pathTime g path + edgeTime g edge_id := by
  simp [pathTime]

/-- The predecessor reconstruction from a settled vertex returns, within a budget
of its rank plus one, a walk from the source whose time is the vertex's weight. -/
theorem walkBack_settled (g : DirectedWeightedGraph EdgeInfo) (source : VertexId) (k : Nat)
    (st : SearchState) (h : SearchInv g source k st) (rank : VertexId → Nat)
    (hr : ∀ v d edge_id e, st.settled v = true → st.data v = some d →
      d.prev_edge = some edge_id → g.edges_[edge_id]? = some e → rank e.from_ < rank v) :
    ∀ (n : Nat) (v : VertexId) (d : RouteInternalData), st.settled v = true →
      st.data v = some d → rank v ≤ n → ∀ acc, ∃ path,
        walkBack g st (n + 1) v acc = .ok (path ++ acc) ∧ Walk g source path v ∧
        pathTime g path = d.weight.time := by
  intro n
  induction n with
  | zero =>
    intro v d hv hd hrank acc
    cases hp : d.prev_edge with
    | none =>
      obtain ⟨hvs, hw⟩ := h.root v d hd hp
      refine ⟨[], ?_, hvs ▸ Walk.nil _, by rw [hw]; rfl⟩
      simp [walkBack, hd, hp]
    | some edge_id =>
      obtain ⟨e, du, he, _, _, _, _⟩ := h.step v d edge_id hd hp
      have := hr v d edge_id e hv hd hp he
      omega
  | succ n ih =>
    intro v d hv hd hrank acc
    cases hp : d.prev_edge with
    | none =>
      obtain ⟨hvs, hw⟩ := h.root v d hd hp
      refine ⟨[], ?_, hvs ▸ Walk.nil _, by rw [hw]; rfl⟩
      simp [walkBack, hd, hp]
    | some edge_id =>
      obtain ⟨e, du, he, hto, hset, hdata, hw⟩ := h.step v d edge_id hd hp
      have hlt := hr v d edge_id e hv hd hp he
      obtain ⟨path, hpath, hwalk, htime⟩ := ih e.from_ du hset hdata (by omega) (edge_id :: acc)
      refine ⟨path ++ [edge_id], ?_, ?_, ?_⟩
      · rw [walkBack]
        simp only [hd, hp, he]
        rw [hpath]
        simp
      · exact hto ▸ Walk_append_edge g source path edge_id e e.from_ hwalk he rfl
      · rw [pathTime_append_edge, htime, hw]
        simp [edgeTime, he]

/-- The engine's `build_route`: it always returns; a returned route is a walk from
`s` to `t` whose weight is the sum of the times of its edges; from a vertex to
itself the route is empty with weight zero. -/
theorem BuildRoute_spec (r : Router) (s t : VertexId) :
    (∃ res, r.BuildRoute s t = .ok res) ∧
    (∀ raw, r.BuildRoute s t = .ok (some raw) →
      Walk r.graph_ s raw.edges t ∧ raw.weight.time = pathTime r.graph_ raw.edges) ∧
    r.BuildRoute s s = .ok (some { weight := {}, edges := [] }) := by
  have h := SearchInv_dijkstra r.graph_ s
  obtain ⟨rank, hr1, hr2⟩ := h.ranked
  have hself : r.BuildRoute s s = .ok (some { weight := {}, edges := [] }) := by
    simp only [BuildRoute, h.source_data, walkBack]
    rfl
  have hkey : ∀ d, (dijkstra r.graph_ s).data t = some d → ∃ path,
      walkBack r.graph_ (dijkstra r.graph_ s) (r.graph_.vertex_count + 2) t [] = .ok path ∧
      Walk r.graph_ s path t ∧ pathTime r.graph_ path = d.weight.time := by
    intro d hd
    by_cases hset : (dijkstra r.graph_ s).settled t = true
    · obtain ⟨path, hp, hw, ht⟩ := walkBack_settled r.graph_ s _ _ h rank hr2
        (r.graph_.vertex_count + 1) t d hset hd (by have := hr1 t hset; omega) []
      exact ⟨path, by simpa using hp, hw, ht⟩
    · cases hp : d.prev_edge with
      | none =>
        obtain ⟨hvs, hw⟩ := h.root t d hd hp
        refine ⟨[], ?_, hvs ▸ Walk.nil _, by rw [hw]; rfl⟩
        simp [walkBack, hd, hp]
      | some edge_id =>
        obtain ⟨e, du, he, hto, hsettled, hdata, hw⟩ := h.step t d edge_id hd hp
        obtain ⟨path, hpath, hwalk, htime⟩ := walkBack_settled r.graph_ s _ _ h rank hr2
          r.graph_.vertex_count e.from_ du hsettled hdata (hr1 _ hsettled) [edge_id]
        refine ⟨path ++ [edge_id], ?_, ?_, ?_⟩
        · rw [walkBack]
          simp only [hd, hp, he]
          exact hpath
        · exact hto ▸ Walk_append_edge r.graph_ s path edge_id e e.from_ hwalk he rfl
        · rw [pathTime_append_edge, htime, hw]
          simp [edgeTime, he]
  refine ⟨?_, ?_, hself⟩
  · cases hd : (dijkstra r.graph_ s).data t with
    | none => exact ⟨none, by simp only [BuildRoute, hd]⟩
    | some d =>
      obtain ⟨path, hp, _, _⟩ := hkey d hd
      exact ⟨some { weight := d.weight, edges := path }, by
        simp only [BuildRoute, hd, hp]; rfl⟩
  · intro raw hraw
    cases hd : (dijkstra r.graph_ s).data t with
    | none =>
      simp only [BuildRoute, hd] at hraw
      exact absurd hraw (by simp)
    | some d =>
      obtain ⟨path, hp, hw, ht⟩ := hkey d hd
      simp only [BuildRoute, hd, hp] at hraw
      have : raw = { weight := d.weight, edges := path } := by
        have h' : (Except.ok (some { weight := d.weight, edges := path }) :
            Except Fault (Option RouteInfo)) = Except.ok (some raw) := hraw
        simp only [Except.ok.injEq, Option.some.injEq] at h'
        exact h'.symm
      subst this
      exact ⟨hw, ht.symm⟩

end Router

end graph

/-! ### The transport router -/

namespace TransportRouter

open TransportCatalogue

theorem vectorAt_eq_ok {α : Type} (v : List α) (i : Nat) (a : α) :
    vectorAt v i = .ok a ↔ v[i]? = some a := by
  unfold vectorAt
  cases v[i]? <;> simp

theorem InitStopNameToId_spec (c : TransportCatalogue) (ids : List StopPtr)
    (idx : AssocMap String Nat) (h : InitStopNameToId c ids = .ok idx) :
    ∀ name i, idx.find? name = some i →
      i < ids.length ∧ ∃ p s, ids[i]? = some p ∧ c.stopAt p = .ok s ∧ s.name = name := by
  refine foldlM_ok_inv
    (fun idx : AssocMap String Nat => ∀ name i, idx.find? name = some i →
      i < ids.length ∧ ∃ p s, ids[i]? = some p ∧ c.stopAt p = .ok s ∧ s.name = name)
    _ (List.range ids.length) [] idx ?_ ?_ h
  · intro name i hf
    simp [AssocMap.find?] at hf
  · intro b a b' ha hb hstep name i hf
    rw [Except.bind_eq_ok] at hstep
    obtain ⟨p, hp, hstep⟩ := hstep
    rw [Except.bind_eq_ok] at hstep
    obtain ⟨s, hs, hstep⟩ := hstep
    simp only [pure, Except.pure, Except.ok.injEq] at hstep
    subst hstep
    rw [AssocMap.find?_insert] at hf
    by_cases hn : s.name = name
    · rw [if_pos hn] at hf
      simp only [Option.some.injEq] at hf
      subst hf
      exact ⟨List.mem_range.1 ha, p, s, (index_eq_ok _ _ _).1 hp, hs, hn⟩
    · rw [if_neg hn] at hf
      exact hb name i hf

theorem routeVertex_lt (r : TransportRouter) (hr : r.IndexValid) (bus : Bus) (i v : Nat)
    (h : r.routeVertex bus i = .ok v) : v < r.stop_id_to_stop_.length := by
  unfold routeVertex at h
  rw [Except.bind_eq_ok] at h
  obtain ⟨p, _, h⟩ := h
  rw [Except.bind_eq_ok] at h
  obtain ⟨s, _, h⟩ := h
  exact (hr s.name v ((AssocMap.get_eq_ok _ _ _).1 h)).1

theorem AddEdge_ok (r : TransportRouter) (g : DirectedWeightedGraph EdgeInfo)
    (e' : Edge EdgeInfo) (hg : r.GraphOk g)
    (he : EdgeShape r.stop_id_to_stop_.length r.router_settings_.bus_wait_time e') :
    r.GraphOk (g.AddEdge e') := by
  refine ⟨hg.1, ?_⟩
  intro e hmem
  simp only [DirectedWeightedGraph.AddEdge, List.mem_append, List.mem_singleton] at hmem
  rcases hmem with h | h
  · exact hg.2 e h
  · exact h ▸ he

theorem AddRoundTrip_ok (m : Libm) (r : TransportRouter) (hr : r.IndexValid) (bus : Bus)
    (g g' : DirectedWeightedGraph EdgeInfo) (h : AddRoundTrip m r bus g = .ok g')
    (hg : r.GraphOk g) : r.GraphOk g' := by
  refine foldlM_ok_inv (fun g : DirectedWeightedGraph EdgeInfo => r.GraphOk g)
    _ (List.range bus.route.length) g g' hg ?_ h
  intro g1 i g2 _ hg1 hstep
  rw [Except.bind_eq_ok] at hstep
  obtain ⟨inner, hinner, hstep⟩ := hstep
  simp only [pure, Except.pure, Except.ok.injEq] at hstep
  subst hstep
  refine foldlM_ok_inv
    (fun st : ℚ × DirectedWeightedGraph EdgeInfo => r.GraphOk st.2)
    _ _ (0, g1) inner hg1 ?_ hinner
  intro st j st' hj hst hbody
  rw [List.mem_range'_1] at hj
  rw [Except.bind_eq_ok] at hbody
  obtain ⟨a, _, hbody⟩ := hbody
  rw [Except.bind_eq_ok] at hbody
  obtain ⟨b, _, hbody⟩ := hbody
  rw [Except.bind_eq_ok] at hbody
  obtain ⟨d, _, hbody⟩ := hbody
  dsimp only at hbody
  rw [Except.bind_eq_ok] at hbody
  obtain ⟨vi, hvi, hbody⟩ := hbody
  rw [Except.bind_eq_ok] at hbody
  obtain ⟨vj, hvj, hbody⟩ := hbody
  simp only [pure, Except.pure, Except.ok.injEq] at hbody
  subst hbody
  apply AddEdge_ok r _ _ hst
  right
  have h1 := routeVertex_lt r hr bus i vi hvi
  have h2 := routeVertex_lt r hr bus j vj hvj
  refine ⟨h1, ?_, ?_, ?_⟩
  · show r.stop_id_to_stop_.length ≤ vj + r.stop_id_to_stop_.length
    omega
  · show vj + r.stop_id_to_stop_.length < 2 * r.stop_id_to_stop_.length
    omega
  · show 1 ≤ j - i
    omega

theorem AddLinearTrip_ok (m : Libm) (r : TransportRouter) (hr : r.IndexValid) (bus : Bus)
    (g g' : DirectedWeightedGraph EdgeInfo) (h : AddLinearTrip m r bus g = .ok g')
    (hg : r.GraphOk g) : r.GraphOk g' := by
  refine foldlM_ok_inv (fun g : DirectedWeightedGraph EdgeInfo => r.GraphOk g)
    _ (List.range (bus.route.length / 2 + 1)) g g' hg ?_ h
  intro g1 i g2 _ hg1 hstep
  rw [Except.bind_eq_ok] at hstep
  obtain ⟨inner, hinner, hstep⟩ := hstep
  simp only [pure, Except.pure, Except.ok.injEq] at hstep
  subst hstep
  refine foldlM_ok_inv
    (fun st : (ℚ × ℚ) × DirectedWeightedGraph EdgeInfo => r.GraphOk st.2)
    _ _ ((0, 0), g1) inner hg1 ?_ hinner
  intro st j st' hj hst hbody
  rw [List.mem_range'_1] at hj
  rw [Except.bind_eq_ok] at hbody
  obtain ⟨a, _, hbody⟩ := hbody
  rw [Except.bind_eq_ok] at hbody
  obtain ⟨b, _, hbody⟩ := hbody
  rw [Except.bind_eq_ok] at hbody
  obtain ⟨d, _, hbody⟩ := hbody
  dsimp only at hbody
  rw [Except.bind_eq_ok] at hbody
  obtain ⟨d', _, hbody⟩ := hbody
  rw [Except.bind_eq_ok] at hbody
  obtain ⟨vi, hvi, hbody⟩ := hbody
  rw [Except.bind_eq_ok] at hbody
  obtain ⟨vj, hvj, hbody⟩ := hbody
  simp only [pure, Except.pure, Except.ok.injEq] at hbody
  subst hbody
  have h1 := routeVertex_lt r hr bus i vi hvi
  have h2 := routeVertex_lt r hr bus j vj hvj
  apply AddEdge_ok r _ _ (AddEdge_ok r _ _ hst _)
  · right
    refine ⟨h2, ?_, ?_, ?_⟩
    · show r.stop_id_to_stop_.length ≤ vi + r.stop_id_to_stop_.length
      omega
    · show vi + r.stop_id_to_stop_.length < 2 * r.stop_id_to_stop_.length
      omega
    · show 1 ≤ j - i
      omega
  · right
    refine ⟨h1, ?_, ?_, ?_⟩
    · show r.stop_id_to_stop_.length ≤ vj + r.stop_id_to_stop_.length
      omega
    · show vj + r.stop_id_to_stop_.length < 2 * r.stop_id_to_stop_.length
      omega
    · show 1 ≤ j - i
      omega

theorem addWaitEdges_ok (r : TransportRouter) (g : DirectedWeightedGraph EdgeInfo)
    (hg : r.GraphOk g) : r.GraphOk (addWaitEdges r g) := by
  refine graph.Router.foldl_inv (fun g : DirectedWeightedGraph EdgeInfo => r.GraphOk g)
    _ (List.range r.stop_id_to_stop_.length) g hg ?_
  intro g1 k hk hg1
  apply AddEdge_ok r _ _ hg1
  left
  exact ⟨rfl, List.mem_range.1 hk, rfl⟩

theorem BuildGraph_ok (m : Libm) (r : TransportRouter) (hr : r.IndexValid)
    (g : DirectedWeightedGraph EdgeInfo) (h : BuildGraph m r = .ok g) : r.GraphOk g := by
  refine foldlM_ok_inv (fun g : DirectedWeightedGraph EdgeInfo => r.GraphOk g)
    _ r.transport_catalogue_.buses_ _ g ?_ ?_ h
  · apply addWaitEdges_ok
    exact ⟨rfl, by
      intro e he
      simp [DirectedWeightedGraph.ofVertexCount] at he⟩
  · intro g1 bus g2 _ hg1 hstep
    unfold AddRouteToGraph at hstep
    split at hstep
    · exact AddRoundTrip_ok m r hr bus g1 g2 hstep hg1
    · exact AddLinearTrip_ok m r hr bus g1 g2 hstep hg1

/-- The members of a router that the constructor returned. -/
theorem create_eq_ok (m : Libm) (router_settings : Settings) (c : TransportCatalogue)
    (r : TransportRouter) (h : create m router_settings c = .ok r) :
    r.transport_catalogue_ = c ∧ r.router_settings_ = router_settings ∧
    r.stop_id_to_stop_ = InitIdToStop c ∧
    InitStopNameToId c (InitIdToStop c) = .ok r.stop_name_to_index_ ∧
    r.router_.graph_ = r.transport_graph_ ∧
    r.IndexValid ∧ r.GraphOk r.transport_graph_ := by
  unfold create at h
  rw [Except.bind_eq_ok] at h
  obtain ⟨idx, hidx, h⟩ := h
  rw [Except.bind_eq_ok] at h
  obtain ⟨g, hg, h⟩ := h
  simp only [pure, Except.pure, Except.ok.injEq] at h
  subst h
  have hvalid : IndexValid
      { transport_catalogue_ := c
        router_settings_ := router_settings
        stop_id_to_stop_ := InitIdToStop c
        stop_name_to_index_ := idx
        transport_graph_ := DirectedWeightedGraph.ofVertexCount 0
        router_ := { graph_ := DirectedWeightedGraph.ofVertexCount 0 } } :=
    InitStopNameToId_spec c (InitIdToStop c) idx hidx
  exact ⟨rfl, rfl, rfl, hidx, rfl, hvalid, BuildGraph_ok m _ hvalid g hg⟩

theorem InitIdToStop_length (c : TransportCatalogue) :
    (InitIdToStop c).length = c.stops_.length := by
  simp [InitIdToStop]

/-- The steps of a `BuildRoute` call that returned a route. -/
theorem BuildRoute_eq_some (r : TransportRouter) (from_stop to_stop : String)
    (route : RouteInfo) (h : r.BuildRoute from_stop to_stop = .ok (some route)) :
    ∃ i j raw, r.stop_name_to_index_.find? from_stop = some i ∧
      r.stop_name_to_index_.find? to_stop = some j ∧
      r.router_.BuildRoute (i + r.stop_id_to_stop_.length) (j + r.stop_id_to_stop_.length)
        = .ok (some raw) ∧
      raw.edges.mapM (decodeEdge r) = .ok route.items ∧
      route.total_time = raw.weight.time := by
  unfold BuildRoute at h
  rw [Except.bind_eq_ok] at h
  obtain ⟨i, hi, h⟩ := h
  rw [Except.bind_eq_ok] at h
  obtain ⟨j, hj, h⟩ := h
  rw [Except.bind_eq_ok] at h
  obtain ⟨res, hres, h⟩ := h
  cases res with
  | none => simp [pure, Except.pure] at h
  | some raw =>
    simp only at h
    rw [Except.bind_eq_ok] at h
    obtain ⟨items, hitems, h⟩ := h
    simp only [pure, Except.pure, Except.ok.injEq, Option.some.injEq] at h
    subst h
    exact ⟨i, j, raw, (AssocMap.get_eq_ok _ _ _).1 hi, (AssocMap.get_eq_ok _ _ _).1 hj, hres,
      hitems, rfl⟩

theorem decodeEdge_time (r : TransportRouter) (edge_id : EdgeId) (item : Item)
    (h : decodeEdge r edge_id = .ok item) :
    ∃ e, r.transport_graph_.GetEdge edge_id = .ok e ∧ item.time = e.weight.time := by
  unfold decodeEdge at h
  rw [Except.bind_eq_ok] at h
  obtain ⟨e, he, h⟩ := h
  refine ⟨e, he, ?_⟩
  split at h
  · rw [Except.bind_eq_ok] at h
    obtain ⟨p, _, h⟩ := h
    rw [Except.bind_eq_ok] at h
    obtain ⟨s, _, h⟩ := h
    simp only [pure, Except.pure, Except.ok.injEq] at h
    rw [← h]; rfl
  · simp only [pure, Except.pure, Except.ok.injEq] at h
    rw [← h]; rfl

theorem GetEdge_eq_ok (g : DirectedWeightedGraph EdgeInfo) (edge_id : EdgeId)
    (e : Edge EdgeInfo) : g.GetEdge edge_id = .ok e ↔ g.edges_[edge_id]? = some e := by
  unfold DirectedWeightedGraph.GetEdge
  cases g.edges_[edge_id]? <;> simp

theorem sum_item_times (r : TransportRouter) (edges : List EdgeId) (items : List Item)
    (h : List.Forall₂ (fun edge_id item => decodeEdge r edge_id = .ok item) edges items) :
    (items.map Item.time).sum = pathTime r.transport_graph_ edges := by
  induction h with
  | nil => rfl
  | cons hd _ ih =>
    obtain ⟨e, he, ht⟩ := decodeEdge_time r _ _ hd
    rw [GetEdge_eq_ok] at he
    simp only [List.map_cons, List.sum_cons, pathTime] at ih ⊢
    rw [ih, ht]
    simp [edgeTime, he]

/-- The name index built by the constructor knows the name of every stop. -/
theorem InitStopNameToId_keys (c : TransportCatalogue) (ids : List StopPtr) :
    ∀ (l : List Nat) (init res : AssocMap String Nat),
      l.foldlM
        (fun stop_name_to_index i => do
          let p ← TransportCatalogue.index ids i
          let s ← c.stopAt p
          pure (AssocMap.insert stop_name_to_index s.name i)) init = .ok res →
      (∀ n, (init.find? n).isSome = true → (res.find? n).isSome = true) ∧
      (∀ i ∈ l, ∀ p s, ids[i]? = some p → c.stopAt p = .ok s →
        (res.find? s.name).isSome = true) := by
  intro l
  induction l with
  | nil =>
    intro init res h
    simp only [List.foldlM_nil, pure, Except.pure, Except.ok.injEq] at h
    subst h
    exact ⟨fun _ h => h, fun i hi => absurd hi (List.not_mem_nil _)⟩
  | cons a l ih =>
    intro init res h
    rw [List.foldlM_cons, Except.bind_eq_ok] at h
    obtain ⟨mid, hmid, h⟩ := h
    obtain ⟨h1, h2⟩ := ih mid res h
    rw [Except.bind_eq_ok] at hmid
    obtain ⟨p, hp, hmid⟩ := hmid
    rw [Except.bind_eq_ok] at hmid
    obtain ⟨s, hs, hmid⟩ := hmid
    simp only [pure, Except.pure, Except.ok.injEq] at hmid
    subst hmid
    refine ⟨?_, ?_⟩
    · intro n hn
      apply h1
      rw [AssocMap.find?_insert]
      split
      · rfl
      · exact hn
    · intro i hi p' s' hp' hs'
      rcases List.mem_cons.1 hi with hi | hi
      · subst hi
        rw [(index_eq_ok _ _ _).1 hp] at hp'
        simp only [Option.some.injEq] at hp'
        subst hp'
        rw [hs] at hs'
        simp only [Except.ok.injEq] at hs'
        subst hs'
        apply h1
        rw [AssocMap.find?_insert, if_pos rfl]
        rfl
      · exact h2 i hi p' s' hp' hs'

theorem create_knows_stops (m : Libm) (router_settings : Settings) (c : TransportCatalogue)
    (r : TransportRouter) (h : create m router_settings c = .ok r) :
    ∀ s ∈ c.stops_, (r.stop_name_to_index_.find? s.name).isSome = true := by
  obtain ⟨_, _, _, hidx, _, _, _⟩ := create_eq_ok m router_settings c r h
  intro s hs
  obtain ⟨i, hi⟩ := List.getElem?_of_mem hs
  have hlt : i < c.stops_.length := (List.getElem?_eq_some_iff.1 hi).1
  have hkeys := (InitStopNameToId_keys c (InitIdToStop c) _ [] _ hidx).2 i
    (List.mem_range.2 (by rw [InitIdToStop_length]; exact hlt))
    (c.stops_.length - 1 - i) s
    (by
      unfold InitIdToStop
      rw [List.getElem?_map, List.getElem?_range hlt]
      rfl)
    (by
      rw [stopAt_eq_ok, List.getElem?_reverse (by omega)]
      have : c.stops_.length - 1 - (c.stops_.length - 1 - i) = i := by omega
      rw [this]; exact hi)
  exact hkeys

theorem vectorAt_ok_of_lt {α : Type} (v : List α) (i : Nat) (h : i < v.length) :
    vectorAt v i = .ok v[i] := by
  rw [vectorAt_eq_ok]; exact List.getElem?_eq_getElem h

theorem bind_pure_ok {α β : Type} (x : Except Fault α) (k : α → β) (h : ∃ a, x = .ok a) :
    ∃ b, (x >>= fun a => pure (k a)) = .ok b ∧ True := by
  obtain ⟨a, ha⟩ := h
  exact ⟨k a, by rw [ha]; rfl, trivial⟩

theorem InitStopNameToId_ok (c : TransportCatalogue) :
    ∃ idx, InitStopNameToId c (InitIdToStop c) = .ok idx := by
  unfold InitStopNameToId
  refine Exists.imp (fun _ h => h.1)
    (foldlM_ok_of_step (fun _ : AssocMap String Nat => True) _ _ _ trivial ?_)
  intro b i hi _
  have hlt : i < (InitIdToStop c).length := List.mem_range.1 hi
  have hlt' : i < c.stops_.length := by rw [← InitIdToStop_length]; exact hlt
  have hp : (InitIdToStop c)[i] = c.stops_.length - 1 - i := by
    simp [InitIdToStop]
  obtain ⟨s, hs, _⟩ := c.stopAt_of_lt (c.stops_.length - 1 - i)
    (by show c.stops_.length - 1 - i < c.stops_.length; omega)
  refine ⟨AssocMap.insert b s.name i, ?_, trivial⟩
  dsimp only
  rw [index_ok_of_lt _ _ hlt, hp]
  show (c.stopAt (c.stops_.length - 1 - i) >>= fun s =>
    pure (AssocMap.insert b s.name i)) = _
  rw [hs]; rfl

/-- The router knows the vertex of every position of a route of valid pointers. -/
theorem routeVertex_ok (r : TransportRouter)
    (hkeys : ∀ s ∈ r.transport_catalogue_.stops_,
      (r.stop_name_to_index_.find? s.name).isSome = true)
    (bus : Bus) (hv : ∀ p ∈ bus.route, p < r.transport_catalogue_.stops_.length)
    (i : Nat) (hi : i < bus.route.length) : ∃ v, r.routeVertex bus i = .ok v := by
  obtain ⟨s, hs, hmem⟩ := r.transport_catalogue_.stopAt_of_lt bus.route[i]
    (hv _ (List.getElem_mem hi))
  obtain ⟨v, hfind⟩ := Option.isSome_iff_exists.1 (hkeys s hmem)
  refine ⟨v, ?_⟩
  unfold routeVertex
  rw [index_ok_of_lt _ _ hi]
  show (r.transport_catalogue_.stopAt bus.route[i] >>= fun s =>
    r.stop_name_to_index_.get s.name) = _
  rw [hs]
  exact (AssocMap.get_eq_ok _ _ _).2 hfind

theorem AddRoundTrip_ok_of_valid (m : Libm) (r : TransportRouter)
    (hkeys : ∀ s ∈ r.transport_catalogue_.stops_,
      (r.stop_name_to_index_.find? s.name).isSome = true)
    (bus : Bus) (hv : ∀ p ∈ bus.route, p < r.transport_catalogue_.stops_.length)
    (g : DirectedWeightedGraph EdgeInfo) : ∃ g', AddRoundTrip m r bus g = .ok g' := by
  unfold AddRoundTrip
  refine Exists.imp (fun _ h => h.1)
    (foldlM_ok_of_step (fun _ : DirectedWeightedGraph EdgeInfo => True) _ _ _ trivial ?_)
  intro g1 i hi _
  have hi' : i < bus.route.length := List.mem_range.1 hi
  dsimp only
  apply bind_pure_ok
  refine Exists.imp (fun _ h => h.1)
    (foldlM_ok_of_step (fun _ : ℚ × DirectedWeightedGraph EdgeInfo => True) _ _ _ trivial ?_)
  intro st j hj _
  rw [List.mem_range'_1] at hj
  have hj1 : j - 1 < bus.route.length := by omega
  have hj2 : j < bus.route.length := by omega
  obtain ⟨d, hd⟩ := GetDistance_ok_of_valid m r.transport_catalogue_
    bus.route[j - 1] bus.route[j] (hv _ (List.getElem_mem hj1))
    (hv _ (List.getElem_mem hj2))
  obtain ⟨vi, hvi⟩ := routeVertex_ok r hkeys bus hv i hi'
  obtain ⟨vj, hvj⟩ := routeVertex_ok r hkeys bus hv j hj2
  exact ⟨_, by
    simp only [vectorAt_ok_of_lt _ _ hj1, vectorAt_ok_of_lt _ _ hj2, bind, Except.bind,
      hd, hvi, hvj]
    rfl, trivial⟩

theorem AddLinearTrip_ok_of_valid (m : Libm) (r : TransportRouter)
    (hkeys : ∀ s ∈ r.transport_catalogue_.stops_,
      (r.stop_name_to_index_.find? s.name).isSome = true)
    (bus : Bus) (hv : ∀ p ∈ bus.route, p < r.transport_catalogue_.stops_.length)
    (g : DirectedWeightedGraph EdgeInfo) : ∃ g', AddLinearTrip m r bus g = .ok g' := by
  unfold AddLinearTrip
  refine Exists.imp (fun _ h => h.1)
    (foldlM_ok_of_step (fun _ : DirectedWeightedGraph EdgeInfo => True) _ _ _ trivial ?_)
  intro g1 i hi _
  have hi' : i < bus.route.length / 2 + 1 := List.mem_range.1 hi
  dsimp only
  apply bind_pure_ok
  refine Exists.imp (fun _ h => h.1)
    (foldlM_ok_of_step (fun _ : (ℚ × ℚ) × DirectedWeightedGraph EdgeInfo => True) _ _ _
      trivial ?_)
  intro st j hj _
  rw [List.mem_range'_1] at hj
  have hj1 : j - 1 < bus.route.length := by omega
  have hj2 : j < bus.route.length := by omega
  have hi2 : i < bus.route.length := by omega
  obtain ⟨d, hd⟩ := GetDistance_ok_of_valid m r.transport_catalogue_
    bus.route[j - 1] bus.route[j] (hv _ (List.getElem_mem hj1))
    (hv _ (List.getElem_mem hj2))
  obtain ⟨d', hd'⟩ := GetDistance_ok_of_valid m r.transport_catalogue_
    bus.route[j] bus.route[j - 1] (hv _ (List.getElem_mem hj2))
    (hv _ (List.getElem_mem hj1))
  obtain ⟨vi, hvi⟩ := routeVertex_ok r hkeys bus hv i hi2
  obtain ⟨vj, hvj⟩ := routeVertex_ok r hkeys bus hv j hj2
  exact ⟨_, by
    simp only [vectorAt_ok_of_lt _ _ hj1, vectorAt_ok_of_lt _ _ hj2, bind, Except.bind,
      hd, hd', hvi, hvj]
    rfl, trivial⟩

theorem BuildGraph_ok_of_valid (m : Libm) (r : TransportRouter)
    (hkeys : ∀ s ∈ r.transport_catalogue_.stops_,
      (r.stop_name_to_index_.find? s.name).isSome = true)
    (hv : ∀ b ∈ r.transport_catalogue_.buses_, ∀ p ∈ b.route,
      p < r.transport_catalogue_.stops_.length) :
    ∃ g, BuildGraph m r = .ok g := by
  unfold BuildGraph
  refine Exists.imp (fun _ h => h.1)
    (foldlM_ok_of_step (fun _ : DirectedWeightedGraph EdgeInfo => True) _ _ _ trivial ?_)
  intro g1 bus hbus _
  unfold AddRouteToGraph
  dsimp only
  split
  · obtain ⟨g', hg'⟩ := AddRoundTrip_ok_of_valid m r hkeys bus (hv bus hbus) g1
    exact ⟨g', hg', trivial⟩
  · obtain ⟨g', hg'⟩ := AddLinearTrip_ok_of_valid m r hkeys bus (hv bus hbus) g1
    exact ⟨g', hg', trivial⟩

/-- The constructor of the router returns normally on a consistent catalogue. -/
theorem create_ok_of_Consistent (m : Libm) (router_settings : Settings)
    (c : TransportCatalogue) (hc : c.Consistent) :
    ∃ r, create m router_settings c = .ok r := by
  obtain ⟨idx, hidx⟩ := InitStopNameToId_ok c
  have hkeys : ∀ s ∈ c.stops_, (idx.find? s.name).isSome = true := by
    intro s hs
    obtain ⟨i, hi⟩ := List.getElem?_of_mem hs
    have hlt : i < c.stops_.length := (List.getElem?_eq_some_iff.1 hi).1
    exact (InitStopNameToId_keys c (InitIdToStop c) _ [] _ hidx).2 i
      (List.mem_range.2 (by rw [InitIdToStop_length]; exact hlt))
      (c.stops_.length - 1 - i) s
      (by
        unfold InitIdToStop
        rw [List.getElem?_map, List.getElem?_range hlt]
        rfl)
      (by
        rw [stopAt_eq_ok, List.getElem?_reverse (by omega)]
        have : c.stops_.length - 1 - (c.stops_.length - 1 - i) = i := by omega
        rw [this]; exact hi)
  obtain ⟨g, hg⟩ := BuildGraph_ok_of_valid m
    { transport_catalogue_ := c
      router_settings_ := router_settings
      stop_id_to_stop_ := InitIdToStop c
      stop_name_to_index_ := idx
      transport_graph_ := DirectedWeightedGraph.ofVertexCount 0
      router_ := { graph_ := DirectedWeightedGraph.ofVertexCount 0 } }
    hkeys hc.route_valid
  refine ⟨{ transport_catalogue_ := c
            router_settings_ := router_settings
            stop_id_to_stop_ := InitIdToStop c
            stop_name_to_index_ := idx
            transport_graph_ := g
            router_ := { graph_ := g } }, ?_⟩
  unfold create
  rw [Except.bind_eq_ok]
  refine ⟨idx, hidx, ?_⟩
  rw [Except.bind_eq_ok]
  exact ⟨g, hg, rfl⟩

end TransportRouter

namespace geo

theorem ComputeDistance_comm (m : Libm) (x y : Coordinates) :
    ComputeDistance m x y = ComputeDistance m y x := by
  unfold ComputeDistance
  by_cases h : x = y
  · subst h; rfl
  · have h' : ¬ y = x := fun e => h e.symm
    rw [if_neg h, if_neg h', abs_sub_comm x.lng y.lng, mul_comm (m.sin (x.lat * dr)),
      mul_comm (m.cos (x.lat * dr))]

theorem ComputeDistance_self (m : Libm) (x : Coordinates) : ComputeDistance m x x = 0 := by
  simp [ComputeDistance]

end geo

namespace TransportCatalogue

/-- C1: for known stops `a` and `b`, `GetDistance(a, b)` returns the table entry
`(a, b)` when it is present; otherwise the table entry `(b, a)` when that is present;
otherwise the great-circle distance between the coordinates of the two stops. -/
theorem GetDistance_table_then_reverse_then_geo (m : Libm) (c : TransportCatalogue)
    (a b : StopPtr) (sa sb : Stop) (ha : c.stopAt a = .ok sa) (hb : c.stopAt b = .ok sb) :
    (∀ row d, c.stop_to_stop_to_distance_.find? a = some row → row.find? b = some d →
        GetDistance m c a b = .ok d) ∧
    (∀ row d, c.tableEntry a b = none →
        c.stop_to_stop_to_distance_.find? b = some row → row.find? a = some d →
        GetDistance m c a b = .ok d) ∧
    (c.tableEntry a b = none → c.tableEntry b a = none →
        GetDistance m c a b = .ok (ComputeDistance m sa.coordinates sb.coordinates)) := by
  refine ⟨?_, ?_, ?_⟩
  · intro row d h1 h2
    simp [GetDistance, tableEntry, h1, h2]
  · intro row d h0 h1 h2
    have h3 : c.tableEntry b a = some d := by simp [tableEntry, h1, h2]
    simp [GetDistance, h0, h3]
  · intro h0 h1
    simp [GetDistance, h0, h1, ha, hb]
    rfl

/-- Witness of C1 on the catalogue `A`, `B`, `C` without road distances. -/
theorem GetDistance_table_then_reverse_then_geo_witness :
    Example.stopsABC.tableEntry 0 1 = none ∧
    GetDistance Example.libm Example.stopsABC 0 1 =
      .ok (ComputeDistance Example.libm ⟨0, 0⟩ ⟨1, 1⟩) :=
  ⟨by decide!,
   (GetDistance_table_then_reverse_then_geo Example.libm Example.stopsABC 0 1
      ⟨0, "A", ⟨0, 0⟩⟩ ⟨1, "B", ⟨1, 1⟩⟩ (by decide!) (by decide!)).2.2
      (by decide!) (by decide!)⟩

/-- C6: for known stops `a`, `b` with neither `(a, b)` nor `(b, a)` in the distance
table, `GetDistance(a, b) = GetDistance(b, a) = ComputeDistance(a.coordinates,
b.coordinates)`; `ComputeDistance` is symmetric and is `0` on equal coordinates. -/
theorem GetDistance_fallback_symmetric (m : Libm) (c : TransportCatalogue)
    (a b : StopPtr) (sa sb : Stop) (ha : c.stopAt a = .ok sa) (hb : c.stopAt b = .ok sb)
    (hab : c.tableEntry a b = none) (hba : c.tableEntry b a = none) :
    GetDistance m c a b = .ok (ComputeDistance m sa.coordinates sb.coordinates) ∧
    GetDistance m c b a = .ok (ComputeDistance m sa.coordinates sb.coordinates) ∧
    (∀ x y : Coordinates, ComputeDistance m x y = ComputeDistance m y x) ∧
    (∀ x : Coordinates, ComputeDistance m x x = 0) := by
  refine ⟨?_, ?_, ComputeDistance_comm m, ComputeDistance_self m⟩
  · simp [GetDistance, hab, hba, ha, hb]
    rfl
  · simp [GetDistance, hab, hba, ha, hb]
    exact congrArg Except.ok (ComputeDistance_comm m _ _)

/-- Witness of C6: stops `A` and `C` of the catalogue without road distances. -/
theorem GetDistance_fallback_symmetric_witness :
    GetDistance Example.libm Example.stopsABC 0 2 =
        .ok (ComputeDistance Example.libm ⟨0, 0⟩ ⟨2, 2⟩) ∧
    GetDistance Example.libm Example.stopsABC 2 0 =
        .ok (ComputeDistance Example.libm ⟨0, 0⟩ ⟨2, 2⟩) :=
  have h := GetDistance_fallback_symmetric Example.libm Example.stopsABC 0 2
    ⟨0, "A", ⟨0, 0⟩⟩ ⟨2, "C", ⟨2, 2⟩⟩ (by decide!) (by decide!) (by decide!) (by decide!)
  ⟨h.1, h.2.1⟩

/-- C4: `AddBus(name, [s0..sn], is_roundtrip)` with known stop names returns
normally; a round trip stores exactly `s0..sn`; otherwise the stored route is
`s0..sn` followed by `s(n-1)..s0`, it reads the same forwards and backwards, and a
bus declared with `k >= 1` stops has `stop_count = 2k - 1`.  (The declared route is
shorter than `2^31` stops, the range of the `int` loop counter.) -/
theorem AddBus_materializes_route (m : Libm) (c : TransportCatalogue) (hc : Built m c)
    (bus_name : String) (route : List String) (is_roundtrip : Bool)
    (hknown : ∀ s ∈ route, c.stop_name_to_stop_.count s = true)
    (hsize : route.length < 2 ^ 31) :
    ∃ c' bus declared,
      AddBus m c bus_name route is_roundtrip = .ok c' ∧
      c'.buses_ = bus :: c.buses_ ∧ bus.name = bus_name ∧
      List.Forall₂ (fun n p => c.stop_name_to_stop_.find? n = some p ∧
        ∃ s, c'.stopAt p = .ok s ∧ s.name = n) route declared ∧
      (is_roundtrip = true → bus.route = declared) ∧
      (is_roundtrip = false →
        bus.route = declared ++ declared.reverse.tail ∧
        bus.route.reverse = bus.route ∧
        (1 ≤ route.length →
          bus.route.length = 2 * route.length - 1 ∧
          ∃ info, GetBusInfo c' bus_name = .ok (some info) ∧
            info.stop_count = 2 * route.length - 1)) := by
  have hcons := Consistent_of_Built m c hc
  obtain ⟨c', hc'⟩ := AddBus_ok_of_known m c hcons bus_name route is_roundtrip hknown
  obtain ⟨declared, full, rl, gl, hdecl, hfull, _, _, hobj⟩ :=
    AddBus_eq_ok m c c' bus_name route is_roundtrip hc'
  obtain ⟨idx, _, hceq⟩ := AddBusObject_eq_ok c c' _ hobj
  have hf2 := declared_valid c hcons route declared hdecl
  have hlen : declared.length = route.length := (forall₂_length_eq hf2).symm
  refine ⟨c', _, declared, hc', by rw [hceq], rfl, ?_, ?_, ?_⟩
  · refine hf2.imp ?_
    rintro n p ⟨hnp, s, hs, hsn⟩
    refine ⟨hnp, s, ?_, hsn⟩
    rw [stopAt_eq_ok] at hs ⊢
    rw [hceq]; exact hs
  · intro hrt
    simp [hfull, hrt]
  · intro hrt
    have hroute : full = declared ++ declared.reverse.tail := by
      rw [hfull, hrt, reverseStart_add_one_toNat _ (hlen ▸ hsize), take_pred_reverse]
      simp
    refine ⟨hroute, ?_, ?_⟩
    · show full.reverse = full
      rw [hroute]; exact append_reverse_tail_palindrome declared
    · intro hk
      have hl : full.length = 2 * route.length - 1 := by
        rw [hroute, length_append_reverse_tail declared (hlen ▸ hk), hlen]
      refine ⟨hl, ?_⟩
      refine ⟨⟨full.length, full.dedup.length, rl, rl / gl⟩, ?_, hl⟩
      have hfind : c'.bus_name_to_bus_.find? bus_name = some c.buses_.length := by
        rw [hceq]; simp [AssocMap.find?_insert]
      have hbus : c'.busAt c.buses_.length = .ok
          { name := bus_name, route := full, route_length := rl, curvature := rl / gl,
            is_roundtrip := is_roundtrip } := by
        rw [busAt_eq_ok, hceq]
        exact reverse_cons_getElem?_length _ _
      simp only [GetBusInfo, hfind, hbus]
      rfl

/-- Witness of C4: the bus `l` declared `A, B, C`, not a round trip, on the
catalogue with stops `A`, `B`, `C`. -/
theorem AddBus_materializes_route_witness :
    ∃ c' bus declared,
      AddBus Example.libm Example.stopsABC "l" ["A", "B", "C"] false = .ok c' ∧
      c'.buses_ = bus :: Example.stopsABC.buses_ ∧ bus.name = "l" ∧
      List.Forall₂ (fun n p => Example.stopsABC.stop_name_to_stop_.find? n = some p ∧
        ∃ s, c'.stopAt p = .ok s ∧ s.name = n) ["A", "B", "C"] declared ∧
      (false = true → bus.route = declared) ∧
      (false = false →
        bus.route = declared ++ declared.reverse.tail ∧
        bus.route.reverse = bus.route ∧
        (1 ≤ ["A", "B", "C"].length →
          bus.route.length = 2 * ["A", "B", "C"].length - 1 ∧
          ∃ info, GetBusInfo c' "l" = .ok (some info) ∧
            info.stop_count = 2 * ["A", "B", "C"].length - 1)) :=
  AddBus_materializes_route Example.libm Example.stopsABC
    (Built.add_stop _ (Built.add_stop _ (Built.add_stop _ Built.empty)))
    "l" ["A", "B", "C"] false (by decide!) (by decide!)

/-- C5: the bus stored by `AddBus`, with materialized route `r0..r(m-1)`, has
`route_length` equal to the sum over `i` in `[1, m)` of `GetDistance(r(i-1), r(i))`
at the time of the call when `m >= 2`, to the table entry `(r0, r0)` when `m = 1`
and that entry is present, and to `0` otherwise; `GetBusInfo` reports that value. -/
theorem AddBus_route_length (m : Libm) (c c' : TransportCatalogue) (bus_name : String)
    (route : List String) (is_roundtrip : Bool)
    (h : AddBus m c bus_name route is_roundtrip = .ok c') :
    ∃ bus, c'.buses_ = bus :: c.buses_ ∧ bus.name = bus_name ∧
      (∃ info, GetBusInfo c' bus_name = .ok (some info) ∧
        info.route_length = bus.route_length) ∧
      (bus.route.length = 0 → bus.route_length = 0) ∧
      (∀ r0, bus.route = [r0] →
        bus.route_length = match c.tableEntry r0 r0 with
          | some d => d
          | none => 0) ∧
      (2 ≤ bus.route.length →
        ∃ d : Nat → ℚ,
          (∀ i, 1 ≤ i → i < bus.route.length →
            ∃ a b, bus.route[i - 1]? = some a ∧ bus.route[i]? = some b ∧
              GetDistance m c a b = .ok (d i)) ∧
          bus.route_length = ∑ i ∈ Finset.Ico 1 bus.route.length, d i) := by
  obtain ⟨declared, full, rl, gl, _, _, hrl, _, hobj⟩ :=
    AddBus_eq_ok m c c' bus_name route is_roundtrip h
  obtain ⟨hbuses, hinfo⟩ := GetBusInfo_after_AddBusObject c c' _ hobj
  refine ⟨_, hbuses, rfl, ⟨_, hinfo, rfl⟩, ?_, ?_, ?_⟩
  · intro h0
    have h0' : full.length = 0 := h0
    simp only [ComputeRouteLength, h0', if_true, Except.ok.injEq] at hrl
    exact hrl.symm
  · intro r0 h1
    have h1' : full = [r0] := h1
    subst h1'
    simp only [ComputeRouteLength, List.length_singleton, one_ne_zero, if_false, if_true,
      index, List.getElem?_cons_zero] at hrl
    show rl = _
    cases ht : c.tableEntry r0 r0 with
    | some d =>
      have := hrl
      simp only [bind, Except.bind, ht, pure, Except.pure, Except.ok.injEq] at this
      exact this.symm
    | none =>
      have := hrl
      simp only [bind, Except.bind, ht, pure, Except.pure, Except.ok.injEq] at this
      exact this.symm
  · intro h2
    have h2' : 2 ≤ full.length := h2
    have hne0 : ¬ full.length = 0 := by omega
    have hne1 : ¬ full.length = 1 := by omega
    simp only [ComputeRouteLength, hne0, hne1, if_false] at hrl
    have hbody : (fun (route_length : ℚ) (i : Nat) => do
          let a ← index full (i - 1)
          let b ← index full i
          let d ← GetDistance m c a b
          pure (route_length + d)) =
        (fun a i => (do
          let a ← index full (i - 1)
          let b ← index full i
          GetDistance m c a b) >>= fun d => pure (a + d)) := by
      funext acc i
      simp only [bind_assoc]
    rw [hbody] at hrl
    obtain ⟨hall, hsum⟩ := foldlM_sum _ _ _ _ _ hrl
    have hlen : 1 + (full.length - 1) = full.length := by omega
    rw [hlen] at hall hsum
    refine ⟨_, ?_, by simpa using hsum⟩
    intro i hi1 hi2
    obtain ⟨x, hx⟩ := hall i hi1 hi2
    have hx' := hx
    rw [Except.bind_eq_ok] at hx'
    obtain ⟨a, ha, hx'⟩ := hx'
    rw [Except.bind_eq_ok] at hx'
    obtain ⟨b, hb, hd⟩ := hx'
    refine ⟨a, b, (index_eq_ok _ _ _).1 ha, (index_eq_ok _ _ _).1 hb, ?_⟩
    show GetDistance m c a b = Except.ok (match (do
          let a ← index full (i - 1)
          let b ← index full i
          GetDistance m c a b) with
        | .ok x => x
        | .error _ => 0)
    rw [hx]
    exact hd

/-- Witness of C5: the bus `A, B, C` (not a round trip) with `A -> B = 600` and
`B -> C = 400` has route length `2000`; a one-stop bus without a distance to itself
has route length `0`. -/
theorem AddBus_route_length_witness :
    (∃ bus, Example.lineL.buses_ = bus :: Example.roads.buses_ ∧ bus.name = "l" ∧
      (∃ info, GetBusInfo Example.lineL "l" = .ok (some info) ∧
        info.route_length = bus.route_length) ∧
      (bus.route.length = 0 → bus.route_length = 0) ∧
      (∀ r0, bus.route = [r0] →
        bus.route_length = match Example.roads.tableEntry r0 r0 with
          | some d => d
          | none => 0) ∧
      (2 ≤ bus.route.length →
        ∃ d : Nat → ℚ,
          (∀ i, 1 ≤ i → i < bus.route.length →
            ∃ a b, bus.route[i - 1]? = some a ∧ bus.route[i]? = some b ∧
              GetDistance Example.libm Example.roads a b = .ok (d i)) ∧
          bus.route_length = ∑ i ∈ Finset.Ico 1 bus.route.length, d i)) ∧
    Example.lineL.buses_.map Bus.route_length = [2000] ∧
    Example.lineOne.buses_.map Bus.route_length = [0] :=
  ⟨AddBus_route_length Example.libm Example.roads Example.lineL "l" ["A", "B", "C"] false
    (by decide!), by decide!, by decide!⟩

/-- C3: `GetBusInfo(name)` is absent if and only if no bus of that name was added;
otherwise, for the bus of that name (the one added last), `stop_count` is the
length of its materialized route and `unique_stop_count` the number of distinct
stops occurring in it. -/
theorem GetBusInfo_counts (m : Libm) (c : TransportCatalogue) (hc : Built m c)
    (bus_name : String) :
    (GetBusInfo c bus_name = .ok none ↔ ∀ b ∈ c.buses_, b.name ≠ bus_name) ∧
    (∀ b, c.buses_.find? (fun b => decide (b.name = bus_name)) = some b →
      ∃ info, GetBusInfo c bus_name = .ok (some info) ∧
        info.stop_count = b.route.length ∧
        info.unique_stop_count = b.route.toFinset.card) := by
  have hcons := Consistent_of_Built m c hc
  cases hfind : c.bus_name_to_bus_.find? bus_name with
  | none =>
    have hno := hcons.bus_index_none bus_name hfind
    refine ⟨⟨fun _ => hno, fun _ => by simp [GetBusInfo, hfind]⟩, ?_⟩
    intro b hb
    have hmem := List.mem_of_find?_eq_some hb
    exact absurd (by simpa using List.find?_some hb) (hno b hmem)
  | some p =>
    obtain ⟨b, hb, hbn, hfirst⟩ := hcons.bus_index_some bus_name p hfind
    have hget : GetBusInfo c bus_name = .ok (some
        { stop_count := b.route.length
          unique_stop_count := b.route.dedup.length
          route_length := b.route_length
          curvature := b.curvature }) := by
      simp only [GetBusInfo, hfind, (c.busAt_eq_ok p b).2 hb]
      rfl
    refine ⟨⟨?_, ?_⟩, ?_⟩
    · intro h
      rw [hget] at h
      simp at h
    · intro h
      exact absurd hbn (h b (List.mem_reverse.1 (List.getElem?_mem hb)))
    · intro b' hb'
      rw [hfirst] at hb'
      simp only [Option.some.injEq] at hb'
      subst hb'
      exact ⟨_, hget, rfl, (List.card_toFinset _).symm⟩

/-- Witness of C3: the bus `l` of the example catalogue has 5 stops, 3 of them
distinct. -/
theorem GetBusInfo_counts_witness :
    (GetBusInfo Example.lineL "l" = .ok none ↔ ∀ b ∈ Example.lineL.buses_, b.name ≠ "l") ∧
    (∀ b, Example.lineL.buses_.find? (fun b => decide (b.name = "l")) = some b →
      ∃ info, GetBusInfo Example.lineL "l" = .ok (some info) ∧
        info.stop_count = b.route.length ∧
        info.unique_stop_count = b.route.toFinset.card) :=
  GetBusInfo_counts Example.libm Example.lineL
    (Built.add_bus (c := Example.roads) "l" ["A", "B", "C"] false
      (Built.add_distance (c := match Example.stopsABC.AddDistance "A" "B" 600 with
          | .ok c => c
          | .error _ => empty) "B" "C" 400
        (Built.add_distance (c := Example.stopsABC) "A" "B" 600
          (Built.add_stop _ (Built.add_stop _ (Built.add_stop _ Built.empty)))
          (by decide!))
        (by decide!))
      (by decide!))
    "l"

/-- C2: in a catalogue built by `AddStop`, `AddDistance` and `AddBus` with unique
stop names, `GetStopInfo(name)` is absent if and only if no stop of that name was
added; for the stop of that name it is the list, strictly ascending in
lexicographic order (so each name once), of exactly the names of the buses whose
materialized route contains the stop, and empty when no bus visits the stop. -/
theorem GetStopInfo_sorted_bus_names (m : Libm) (c : TransportCatalogue) (hc : Built m c)
    (hu : (c.stops_.map Stop.name).Nodup) (stop_name : String) :
    (GetStopInfo c stop_name = .ok none ↔ ∀ s ∈ c.stops_, s.name ≠ stop_name) ∧
    (∀ s ∈ c.stops_, s.name = stop_name →
      ∃ p buses, c.stopAt p = .ok s ∧ c.GetStopByName stop_name = .ok p ∧
        GetStopInfo c stop_name = .ok (some buses) ∧
        buses.Sorted (· < ·) ∧ buses.Nodup ∧
        (∀ x, x ∈ buses ↔ ∃ b ∈ c.buses_, b.name = x ∧ p ∈ b.route) ∧
        ((∀ b ∈ c.buses_, p ∉ b.route) → buses = [])) := by
  have hcons := Consistent_of_Built m c hc
  constructor
  · cases hfind : c.stop_name_to_buses_.find? stop_name with
    | none =>
      refine ⟨fun _ s hs hsn => ?_, fun _ => by simp [GetStopInfo, hfind]⟩
      have := (hcons.buses_keys stop_name).2 ⟨s, hs, hsn⟩
      rw [hfind] at this
      simp at this
    | some l =>
      have hkey : (c.stop_name_to_buses_.find? stop_name).isSome = true := by rw [hfind]; rfl
      obtain ⟨s, hs, hsn⟩ := (hcons.buses_keys stop_name).1 hkey
      refine ⟨fun h => ?_, fun h => absurd hsn (h s hs)⟩
      simp only [GetStopInfo, hfind] at h
      rw [Except.bind_eq_ok] at h
      obtain ⟨_, _, h⟩ := h
      simp [pure, Except.pure] at h
  · intro s hs hsn
    subst hsn
    obtain ⟨p, hp⟩ := Option.isSome_iff_exists.1 (hcons.name_known s hs)
    obtain ⟨s', hs', hsn'⟩ := hcons.name_valid s.name p hp
    have hnamed : ∀ q, c.stopNamed s.name q = true ↔ q = p := by
      intro q
      rw [← hsn']
      exact stopNamed_iff_eq c hu p q s' hs'
    have hss' : s' = s := by
      obtain ⟨q, hq⟩ := List.getElem?_of_mem (List.mem_reverse.2 hs)
      have hqp : q = p := (hnamed q).1 (by simp [stopNamed, hq])
      subst hqp
      rw [hq] at hs'
      simp only [Option.some.injEq] at hs'
      exact hs'.symm
    subst hss'
    obtain ⟨l, hl⟩ := Option.isSome_iff_exists.1 ((hcons.buses_keys s'.name).2 ⟨s', hs, rfl⟩)
    have hcount := hcons.buses_count s'.name l hl
    have hvalid : ∀ bp ∈ l, ∃ b, c.buses_.reverse[bp]? = some b := by
      intro bp hbp
      have hpos : 0 < l.count bp := List.count_pos_iff.2 hbp
      rw [hcount bp] at hpos
      cases hb : c.buses_.reverse[bp]? with
      | none => rw [hb] at hpos; simp at hpos
      | some b => exact ⟨b, rfl⟩
    obtain ⟨res, hres, hsorted, hmem⟩ := names_fold c l [] hvalid (List.sorted_nil)
    have hmem' : ∀ x, x ∈ res ↔ ∃ b ∈ c.buses_, b.name = x ∧ p ∈ b.route := by
      intro x
      rw [hmem x]
      simp only [List.not_mem_nil, false_or]
      constructor
      · rintro ⟨bp, hbp, b, hb, hx⟩
        have hpos : 0 < l.count bp := List.count_pos_iff.2 hbp
        rw [hcount bp, hb] at hpos
        obtain ⟨q, hq, hqn⟩ := List.countP_pos_iff.1 hpos
        rw [(hnamed q).1 hqn] at hq
        exact ⟨b, List.mem_reverse.1 (List.getElem?_mem hb), hx, hq⟩
      · rintro ⟨b, hb, hx, hroute⟩
        obtain ⟨bp, hbp⟩ := List.getElem?_of_mem (List.mem_reverse.2 hb)
        refine ⟨bp, ?_, b, hbp, hx⟩
        apply List.count_pos_iff.1
        rw [hcount bp, hbp]
        exact List.countP_pos_iff.2 ⟨p, hroute, (hnamed p).2 rfl⟩
    refine ⟨p, res, (c.stopAt_eq_ok p s').2 hs', (AssocMap.get_eq_ok _ _ _).2 hp, ?_, hsorted,
      hsorted.nodup, hmem', ?_⟩
    · simp only [GetStopInfo, hl]
      rw [Except.bind_eq_ok]
      exact ⟨res, hres, rfl⟩
    · intro hno
      apply List.eq_nil_iff_forall_not_mem.2
      intro x hx
      obtain ⟨b, hb, _, hroute⟩ := (hmem' x).1 hx
      exact hno b hb hroute

/-- Witness of C2: in the example catalogue with the bus `l` over `A, B, C`, the
stop `A` exists and its buses are listed. -/
theorem GetStopInfo_sorted_bus_names_witness :
    GetStopInfo Example.lineL "A" = .ok (some ["l"]) ∧
    ((GetStopInfo Example.lineL "A" = .ok none ↔ ∀ s ∈ Example.lineL.stops_, s.name ≠ "A") ∧
    (∀ s ∈ Example.lineL.stops_, s.name = "A" →
      ∃ p buses, Example.lineL.stopAt p = .ok s ∧ Example.lineL.GetStopByName "A" = .ok p ∧
        GetStopInfo Example.lineL "A" = .ok (some buses) ∧
        buses.Sorted (· < ·) ∧ buses.Nodup ∧
        (∀ x, x ∈ buses ↔ ∃ b ∈ Example.lineL.buses_, b.name = x ∧ p ∈ b.route) ∧
        ((∀ b ∈ Example.lineL.buses_, p ∉ b.route) → buses = []))) :=
  ⟨by decide!,
   GetStopInfo_sorted_bus_names Example.libm Example.lineL
    (Built.add_bus (c := Example.roads) "l" ["A", "B", "C"] false
      (Built.add_distance (c := match Example.stopsABC.AddDistance "A" "B" 600 with
          | .ok c => c
          | .error _ => empty) "B" "C" 400
        (Built.add_distance (c := Example.stopsABC) "A" "B" 600
          (Built.add_stop _ (Built.add_stop _ (Built.add_stop _ Built.empty)))
          (by decide!))
        (by decide!))
      (by decide!))
    (by decide!) "A"⟩

end TransportCatalogue

namespace TransportRouter

open TransportCatalogue

/-- C7: when `from != to` and `BuildRoute(from, to)` returns a route, the first
item of the route is a `WaitItem` whose stop name is `from` and whose time is
`bus_wait_time`. -/
theorem BuildRoute_starts_with_wait (m : Libm) (router_settings : Settings)
    (c : TransportCatalogue) (r : TransportRouter)
    (hr : create m router_settings c = .ok r) (from_stop to_stop : String)
    (hne : from_stop ≠ to_stop) (route : RouteInfo)
    (h : r.BuildRoute from_stop to_stop = .ok (some route)) :
    ∃ rest, route.items =
      Item.wait { stop_name := from_stop, time := router_settings.bus_wait_time } :: rest := by
  obtain ⟨hcat, hset, hids, _, hgraph, hvalid, hok⟩ := create_eq_ok m router_settings c r hr
  obtain ⟨i, j, raw, hi, hj, hraw, hitems, _⟩ := BuildRoute_eq_some r from_stop to_stop route h
  obtain ⟨hilt, p, s, hp, hs, hsn⟩ := hvalid from_stop i hi
  obtain ⟨_, p', s', hp', hs', hsn'⟩ := hvalid to_stop j hj
  have hij : i ≠ j := by
    intro hij
    subst hij
    rw [hp] at hp'
    simp only [Option.some.injEq] at hp'
    subst hp'
    rw [hs] at hs'
    simp only [Except.ok.injEq] at hs'
    subst hs'
    exact hne (hsn.symm.trans hsn')
  obtain ⟨hwalk, _⟩ := (graph.Router.BuildRoute_spec r.router_ _ _).2.1 raw hraw
  rw [hgraph] at hwalk
  rw [mapM_ok_forall₂] at hitems
  obtain ⟨edge_id, rest, e, hedges, he, hfrom⟩ :=
    graph.Router.Walk_ne_cons _ _ _ _ hwalk (fun e => hij (Nat.add_right_cancel e))
  rw [hedges, List.forall₂_cons_left_iff] at hitems
  obtain ⟨item, items, hd, _, hroute⟩ := hitems
  refine ⟨items, ?_⟩
  rw [hroute]
  congr 1
  have hshape := hok.2 e (List.getElem?_mem he)
  have hwait : e.to_ = i ∧
      e.weight = { time := r.router_settings_.bus_wait_time, span_count := 0,
                   bus_name := "" } := by
    have hfrom' : (e.from_ : Nat) = i + r.stop_id_to_stop_.length := hfrom
    rcases hshape with ⟨h1, _, h3⟩ | ⟨h1, _⟩
    · have h1' : (e.from_ : Nat) = e.to_ + r.stop_id_to_stop_.length := h1
      exact ⟨Nat.add_right_cancel (h1'.symm.trans hfrom'), h3⟩
    · have h1' : (e.from_ : Nat) < r.stop_id_to_stop_.length := h1
      rw [hfrom'] at h1'
      exact absurd h1' (Nat.not_lt.2 (Nat.le_add_left _ _))
  have hcount : ¬ i ≥ r.transport_catalogue_.GetStopCount := by
    rw [hcat, GetStopCount, ← InitIdToStop_length, ← hids]
    exact Nat.not_le.2 hilt
  have hdecode : decodeEdge r edge_id = .ok
      (Item.wait { stop_name := from_stop, time := router_settings.bus_wait_time }) := by
    unfold decodeEdge
    rw [(GetEdge_eq_ok _ _ _).2 he]
    simp only [bind, Except.bind, hwait.2, hwait.1, if_true, if_neg hcount,
      (vectorAt_eq_ok _ _ _).2 hp, hs, pure, Except.pure, hset, hsn]
  rw [hdecode] at hd
  simp only [Except.ok.injEq] at hd
  exact hd.symm

/-- Witness of C7: from `A` to `B` over the round-trip bus `l`, wait time 6. -/
theorem BuildRoute_starts_with_wait_witness :
    Example.routerAB.BuildRoute "A" "B" = .ok (some
      { items := [Item.wait { stop_name := "A", time := 6 },
                  Item.bus { bus_name := "l", span_count := 1, time := 3 / 2 }]
        total_time := 15 / 2 }) ∧
    ∃ rest, ([Item.wait { stop_name := "A", time := 6 },
              Item.bus { bus_name := "l", span_count := 1, time := 3 / 2 }] : List Item) =
      Item.wait { stop_name := "A", time := Example.settings.bus_wait_time } :: rest :=
  ⟨by decide!,
   BuildRoute_starts_with_wait Example.libm Example.settings Example.roundAB Example.routerAB
    (by decide!) "A" "B" (by decide)
    { items := [Item.wait { stop_name := "A", time := 6 },
                Item.bus { bus_name := "l", span_count := 1, time := 3 / 2 }]
      total_time := 15 / 2 }
    (by decide!)⟩

/-- C8: for every route returned by `BuildRoute(from, to)`, `total_time` is the sum
of the `time` fields of its items, each item's time being the time of the graph
edge it was decoded from; those edges lead from the wait side of `from` to the wait
side of `to`. -/
theorem BuildRoute_total_time_is_sum (m : Libm) (router_settings : Settings)
    (c : TransportCatalogue) (r : TransportRouter)
    (hr : create m router_settings c = .ok r) (from_stop to_stop : String)
    (route : RouteInfo) (h : r.BuildRoute from_stop to_stop = .ok (some route)) :
    route.total_time = (route.items.map Item.time).sum ∧
    ∃ i j edges,
      r.stop_name_to_index_.find? from_stop = some i ∧
      r.stop_name_to_index_.find? to_stop = some j ∧
      Walk r.transport_graph_ (i + c.stops_.length) edges (j + c.stops_.length) ∧
      List.Forall₂ (fun edge_id item =>
        ∃ e, r.transport_graph_.GetEdge edge_id = .ok e ∧ item.time = e.weight.time)
        edges route.items := by
  obtain ⟨_, _, hids, _, hgraph, _, _⟩ := create_eq_ok m router_settings c r hr
  obtain ⟨i, j, raw, hi, hj, hraw, hitems, htotal⟩ :=
    BuildRoute_eq_some r from_stop to_stop route h
  obtain ⟨hwalk, hweight⟩ := (graph.Router.BuildRoute_spec r.router_ _ _).2.1 raw hraw
  rw [hgraph] at hwalk hweight
  rw [mapM_ok_forall₂] at hitems
  have hlen : r.stop_id_to_stop_.length = c.stops_.length := by
    rw [hids, InitIdToStop_length]
  refine ⟨?_, i, j, raw.edges, hi, hj, hlen ▸ hwalk, ?_⟩
  · rw [htotal, hweight, sum_item_times r raw.edges route.items hitems]
  · exact hitems.imp (fun edge_id item hd => decodeEdge_time r edge_id item hd)

/-- Witness of C8: the route from `A` to `B` takes `6 + 3/2` minutes. -/
theorem BuildRoute_total_time_is_sum_witness :
    (15 / 2 : ℚ) = ([Item.wait { stop_name := "A", time := 6 },
        Item.bus { bus_name := "l", span_count := 1, time := 3 / 2 }].map Item.time).sum :=
  (BuildRoute_total_time_is_sum Example.libm Example.settings Example.roundAB Example.routerAB
    (by decide!) "A" "B"
    { items := [Item.wait { stop_name := "A", time := 6 },
                Item.bus { bus_name := "l", span_count := 1, time := 3 / 2 }]
      total_time := 15 / 2 }
    (by decide!)).1

/-- C9: for a stop `x` of the catalogue, `BuildRoute(x, x)` returns a route (it is
not absent and nothing is raised), with `total_time` 0 and no items, whatever the
buses; and the router of a catalogue built by `AddStop`, `AddDistance` and `AddBus`
can always be constructed. -/
theorem BuildRoute_same_stop (m : Libm) (router_settings : Settings)
    (c : TransportCatalogue) (x : String) (hx : ∃ s ∈ c.stops_, s.name = x) :
    (∀ r, create m router_settings c = .ok r →
      r.BuildRoute x x = .ok (some { items := [], total_time := 0 })) ∧
    (Built m c → ∃ r, create m router_settings c = .ok r) := by
  refine ⟨?_, fun hb => create_ok_of_Consistent m router_settings c
    (Consistent_of_Built m c hb)⟩
  intro r hr
  obtain ⟨s, hs, hsx⟩ := hx
  obtain ⟨i, hi⟩ := Option.isSome_iff_exists.1 (create_knows_stops m router_settings c r hr s hs)
  rw [hsx] at hi
  have hself := (graph.Router.BuildRoute_spec r.router_ (i + r.stop_id_to_stop_.length)
    (i + r.stop_id_to_stop_.length)).2.2
  unfold BuildRoute
  rw [(AssocMap.get_eq_ok _ _ _).2 hi]
  simp only [bind, Except.bind, hself]
  rfl

/-- Witness of C9: the stop `A`, which the round-trip bus `l` passes twice. -/
theorem BuildRoute_same_stop_witness :
    Example.routerAB.BuildRoute "A" "A" = .ok (some { items := [], total_time := 0 }) :=
  (BuildRoute_same_stop Example.libm Example.settings Example.roundAB "A"
    ⟨⟨0, "A", ⟨0, 0⟩⟩, by decide!, rfl⟩).1 Example.routerAB (by decide!)

/-- `BuildRoute` raises `std::out_of_range` when `from_stop` is not in its name
index: the lookup `stop_name_to_index_.at(from_stop)` is the first thing it does. -/
theorem BuildRoute_unknown_from (r : TransportRouter) (from_stop to_stop : String)
    (h : r.stop_name_to_index_.find? from_stop = none) :
    r.BuildRoute from_stop to_stop = .error .out_of_range := by
  simp [BuildRoute, AssocMap.get, h, bind, Except.bind]

/-- `BuildRoute` raises `std::out_of_range` when `to_stop` is not in its name index. -/
theorem BuildRoute_unknown_to (r : TransportRouter) (from_stop to_stop : String)
    (h : r.stop_name_to_index_.find? to_stop = none) :
    r.BuildRoute from_stop to_stop = .error .out_of_range := by
  unfold BuildRoute
  cases hf : r.stop_name_to_index_.find? from_stop <;>
    simp [AssocMap.get, h, hf, bind, Except.bind]

end TransportRouter

namespace rh

namespace StatHandler

/-- The Route handler has no handler for an exception of `BuildRoute`: it leaves
the call operator. -/
theorem handleRoute_propagates (h : StatHandler) (req : io.GetRouteRequest) (e : Fault)
    (hb : h.router_.BuildRoute req.from_stop req.to_stop = .error e) :
    h.handleRoute req = .error e := by
  simp [handleRoute, hb, bind, Except.bind]

/-- C10 (the code at the failing input): on the catalogue with the stops `A` and
`B`, `BuildRoute("X", "A")` and `BuildRoute("A", "X")` raise `std::out_of_range`
instead of returning absent, and the Route request `{id: 1, from: "X", to: "A"}`
ends in that exception instead of a "not found" response; the Stop and Bus requests
for the unknown name `X` do answer `{error_message: "not found", request_id: 1}`. -/
theorem handleRoute_unknown_stop_raises :
    Example.routerAB.BuildRoute "X" "A" = .error .out_of_range ∧
    Example.routerAB.BuildRoute "A" "X" = .error .out_of_range ∧
    Example.handler.handleRoute { id := 1, from_stop := "X", to_stop := "A" }
      = .error .out_of_range ∧
    (Example.handler.handleStop { id := 1, name := "X" }).map (fun h => h.responses_)
      = .ok [json.Node.dict
          [("error_message", json.Node.string "not found"), ("request_id", json.Node.int 1)]] ∧
    (Example.handler.handleBus { id := 1, name := "X" }).map (fun h => h.responses_)
      = .ok [json.Node.dict
          [("error_message", json.Node.string "not found"), ("request_id", json.Node.int 1)]] :=
  ⟨by decide!, by decide!,
   handleRoute_propagates Example.handler { id := 1, from_stop := "X", to_stop := "A" } _
     (by decide!),
   by rfl, by rfl⟩

end StatHandler

end rh

/-! ### Failing and repeated insertions -/

namespace TransportCatalogue

/-- In a consistent catalogue the name index knows exactly the names of the stops. -/
theorem find?_eq_none_iff (c : TransportCatalogue) (hc : c.Consistent) (n : String) :
    c.stop_name_to_stop_.find? n = none ↔ ∀ s ∈ c.stops_, s.name ≠ n := by
  constructor
  · intro h s hs hn
    have := hc.name_known s hs
    rw [hn, h] at this
    exact absurd this (by simp)
  · intro h
    cases hf : c.stop_name_to_stop_.find? n with
    | none => rfl
    | some p =>
      obtain ⟨s, hs, hn⟩ := hc.name_valid n p hf
      exact absurd hn (h s (List.mem_reverse.1 (List.getElem?_mem hs)))

/-- C12 (counterexample): the catalogue `lineL` holds the bus `l`; a second
`AddBus("l", ...)` does not fail, and the store then holds two buses named `l`. -/
theorem AddBus_existing_name_is_accepted :
    (∃ b ∈ Example.lineL.buses_, b.name = "l") ∧
    AddBus Example.libm Example.lineL "l" ["A"] true = .ok Example.lineLL ∧
    Example.lineLL.buses_.map Bus.name = ["l", "l"] := by
  refine ⟨?_, ?_, ?_⟩ <;> decide!

/-- C12 (amended): `AddBus` does not look at the bus names already stored.  With
known stop names, `AddBus(n, stops, is_roundtrip)` on a catalogue that already holds
a bus named `n` returns normally; the new bus is put in front of the earlier ones,
which all stay in the store, and `GetBusInfo(n)` then reports the new bus. -/
theorem AddBus_existing_name_adds_second (m : Libm) (c : TransportCatalogue) (hc : Built m c)
    (n : String) (route : List String) (is_roundtrip : Bool)
    (hknown : ∀ s ∈ route, c.stop_name_to_stop_.count s = true)
    (hn : ∃ b ∈ c.buses_, b.name = n) :
    ∃ c' bus, AddBus m c n route is_roundtrip = .ok c' ∧
      c'.buses_ = bus :: c.buses_ ∧ bus.name = n ∧
      (∃ b ∈ c'.buses_.tail, b.name = n) ∧
      GetBusInfo c' n = .ok (some
        { stop_count := bus.route.length
          unique_stop_count := bus.route.dedup.length
          route_length := bus.route_length
          curvature := bus.curvature }) := by
  have hcons := Consistent_of_Built m c hc
  obtain ⟨c', hc'⟩ := AddBus_ok_of_known m c hcons n route is_roundtrip hknown
  obtain ⟨declared, full, rl, gl, _, _, _, _, hobj⟩ := AddBus_eq_ok m c c' n route is_roundtrip hc'
  obtain ⟨hbuses, hinfo⟩ := GetBusInfo_after_AddBusObject c c' _ hobj
  refine ⟨c', _, hc', hbuses, rfl, ?_, hinfo⟩
  rw [hbuses]
  exact hn

/-- Witness of C12 (amended): a second bus `l` on the catalogue `lineL`. -/
theorem AddBus_existing_name_adds_second_witness :
    ∃ c' bus, AddBus Example.libm Example.lineL "l" ["A"] true = .ok c' ∧
      c'.buses_ = bus :: Example.lineL.buses_ ∧ bus.name = "l" ∧
      (∃ b ∈ c'.buses_.tail, b.name = "l") ∧
      GetBusInfo c' "l" = .ok (some
        { stop_count := bus.route.length
          unique_stop_count := bus.route.dedup.length
          route_length := bus.route_length
          curvature := bus.curvature }) :=
  AddBus_existing_name_adds_second Example.libm Example.lineL
    (Built.add_bus (c := Example.roads) "l" ["A", "B", "C"] false
      (Built.add_distance (c := match Example.stopsABC.AddDistance "A" "B" 600 with
          | .ok c => c
          | .error _ => empty) "B" "C" 400
        (Built.add_distance (c := Example.stopsABC) "A" "B" 600
          (Built.add_stop _ (Built.add_stop _ (Built.add_stop _ Built.empty)))
          (by decide!))
        (by decide!))
      (by decide!))
    "l" ["A"] true (by decide!) (by decide!)

/-- C13 (counterexample): `AddStop` of a second stop named `A` is accepted; the
store then holds two stops named `A`. -/
theorem AddStop_existing_name_is_accepted :
    ((Example.stopsABC.AddStop ⟨3, "A", ⟨5, 5⟩⟩).stops_.map Stop.name) = ["A", "C", "B", "A"] ∧
    ¬ ((Example.stopsABC.AddStop ⟨3, "A", ⟨5, 5⟩⟩).stops_.map Stop.name).Nodup := by
  constructor <;> decide!

/-- C13 (amended): `AddStop` cannot fail and does not look at the names already
stored: the stop is put in front of the deque whatever its name, the earlier stops
stay, the name index then designates the new stop, and a bus list that the name
already had is kept. -/
theorem AddStop_always_inserts (c : TransportCatalogue) (stop : Stop) :
    (c.AddStop stop).stops_ = stop :: c.stops_ ∧
    (c.AddStop stop).buses_ = c.buses_ ∧
    (c.AddStop stop).GetStopByName stop.name = .ok c.stops_.length ∧
    (c.AddStop stop).stopAt c.stops_.length = .ok stop ∧
    (c.AddStop stop).stop_name_to_buses_.find? stop.name =
      some ((c.stop_name_to_buses_.find? stop.name).getD []) := by
  refine ⟨rfl, rfl, ?_, ?_, ?_⟩
  · simp [GetStopByName, AddStop, AssocMap.get, AssocMap.find?_insert]
  · rw [stopAt_eq_ok]
    exact reverse_cons_getElem?_length _ _
  · simp [AddStop, AssocMap.find?_modify]

theorem tableEntry_modify (c : TransportCatalogue) (pf pt : StopPtr) (d : ℚ) (a b : StopPtr) :
    tableEntry { c with
      stop_to_stop_to_distance_ :=
        c.stop_to_stop_to_distance_.modify pf [] (fun row => row.insert pt d) } a b =
      if a = pf ∧ b = pt then some d else c.tableEntry a b := by
  unfold tableEntry
  simp only [AssocMap.find?_modify]
  by_cases ha : pf = a
  · subst ha
    simp only [if_true, true_and, AssocMap.find?_insert]
    by_cases hb : pt = b
    · subst hb; simp
    · have hb' : ¬ b = pt := fun e => hb e.symm
      simp only [hb, hb', if_false]
      cases c.stop_to_stop_to_distance_.find? pf <;> simp [AssocMap.find?]
  · have ha' : ¬ a = pf := fun e => ha e.symm
    simp [ha, ha']

/-- C14: `AddDistance(from, to, d)` raises if and only if `from` or `to` is not a
name of the name index; when it returns, the table maps (from, to) to `d` whatever
was stored before, every other table entry (also (to, from)) is as before, and so
are the stops and the buses. -/
theorem AddDistance_overwrites_one_entry (c : TransportCatalogue) (stop_from stop_to : String)
    (d : ℚ) :
    ((∃ e, c.AddDistance stop_from stop_to d = .error e) ↔
      (c.stop_name_to_stop_.find? stop_from = none ∨
        c.stop_name_to_stop_.find? stop_to = none)) ∧
    (∀ c', c.AddDistance stop_from stop_to d = .ok c' →
      ∃ pf pt, c.stop_name_to_stop_.find? stop_from = some pf ∧
        c.stop_name_to_stop_.find? stop_to = some pt ∧
        c'.tableEntry pf pt = some d ∧
        (∀ a b, ¬ (a = pf ∧ b = pt) → c'.tableEntry a b = c.tableEntry a b) ∧
        c'.stops_ = c.stops_ ∧ c'.buses_ = c.buses_ ∧
        c'.stop_name_to_stop_ = c.stop_name_to_stop_ ∧
        c'.bus_name_to_bus_ = c.bus_name_to_bus_ ∧
        c'.stop_name_to_buses_ = c.stop_name_to_buses_ ∧
        c'.stop_id_to_stop_ = c.stop_id_to_stop_) ∧
    (∀ m, Built m c → ∀ n,
      (c.stop_name_to_stop_.find? n = none ↔ ∀ st ∈ c.stops_, st.name ≠ n)) := by
  refine ⟨?_, ?_, fun m hc n => find?_eq_none_iff c (Consistent_of_Built m c hc) n⟩
  · cases hf : c.stop_name_to_stop_.find? stop_from with
    | none => simp [AddDistance, AssocMap.get, hf, bind, Except.bind]
    | some pf =>
      cases ht : c.stop_name_to_stop_.find? stop_to with
      | none => simp [AddDistance, AssocMap.get, hf, ht, bind, Except.bind]
      | some pt => simp [AddDistance, AssocMap.get, hf, ht, bind, Except.bind, pure, Except.pure]
  · intro c' h
    unfold AddDistance at h
    rw [Except.bind_eq_ok] at h
    obtain ⟨pf, hpf, h⟩ := h
    rw [Except.bind_eq_ok] at h
    obtain ⟨pt, hpt, h⟩ := h
    simp only [pure, Except.pure, Except.ok.injEq] at h
    subst h
    refine ⟨pf, pt, (AssocMap.get_eq_ok _ _ _).1 hpf, (AssocMap.get_eq_ok _ _ _).1 hpt,
      ?_, ?_, rfl, rfl, rfl, rfl, rfl, rfl⟩
    · rw [tableEntry_modify]; simp
    · intro a b hab
      rw [tableEntry_modify, if_neg hab]

/-- Witness of C14: on the stops `A`, `B`, `C` the call `AddDistance("A", "Q", 5)`
raises, and `AddDistance("A", "B", 600)` returns the catalogue `roadsABC`-style table
with the entry (A, B) = 600. -/
theorem AddDistance_overwrites_one_entry_witness :
    (∃ e, Example.stopsABC.AddDistance "A" "Q" 5 = .error e) ∧
    (∃ c', Example.stopsABC.AddDistance "A" "B" 600 = .ok c' ∧ c'.tableEntry 0 1 = some 600) := by
  refine ⟨((AddDistance_overwrites_one_entry Example.stopsABC "A" "Q" 5).1).2
      (Or.inr (by decide!)), ?_⟩
  cases h : Example.stopsABC.AddDistance "A" "B" 600 with
  | error e =>
    have hne : ¬ (Example.stopsABC.stop_name_to_stop_.find? "A" = none ∨
        Example.stopsABC.stop_name_to_stop_.find? "B" = none) := by decide!
    exact absurd
      (((AddDistance_overwrites_one_entry Example.stopsABC "A" "B" 600).1).1 ⟨e, h⟩) hne
  | ok c' =>
    obtain ⟨pf, pt, hf, ht, hd, _⟩ :=
      (AddDistance_overwrites_one_entry Example.stopsABC "A" "B" 600).2.1 c' h
    have hf0 : pf = 0 := by
      have : Example.stopsABC.stop_name_to_stop_.find? "A" = some 0 := by decide!
      rw [this] at hf; exact (Option.some.inj hf).symm
    have ht1 : pt = 1 := by
      have : Example.stopsABC.stop_name_to_stop_.find? "B" = some 1 := by decide!
      rw [this] at ht; exact (Option.some.inj ht).symm
    subst hf0 ht1
    exact ⟨c', rfl, hd⟩

end TransportCatalogue

namespace render

/-- C17: for every bounding box, width, height and padding, the projector maps
(lat, lng) to ((lng - min_lng) * zoom + padding, (max_lat - lat) * zoom + padding),
where zoom is the minimum of the width zoom and the height zoom when both spans are
at least 1e-6 in absolute value, the one that is defined when exactly one span is,
and 0 when neither is. -/
theorem SphereProjector_zoom_and_projection
    (min_lat max_lat min_lng max_lng width height padding lat lng : ℚ) :
    (SphereProjector.create min_lat max_lat min_lng max_lng width height padding).project
        { lat := lat, lng := lng } =
      { x := (lng - min_lng) *
            (SphereProjector.create min_lat max_lat min_lng max_lng width height
              padding).zoom_coeff_ + padding
        y := (max_lat - lat) *
            (SphereProjector.create min_lat max_lat min_lng max_lng width height
              padding).zoom_coeff_ + padding } ∧
    (SphereProjector.create min_lat max_lat min_lng max_lng width height padding).zoom_coeff_ =
      (if 1 / 1000000 ≤ |max_lng - min_lng| then
        if 1 / 1000000 ≤ |max_lat - min_lat| then
          min ((width - 2 * padding) / (max_lng - min_lng))
            ((height - 2 * padding) / (max_lat - min_lat))
        else (width - 2 * padding) / (max_lng - min_lng)
      else
        if 1 / 1000000 ≤ |max_lat - min_lat| then
          (height - 2 * padding) / (max_lat - min_lat)
        else 0) := by
  refine ⟨rfl, ?_⟩
  unfold SphereProjector.create IsZero EPSILON
  by_cases hw : 1 / 1000000 ≤ |max_lng - min_lng| <;>
    by_cases hh : 1 / 1000000 ≤ |max_lat - min_lat|
  · have hw' : ¬ |max_lng - min_lng| < 1 / 1000000 := not_lt.2 hw
    have hh' : ¬ |max_lat - min_lat| < 1 / 1000000 := not_lt.2 hh
    simp only [hw, hh, hw', hh', decide_False, Bool.not_false, if_true]
    by_cases hlt : (height - 2 * padding) / (max_lat - min_lat) <
        (width - 2 * padding) / (max_lng - min_lng)
    · simp only [hlt, if_true]
      exact (min_eq_right (le_of_lt hlt)).symm
    · simp only [hlt, if_false]
      exact (min_eq_left (not_lt.1 hlt)).symm
  · have hw' : ¬ |max_lng - min_lng| < 1 / 1000000 := not_lt.2 hw
    have hh' : |max_lat - min_lat| < 1 / 1000000 := not_le.1 hh
    simp only [hw, hh, hw', hh', decide_False, decide_True, Bool.not_false, Bool.not_true,
      if_true, if_false, Bool.false_eq_true]
  · have hw' : |max_lng - min_lng| < 1 / 1000000 := not_le.1 hw
    have hh' : ¬ |max_lat - min_lat| < 1 / 1000000 := not_lt.2 hh
    simp only [hw, hh, hw', hh', decide_False, decide_True, Bool.not_false, Bool.not_true,
      if_true, if_false, Bool.false_eq_true]
  · have hw' : |max_lng - min_lng| < 1 / 1000000 := not_le.1 hw
    have hh' : |max_lat - min_lat| < 1 / 1000000 := not_le.1 hh
    simp only [hw, hh, hw', hh', decide_False, decide_True, Bool.not_false, Bool.not_true,
      if_true, if_false, Bool.false_eq_true]

end render

namespace render

theorem mem_setInsertBy {α : Type} (key : α → String) (a y : α) (l : List α)
    (h : y ∈ setInsertBy key a l) : y = a ∨ y ∈ l := by
  induction l with
  | nil => simpa [setInsertBy] using h
  | cons z zs ih =>
    unfold setInsertBy at h
    by_cases h1 : (key a).data < (key z).data
    · rw [if_pos h1] at h
      simpa using h
    · rw [if_neg h1] at h
      by_cases h2 : (key z).data < (key a).data
      · rw [if_pos h2] at h
        rcases List.mem_cons.1 h with h | h
        · exact Or.inr (h ▸ List.mem_cons_self _ _)
        · rcases ih h with h | h
          · exact Or.inl h
          · exact Or.inr (List.mem_cons_of_mem _ h)
      · rw [if_neg h2] at h
        exact Or.inr h

theorem setInsertBy_perm {α : Type} (key : α → String) (a : α) (l : List α)
    (h : ∀ y ∈ l, key y ≠ key a) : (setInsertBy key a l).Perm (a :: l) := by
  induction l with
  | nil => simp [setInsertBy]
  | cons z zs ih =>
    unfold setInsertBy
    by_cases h1 : (key a).data < (key z).data
    · rw [if_pos h1]
    · rw [if_neg h1]
      by_cases h2 : (key z).data < (key a).data
      · rw [if_pos h2]
        exact ((ih (fun y hy => h y (List.mem_cons_of_mem _ hy))).cons z).trans
          (List.Perm.swap a z zs)
      · rw [TransportCatalogue.data_lt_iff] at h1 h2
        exact absurd (le_antisymm (not_lt.1 h1) (not_lt.1 h2)) (h z (List.mem_cons_self _ _))

theorem setInsertBy_key {α : Type} (key : α → String) (a : α) (l : List α) :
    ∃ y ∈ setInsertBy key a l, key y = key a := by
  induction l with
  | nil => exact ⟨a, by simp [setInsertBy], rfl⟩
  | cons z zs ih =>
    unfold setInsertBy
    by_cases h1 : (key a).data < (key z).data
    · rw [if_pos h1]
      exact ⟨a, List.mem_cons_self _ _, rfl⟩
    · rw [if_neg h1]
      by_cases h2 : (key z).data < (key a).data
      · rw [if_pos h2]
        obtain ⟨y, hy, hk⟩ := ih
        exact ⟨y, List.mem_cons_of_mem _ hy, hk⟩
      · rw [if_neg h2]
        rw [TransportCatalogue.data_lt_iff] at h1 h2
        exact ⟨z, List.mem_cons_self _ _, le_antisymm (not_lt.1 h1) (not_lt.1 h2)⟩

theorem setInsertBy_keeps {α : Type} (key : α → String) (a y : α) (l : List α)
    (h : y ∈ l) : y ∈ setInsertBy key a l := by
  induction l with
  | nil => cases h
  | cons z zs ih =>
    unfold setInsertBy
    by_cases h1 : (key a).data < (key z).data
    · rw [if_pos h1]
      exact List.mem_cons_of_mem _ h
    · rw [if_neg h1]
      by_cases h2 : (key z).data < (key a).data
      · rw [if_pos h2]
        rcases List.mem_cons.1 h with h | h
        · exact h ▸ List.mem_cons_self _ _
        · exact List.mem_cons_of_mem _ (ih h)
      · rw [if_neg h2]
        exact h

theorem setInsertBy_sorted {α : Type} (key : α → String) (a : α) (l : List α)
    (h : l.Pairwise (fun x y => key x < key y)) :
    (setInsertBy key a l).Pairwise (fun x y => key x < key y) := by
  induction l with
  | nil => simp [setInsertBy]
  | cons z zs ih =>
    rw [List.pairwise_cons] at h
    unfold setInsertBy
    by_cases h1 : (key a).data < (key z).data
    · rw [if_pos h1]
      rw [TransportCatalogue.data_lt_iff] at h1
      rw [List.pairwise_cons]
      refine ⟨?_, List.pairwise_cons.2 h⟩
      intro b hb
      rcases List.mem_cons.1 hb with hb | hb
      · rw [hb]; exact h1
      · exact lt_trans h1 (h.1 b hb)
    · rw [if_neg h1]
      by_cases h2 : (key z).data < (key a).data
      · rw [if_pos h2]
        rw [TransportCatalogue.data_lt_iff] at h2
        rw [List.pairwise_cons]
        refine ⟨?_, ih h.2⟩
        intro b hb
        rcases mem_setInsertBy key a b zs hb with hb | hb
        · rw [hb]; exact h2
        · exact h.1 b hb
      · rw [if_neg h2]
        exact List.pairwise_cons.2 h

theorem sortedBuses_fold (bs : List Bus) :
    ∀ init : List Bus, init.Pairwise (fun x y => x.name < y.name) →
      (bs.foldl (fun sorted b => insertBus b sorted) init).Pairwise
          (fun x y => x.name < y.name) ∧
        (∀ b ∈ bs.foldl (fun sorted b => insertBus b sorted) init, b ∈ init ∨ b ∈ bs) ∧
        (((init ++ bs).map Bus.name).Nodup →
          (bs.foldl (fun sorted b => insertBus b sorted) init).Perm (init ++ bs)) := by
  induction bs with
  | nil =>
    intro init h
    exact ⟨h, fun b hb => Or.inl hb, fun _ => by simp⟩
  | cons b bs ih =>
    intro init h
    obtain ⟨h1, h2, h3⟩ := ih (insertBus b init) (setInsertBy_sorted Bus.name b init h)
    refine ⟨h1, ?_, ?_⟩
    · intro x hx
      rcases h2 x hx with hx | hx
      · rcases mem_setInsertBy Bus.name b x init hx with hx | hx
        · exact Or.inr (hx ▸ List.mem_cons_self _ _)
        · exact Or.inl hx
      · exact Or.inr (List.mem_cons_of_mem _ hx)
    · intro hnd
      have hfresh : ∀ y ∈ init, y.name ≠ b.name := by
        intro y hy he
        rw [List.map_append, List.map_cons] at hnd
        have := (List.nodup_append.1 hnd).2.2
        exact this (List.mem_map_of_mem _ hy) (he ▸ List.mem_cons_self _ _)
      have hp : (insertBus b init).Perm (b :: init) := setInsertBy_perm Bus.name b init hfresh
      have hp2 : (insertBus b init ++ bs).Perm (init ++ b :: bs) :=
        (hp.append_right bs).trans List.perm_middle.symm
      exact (h3 ((hp2.map Bus.name).nodup_iff.2 hnd)).trans hp2

theorem sortedBuses_spec (buses : List Bus) :
    (sortedBuses buses).Pairwise (fun x y => x.name < y.name) ∧
    (∀ b ∈ sortedBuses buses, b ∈ buses) ∧
    ((buses.map Bus.name).Nodup → (sortedBuses buses).Perm buses) := by
  obtain ⟨h1, h2, h3⟩ := sortedBuses_fold buses [] List.Pairwise.nil
  refine ⟨h1, ?_, ?_⟩
  · intro b hb
    rcases h2 b hb with h | h
    · cases h
    · exact h
  · intro hnd
    simpa using h3 (by simpa using hnd)

end render

namespace render

theorem foldlM_rel {α β γ δ : Type} (R : α → β → Prop) (S : γ → δ → Prop)
    (f : γ → α → Except Fault γ) (g : δ → β → δ)
    (h : ∀ acc acc' a b, S acc acc' → R a b → ∃ r, f acc a = .ok r ∧ S r (g acc' b)) :
    ∀ (l : List α) (l' : List β), List.Forall₂ R l l' → ∀ init init', S init init' →
      ∃ r, l.foldlM f init = .ok r ∧ S r (l'.foldl g init') := by
  intro l l' hl
  induction hl with
  | nil =>
    intro init init' hs
    exact ⟨init, rfl, hs⟩
  | cons hab _ ih =>
    intro init init' hs
    obtain ⟨r, hr, hs'⟩ := h init init' _ _ hs hab
    obtain ⟨r', hr', hs''⟩ := ih r _ hs'
    refine ⟨r', ?_, hs''⟩
    rw [List.foldlM_cons, hr]
    exact hr'

theorem find?_forall₂ {α β : Type} (R : α → β → Prop) (p : α → Bool) (q : β → Bool)
    (hpq : ∀ a b, R a b → p a = q b) :
    ∀ (l : List α) (l' : List β), List.Forall₂ R l l' →
      (l.find? p = none ∧ l'.find? q = none) ∨
      ∃ a b, l.find? p = some a ∧ l'.find? q = some b ∧ R a b ∧ p a = true := by
  intro l l' hl
  induction hl with
  | nil => exact Or.inl ⟨rfl, rfl⟩
  | @cons a b l l' hab _ ih =>
    by_cases hp : p a = true
    · have hq : q b = true := (hpq a b hab) ▸ hp
      exact Or.inr ⟨a, b, by simp [List.find?, hp], by simp [List.find?, hq], hab, hp⟩
    · have hq : ¬ q b = true := (hpq a b hab) ▸ hp
      simp only [List.find?, hp, hq]
      exact ih

theorem resolveBus_eq_ok (c : TransportCatalogue) (bus : Bus) (d : DrawnBus) :
    resolveBus c bus = .ok d ↔
      d.name = bus.name ∧ d.is_roundtrip = bus.is_roundtrip ∧
        List.Forall₂ (fun p s => c.stopAt p = .ok s) bus.route d.stops := by
  unfold resolveBus
  rw [Except.bind_eq_ok]
  constructor
  · rintro ⟨stops, h1, h2⟩
    simp only [pure, Except.pure, Except.ok.injEq] at h2
    subst h2
    exact ⟨rfl, rfl, (mapM_ok_forall₂ _ _ _).1 h1⟩
  · rintro ⟨h1, h2, h3⟩
    refine ⟨d.stops, (mapM_ok_forall₂ _ _ _).2 h3, ?_⟩
    cases d
    simp only at h1 h2
    subst h1 h2
    rfl

theorem RouteLineDraw_eq (c : TransportCatalogue) (route : List StopPtr) (stops : List Stop)
    (h : List.Forall₂ (fun p s => c.stopAt p = .ok s) route stops)
    (projector : SphereProjector) (settings : RenderSettings) (color : svg.Color)
    (container : svg.Document) :
    RouteLineDraw c route projector color settings.line_width .ROUND .ROUND .none container =
      .ok (container.Add (lineObject projector settings color stops)) := by
  have hm : route.mapM (fun stop => do
      let s ← c.stopAt stop
      pure (projector.project s.coordinates)) =
      .ok (stops.map (fun s => projector.project s.coordinates)) := by
    rw [mapM_ok_forall₂, List.forall₂_map_right_iff]
    refine h.imp ?_
    intro p s hps
    rw [hps]; rfl
  unfold RouteLineDraw
  rw [hm]
  rfl

theorem RouteNameDraw_eq (c : TransportCatalogue) (route : List StopPtr) (stops : List Stop)
    (h : List.Forall₂ (fun p s => c.stopAt p = .ok s) route stops) (hne : route ≠ [])
    (projector : SphereProjector) (settings : RenderSettings) (color : svg.Color)
    (name : String) (is_roundtrip : Bool) (container : svg.Document) :
    RouteNameDraw c route projector name is_roundtrip (busTextProperties settings color)
        DEFAULT_FONT_WEIGHT container =
      .ok ⟨container.objects_ ++
        busLabels projector settings color ⟨name, is_roundtrip, stops⟩⟩ := by
  have hlen : route.length = stops.length := h.length_eq
  have hpos : 0 < route.length := List.length_pos.2 hne
  have hmid : route.length / 2 < route.length := Nat.div_lt_self hpos (by decide)
  have hget : ∀ i (hi : i < route.length),
      ∃ s, c.stopAt route[i] = .ok s ∧ stops[i]? = some s := by
    intro i hi
    have hi' : i < stops.length := hlen ▸ hi
    have := (List.forall₂_iff_get.1 h).2 i hi hi'
    simp only [List.get_eq_getElem] at this
    exact ⟨stops[i], this, List.getElem?_eq_getElem hi'⟩
  obtain ⟨first, h0, h0'⟩ := hget 0 hpos
  obtain ⟨mid, hm, hm'⟩ := hget (route.length / 2) hmid
  unfold RouteNameDraw busLabels
  rw [TransportCatalogue.index_ok_of_lt route 0 hpos,
    TransportCatalogue.index_ok_of_lt route (route.length / 2) hmid]
  simp only [bind, Except.bind, h0, hm]
  rw [← hlen]
  rw [h0', hm']
  dsimp only
  by_cases hc : (is_roundtrip ||
      IsZero ((first.coordinates.lat - mid.coordinates.lat) +
        (first.coordinates.lng - mid.coordinates.lng))) = true
  · rw [if_pos hc, if_pos hc]
    simp [svg.Document.Add, busLabelPair, pure, Except.pure]
  · rw [if_neg hc, if_neg hc]
    simp [svg.Document.Add, busLabelPair, pure, Except.pure]

end render

namespace render

theorem foldlM_eq_foldl {α β γ : Type} (R : α → β → Prop)
    (f : γ → α → Except Fault γ) (g : γ → β → γ)
    (h : ∀ acc a b, R a b → f acc a = .ok (g acc b))
    (l : List α) (l' : List β) (hl : List.Forall₂ R l l') (init : γ) :
    l.foldlM f init = .ok (l'.foldl g init) := by
  obtain ⟨r, hr, hs⟩ := foldlM_rel R (fun (x y : γ) => x = y) f g
    (fun acc acc' a b hacc hab => ⟨_, hacc ▸ h acc a b hab, rfl⟩) l l' hl init init rfl
  rw [hr, hs]

theorem resolveBus_isEmpty (c : TransportCatalogue) (bus : Bus) (d : DrawnBus)
    (h : resolveBus c bus = .ok d) : bus.route.isEmpty = d.stops.isEmpty := by
  have hl := ((resolveBus_eq_ok c bus d).1 h).2.2.length_eq
  cases hr : bus.route with
  | nil =>
    rw [hr] at hl
    have : d.stops = [] := List.length_eq_zero.1 hl.symm
    simp [this]
  | cons p ps =>
    rw [hr] at hl
    cases hs : d.stops with
    | nil => rw [hs] at hl; cases hl
    | cons s ss => rfl

theorem MinMaxLatLng_eq (c : TransportCatalogue) (bs : List Bus) (ds : List DrawnBus)
    (h : List.Forall₂ (fun bus d => resolveBus c bus = .ok d) bs ds) :
    MapRenderer.MinMaxLatLng c bs = .ok (boxOf ds) := by
  have hfold : ∀ init, bs.foldlM
      (fun box bus =>
        bus.route.foldlM
          (fun (box : ℚ × ℚ × ℚ × ℚ) stop => do
            let s ← c.stopAt stop
            pure (MapRenderer.extendBox box s))
          box) init =
      .ok (ds.foldl (fun box d => d.stops.foldl MapRenderer.extendBox box) init) := by
    intro init
    refine foldlM_eq_foldl (fun bus d => resolveBus c bus = .ok d) _ _ ?_ bs ds h init
    intro acc bus d hres
    refine foldlM_eq_foldl (fun p s => c.stopAt p = .ok s) _ _ ?_ bus.route d.stops
      ((resolveBus_eq_ok c bus d).1 hres).2.2 acc
    intro acc' p s hps
    rw [hps]; rfl
  rcases find?_forall₂ (fun bus d => resolveBus c bus = .ok d)
      (fun bus => !bus.route.isEmpty) (fun d => !d.stops.isEmpty)
      (fun a b hab => by simp only [resolveBus_isEmpty c a b hab]) bs ds h with
    ⟨h1, h2⟩ | ⟨a, b, h1, h2, hab, hp⟩
  · unfold MapRenderer.MinMaxLatLng boxOf
    rw [h1, h2]
  · have hroute := ((resolveBus_eq_ok c a b).1 hab).2.2
    cases hr : a.route with
    | nil => rw [hr] at hp; simp at hp
    | cons p0 ps =>
      rw [hr] at hroute
      cases hs : b.stops with
      | nil => rw [hs] at hroute; cases hroute
      | cons s0 ss =>
        rw [hs] at hroute
        have hp0 : c.stopAt p0 = .ok s0 := by
          cases hroute with
          | cons h0 _ => exact h0
        have hidx : TransportCatalogue.index a.route 0 = .ok p0 := by
          rw [hr, TransportCatalogue.index_eq_ok]; simp
        have hs0 : b.stops[0]? = some s0 := by rw [hs]; simp
        unfold MapRenderer.MinMaxLatLng boxOf
        rw [h1, h2]
        dsimp only
        rw [hs0]
        dsimp only
        rw [Except.bind_eq_ok]
        refine ⟨p0, hidx, ?_⟩
        rw [Except.bind_eq_ok]
        exact ⟨s0, hp0, hfold _⟩

/-- The effect of one bus on the pair (number of coloured buses so far, objects). -/
theorem colour_fold (F : Nat → DrawnBus → List svg.Object) (ds : List DrawnBus) :
    ∀ (n : Nat) (objs : List svg.Object),
      ds.foldl
          (fun (st : Nat × List svg.Object) d =>
            if d.stops.isEmpty then st else (st.1 + 1, st.2 ++ F st.1 d))
          (n, objs) =
        (n + (nonEmpty ds).length,
          objs ++ (((nonEmpty ds).enumFrom n).map (fun id => F id.1 id.2)).flatten) := by
  induction ds with
  | nil => intro n objs; simp [nonEmpty]
  | cons d ds ih =>
    intro n objs
    rw [List.foldl_cons]
    by_cases he : d.stops.isEmpty = true
    · rw [if_pos he, ih]
      simp [nonEmpty, List.filter_cons, he]
    · rw [if_neg he, ih]
      simp [nonEmpty, List.filter_cons, he, List.enumFrom_cons, Nat.add_assoc, Nat.add_comm 1]

theorem next_mod (n P : Nat) (hP : 0 < P) :
    (if n % P = P - 1 then 0 else n % P + 1) = (n + 1) % P := by
  have hlt : n % P < P := Nat.mod_lt _ hP
  have hstep : (n + 1) % P = (n % P + 1) % P := by
    rw [Nat.add_mod n 1 P, Nat.add_mod (n % P) 1 P, Nat.mod_mod]
  rw [hstep]
  by_cases h : n % P = P - 1
  · rw [if_pos h, h, Nat.sub_add_cancel hP, Nat.mod_self]
  · rw [if_neg h]
    have : n % P + 1 < P := by omega
    rw [Nat.mod_eq_of_lt this]

theorem palette_index (settings : RenderSettings) (hP : settings.color_palette ≠ []) (n : Nat) :
    TransportCatalogue.index settings.color_palette (n % settings.color_palette.length) =
      .ok (paletteColor settings n) := by
  have hlt : n % settings.color_palette.length < settings.color_palette.length :=
    Nat.mod_lt _ (List.length_pos.2 hP)
  rw [TransportCatalogue.index_ok_of_lt _ _ hlt]
  unfold paletteColor
  rw [List.getD_eq_getElem _ _ hlt]

end render

namespace render

theorem flatten_map_singleton {α β : Type} (f : α → β) (l : List α) :
    (l.map (fun x => [f x])).flatten = l.map f := by
  induction l with
  | nil => rfl
  | cons a l ih => simp [ih]

theorem MapRenderer.eq_mk (r : MapRenderer) (settings : RenderSettings) (k : Nat)
    (objs : List svg.Object) (h1 : r.settings_ = settings) (h2 : r.current_color_ = k)
    (h3 : r.document_.objects_ = objs) :
    r = { settings_ := settings, current_color_ := k, document_ := ⟨objs⟩ } := by
  cases r with
  | mk s k' d =>
    cases d
    simp only at h1 h2 h3
    subst h1 h2 h3
    rfl

theorem drawLines_eq (c : TransportCatalogue) (projector : SphereProjector)
    (settings : RenderSettings) (hP : settings.color_palette ≠ [])
    (bs : List Bus) (ds : List DrawnBus)
    (h : List.Forall₂ (fun bus d => resolveBus c bus = .ok d) bs ds)
    (r : MapRenderer) (hs : r.settings_ = settings) (n : Nat)
    (hn : r.current_color_ = n % settings.color_palette.length) :
    MapRenderer.drawLines c projector bs r =
      .ok { settings_ := settings
            current_color_ := (n + (nonEmpty ds).length) % settings.color_palette.length
            document_ := ⟨r.document_.objects_ ++
              ((nonEmpty ds).enumFrom n).map
                (fun id => lineObject projector settings (paletteColor settings id.1)
                  id.2.stops)⟩ } := by
  obtain ⟨r', hr', h1, h2, h3⟩ := foldlM_rel (fun bus d => resolveBus c bus = .ok d)
    (fun (r : MapRenderer) (st : Nat × List svg.Object) =>
      r.settings_ = settings ∧ r.current_color_ = st.1 % settings.color_palette.length ∧
        r.document_.objects_ = st.2)
    (fun r bus =>
      if bus.route.isEmpty then pure r
      else do
        let color ← TransportCatalogue.index r.settings_.color_palette r.current_color_
        let document ← RouteLineDraw c bus.route projector color r.settings_.line_width
          .ROUND .ROUND .none r.document_
        pure { r with document_ := document, current_color_ := r.nextColor })
    (fun st d =>
      if d.stops.isEmpty then st
      else (st.1 + 1, st.2 ++ (fun n d => [lineObject projector settings
        (paletteColor settings n) d.stops]) st.1 d))
    (by
      intro acc acc' bus d ⟨a1, a2, a3⟩ hres
      dsimp only
      by_cases he : bus.route.isEmpty = true
      · have he' : d.stops.isEmpty = true := (resolveBus_isEmpty c bus d hres) ▸ he
        rw [if_pos he, if_pos he']
        exact ⟨acc, rfl, a1, a2, a3⟩
      · have he' : ¬ d.stops.isEmpty = true := (resolveBus_isEmpty c bus d hres) ▸ he
        rw [if_neg he, if_neg he']
        refine ⟨{ acc with
          document_ := acc.document_.Add
            (lineObject projector settings (paletteColor settings acc'.1) d.stops)
          current_color_ := acc.nextColor }, ?_, a1, ?_, ?_⟩
        · rw [Except.bind_eq_ok]
          refine ⟨paletteColor settings acc'.1, ?_, ?_⟩
          · rw [a1, a2]; exact palette_index settings hP _
          · rw [Except.bind_eq_ok]
            refine ⟨_, ?_, rfl⟩
            rw [a1]
            exact RouteLineDraw_eq c _ _ ((resolveBus_eq_ok c bus d).1 hres).2.2 _ _ _ _
        · show acc.nextColor = _
          unfold MapRenderer.nextColor
          rw [a1, a2]
          exact next_mod _ _ (List.length_pos.2 hP)
        · show (acc.document_.Add _).objects_ = _
          unfold svg.Document.Add
          rw [a3])
    bs ds h r (n, r.document_.objects_) ⟨hs, hn, rfl⟩
  rw [colour_fold (fun n d => [lineObject projector settings (paletteColor settings n)
    d.stops])] at h2 h3
  unfold MapRenderer.drawLines
  rw [hr', MapRenderer.eq_mk r' settings _ _ h1 h2 h3, flatten_map_singleton]

theorem drawNames_eq (c : TransportCatalogue) (projector : SphereProjector)
    (settings : RenderSettings) (hP : settings.color_palette ≠ [])
    (bs : List Bus) (ds : List DrawnBus)
    (h : List.Forall₂ (fun bus d => resolveBus c bus = .ok d) bs ds)
    (r : MapRenderer) (hs : r.settings_ = settings) (n : Nat)
    (hn : r.current_color_ = n % settings.color_palette.length) :
    MapRenderer.drawNames c projector bs r =
      .ok { settings_ := settings
            current_color_ := (n + (nonEmpty ds).length) % settings.color_palette.length
            document_ := ⟨r.document_.objects_ ++
              (((nonEmpty ds).enumFrom n).map
                (fun id => busLabels projector settings (paletteColor settings id.1)
                  id.2)).flatten⟩ } := by
  obtain ⟨r', hr', h1, h2, h3⟩ := foldlM_rel (fun bus d => resolveBus c bus = .ok d)
    (fun (r : MapRenderer) (st : Nat × List svg.Object) =>
      r.settings_ = settings ∧ r.current_color_ = st.1 % settings.color_palette.length ∧
        r.document_.objects_ = st.2)
    (fun r bus =>
      if bus.route.isEmpty then pure r
      else do
        let color ← TransportCatalogue.index r.settings_.color_palette r.current_color_
        let document ← RouteNameDraw c bus.route projector bus.name bus.is_roundtrip
          { offset := r.settings_.bus_label_offset
            font_size := r.settings_.bus_label_font_size
            font_family := DEFAULT_FONT
            font_color := color
            underlayer_color := r.settings_.underlayer_color
            underlayer_width := r.settings_.underlayer_width
            stroke_line_cap := .ROUND
            stroke_line_join := .ROUND }
          DEFAULT_FONT_WEIGHT r.document_
        pure { r with document_ := document, current_color_ := r.nextColor })
    (fun st d =>
      if d.stops.isEmpty then st
      else (st.1 + 1, st.2 ++ (fun n d => busLabels projector settings
        (paletteColor settings n) d) st.1 d))
    (by
      intro acc acc' bus d ⟨a1, a2, a3⟩ hres
      dsimp only
      by_cases he : bus.route.isEmpty = true
      · have he' : d.stops.isEmpty = true := (resolveBus_isEmpty c bus d hres) ▸ he
        rw [if_pos he, if_pos he']
        exact ⟨acc, rfl, a1, a2, a3⟩
      · have he' : ¬ d.stops.isEmpty = true := (resolveBus_isEmpty c bus d hres) ▸ he
        rw [if_neg he, if_neg he']
        obtain ⟨d1, d2, d3⟩ := (resolveBus_eq_ok c bus d).1 hres
        have hne : bus.route ≠ [] := fun e => he (by rw [e]; rfl)
        refine ⟨{ acc with
          document_ := ⟨acc.document_.objects_ ++
            busLabels projector settings (paletteColor settings acc'.1) d⟩
          current_color_ := acc.nextColor }, ?_, a1, ?_, ?_⟩
        · rw [Except.bind_eq_ok]
          refine ⟨paletteColor settings acc'.1, ?_, ?_⟩
          · rw [a1, a2]; exact palette_index settings hP _
          · rw [Except.bind_eq_ok]
            refine ⟨_, ?_, rfl⟩
            rw [a1]
            have := RouteNameDraw_eq c bus.route d.stops d3 hne projector settings
              (paletteColor settings acc'.1) bus.name bus.is_roundtrip acc.document_
            have hd : (⟨bus.name, bus.is_roundtrip, d.stops⟩ : DrawnBus) = d := by
              rw [← d1, ← d2]
            rw [hd] at this
            exact this
        · show acc.nextColor = _
          unfold MapRenderer.nextColor
          rw [a1, a2]
          exact next_mod _ _ (List.length_pos.2 hP)
        · show acc.document_.objects_ ++ _ = _
          rw [a3])
    bs ds h r (n, r.document_.objects_) ⟨hs, hn, rfl⟩
  rw [colour_fold (fun n d => busLabels projector settings (paletteColor settings n) d)]
    at h2 h3
  unfold MapRenderer.drawNames
  rw [hr', MapRenderer.eq_mk r' settings _ _ h1 h2 h3]

end render

namespace render

theorem map_snd_insertStop (p : StopPtr × Stop) (l : List (StopPtr × Stop)) :
    (insertStop p l).map Prod.snd = setInsertBy Stop.name p.2 (l.map Prod.snd) := by
  induction l with
  | nil => rfl
  | cons x xs ih =>
    have ih' : (setInsertBy (fun q => q.2.name) p xs).map Prod.snd =
        setInsertBy Stop.name p.2 (xs.map Prod.snd) := ih
    show (setInsertBy (fun q => q.2.name) p (x :: xs)).map Prod.snd =
      setInsertBy Stop.name p.2 (x.2 :: xs.map Prod.snd)
    simp only [setInsertBy]
    by_cases h1 : p.2.name.data < x.2.name.data
    · simp [h1]
    · by_cases h2 : x.2.name.data < p.2.name.data
      · simp [h1, h2, ih']
      · simp [h1, h2]

theorem collectStops_eq (c : TransportCatalogue) (bs : List Bus) (ds : List DrawnBus)
    (h : List.Forall₂ (fun bus d => resolveBus c bus = .ok d) bs ds) :
    ∃ stops, MapRenderer.collectStops c bs = .ok stops ∧ stops.map Prod.snd = stopSet ds ∧
      ∀ q ∈ stops, c.stopAt q.1 = .ok q.2 := by
  have hres := foldlM_rel (fun bus d => resolveBus c bus = .ok d)
    (fun (acc : List (StopPtr × Stop)) (acc' : List Stop) =>
      acc.map Prod.snd = acc' ∧ ∀ q ∈ acc, c.stopAt q.1 = .ok q.2)
    (fun stops bus =>
      bus.route.foldlM
        (fun stops stop => do
          let s ← c.stopAt stop
          pure (insertStop (stop, s) stops))
        stops)
    (fun stops d => d.stops.foldl (fun stops s => setInsertBy Stop.name s stops) stops)
    (by
      intro acc acc' bus d hacc hres
      refine foldlM_rel (fun p s => c.stopAt p = .ok s)
        (fun (acc : List (StopPtr × Stop)) (acc' : List Stop) =>
          acc.map Prod.snd = acc' ∧ ∀ q ∈ acc, c.stopAt q.1 = .ok q.2) _ _ ?_
        bus.route d.stops ((resolveBus_eq_ok c bus d).1 hres).2.2 acc acc' hacc
      intro a a' p s ha hps
      refine ⟨insertStop (p, s) a, by rw [hps]; rfl, ?_, ?_⟩
      · rw [map_snd_insertStop, ha.1]
      · intro q hq
        rcases mem_setInsertBy _ _ _ _ hq with hq | hq
        · rw [hq]; exact hps
        · exact ha.2 q hq)
    bs ds h [] [] ⟨rfl, fun q hq => absurd hq (List.not_mem_nil q)⟩
  obtain ⟨stops, h1, h2, h3⟩ := hres
  exact ⟨stops, h1, h2, h3⟩

theorem RouteStopsDraw_eq (projector : SphereProjector) (settings : RenderSettings)
    (stops : List (StopPtr × Stop)) :
    ∀ container : svg.Document,
      RouteStopsDraw stops projector settings.stop_radius DEFAULT_FILL_COLOR_STOP container =
        ⟨container.objects_ ++ (stops.map Prod.snd).map (stopCircle projector settings)⟩ := by
  induction stops with
  | nil => intro container; simp [RouteStopsDraw]
  | cons q qs ih =>
    intro container
    unfold RouteStopsDraw at ih ⊢
    rw [List.foldl_cons, ih]
    simp [svg.Document.Add, stopCircle]

theorem RouteStopNamesDraw_eq (projector : SphereProjector) (settings : RenderSettings)
    (stops : List (StopPtr × Stop)) :
    ∀ container : svg.Document,
      RouteStopNamesDraw stops projector (stopTextProperties settings) container =
        ⟨container.objects_ ++
          ((stops.map Prod.snd).map (stopLabelPair projector settings)).flatten⟩ := by
  induction stops with
  | nil => intro container; simp [RouteStopNamesDraw]
  | cons q qs ih =>
    intro container
    unfold RouteStopNamesDraw at ih ⊢
    rw [List.foldl_cons, ih]
    simp [svg.Document.Add, stopLabelPair]

/-- The document that `Render` builds, in closed form: the objects already in the
document, then the four layers over the resolved buses of the sorted set. -/
theorem draw_eq (r : MapRenderer) (c : TransportCatalogue) (buses : List Bus)
    (ds : List DrawnBus)
    (h : List.Forall₂ (fun bus d => resolveBus c bus = .ok d) (sortedBuses buses) ds)
    (hP : r.settings_.color_palette ≠ []) (h0 : r.current_color_ = 0) :
    MapRenderer.draw r c buses =
      .ok { settings_ := r.settings_
            current_color_ := 0
            document_ := ⟨r.document_.objects_ ++ layer1 r.settings_ ds ++
              layer2 r.settings_ ds ++ layer3 r.settings_ ds ++ layer4 r.settings_ ds⟩ } := by
  obtain ⟨stops, hstops, hsnd, _⟩ := collectStops_eq c (sortedBuses buses) ds h
  have hlines := drawLines_eq c (projectorOf r.settings_ ds) r.settings_ hP
    (sortedBuses buses) ds h r rfl 0 (by rw [h0, Nat.zero_mod])
  unfold MapRenderer.draw
  dsimp only
  rw [Except.bind_eq_ok]
  refine ⟨boxOf ds, MinMaxLatLng_eq c _ ds h, ?_⟩
  rw [Except.bind_eq_ok]
  refine ⟨_, hlines, ?_⟩
  rw [Except.bind_eq_ok]
  refine ⟨_, drawNames_eq c (projectorOf r.settings_ ds) r.settings_ hP
    (sortedBuses buses) ds h
    { settings_ := r.settings_
      current_color_ := 0
      document_ := ⟨r.document_.objects_ ++
        ((nonEmpty ds).enumFrom 0).map
          (fun id => lineObject (projectorOf r.settings_ ds) r.settings_
            (paletteColor r.settings_ id.1) id.2.stops)⟩ }
    rfl 0 (by rw [Nat.zero_mod]), ?_⟩
  rw [Except.bind_eq_ok]
  refine ⟨stops, hstops, ?_⟩
  have h3 := RouteStopsDraw_eq (projectorOf r.settings_ ds) r.settings_ stops
  have h4 := RouteStopNamesDraw_eq (projectorOf r.settings_ ds) r.settings_ stops
  unfold stopTextProperties at h4
  unfold projectorOf at h3 h4
  dsimp only
  rw [h3, h4, hsnd]
  simp only [pure, Except.pure, layer1, layer2, layer3, layer4, List.enum, projectorOf,
    List.append_assoc]

end render

namespace render

theorem resolve_ok (c : TransportCatalogue) (bs : List Bus)
    (h : ∀ b ∈ bs, ∀ p ∈ b.route, p < c.stops_.length) :
    ∃ ds, List.Forall₂ (fun bus d => resolveBus c bus = .ok d) bs ds := by
  induction bs with
  | nil => exact ⟨[], List.Forall₂.nil⟩
  | cons b bs ih =>
    obtain ⟨ds, hds⟩ := ih (fun b' hb' => h b' (List.mem_cons_of_mem _ hb'))
    obtain ⟨stops, hstops⟩ := TransportCatalogue.mapM_ok_of_forall c.stopAt b.route
      (fun p hp => (TransportCatalogue.stopAt_of_lt c p
        (h b (List.mem_cons_self _ _) p hp)).imp (fun _ hs => hs.1))
    refine ⟨⟨b.name, b.is_roundtrip, stops⟩ :: ds, List.Forall₂.cons ?_ hds⟩
    rw [resolveBus_eq_ok]
    exact ⟨rfl, rfl, (mapM_ok_forall₂ _ _ _).1 hstops⟩

theorem busLabels_shape (projector : SphereProjector) (settings : RenderSettings)
    (color : svg.Color) (d : DrawnBus) (hne : d.stops.isEmpty = false) :
    ((busLabels projector settings color d).length = 2 ∨
      (busLabels projector settings color d).length = 4) ∧
    ∀ k, k < (busLabels projector settings color d).length →
      ∃ t, (busLabels projector settings color d)[k]? = some (.text t) ∧ t.data_ = d.name ∧
        t.props.fill_color_ = some (if k % 2 = 1 then color else settings.underlayer_color) := by
  have hpos : 0 < d.stops.length := by
    cases hs : d.stops with
    | nil => rw [hs] at hne; simp at hne
    | cons s ss => simp
  have hmid : d.stops.length / 2 < d.stops.length := Nat.div_lt_self hpos (by decide)
  unfold busLabels
  rw [List.getElem?_eq_getElem hpos, List.getElem?_eq_getElem hmid]
  dsimp only
  split
  · refine ⟨Or.inl (by simp [busLabelPair]), ?_⟩
    intro k hk
    simp only [busLabelPair, List.append_nil, List.length_cons, List.length_nil] at hk
    interval_cases k <;>
      simp [busLabelPair, PreBuildUnderLayerAndName, busTextProperties]
  · refine ⟨Or.inr (by simp [busLabelPair]), ?_⟩
    intro k hk
    simp only [busLabelPair, List.length_append, List.length_cons, List.length_nil] at hk
    interval_cases k <;>
      simp [busLabelPair, PreBuildUnderLayerAndName, busTextProperties]

theorem enum_getElem? {α : Type} (l : List α) (i : Nat) (a : α) (h : l[i]? = some a) :
    l.enum[i]? = some (i, a) := by
  rw [List.enum, List.getElem?_enumFrom, h]
  simp

end render

namespace render

theorem paletteColor_getElem? (settings : RenderSettings) (hP : settings.color_palette ≠ [])
    (i : Nat) :
    settings.color_palette[i % settings.color_palette.length]? =
      some (paletteColor settings i) := by
  have hlt : i % settings.color_palette.length < settings.color_palette.length :=
    Nat.mod_lt _ (List.length_pos.2 hP)
  unfold paletteColor
  rw [List.getD_eq_getElem _ _ hlt, List.getElem?_eq_getElem hlt]

/-- C18: with a non-empty palette of size P and unique bus names, a fresh renderer
draws the buses in ascending order of name whatever their order in the input; the
i-th bus with a non-empty route has its polyline (layer 1) stroked with
palette[i mod P] and the name texts of its label pairs (layer 2) filled with the
same colour; a bus with an empty route adds no object and does not advance the
colour index. -/
theorem Render_palette_colors (settings : RenderSettings) (c : TransportCatalogue)
    (buses : List Bus) (hP : settings.color_palette ≠ [])
    (huniq : (buses.map Bus.name).Nodup)
    (hvalid : ∀ b ∈ buses, ∀ p ∈ b.route, p < c.stops_.length) :
    ∃ (r' : MapRenderer) (ds : List DrawnBus) (lines : List svg.Object)
        (labels : List (List svg.Object)) (rest : List svg.Object),
      MapRenderer.draw (MapRenderer.create settings) c buses = .ok r' ∧
      (sortedBuses buses).Perm buses ∧
      (sortedBuses buses).Pairwise (fun x y => x.name < y.name) ∧
      List.Forall₂ (fun bus d => resolveBus c bus = .ok d) (sortedBuses buses) ds ∧
      r'.document_.objects_ = lines ++ labels.flatten ++ rest ∧
      lines.length = (nonEmpty ds).length ∧
      labels.length = (nonEmpty ds).length ∧
      ∀ i d, (nonEmpty ds)[i]? = some d →
        ∃ (color : svg.Color) (poly : svg.Polyline) (texts : List svg.Object),
          settings.color_palette[i % settings.color_palette.length]? = some color ∧
          lines[i]? = some (.polyline poly) ∧
          poly.props.stroke_color_ = some color ∧
          poly.points_.length = d.stops.length ∧
          labels[i]? = some texts ∧
          (texts.length = 2 ∨ texts.length = 4) ∧
          ∀ k, k < texts.length →
            ∃ t : svg.Text, texts[k]? = some (.text t) ∧ t.data_ = d.name ∧
              t.props.fill_color_ =
                some (if k % 2 = 1 then color else settings.underlayer_color) := by
  obtain ⟨hsorted, hsub, hperm⟩ := sortedBuses_spec buses
  obtain ⟨ds, hds⟩ := resolve_ok c (sortedBuses buses)
    (fun b hb => hvalid b (hsub b hb))
  have hdraw := draw_eq (MapRenderer.create settings) c buses ds hds hP rfl
  refine ⟨_, ds, layer1 settings ds,
    (nonEmpty ds).enum.map
      (fun id => busLabels (projectorOf settings ds) settings (paletteColor settings id.1) id.2),
    layer3 settings ds ++ layer4 settings ds,
    hdraw, hperm huniq, hsorted, hds, ?_, ?_, ?_, ?_⟩
  · simp [MapRenderer.create, layer2, List.append_assoc]
  · simp [layer1]
  · simp
  · intro i d hid
    have hmem : d ∈ nonEmpty ds := List.getElem?_mem hid
    have hne : d.stops.isEmpty = false := by
      have := (List.mem_filter.1 hmem).2
      simpa using this
    obtain ⟨hlen, hshape⟩ := busLabels_shape (projectorOf settings ds) settings
      (paletteColor settings i) d hne
    refine ⟨paletteColor settings i,
      { points_ := d.stops.map (fun s => (projectorOf settings ds).project s.coordinates)
        props :=
          { stroke_width_ := some settings.line_width
            stroke_color_ := some (paletteColor settings i)
            fill_color_ := some .none
            stroke_line_cap_ := some .ROUND
            stroke_line_join_ := some .ROUND } },
      busLabels (projectorOf settings ds) settings (paletteColor settings i) d,
      paletteColor_getElem? settings hP i, ?_, rfl, ?_, ?_, hlen, hshape⟩
    · unfold layer1 lineObject
      rw [List.getElem?_map, enum_getElem? _ i d hid]
      rfl
    · simp
    · rw [List.getElem?_map, enum_getElem? _ i d hid]
      rfl

/-- Witness of C18: four buses given out of name order, one of them with an empty
route, drawn with a palette of two colours. -/
theorem Render_palette_colors_witness :
    ∃ r', MapRenderer.draw (MapRenderer.create Example.renderSettings) Example.stopsABC
      Example.busesOutOfOrder = .ok r' := by
  obtain ⟨r', _, _, _, _, h, _⟩ := Render_palette_colors Example.renderSettings
    Example.stopsABC Example.busesOutOfOrder (by decide) (by decide) (by decide!)
  exact ⟨r', h⟩

end render

namespace render

theorem insert_fold_spec {α : Type} (key : α → String) (l : List α) :
    ∀ init : List α, init.Pairwise (fun x y => key x < key y) →
      (l.foldl (fun acc s => setInsertBy key s acc) init).Pairwise
          (fun x y => key x < key y) ∧
        (∀ x ∈ l.foldl (fun acc s => setInsertBy key s acc) init, x ∈ init ∨ x ∈ l) ∧
        (∀ x ∈ init, x ∈ l.foldl (fun acc s => setInsertBy key s acc) init) ∧
        (∀ x ∈ l, ∃ y ∈ l.foldl (fun acc s => setInsertBy key s acc) init, key y = key x) := by
  induction l with
  | nil =>
    intro init h
    exact ⟨h, fun x hx => Or.inl hx, fun x hx => hx, fun x hx => absurd hx (List.not_mem_nil x)⟩
  | cons a l ih =>
    intro init h
    obtain ⟨h1, h2, h3, h4⟩ := ih (setInsertBy key a init) (setInsertBy_sorted key a init h)
    refine ⟨h1, ?_, ?_, ?_⟩
    · intro x hx
      rcases h2 x hx with hx | hx
      · rcases mem_setInsertBy key a x init hx with hx | hx
        · exact Or.inr (hx ▸ List.mem_cons_self _ _)
        · exact Or.inl hx
      · exact Or.inr (List.mem_cons_of_mem _ hx)
    · intro x hx
      exact h3 x (setInsertBy_keeps key a x init hx)
    · intro x hx
      rcases List.mem_cons.1 hx with hx | hx
      · obtain ⟨y, hy, hk⟩ := setInsertBy_key key a init
        exact ⟨y, h3 y hy, by rw [hk, hx]⟩
      · exact h4 x hx

theorem foldl_flatten_eq {α β : Type} (f : β → α → β) (L : List (List α)) :
    ∀ init : β, L.flatten.foldl f init = L.foldl (fun acc l => l.foldl f acc) init := by
  induction L with
  | nil => intro init; rfl
  | cons l L ih =>
    intro init
    rw [List.flatten_cons, List.foldl_append, ih, List.foldl_cons]

/-- The set of the stops of resolved buses: strictly ascending in the name, made of
stops of the routes, and, when equal names mean equal stops, of all of them. -/
theorem stopSet_spec (ds : List DrawnBus)
    (hinj : ∀ d ∈ ds, ∀ d' ∈ ds, ∀ s ∈ d.stops, ∀ s' ∈ d'.stops, s.name = s'.name → s = s') :
    (stopSet ds).Pairwise (fun s t => s.name < t.name) ∧
    ∀ s, s ∈ stopSet ds ↔ ∃ d ∈ ds, s ∈ d.stops := by
  have heq : stopSet ds =
      (ds.map DrawnBus.stops).flatten.foldl (fun acc s => setInsertBy Stop.name s acc) [] := by
    rw [foldl_flatten_eq, List.foldl_map]
    rfl
  obtain ⟨h1, h2, _, h4⟩ := insert_fold_spec Stop.name (ds.map DrawnBus.stops).flatten []
    List.Pairwise.nil
  rw [← heq] at h1 h2 h4
  have hmem : ∀ s, s ∈ (ds.map DrawnBus.stops).flatten ↔ ∃ d ∈ ds, s ∈ d.stops := by
    intro s
    simp only [List.mem_flatten, List.mem_map]
    constructor
    · rintro ⟨l, ⟨d, hd, rfl⟩, hs⟩
      exact ⟨d, hd, hs⟩
    · rintro ⟨d, hd, hs⟩
      exact ⟨d.stops, ⟨d, hd, rfl⟩, hs⟩
  refine ⟨h1, fun s => ⟨?_, ?_⟩⟩
  · intro hs
    rcases h2 s hs with h | h
    · cases h
    · exact (hmem s).1 h
  · intro hs
    obtain ⟨y, hy, hk⟩ := h4 s ((hmem s).2 hs)
    have hy' : y ∈ (ds.map DrawnBus.stops).flatten := by
      rcases h2 y hy with h | h
      · cases h
      · exact h
    obtain ⟨d, hd, hsd⟩ := hs
    obtain ⟨d', hd', hyd⟩ := (hmem y).1 hy'
    rw [← hinj d' hd' d hd y hyd s hsd hk]
    exact hy

theorem forall₂_mem_right {α β : Type} {R : α → β → Prop} {l : List α} {l' : List β}
    (h : List.Forall₂ R l l') : ∀ b ∈ l', ∃ a ∈ l, R a b := by
  induction h with
  | nil => intro b hb; cases hb
  | cons hab _ ih =>
    intro b hb
    rcases List.mem_cons.1 hb with hb | hb
    · exact ⟨_, List.mem_cons_self _ _, hb ▸ hab⟩
    · obtain ⟨a, ha, hr⟩ := ih b hb
      exact ⟨a, List.mem_cons_of_mem _ ha, hr⟩

theorem forall₂_mem_left {α β : Type} {R : α → β → Prop} {l : List α} {l' : List β}
    (h : List.Forall₂ R l l') : ∀ a ∈ l, ∃ b ∈ l', R a b := by
  induction h with
  | nil => intro a ha; cases ha
  | cons hab _ ih =>
    intro a ha
    rcases List.mem_cons.1 ha with ha | ha
    · exact ⟨_, List.mem_cons_self _ _, ha ▸ hab⟩
    · obtain ⟨b, hb, hr⟩ := ih a ha
      exact ⟨b, List.mem_cons_of_mem _ hb, hr⟩

/-- The stops of the resolved buses are the stops designated by the route pointers. -/
theorem resolved_stop_iff (c : TransportCatalogue) (bs : List Bus) (ds : List DrawnBus)
    (h : List.Forall₂ (fun bus d => resolveBus c bus = .ok d) bs ds) (s : Stop) :
    (∃ d ∈ ds, s ∈ d.stops) ↔ ∃ b ∈ bs, ∃ p ∈ b.route, c.stopAt p = .ok s := by
  constructor
  · rintro ⟨d, hd, hs⟩
    obtain ⟨b, hb, hres⟩ := forall₂_mem_right h d hd
    obtain ⟨p, hp, hps⟩ := forall₂_mem_right ((resolveBus_eq_ok c b d).1 hres).2.2 s hs
    exact ⟨b, hb, p, hp, hps⟩
  · rintro ⟨b, hb, p, hp, hps⟩
    obtain ⟨d, hd, hres⟩ := forall₂_mem_left h b hb
    obtain ⟨s', hs', hps'⟩ := forall₂_mem_left ((resolveBus_eq_ok c b d).1 hres).2.2 p hp
    rw [hps] at hps'
    exact ⟨d, hd, (Except.ok.inj hps') ▸ hs'⟩

end render

namespace render

theorem RouteLineDraw_no_circle (c : TransportCatalogue) (route : List StopPtr)
    (projector : SphereProjector) (color : svg.Color) (w : ℚ) (cap : svg.StrokeLineCap)
    (join : svg.StrokeLineJoin) (fill : svg.Color) (container result : svg.Document)
    (h : RouteLineDraw c route projector color w cap join fill container = .ok result)
    (hc : ∀ o ∈ container.objects_, ∀ ci, o ≠ .circle ci) :
    ∀ o ∈ result.objects_, ∀ ci, o ≠ .circle ci := by
  unfold RouteLineDraw at h
  rw [Except.bind_eq_ok] at h
  obtain ⟨points, _, h⟩ := h
  simp only [pure, Except.pure, Except.ok.injEq] at h
  subst h
  intro o ho ci
  simp only [svg.Document.Add, List.mem_append, List.mem_singleton] at ho
  rcases ho with ho | ho
  · exact hc o ho ci
  · rw [ho]; exact fun e => by cases e

theorem RouteNameDraw_no_circle (c : TransportCatalogue) (route : List StopPtr)
    (projector : SphereProjector) (name : String) (is_roundtrip : Bool)
    (text_properties : RouteTextObjectProperties) (font_weight : String)
    (container result : svg.Document)
    (h : RouteNameDraw c route projector name is_roundtrip text_properties font_weight
      container = .ok result)
    (hc : ∀ o ∈ container.objects_, ∀ ci, o ≠ .circle ci) :
    ∀ o ∈ result.objects_, ∀ ci, o ≠ .circle ci := by
  unfold RouteNameDraw at h
  dsimp only at h
  rw [Except.bind_eq_ok] at h
  obtain ⟨p0, _, h⟩ := h
  rw [Except.bind_eq_ok] at h
  obtain ⟨s0, _, h⟩ := h
  rw [Except.bind_eq_ok] at h
  obtain ⟨pm, _, h⟩ := h
  rw [Except.bind_eq_ok] at h
  obtain ⟨sm, _, h⟩ := h
  split at h <;>
  · simp only [pure, Except.pure, Except.ok.injEq] at h
    subst h
    intro o ho ci
    simp only [svg.Document.Add, List.mem_append, List.mem_singleton] at ho
    rcases ho with ho | ho
    · first
      | exact hc o ho ci
      | (rcases ho with ho | ho
         · first
           | exact hc o ho ci
           | (rcases ho with ho | ho
              · rcases ho with ho | ho
                · exact hc o ho ci
                · rw [ho]; exact fun e => by cases e
              · rw [ho]; exact fun e => by cases e)
         · rw [ho]; exact fun e => by cases e)
    · rw [ho]; exact fun e => by cases e

end render

namespace render

theorem drawLines_no_circle (c : TransportCatalogue) (projector : SphereProjector)
    (bs : List Bus) (r r' : MapRenderer) (h : MapRenderer.drawLines c projector bs r = .ok r')
    (hc : ∀ o ∈ r.document_.objects_, ∀ ci, o ≠ .circle ci) :
    ∀ o ∈ r'.document_.objects_, ∀ ci, o ≠ .circle ci := by
  refine foldlM_ok_inv (fun r : MapRenderer => ∀ o ∈ r.document_.objects_, ∀ ci, o ≠ .circle ci)
    _ bs r r' hc ?_ h
  intro b a b' _ hb hstep
  split at hstep
  · simp only [pure, Except.pure, Except.ok.injEq] at hstep
    exact hstep ▸ hb
  · rw [Except.bind_eq_ok] at hstep
    obtain ⟨color, _, hstep⟩ := hstep
    rw [Except.bind_eq_ok] at hstep
    obtain ⟨doc, hdoc, hstep⟩ := hstep
    simp only [pure, Except.pure, Except.ok.injEq] at hstep
    subst hstep
    exact RouteLineDraw_no_circle _ _ _ _ _ _ _ _ _ _ hdoc hb

theorem drawNames_no_circle (c : TransportCatalogue) (projector : SphereProjector)
    (bs : List Bus) (r r' : MapRenderer) (h : MapRenderer.drawNames c projector bs r = .ok r')
    (hc : ∀ o ∈ r.document_.objects_, ∀ ci, o ≠ .circle ci) :
    ∀ o ∈ r'.document_.objects_, ∀ ci, o ≠ .circle ci := by
  refine foldlM_ok_inv (fun r : MapRenderer => ∀ o ∈ r.document_.objects_, ∀ ci, o ≠ .circle ci)
    _ bs r r' hc ?_ h
  intro b a b' _ hb hstep
  split at hstep
  · simp only [pure, Except.pure, Except.ok.injEq] at hstep
    exact hstep ▸ hb
  · rw [Except.bind_eq_ok] at hstep
    obtain ⟨color, _, hstep⟩ := hstep
    rw [Except.bind_eq_ok] at hstep
    obtain ⟨doc, hdoc, hstep⟩ := hstep
    simp only [pure, Except.pure, Except.ok.injEq] at hstep
    subst hstep
    exact RouteNameDraw_no_circle _ _ _ _ _ _ _ _ _ hdoc hb

/-- C20 (counterexample): two buses named `x`, one over `A` and one over `B`; the
stops have unique names and `B` occurs on a route, yet the document holds a single
circle, since the set of buses keeps one bus per name. -/
theorem Render_same_name_bus_drops_stops :
    (Example.stopsABC.stops_.map Stop.name).Nodup ∧
    (∃ b ∈ Example.busesSameName, 1 ∈ b.route) ∧
    Example.stopsABC.stopAt 1 = .ok ⟨1, "B", ⟨1, 1⟩⟩ ∧
    (MapRenderer.draw (MapRenderer.create Example.renderSettings) Example.stopsABC
        Example.busesSameName).map
      (fun r => (r.document_.objects_.filter
        (fun o => match o with
          | .circle _ => true
          | _ => false)).length) = .ok 1 := by
  refine ⟨by decide, ⟨⟨"x", [1], 0, 0, true⟩, by decide!, by decide⟩, by decide!, by decide!⟩

/-- C20 (amended): for a bus list with unique bus names over stops with unique
names, a render that returns has put, after the objects of layers 1 and 2 (none of
which is a circle), exactly one circle (layer 3) and then exactly one pair of an
underlayer text and a name text (layer 4) for each distinct stop occurring on some
bus route and for no other stop, in both layers in strictly ascending order of the
stop name; with a non-empty palette the render returns. -/
theorem Render_stop_layers (settings : RenderSettings) (c : TransportCatalogue)
    (buses : List Bus) (hbus : (buses.map Bus.name).Nodup)
    (hstops : (c.stops_.map Stop.name).Nodup)
    (hvalid : ∀ b ∈ buses, ∀ p ∈ b.route, p < c.stops_.length) :
    (settings.color_palette ≠ [] →
      ∃ r', MapRenderer.draw (MapRenderer.create settings) c buses = .ok r') ∧
    ∀ r', MapRenderer.draw (MapRenderer.create settings) c buses = .ok r' →
      ∃ (projector : SphereProjector) (first : List svg.Object) (stops : List Stop),
        r'.document_.objects_ =
          first ++ stops.map (stopCircle projector settings) ++
            (stops.map (stopLabelPair projector settings)).flatten ∧
        (∀ o ∈ first, ∀ ci, o ≠ .circle ci) ∧
        stops.Pairwise (fun s t => s.name < t.name) ∧
        ∀ s, s ∈ stops ↔ ∃ b ∈ buses, ∃ p ∈ b.route, c.stopAt p = .ok s := by
  obtain ⟨_, hsub, hperm⟩ := sortedBuses_spec buses
  obtain ⟨ds, hds⟩ := resolve_ok c (sortedBuses buses) (fun b hb => hvalid b (hsub b hb))
  refine ⟨fun hP => ⟨_, draw_eq (MapRenderer.create settings) c buses ds hds hP rfl⟩, ?_⟩
  intro r' h
  obtain ⟨stops, hstops', hsnd, _⟩ := collectStops_eq c (sortedBuses buses) ds hds
  have hinj : ∀ d ∈ ds, ∀ d' ∈ ds, ∀ s ∈ d.stops, ∀ s' ∈ d'.stops,
      s.name = s'.name → s = s' := by
    intro d hd d' hd' s hs s' hs' hname
    have hin : ∀ (t : Stop), (∃ e ∈ ds, t ∈ e.stops) → t ∈ c.stops_ := by
      intro t ht
      obtain ⟨b, _, p, _, hp⟩ := (resolved_stop_iff c _ ds hds t).1 ht
      rw [TransportCatalogue.stopAt_eq_ok] at hp
      exact List.mem_reverse.1 (List.getElem?_mem hp)
    exact List.inj_on_of_nodup_map hstops (hin s ⟨d, hd, hs⟩) (hin s' ⟨d', hd', hs'⟩) hname
  obtain ⟨hsorted, hmem⟩ := stopSet_spec ds hinj
  unfold MapRenderer.draw at h
  dsimp only at h
  rw [Except.bind_eq_ok] at h
  obtain ⟨box, _, h⟩ := h
  rw [Except.bind_eq_ok] at h
  obtain ⟨r1, hr1, h⟩ := h
  rw [Except.bind_eq_ok] at h
  obtain ⟨r2, hr2, h⟩ := h
  rw [Except.bind_eq_ok] at h
  obtain ⟨stops2, hstops2, h⟩ := h
  rw [hstops'] at hstops2
  have hst : stops2 = stops := (Except.ok.inj hstops2).symm
  rw [hst] at h
  have hs1 : r1.settings_ = settings :=
    foldlM_ok_inv (fun r : MapRenderer => r.settings_ = settings) _ _ _ _ rfl
      (by
        intro b a b' _ hb hstep
        split at hstep
        · simp only [pure, Except.pure, Except.ok.injEq] at hstep
          exact hstep ▸ hb
        · rw [Except.bind_eq_ok] at hstep
          obtain ⟨color, _, hstep⟩ := hstep
          rw [Except.bind_eq_ok] at hstep
          obtain ⟨doc, _, hstep⟩ := hstep
          simp only [pure, Except.pure, Except.ok.injEq] at hstep
          subst hstep
          exact hb) hr1
  have hs2 : r2.settings_ = settings :=
    foldlM_ok_inv (fun r : MapRenderer => r.settings_ = settings) _ _
      { r1 with current_color_ := 0 } _ hs1
      (by
        intro b a b' _ hb hstep
        split at hstep
        · simp only [pure, Except.pure, Except.ok.injEq] at hstep
          exact hstep ▸ hb
        · rw [Except.bind_eq_ok] at hstep
          obtain ⟨color, _, hstep⟩ := hstep
          rw [Except.bind_eq_ok] at hstep
          obtain ⟨doc, _, hstep⟩ := hstep
          simp only [pure, Except.pure, Except.ok.injEq] at hstep
          subst hstep
          exact hb) hr2
  have hno : ∀ o ∈ r2.document_.objects_, ∀ ci, o ≠ .circle ci :=
    drawNames_no_circle c _ _ _ r2 hr2
      (drawLines_no_circle c _ _ _ r1 hr1 (fun o ho => absurd ho (List.not_mem_nil o)))
  have h3 := RouteStopsDraw_eq
    (SphereProjector.create box.1 box.2.1 box.2.2.1 box.2.2.2 settings.width settings.height
      settings.padding) settings stops
  have h4 := RouteStopNamesDraw_eq
    (SphereProjector.create box.1 box.2.1 box.2.2.1 box.2.2.2 settings.width settings.height
      settings.padding) settings stops
  unfold stopTextProperties at h4
  simp only [pure, Except.pure, Except.ok.injEq, hs2, MapRenderer.create] at h
  rw [h3, h4, hsnd] at h
  subst h
  refine ⟨SphereProjector.create box.1 box.2.1 box.2.2.1 box.2.2.2 settings.width
    settings.height settings.padding, r2.document_.objects_, stopSet ds,
    by simp only [List.append_assoc], hno, hsorted, ?_⟩
  intro s
  rw [hmem s, resolved_stop_iff c _ ds hds s]
  constructor
  · rintro ⟨b, hb, rest⟩
    exact ⟨b, hsub b hb, rest⟩
  · rintro ⟨b, hb, rest⟩
    exact ⟨b, ((hperm hbus).mem_iff).2 hb, rest⟩

/-- Witness of C20 (amended): the four buses of `busesOutOfOrder` over `A`, `B`, `C`. -/
theorem Render_stop_layers_witness :
    ∃ r', MapRenderer.draw (MapRenderer.create Example.renderSettings) Example.stopsABC
      Example.busesOutOfOrder = .ok r' :=
  (Render_stop_layers Example.renderSettings Example.stopsABC Example.busesOutOfOrder
    (by decide) (by decide) (by decide!)).1 (by decide)

end render

namespace render

/-- C19 (the code at the failing input): the bus `l` of `lineDiag` is not a round
trip and has the route `A, B, A`, whose first stop `A` = (0, 0) differs from its
midpoint stop `B` = (1, -1); the differences of the latitudes and of the longitudes
cancel in the sum that `RouteName::Draw` tests, so layer 2 holds one label pair
only: the document is the polyline, two texts `l`, two circles and the labels of
the two stops. -/
theorem RouteNameDraw_cancelling_differences :
    Example.lineDiag.buses_.map (fun b => (b.name, b.route, b.is_roundtrip)) =
      [("l", [0, 1, 0], false)] ∧
    Example.lineDiag.stopAt 0 = .ok ⟨0, "A", ⟨0, 0⟩⟩ ∧
    Example.lineDiag.stopAt 1 = .ok ⟨1, "B", ⟨1, -1⟩⟩ ∧
    (RouteNameDraw Example.lineDiag [0, 1, 0] {} "l" false
        (busTextProperties Example.renderSettings (.str "green")) DEFAULT_FONT_WEIGHT {}).map
      (fun d => d.objects_.length) = .ok 2 ∧
    (MapRenderer.draw (MapRenderer.create Example.renderSettings) Example.lineDiag
        Example.lineDiag.buses_).map
      (fun r => r.document_.objects_.map
        (fun o => match o with
          | .circle _ => "circle"
          | .polyline _ => "polyline"
          | .text t => t.data_)) =
      .ok ["polyline", "l", "l", "circle", "circle", "A", "A", "B", "B"] := by
  refine ⟨?_, ?_, ?_, ?_, ?_⟩ <;> decide!

end render

namespace TransportCatalogue

theorem stopNamed_iff_of_nodup (c : TransportCatalogue)
    (hstops : (c.stops_.map Stop.name).Nodup) (p p' : StopPtr) (s : Stop)
    (hp : c.stops_.reverse[p]? = some s) (hp' : p' < c.stops_.length) :
    c.stopNamed s.name p' = true ↔ p' = p := by
  have hnd : (c.stops_.reverse.map Stop.name).Nodup := by
    rw [List.map_reverse]
    exact List.nodup_reverse.2 hstops
  have hpl : p < (c.stops_.reverse.map Stop.name).length := by
    rw [List.length_map]
    exact (List.getElem?_eq_some_iff.1 hp).1
  have hpl' : p' < (c.stops_.reverse.map Stop.name).length := by
    rw [List.length_map, List.length_reverse]
    exact hp'
  have hgp : (c.stops_.reverse.map Stop.name)[p]? = some s.name := by
    rw [List.getElem?_map, hp]; rfl
  unfold stopNamed
  rw [decide_eq_true_iff, ← List.getElem?_map, ← hgp]
  rw [List.getElem?_eq_getElem hpl', List.getElem?_eq_getElem hpl, Option.some.injEq]
  exact hnd.getElem_inj_iff

/-- C30: in a catalogue built by `AddStop`, `AddDistance` and `AddBus` whose stops
have unique names, every stop has a bus list, and a bus occurs in the bus list of a
stop as many times as the stop occurs in the materialized route of the bus; the
list holds pointers to stored buses only. -/
theorem bus_list_counts_route_positions (m : Libm) (c : TransportCatalogue) (hc : Built m c)
    (hstops : (c.stops_.map Stop.name).Nodup) (p : StopPtr) (s : Stop)
    (hp : c.stopAt p = .ok s) :
    ∃ l, c.stop_name_to_buses_.find? s.name = some l ∧
      (∀ q b, c.busAt q = .ok b → l.count q = b.route.count p) ∧
      ∀ q ∈ l, ∃ b, c.busAt q = .ok b := by
  have hcons := Consistent_of_Built m c hc
  rw [stopAt_eq_ok] at hp
  have hs : s ∈ c.stops_ := List.mem_reverse.1 (List.getElem?_mem hp)
  have hsome := (hcons.buses_keys s.name).2 ⟨s, hs, rfl⟩
  obtain ⟨l, hl⟩ := Option.isSome_iff_exists.1 hsome
  refine ⟨l, hl, ?_, ?_⟩
  · intro q b hq
    rw [busAt_eq_ok] at hq
    have hcount := hcons.buses_count s.name l hl q
    rw [hq] at hcount
    rw [hcount, List.count_eq_countP]
    apply List.countP_congr
    intro p' hp'
    have hb : b ∈ c.buses_ := List.mem_reverse.1 (List.getElem?_mem hq)
    have hlt := hcons.route_valid b hb p' hp'
    rw [stopNamed_iff_of_nodup c hstops p p' s hp hlt, beq_iff_eq]
  · intro q hq
    have hcount := hcons.buses_count s.name l hl q
    cases hb : c.buses_.reverse[q]? with
    | some b => exact ⟨b, (busAt_eq_ok c q b).2 hb⟩
    | none =>
      rw [hb] at hcount
      have hzero : l.count q = 0 := hcount
      exact absurd (List.count_pos_iff.2 hq) (by omega)

/-- Witness of C30: the stop `B` of `lineL` lies twice on the route `A, B, C, B, A`
of the bus `l`. -/
theorem bus_list_counts_route_positions_witness :
    ∃ l, Example.lineL.stop_name_to_buses_.find? "B" = some l ∧
      (∀ q b, Example.lineL.busAt q = .ok b → l.count q = b.route.count 1) ∧
      ∀ q ∈ l, ∃ b, Example.lineL.busAt q = .ok b :=
  bus_list_counts_route_positions Example.libm Example.lineL
    (Built.add_bus (c := Example.roads) "l" ["A", "B", "C"] false
      (Built.add_distance (c := match Example.stopsABC.AddDistance "A" "B" 600 with
          | .ok c => c
          | .error _ => empty) "B" "C" 400
        (Built.add_distance (c := Example.stopsABC) "A" "B" 600
          (Built.add_stop _ (Built.add_stop _ (Built.add_stop _ Built.empty)))
          (by decide!))
        (by decide!))
      (by decide!))
    (by decide!) 1 ⟨1, "B", ⟨1, 1⟩⟩ (by decide!)

end TransportCatalogue

namespace svg

theorem foldl_append_eq (l : List String) :
    ∀ init : String, l.foldl (fun r s => r ++ s) init = init ++ l.foldl (fun r s => r ++ s) "" := by
  induction l with
  | nil => intro init; simp
  | cons x xs ih =>
    intro init
    rw [List.foldl_cons, List.foldl_cons, ih (init ++ x), ih ("" ++ x), String.empty_append,
      String.append_assoc]

theorem foldl_render_eq {α : Type} (f : α → String) (l : List α) :
    ∀ init : String, l.foldl (fun out o => out ++ f o) init = init ++ String.join (l.map f) := by
  induction l with
  | nil => intro init; simp [String.join]
  | cons x xs ih =>
    intro init
    rw [List.foldl_cons, ih (init ++ f x), List.map_cons]
    unfold String.join
    rw [List.foldl_cons, foldl_append_eq _ ("" ++ f x), String.empty_append, String.append_assoc]

/-- C21: for a document holding the objects o1..on, `Render` writes the two lines
of the preamble, then for each object in insertion order two spaces, the rendering
of the object and a newline, then the closing tag without a newline after it; for
an empty document the closing tag follows the preamble at once. -/
theorem Document_Render_layout (fmt : ℚ → String) (d : Document) :
    d.Render fmt =
      "<?xml version=\"1.0\" encoding=\"UTF-8\" ?>\n" ++
        "<svg xmlns=\"http://www.w3.org/2000/svg\" version=\"1.1\">\n" ++
        String.join (d.objects_.map (fun o => "  " ++ o.RenderObject fmt ++ "\n")) ++
        "</svg>" ∧
    Document.Render fmt {} =
      "<?xml version=\"1.0\" encoding=\"UTF-8\" ?>\n" ++
        "<svg xmlns=\"http://www.w3.org/2000/svg\" version=\"1.1\">\n" ++ "</svg>" := by
  constructor
  · unfold Document.Render Object.Render
    dsimp only
    rw [foldl_render_eq]
    rfl
  · rfl

end svg

namespace svg

theorem format_step_data (out : String) (c : Char) :
    (match special_char_to_escaping_seq.find? c with
      | some seq => out ++ seq
      | none => out.push c).data = out.data ++ (escapeOf c).data := by
  unfold special_char_to_escaping_seq escapeOf
  simp only [AssocMap.find?]
  by_cases h1 : Char.ofNat 34 = c
  · simp [h1.symm]
  · have h1' : ¬ c = Char.ofNat 34 := fun e => h1 e.symm
    by_cases h2 : Char.ofNat 39 = c
    · simp [h2.symm]
    · have h2' : ¬ c = Char.ofNat 39 := fun e => h2 e.symm
      by_cases h3 : '<' = c
      · simp [h3.symm]
      · have h3' : ¬ c = '<' := fun e => h3 e.symm
        by_cases h4 : '>' = c
        · simp [h4.symm]
        · have h4' : ¬ c = '>' := fun e => h4 e.symm
          by_cases h5 : '&' = c
          · simp [h5.symm]
          · have h5' : ¬ c = '&' := fun e => h5 e.symm
            simp [h1, h2, h3, h4, h5, h1', h2', h3', h4', h5', String.singleton]

theorem format_fold_data (l : List Char) :
    ∀ out : String,
      (l.foldl
        (fun out c =>
          match special_char_to_escaping_seq.find? c with
          | some seq => out ++ seq
          | none => out.push c)
        out).data = out.data ++ (l.map (fun c => (escapeOf c).data)).flatten := by
  induction l with
  | nil => intro out; simp
  | cons c cs ih =>
    intro out
    rw [List.foldl_cons, ih, format_step_data, List.map_cons, List.flatten_cons,
      List.append_assoc]

theorem escapeOf_cases (c : Char) :
    escapeOf c = "&quot;" ∨ escapeOf c = "&apos;" ∨ escapeOf c = "&lt;" ∨ escapeOf c = "&gt;" ∨
      escapeOf c = "&amp;" ∨
      (escapeOf c = String.singleton c ∧ c ≠ Char.ofNat 34 ∧ c ≠ Char.ofNat 39 ∧ c ≠ '<' ∧
        c ≠ '>' ∧ c ≠ '&') := by
  unfold escapeOf
  by_cases h1 : c = Char.ofNat 34
  · simp [h1]
  · by_cases h2 : c = Char.ofNat 39
    · simp [h2]
    · by_cases h3 : c = '<'
      · simp [h3]
      · by_cases h4 : c = '>'
        · simp [h4]
        · by_cases h5 : c = '&'
          · simp [h5]
          · simp [h1, h2, h3, h4, h5]

theorem escapeOf_no_raw (c x : Char) (hx : x ∈ (escapeOf c).data) :
    x ≠ Char.ofNat 34 ∧ x ≠ Char.ofNat 39 ∧ x ≠ '<' ∧ x ≠ '>' := by
  rcases escapeOf_cases c with h | h | h | h | h | ⟨h, h1, h2, h3, h4, _⟩
  · rw [h] at hx
    simp only [List.mem_cons, List.mem_singleton] at hx
    rcases hx with rfl | rfl | rfl | rfl | rfl | rfl | hx
    all_goals first | decide | cases hx
  · rw [h] at hx
    simp only [List.mem_cons, List.mem_singleton] at hx
    rcases hx with rfl | rfl | rfl | rfl | rfl | rfl | hx
    all_goals first | decide | cases hx
  · rw [h] at hx
    simp only [List.mem_cons, List.mem_singleton] at hx
    rcases hx with rfl | rfl | rfl | rfl | hx
    all_goals first | decide | cases hx
  · rw [h] at hx
    simp only [List.mem_cons, List.mem_singleton] at hx
    rcases hx with rfl | rfl | rfl | rfl | hx
    all_goals first | decide | cases hx
  · rw [h] at hx
    simp only [List.mem_cons, List.mem_singleton] at hx
    rcases hx with rfl | rfl | rfl | rfl | rfl | hx
    all_goals first | decide | cases hx
  · rw [h] at hx
    simp only [String.singleton, String.data_push, List.mem_append, List.mem_singleton] at hx
    rcases hx with hx | hx
    · cases hx
    · rw [hx]; exact ⟨h1, h2, h3, h4⟩

end svg

namespace svg

theorem entity_amp_first (e : String)
    (he : e ∈ ["&quot;", "&apos;", "&lt;", "&gt;", "&amp;"]) (i : Nat)
    (h : e.data[i]? = some '&') : i = 0 := by
  simp only [List.mem_cons, List.mem_singleton, List.not_mem_nil, or_false] at he
  rcases he with rfl | rfl | rfl | rfl | rfl <;>
  · rcases i with _ | _ | _ | _ | _ | _ | i
    · rfl
    all_goals simp at h

theorem amp_step (c : Char) (R : List Char)
    (hR : ∀ i, R[i]? = some '&' →
      ∃ e ∈ ["&quot;", "&apos;", "&lt;", "&gt;", "&amp;"], e.data <+: R.drop i) :
    ∀ i, ((escapeOf c).data ++ R)[i]? = some '&' →
      ∃ e ∈ ["&quot;", "&apos;", "&lt;", "&gt;", "&amp;"],
        e.data <+: ((escapeOf c).data ++ R).drop i := by
  intro i h
  by_cases hi : i < (escapeOf c).data.length
  · rw [List.getElem?_append_left hi] at h
    have hent : escapeOf c ∈ ["&quot;", "&apos;", "&lt;", "&gt;", "&amp;"] := by
      rcases escapeOf_cases c with h' | h' | h' | h' | h' | ⟨h', _, _, _, _, h5⟩
      · rw [h']; simp
      · rw [h']; simp
      · rw [h']; simp
      · rw [h']; simp
      · rw [h']; simp
      · exfalso
        rw [h'] at h hi
        have hsingle : (String.singleton c).data = [c] := rfl
        rw [hsingle] at h hi
        have hi0 : i = 0 := by simpa using hi
        rw [hi0] at h
        simp only [List.getElem?_cons_zero, Option.some.injEq] at h
        exact h5 h
    have hi0 := entity_amp_first _ hent i h
    subst hi0
    exact ⟨escapeOf c, hent, by rw [List.drop_zero]; exact List.prefix_append _ _⟩
  · have hle : (escapeOf c).data.length ≤ i := Nat.le_of_not_lt hi
    rw [List.getElem?_append_right hle] at h
    obtain ⟨e, he, hp⟩ := hR _ h
    refine ⟨e, he, ?_⟩
    rw [List.drop_append_eq_append_drop, List.drop_eq_nil_of_le hle, List.nil_append]
    exact hp

/-- C22: `FormatStringData` writes, character by character in order, the entity
of each of the five special characters and every other character as it is; the
text written holds no raw double quote, apostrophe, `<` or `>`, and every `&` in it
starts one of the five entities. -/
theorem FormatStringData_escapes (s : String) :
    (Text.FormatStringData s).data = (s.data.map (fun c => (escapeOf c).data)).flatten ∧
    (∀ x ∈ (Text.FormatStringData s).data,
      x ≠ Char.ofNat 34 ∧ x ≠ Char.ofNat 39 ∧ x ≠ '<' ∧ x ≠ '>') ∧
    (∀ i, (Text.FormatStringData s).data[i]? = some '&' →
      ∃ e ∈ ["&quot;", "&apos;", "&lt;", "&gt;", "&amp;"],
        e.data <+: (Text.FormatStringData s).data.drop i) := by
  have hdata : (Text.FormatStringData s).data =
      (s.data.map (fun c => (escapeOf c).data)).flatten := by
    unfold Text.FormatStringData
    rw [format_fold_data]
    simp
  refine ⟨hdata, ?_, ?_⟩
  · intro x hx
    rw [hdata, List.mem_flatten] at hx
    obtain ⟨l, hl, hxl⟩ := hx
    obtain ⟨c, _, rfl⟩ := List.mem_map.1 hl
    exact escapeOf_no_raw c x hxl
  · rw [hdata]
    generalize s.data = l
    induction l with
    | nil => intro i h; simp at h
    | cons c cs ih =>
      rw [List.map_cons, List.flatten_cons]
      exact amp_step c _ ih

end svg

namespace json

namespace Builder

theorem run_append (s t : List Call) (b : Builder) :
    run (s ++ t) b = (run s b >>= fun b' => run t b') := by
  unfold run
  rw [List.foldlM_append]

theorem run_cons (c : Call) (t : List Call) (b : Builder) :
    run (c :: t) b = (b.call c >>= fun b' => run t b') := by
  unfold run
  rw [List.foldlM_cons]

theorem popArrayItems_inv (l : List HelperNode) :
    ∀ popped p remaining, popArrayItems l popped = .ok (p, remaining) →
      (remaining = [] ∨ ∃ arr below, remaining = arr :: below ∧ arr.state = .ARRAY_START) ∧
      ∃ cs, l = cs ++ remaining ∧ ∀ h ∈ cs, h.state = .COMPLETE_OBJ := by
  induction l with
  | nil =>
    intro popped p remaining h
    simp only [popArrayItems, Except.ok.injEq, Prod.mk.injEq] at h
    exact ⟨Or.inl h.2.symm, [], by simp [h.2.symm], by simp⟩
  | cons top rest ih =>
    intro popped p remaining h
    unfold popArrayItems at h
    by_cases h1 : top.state = .ARRAY_START
    · rw [if_pos h1] at h
      simp only [Except.ok.injEq, Prod.mk.injEq] at h
      exact ⟨Or.inr ⟨top, rest, h.2.symm, h1⟩, [], by simp [h.2], by simp⟩
    · rw [if_neg h1] at h
      by_cases h2 : top.state ≠ .COMPLETE_OBJ
      · rw [if_pos h2] at h
        cases h
      · rw [if_neg h2] at h
        rw [Except.bind_eq_ok] at h
        obtain ⟨node, _, h⟩ := h
        obtain ⟨hrem, cs, hcs, hall⟩ := ih _ _ _ h
        refine ⟨hrem, top :: cs, by rw [hcs]; rfl, ?_⟩
        intro x hx
        rcases List.mem_cons.1 hx with hx | hx
        · rw [hx]; exact not_not.1 h2
        · exact hall x hx

theorem popArrayItems_error (l : List HelperNode) :
    (∀ h ∈ l, h.state = .COMPLETE_OBJ → ∃ n, h.node = some n) →
    ∀ popped e, popArrayItems l popped = .error e → e = .logic_error := by
  induction l with
  | nil =>
    intro _ popped e h
    simp [popArrayItems] at h
  | cons top rest ih =>
    intro hl popped e h
    unfold popArrayItems at h
    by_cases h1 : top.state = .ARRAY_START
    · rw [if_pos h1] at h
      cases h
    · rw [if_neg h1] at h
      by_cases h2 : top.state ≠ .COMPLETE_OBJ
      · rw [if_pos h2] at h
        exact (Except.error.inj h).symm
      · rw [if_neg h2] at h
        obtain ⟨n, hn⟩ := hl top (List.mem_cons_self _ _) (not_not.1 h2)
        simp only [deref, hn, bind, Except.bind] at h
        exact ih (fun x hx => hl x (List.mem_cons_of_mem _ hx)) _ e h

end Builder

end json

namespace json

namespace Builder

theorem popDictEntries_start (ds : HelperNode) (hds : ds.state = .DICT_START)
    (below : List HelperNode) (entries : List (String × Node)) :
    popDictEntries (ds :: below) entries = .ok (entries, ds :: below) := by
  cases below with
  | nil => simp [popDictEntries, hds]
  | cons x xs => simp [popDictEntries, hds]

theorem popDictEntries_inv :
    ∀ (n : Nat) (l : List HelperNode), l.length ≤ n →
      ∀ entries es remaining, popDictEntries l entries = .ok (es, remaining) →
        (remaining = [] ∨ ∃ ds below, remaining = ds :: below ∧ ds.state = .DICT_START) ∧
        ∃ ps, Pairs ps ∧ l = ps ++ remaining := by
  intro n
  induction n with
  | zero =>
    intro l hl entries es remaining h
    have hnil : l = [] := List.length_eq_zero.1 (Nat.le_zero.1 hl)
    subst hnil
    simp only [popDictEntries, Except.ok.injEq, Prod.mk.injEq] at h
    exact ⟨Or.inl h.2.symm, [], Pairs.nil, by simp [h.2.symm]⟩
  | succ n ih =>
    intro l hl entries es remaining h
    match l, hl, h with
    | [], _, h =>
      simp only [popDictEntries, Except.ok.injEq, Prod.mk.injEq] at h
      exact ⟨Or.inl h.2.symm, [], Pairs.nil, by simp [h.2.symm]⟩
    | [top], _, h =>
      rw [popDictEntries] at h
      by_cases h1 : top.state = .DICT_START
      · rw [if_pos h1] at h
        simp only [Except.ok.injEq, Prod.mk.injEq] at h
        exact ⟨Or.inr ⟨top, [], h.2.symm, h1⟩, [], Pairs.nil, by simp [h.2]⟩
      · rw [if_neg h1] at h
        cases h
    | top :: next :: rest, hl, h =>
      rw [popDictEntries] at h
      by_cases h1 : top.state = .DICT_START
      · rw [if_pos h1] at h
        simp only [Except.ok.injEq, Prod.mk.injEq] at h
        exact ⟨Or.inr ⟨top, next :: rest, h.2.symm, h1⟩, [], Pairs.nil, by simp [h.2]⟩
      · rw [if_neg h1] at h
        by_cases h2 : top.state ≠ .KEY ∧ top.state ≠ .COMPLETE_OBJ
        · rw [if_pos h2] at h
          cases h
        · rw [if_neg h2] at h
          by_cases h3 : top.state ≠ .COMPLETE_OBJ
          · rw [if_pos h3] at h
            cases h
          · rw [if_neg h3] at h
            by_cases h4 : next.state ≠ .KEY
            · rw [if_pos h4] at h
              cases h
            · rw [if_neg h4] at h
              rw [Except.bind_eq_ok] at h
              obtain ⟨value, _, h⟩ := h
              rw [Except.bind_eq_ok] at h
              obtain ⟨key_node, _, h⟩ := h
              rw [Except.bind_eq_ok] at h
              obtain ⟨key, _, h⟩ := h
              have hlen : rest.length ≤ n := by
                simp only [List.length_cons] at hl
                omega
              obtain ⟨hrem, ps, hps, hl'⟩ := ih rest hlen _ _ _ h
              exact ⟨hrem, top :: next :: ps,
                Pairs.cons top next ps (not_not.1 h3) (not_not.1 h4) hps, by rw [hl']; rfl⟩

theorem popDictEntries_error :
    ∀ (n : Nat) (l : List HelperNode), l.length ≤ n → Filled l →
      ∀ entries e, popDictEntries l entries = .error e → e = .logic_error := by
  intro n
  induction n with
  | zero =>
    intro l hl _ entries e h
    have hnil : l = [] := List.length_eq_zero.1 (Nat.le_zero.1 hl)
    subst hnil
    simp [popDictEntries] at h
  | succ n ih =>
    intro l hl hf entries e h
    match l, hl, hf, h with
    | [], _, _, h => simp [popDictEntries] at h
    | [top], _, _, h =>
      rw [popDictEntries] at h
      by_cases h1 : top.state = .DICT_START
      · rw [if_pos h1] at h
        cases h
      · rw [if_neg h1] at h
        exact (Except.error.inj h).symm
    | top :: next :: rest, hl, hf, h =>
      rw [popDictEntries] at h
      by_cases h1 : top.state = .DICT_START
      · rw [if_pos h1] at h
        cases h
      · rw [if_neg h1] at h
        by_cases h2 : top.state ≠ .KEY ∧ top.state ≠ .COMPLETE_OBJ
        · rw [if_pos h2] at h
          exact (Except.error.inj h).symm
        · rw [if_neg h2] at h
          by_cases h3 : top.state ≠ .COMPLETE_OBJ
          · rw [if_pos h3] at h
            exact (Except.error.inj h).symm
          · rw [if_neg h3] at h
            by_cases h4 : next.state ≠ .KEY
            · rw [if_pos h4] at h
              exact (Except.error.inj h).symm
            · rw [if_neg h4] at h
              obtain ⟨v, hv⟩ := (hf top (List.mem_cons_self _ _)).1 (not_not.1 h3)
              obtain ⟨key, hkey⟩ :=
                (hf next (List.mem_cons_of_mem _ (List.mem_cons_self _ _))).2 (not_not.1 h4)
              simp only [deref, hv, hkey, Node.AsString, bind, Except.bind] at h
              have hlen : rest.length ≤ n := by
                simp only [List.length_cons] at hl
                omega
              exact ih rest hlen
                (fun x hx => hf x (List.mem_cons_of_mem _ (List.mem_cons_of_mem _ hx))) _ e h

end Builder

end json

namespace json

theorem Stk_cons_inv (h : HelperNode) (stack : List HelperNode) (calls : List Call)
    (hs : Stk (h :: stack) calls) :
    ∃ calls' seg, calls = calls' ++ seg ∧ Stk stack calls' ∧ Seg h seg := by
  cases hs with
  | push _ seg _ calls' hstk hseg => exact ⟨calls', seg, rfl, hstk, hseg⟩

theorem Stk_filled (stack : List HelperNode) (calls : List Call) (hs : Stk stack calls) :
    Filled stack := by
  induction hs with
  | nil => intro h hh; cases hh
  | push h seg stack calls _ hseg ih =>
    intro x hx
    rcases List.mem_cons.1 hx with hx | hx
    · subst hx
      rcases hseg with ⟨_, hn, _⟩ | ⟨_, k, hk, _⟩ | ⟨hst, _, _⟩ | ⟨hst, _, _⟩
      · exact ⟨fun _ => hn, fun hk => by simp_all⟩
      · exact ⟨fun hc => by simp_all, fun _ => ⟨k, hk⟩⟩
      · exact ⟨fun hc => by simp_all, fun hk => by simp_all⟩
      · exact ⟨fun hc => by simp_all, fun hk => by simp_all⟩
    · exact ih x hx

theorem Stk_split_complete (rest : List HelperNode) (cs : List HelperNode) :
    ∀ calls, Stk (cs ++ rest) calls → (∀ h ∈ cs, h.state = .COMPLETE_OBJ) →
      ∃ c1 items, calls = c1 ++ List.flatten items ∧ Stk rest c1 ∧ ∀ s ∈ items, IsValue s := by
  induction cs with
  | nil =>
    intro calls hs _
    exact ⟨calls, [], by simp, hs, by simp⟩
  | cons c cs ih =>
    intro calls hs hall
    obtain ⟨calls', seg, hcalls, hstk, hseg⟩ := Stk_cons_inv c (cs ++ rest) calls hs
    obtain ⟨c1, items, hc1, hrest, hitems⟩ := ih calls' hstk
      (fun h hh => hall h (List.mem_cons_of_mem _ hh))
    have hc := hall c (List.mem_cons_self _ _)
    have hval : IsValue seg := by
      rcases hseg with ⟨_, _, hv⟩ | ⟨hst, _⟩ | ⟨hst, _⟩ | ⟨hst, _⟩
      · exact hv
      · rw [hc] at hst; cases hst
      · rw [hc] at hst; cases hst
      · rw [hc] at hst; cases hst
    refine ⟨c1, items ++ [seg], ?_, hrest, ?_⟩
    · rw [hcalls, hc1]; simp
    · intro s hs'
      rcases List.mem_append.1 hs' with hs' | hs'
      · exact hitems s hs'
      · rw [List.mem_singleton.1 hs']; exact hval

theorem Stk_split_pairs (rest : List HelperNode) (ps : List HelperNode) (hps : Pairs ps) :
    ∀ calls, Stk (ps ++ rest) calls →
      ∃ c1 entries, calls = c1 ++ List.flatten
          (List.map (fun e : String × List Call => Call.Key e.1 :: e.2) entries) ∧
        Stk rest c1 ∧ ∀ e ∈ entries, IsValue e.2 := by
  induction hps with
  | nil =>
    intro calls hs
    exact ⟨calls, [], by simp, hs, by simp⟩
  | cons v k ps hv hk _ ih =>
    intro calls hs
    obtain ⟨calls1, segv, hcalls1, hstk1, hsegv⟩ := Stk_cons_inv v (k :: (ps ++ rest)) calls hs
    obtain ⟨calls2, segk, hcalls2, hstk2, hsegk⟩ := Stk_cons_inv k (ps ++ rest) calls1 hstk1
    obtain ⟨c1, entries, hc1, hrest, hentries⟩ := ih calls2 hstk2
    have hval : IsValue segv := by
      rcases hsegv with ⟨_, _, hval⟩ | ⟨hst, _⟩ | ⟨hst, _⟩ | ⟨hst, _⟩
      · exact hval
      · rw [hv] at hst; cases hst
      · rw [hv] at hst; cases hst
      · rw [hv] at hst; cases hst
    have hkey : ∃ key, segk = [Call.Key key] := by
      rcases hsegk with ⟨hst, _⟩ | ⟨_, key, _, hkey⟩ | ⟨hst, _⟩ | ⟨hst, _⟩
      · rw [hk] at hst; cases hst
      · exact ⟨key, hkey⟩
      · rw [hk] at hst; cases hst
      · rw [hk] at hst; cases hst
    obtain ⟨key, hkey⟩ := hkey
    refine ⟨c1, entries ++ [(key, segv)], ?_, hrest, ?_⟩
    · rw [hcalls1, hcalls2, hc1, hkey]; simp
    · intro e he
      rcases List.mem_append.1 he with he | he
      · exact hentries e he
      · rw [List.mem_singleton.1 he]; exact hval

end json

namespace json

namespace Builder

theorem EndArray_Stk (b : Builder) (calls : List Call) (hs : Stk b.nodes_ calls) :
    (∀ b', b.EndArray = .ok b' → Stk b'.nodes_ (calls ++ [Call.EndArray])) ∧
    (∀ e, b.EndArray = .error e → e = .logic_error) := by
  constructor
  · intro b' h
    unfold EndArray at h
    rw [Except.bind_eq_ok] at h
    obtain ⟨⟨popped, remaining⟩, hpop, h⟩ := h
    obtain ⟨hrem, cs, hcs, hall⟩ := popArrayItems_inv _ _ _ _ hpop
    cases remaining with
    | nil => cases h
    | cons arr below =>
      simp only [pure, Except.pure, Except.ok.injEq] at h
      subst h
      have harr : arr.state = .ARRAY_START := by
        rcases hrem with hrem | ⟨arr', below', heq, hst⟩
        · cases hrem
        · cases heq; exact hst
      rw [hcs] at hs
      obtain ⟨c1, items, hc1, hstk, hitems⟩ := Stk_split_complete _ cs calls hs hall
      obtain ⟨c0, seg, hc0, hbelow, hseg⟩ := Stk_cons_inv arr below c1 hstk
      have hsegeq : seg = [Call.StartArray] := by
        rcases hseg with ⟨hst, _⟩ | ⟨hst, _⟩ | ⟨_, _, hseg⟩ | ⟨hst, _⟩
        · rw [harr] at hst; cases hst
        · rw [harr] at hst; cases hst
        · exact hseg
        · rw [harr] at hst; cases hst
      have hcalls : calls ++ [Call.EndArray] =
          c0 ++ (Call.StartArray :: (items.flatten ++ [Call.EndArray])) := by
        rw [hc1, hc0, hsegeq]; simp
      rw [hcalls]
      exact Stk.push _ _ _ _ hbelow (Or.inl ⟨rfl, ⟨_, rfl⟩, IsValue.array items hitems⟩)
  · intro e h
    unfold EndArray at h
    cases hpop : popArrayItems b.nodes_ [] with
    | error e' =>
      rw [hpop] at h
      have he : e' = e := by
        simp only [bind, Except.bind] at h
        exact Except.error.inj h
      rw [← he]
      exact popArrayItems_error _ (fun x hx => (Stk_filled _ _ hs x hx).1) _ _ hpop
    | ok pr =>
      rw [hpop] at h
      obtain ⟨popped, remaining⟩ := pr
      cases remaining with
      | nil => exact (Except.error.inj h).symm
      | cons arr below => cases h

theorem EndDict_Stk (b : Builder) (calls : List Call) (hs : Stk b.nodes_ calls) :
    (∀ b', b.EndDict = .ok b' → Stk b'.nodes_ (calls ++ [Call.EndDict])) ∧
    (∀ e, b.EndDict = .error e → e = .logic_error) := by
  constructor
  · intro b' h
    unfold EndDict at h
    rw [Except.bind_eq_ok] at h
    obtain ⟨⟨entries, remaining⟩, hpop, h⟩ := h
    obtain ⟨hrem, ps, hps, hl⟩ := popDictEntries_inv _ _ (le_refl _) _ _ _ hpop
    cases remaining with
    | nil => cases h
    | cons ds below =>
      simp only [pure, Except.pure, Except.ok.injEq] at h
      subst h
      have hds : ds.state = .DICT_START := by
        rcases hrem with hrem | ⟨ds', below', heq, hst⟩
        · cases hrem
        · cases heq; exact hst
      rw [hl] at hs
      obtain ⟨c1, es, hc1, hstk, hes⟩ := Stk_split_pairs _ ps hps calls hs
      obtain ⟨c0, seg, hc0, hbelow, hseg⟩ := Stk_cons_inv ds below c1 hstk
      have hsegeq : seg = [Call.StartDict] := by
        rcases hseg with ⟨hst, _⟩ | ⟨hst, _⟩ | ⟨hst, _⟩ | ⟨_, _, hseg⟩
        · rw [hds] at hst; cases hst
        · rw [hds] at hst; cases hst
        · rw [hds] at hst; cases hst
        · exact hseg
      have hcalls : calls ++ [Call.EndDict] =
          c0 ++ (Call.StartDict ::
            ((es.map (fun e => Call.Key e.1 :: e.2)).flatten ++ [Call.EndDict])) := by
        rw [hc1, hc0, hsegeq]; simp
      rw [hcalls]
      exact Stk.push _ _ _ _ hbelow (Or.inl ⟨rfl, ⟨_, rfl⟩, IsValue.dict es hes⟩)
  · intro e h
    unfold EndDict at h
    cases hpop : popDictEntries b.nodes_ [] with
    | error e' =>
      rw [hpop] at h
      have he : e' = e := by
        simp only [bind, Except.bind] at h
        exact Except.error.inj h
      rw [← he]
      exact popDictEntries_error _ _ (le_refl _) (Stk_filled _ _ hs) _ _ hpop
    | ok pr =>
      rw [hpop] at h
      obtain ⟨entries, remaining⟩ := pr
      cases remaining with
      | nil => exact (Except.error.inj h).symm
      | cons ds below => cases h

theorem call_Stk (b : Builder) (calls : List Call) (hs : Stk b.nodes_ calls) (c : Call) :
    (∀ b', b.call c = .ok b' → Stk b'.nodes_ (calls ++ [c])) ∧
    (∀ e, b.call c = .error e → e = .logic_error) := by
  cases c with
  | Value v =>
    refine ⟨?_, fun e h => by cases h⟩
    intro b' h
    simp only [call, Except.ok.injEq] at h
    subst h
    exact Stk.push _ _ _ _ hs (Or.inl ⟨rfl, ⟨v, rfl⟩, IsValue.value v⟩)
  | Key k =>
    refine ⟨?_, fun e h => by cases h⟩
    intro b' h
    simp only [call, Except.ok.injEq] at h
    subst h
    exact Stk.push _ _ _ _ hs (Or.inr (Or.inl ⟨rfl, k, rfl, rfl⟩))
  | StartArray =>
    refine ⟨?_, fun e h => by cases h⟩
    intro b' h
    simp only [call, Except.ok.injEq] at h
    subst h
    exact Stk.push _ _ _ _ hs (Or.inr (Or.inr (Or.inl ⟨rfl, rfl, rfl⟩)))
  | StartDict =>
    refine ⟨?_, fun e h => by cases h⟩
    intro b' h
    simp only [call, Except.ok.injEq] at h
    subst h
    exact Stk.push _ _ _ _ hs (Or.inr (Or.inr (Or.inr ⟨rfl, rfl, rfl⟩)))
  | EndArray => exact EndArray_Stk b calls hs
  | EndDict => exact EndDict_Stk b calls hs

theorem run_Stk (s : List Call) :
    ∀ (b : Builder) (calls : List Call), Stk b.nodes_ calls →
      (∀ b', run s b = .ok b' → Stk b'.nodes_ (calls ++ s)) ∧
      (∀ e, run s b = .error e → e = .logic_error) := by
  induction s with
  | nil =>
    intro b calls hs
    refine ⟨?_, fun e h => by cases h⟩
    intro b' h
    simp only [run, List.foldlM_nil, pure, Except.pure, Except.ok.injEq] at h
    subst h
    simpa using hs
  | cons c s ih =>
    intro b calls hs
    obtain ⟨hok, herr⟩ := call_Stk b calls hs c
    rw [run_cons]
    cases hc : b.call c with
    | error e' =>
      refine ⟨fun b' h => absurd h (by simp [bind, Except.bind]), ?_⟩
      intro e h
      simp only [bind, Except.bind] at h
      rw [← Except.error.inj h]
      exact herr e' hc
    | ok b1 =>
      obtain ⟨hok1, herr1⟩ := ih b1 (calls ++ [c]) (hok b1 hc)
      refine ⟨?_, ?_⟩
      · intro b' h
        have := hok1 b' h
        simpa using this
      · intro e h
        exact herr1 e h

end Builder

end json

namespace json

namespace Builder

end Builder

end json

namespace json

theorem first_marker_unique {α : Type} (P : α → Prop) (l1 l2 r1 r2 : List α) (a1 a2 : α)
    (h : l1 ++ a1 :: r1 = l2 ++ a2 :: r2) (h1 : P a1) (h2 : P a2)
    (hl1 : ∀ x ∈ l1, ¬ P x) (hl2 : ∀ x ∈ l2, ¬ P x) : l1 = l2 := by
  rcases List.append_eq_append_iff.1 h with ⟨m, hm, hr⟩ | ⟨m, hm, hr⟩
  · cases m with
    | nil => simpa using hm.symm
    | cons x m =>
      rw [List.cons_append] at hr
      have hx : a1 = x := (List.cons.inj hr).1
      exact absurd h1 (hl2 a1 (by rw [hm, hx]; simp))
  · cases m with
    | nil => simpa using hm
    | cons x m =>
      rw [List.cons_append] at hr
      have hx : a2 = x := (List.cons.inj hr).1
      exact absurd h2 (hl1 a2 (by rw [hm, hx]; simp))

namespace Builder

theorem EndArray_ok_inv (b b' : Builder) (h : b.EndArray = .ok b') :
    ∃ cs arr below, b.nodes_ = cs ++ arr :: below ∧ arr.state = .ARRAY_START ∧
      ∀ x ∈ cs, x.state = .COMPLETE_OBJ := by
  unfold EndArray at h
  rw [Except.bind_eq_ok] at h
  obtain ⟨⟨popped, remaining⟩, hpop, h⟩ := h
  obtain ⟨hrem, cs, hcs, hall⟩ := popArrayItems_inv _ _ _ _ hpop
  cases remaining with
  | nil => cases h
  | cons arr below =>
    refine ⟨cs, arr, below, hcs, ?_, hall⟩
    rcases hrem with hrem | ⟨arr', below', heq, hst⟩
    · cases hrem
    · cases heq; exact hst

/-- C23: on a builder reached by calls that returned, `EndArray` raises a logic
error when the stack holds no `ARRAY_START` marker, and when an entry of a `Key` or
of an unclosed `StartDict` lies above the nearest `ARRAY_START` marker. -/
theorem EndArray_without_matching_start (calls : List Call) (b : Builder)
    (hb : run calls {} = .ok b) :
    ((∀ h ∈ b.nodes_, h.state ≠ .ARRAY_START) → b.EndArray = .error .logic_error) ∧
    (∀ above arr below, b.nodes_ = above ++ arr :: below → arr.state = .ARRAY_START →
      (∀ h ∈ above, h.state ≠ .ARRAY_START) →
      (∃ h ∈ above, h.state = .KEY ∨ h.state = .DICT_START) →
      b.EndArray = .error .logic_error) := by
  have hstk : Stk b.nodes_ calls := by
    have := (run_Stk calls {} [] Stk.nil).1 b hb
    simpa using this
  have herr := (EndArray_Stk b calls hstk).2
  constructor
  · intro hno
    cases h : b.EndArray with
    | error e => rw [herr e h]
    | ok b' =>
      obtain ⟨cs, arr, below, hnodes, harr, _⟩ := EndArray_ok_inv b b' h
      exact absurd harr (hno arr (by rw [hnodes]; simp))
  · intro above arr below hnodes harr hno hbad
    cases h : b.EndArray with
    | error e => rw [herr e h]
    | ok b' =>
      obtain ⟨cs, arr', below', hnodes', harr', hall⟩ := EndArray_ok_inv b b' h
      have heq : above = cs :=
        first_marker_unique (fun x : HelperNode => x.state = .ARRAY_START) above cs below
          below' arr arr' (hnodes ▸ hnodes') harr harr' hno
          (fun x hx hx' => by
            have hx2 : x.state = .ARRAY_START := hx'
            rw [hall x hx] at hx2
            cases hx2)
      obtain ⟨x, hx, hstate⟩ := hbad
      rw [heq] at hx
      rw [hall x hx] at hstate
      rcases hstate with hstate | hstate <;> cases hstate

/-- Witness of C23: `EndArray` after `StartArray, Key "a"`, and `EndArray` on a
builder that holds one value only. -/
theorem EndArray_without_matching_start_witness :
    (({} : Builder).StartArray.Key "a").EndArray = .error .logic_error ∧
    (({} : Builder).Value (.int 1)).EndArray = .error .logic_error :=
  ⟨(EndArray_without_matching_start [Call.StartArray, Call.Key "a"]
      (({} : Builder).StartArray.Key "a") rfl).2
      [⟨.KEY, some (.string "a")⟩] ⟨.ARRAY_START, none⟩ [] rfl rfl
      (by intro h hh; rw [List.mem_singleton.1 hh]; decide)
      ⟨_, List.mem_singleton.2 rfl, Or.inl rfl⟩,
   (EndArray_without_matching_start [Call.Value (.int 1)] (({} : Builder).Value (.int 1)) rfl).1
      (by intro h hh; rw [List.mem_singleton.1 hh]; decide)⟩

end Builder

end json

namespace json

namespace Builder

end Builder

end json

namespace TransportRouter

theorem Walk_edges_valid (g : DirectedWeightedGraph EdgeInfo) (u t : VertexId)
    (es : List EdgeId) (h : Walk g u es t) : ∀ id ∈ es, ∃ e, g.edges_[id]? = some e := by
  induction h with
  | nil v => intro id hid; cases hid
  | cons e he _ _ ih =>
    intro id hid
    rcases List.mem_cons.1 hid with hid | hid
    · exact ⟨e, hid ▸ he⟩
    · exact ih id hid

/-- The decoding of an edge of the graph of a constructed router returns. -/
theorem decodeEdge_ok (m : Libm) (router_settings : Settings) (c : TransportCatalogue)
    (r : TransportRouter) (hr : create m router_settings c = .ok r) (edge_id : EdgeId)
    (e : Edge EdgeInfo) (he : r.transport_graph_.edges_[edge_id]? = some e) :
    ∃ item, decodeEdge r edge_id = .ok item := by
  obtain ⟨hcat, _, hids, _, _, _, hgok⟩ := create_eq_ok m router_settings c r hr
  have hlen : r.stop_id_to_stop_.length = c.stops_.length := by
    rw [hids]; exact InitIdToStop_length c
  have hshape := hgok.2 e (List.getElem?_mem he)
  unfold decodeEdge
  rw [(GetEdge_eq_ok _ _ _).2 he]
  simp only [bind, Except.bind]
  by_cases hspan : e.weight.span_count = 0
  · rw [if_pos hspan]
    rcases hshape with ⟨_, hto, _⟩ | ⟨_, _, _, hone⟩
    · have hto' : e.to_ < c.stops_.length := hlen ▸ hto
      have hcount : ¬ e.to_ ≥ r.transport_catalogue_.GetStopCount := by
        rw [hcat]
        exact Nat.not_le.2 hto'
      rw [if_neg hcount]
      have hvec := vectorAt_ok_of_lt r.stop_id_to_stop_ e.to_ hto
      rw [hvec]
      have hp : r.stop_id_to_stop_[e.to_] < c.stops_.length := by
        have hmem : r.stop_id_to_stop_[e.to_] ∈ InitIdToStop c := by
          rw [← hids]; exact List.getElem_mem hto
        unfold InitIdToStop at hmem
        obtain ⟨k, hk, hkeq⟩ := List.mem_map.1 hmem
        rw [← hkeq]
        have hk' : k < c.stops_.length := List.mem_range.1 hk
        exact Nat.lt_of_le_of_lt (Nat.sub_le _ _)
          (Nat.sub_lt (Nat.lt_of_le_of_lt (Nat.zero_le k) hk') Nat.one_pos)
      obtain ⟨s, hs, _⟩ := TransportCatalogue.stopAt_of_lt c _ hp
      rw [hcat]
      dsimp only
      rw [hs]
      exact ⟨_, rfl⟩
    · omega
  · rw [if_neg hspan]
    exact ⟨_, rfl⟩

end TransportRouter

namespace TransportCatalogue

end TransportCatalogue

namespace rh

namespace StatHandler

end StatHandler

end rh

namespace rh

namespace StatHandler

end StatHandler

end rh

namespace rh

end rh

namespace rh

end rh

namespace TransportRouter

theorem segmentDistance_succ (m : Libm) (c : TransportCatalogue) (route : List StopPtr)
    (i n : Nat) (D d : ℚ) (a b : StopPtr)
    (hD : segmentDistance m c route i (i + n) = .ok D)
    (ha : vectorAt route (i + 1 + n - 1) = .ok a) (hb : vectorAt route (i + 1 + n) = .ok b)
    (hd : TransportCatalogue.GetDistance m c a b = .ok d) :
    segmentDistance m c route i (i + 1 + n) = .ok (D + d) := by
  unfold segmentDistance at hD ⊢
  have h1 : i + 1 + n - i = n + 1 := by omega
  have h2 : i + n - i = n := by omega
  rw [h2] at hD
  rw [h1, List.range'_1_concat, List.foldlM_append, hD]
  simp only [bind, Except.bind, List.foldlM_cons, List.foldlM_nil, ha, hb, hd]
  rfl

theorem segmentDistanceReverse_succ (m : Libm) (c : TransportCatalogue)
    (route : List StopPtr) (i n : Nat) (D d : ℚ) (a b : StopPtr)
    (hD : segmentDistanceReverse m c route i (i + n) = .ok D)
    (ha : vectorAt route (i + 1 + n - 1) = .ok a) (hb : vectorAt route (i + 1 + n) = .ok b)
    (hd : TransportCatalogue.GetDistance m c b a = .ok d) :
    segmentDistanceReverse m c route i (i + 1 + n) = .ok (D + d) := by
  unfold segmentDistanceReverse at hD ⊢
  have h1 : i + 1 + n - i = n + 1 := by omega
  have h2 : i + n - i = n := by omega
  rw [h2] at hD
  rw [h1, List.range'_1_concat, List.foldlM_append, hD]
  simp only [bind, Except.bind, List.foldlM_cons, List.foldlM_nil, ha, hb, hd]
  rfl

theorem segmentDistance_self (m : Libm) (c : TransportCatalogue) (route : List StopPtr)
    (i : Nat) : segmentDistance m c route i (i + 0) = .ok 0 := by
  unfold segmentDistance
  simp [pure, Except.pure]

theorem segmentDistanceReverse_self (m : Libm) (c : TransportCatalogue)
    (route : List StopPtr) (i : Nat) : segmentDistanceReverse m c route i (i + 0) = .ok 0 := by
  unfold segmentDistanceReverse
  simp [pure, Except.pure]

end TransportRouter

namespace TransportRouter

theorem round_inner (m : Libm) (r : TransportRouter)
    (hkeys : ∀ s ∈ r.transport_catalogue_.stops_,
      (r.stop_name_to_index_.find? s.name).isSome = true)
    (bus : Bus) (hv : ∀ p ∈ bus.route, p < r.transport_catalogue_.stops_.length)
    (i : Nat) (g : DirectedWeightedGraph EdgeInfo) :
    ∀ n, i + 1 + n ≤ bus.route.length →
      ∃ D added,
        (List.range' (i + 1) n).foldlM
          (fun (st : ℚ × DirectedWeightedGraph EdgeInfo) j => do
            let a ← vectorAt bus.route (j - 1)
            let b ← vectorAt bus.route j
            let d ← TransportCatalogue.GetDistance m r.transport_catalogue_ a b
            let accumulated_distance := st.1 + d
            let span_count := j - i
            let vi ← r.routeVertex bus i
            let vj ← r.routeVertex bus j
            let edge_to_stop_exit : Edge EdgeInfo :=
              { from_ := vi
                to_ := vj + r.stop_id_to_stop_.length
                weight :=
                  { time := r.CalculateDriveTimeMinutes accumulated_distance
                    span_count := span_count
                    bus_name := bus.name } }
            pure (accumulated_distance, st.2.AddEdge edge_to_stop_exit))
          (0, g) = .ok (D, { g with edges_ := g.edges_ ++ added }) ∧
        segmentDistance m r.transport_catalogue_ bus.route i (i + n) = .ok D ∧
        List.Forall₂ (fun j e => IsRideEdge m r bus i j e) (List.range' (i + 1) n) added := by
  intro n
  induction n with
  | zero =>
    intro _
    exact ⟨0, [], by simp [pure, Except.pure], segmentDistance_self m _ _ i, by simp⟩
  | succ n ih =>
    intro hn
    obtain ⟨D, added, hfold, hD, hall⟩ := ih (by omega)
    have hj : i + 1 + n < bus.route.length := by omega
    have hj1 : i + 1 + n - 1 < bus.route.length := by omega
    have hi : i < bus.route.length := by omega
    have ha := vectorAt_ok_of_lt bus.route (i + 1 + n - 1) hj1
    have hb := vectorAt_ok_of_lt bus.route (i + 1 + n) hj
    obtain ⟨d, hd⟩ := TransportCatalogue.GetDistance_ok_of_valid m r.transport_catalogue_
      bus.route[i + 1 + n - 1] bus.route[i + 1 + n]
      (hv _ (List.getElem_mem hj1)) (hv _ (List.getElem_mem hj))
    obtain ⟨vi, hvi⟩ := routeVertex_ok r hkeys bus hv i hi
    obtain ⟨vj, hvj⟩ := routeVertex_ok r hkeys bus hv (i + 1 + n) hj
    refine ⟨D + d, added ++
      [{ from_ := vi
         to_ := vj + r.stop_id_to_stop_.length
         weight :=
           { time := r.CalculateDriveTimeMinutes (D + d)
             span_count := i + 1 + n - i
             bus_name := bus.name } }], ?_, ?_, ?_⟩
    · rw [List.range'_1_concat, List.foldlM_append, hfold]
      simp only [bind, Except.bind, List.foldlM_cons, List.foldlM_nil, ha, hb, hd, hvi, hvj,
        pure, Except.pure, DirectedWeightedGraph.AddEdge, List.append_assoc]
    · have := segmentDistance_succ m r.transport_catalogue_ bus.route i n D d _ _ hD ha hb hd
      rw [show i + (n + 1) = i + 1 + n by omega]
      exact this
    · rw [List.range'_1_concat]
      refine List.rel_append hall (List.Forall₂.cons ?_ List.Forall₂.nil)
      refine ⟨vi, vj, D + d, hvi, hvj, ?_, rfl⟩
      exact segmentDistance_succ m r.transport_catalogue_ bus.route i n D d _ _ hD ha hb hd

theorem forall₂_flatten_pairs {β : Type} (R : Nat → Nat → β → Prop) (f : Nat → List Nat)
    (is : List Nat) (groups : List (List β))
    (h : List.Forall₂ (fun i grp => List.Forall₂ (fun j e => R i j e) (f i) grp) is groups) :
    List.Forall₂ (fun (ij : Nat × Nat) e => R ij.1 ij.2 e)
      ((is.map (fun i => (f i).map (fun j => (i, j)))).flatten) groups.flatten := by
  induction h with
  | nil => exact List.Forall₂.nil
  | cons hhead _ ih =>
    rw [List.map_cons, List.flatten_cons, List.flatten_cons]
    refine List.rel_append ?_ ih
    rw [List.forall₂_map_left_iff]
    exact hhead

end TransportRouter

namespace TransportRouter

theorem mem_pairs (n i j : Nat) : (i, j) ∈ pairs n ↔ i < j ∧ j < n := by
  unfold pairs
  simp only [List.mem_flatten, List.mem_map, List.mem_range]
  constructor
  · rintro ⟨l, ⟨a, ha, rfl⟩, hl⟩
    simp only [List.mem_map, List.mem_range'_1, Prod.mk.injEq] at hl
    obtain ⟨b, ⟨hb1, hb2⟩, rfl, rfl⟩ := hl
    omega
  · rintro ⟨h1, h2⟩
    refine ⟨_, ⟨i, by omega, rfl⟩, ?_⟩
    rw [List.mem_map]
    exact ⟨j, List.mem_range'_1.2 ⟨by omega, by omega⟩, rfl⟩

theorem pairs_nodup (n : Nat) : (pairs n).Nodup := by
  unfold pairs
  rw [List.nodup_flatten]
  constructor
  · intro l hl
    obtain ⟨i, _, rfl⟩ := List.mem_map.1 hl
    exact (List.nodup_range' _ _).map (fun a b h => (Prod.mk.inj h).2)
  · rw [List.pairwise_map]
    refine (List.nodup_range n).imp ?_
    intro a b hab x hxa hxb
    obtain ⟨ja, _, rfl⟩ := List.mem_map.1 hxa
    obtain ⟨jb, _, hx⟩ := List.mem_map.1 hxb
    exact hab (Prod.mk.inj hx).1.symm

theorem sum_range_mul_two (n : Nat) : (List.range n).sum * 2 = n * (n - 1) := by
  induction n with
  | zero => rfl
  | succ n ih =>
    rw [List.range_succ, List.sum_append, List.sum_singleton, Nat.add_mul, ih]
    cases n with
    | zero => rfl
    | succ k =>
      simp only [Nat.add_sub_cancel]
      ring

theorem pairs_length (n : Nat) : (pairs n).length * 2 = n * (n - 1) := by
  have hrev : (List.range n).map (fun i => n - (i + 1)) = (List.range n).reverse := by
    conv_rhs => rw [List.range_eq_range', List.reverse_range']
    apply List.map_congr_left
    intro i _
    omega
  unfold pairs
  rw [List.length_flatten, List.map_map]
  have hfun : (List.length ∘ fun i => (List.range' (i + 1) (n - (i + 1))).map (fun j => (i, j))) =
      fun i => n - (i + 1) := by
    funext i
    simp
  rw [hfun, hrev, List.sum_reverse]
  exact sum_range_mul_two n

end TransportRouter

namespace TransportRouter

theorem round_outer (m : Libm) (r : TransportRouter)
    (hkeys : ∀ s ∈ r.transport_catalogue_.stops_,
      (r.stop_name_to_index_.find? s.name).isSome = true)
    (bus : Bus) (hv : ∀ p ∈ bus.route, p < r.transport_catalogue_.stops_.length)
    (is : List Nat) :
    (∀ i ∈ is, i < bus.route.length) → ∀ g : DirectedWeightedGraph EdgeInfo,
      ∃ groups,
        is.foldlM
          (fun g i => do
            let inner ← (List.range' (i + 1) (bus.route.length - (i + 1))).foldlM
              (fun (st : ℚ × DirectedWeightedGraph EdgeInfo) j => do
                let a ← vectorAt bus.route (j - 1)
                let b ← vectorAt bus.route j
                let d ← TransportCatalogue.GetDistance m r.transport_catalogue_ a b
                let accumulated_distance := st.1 + d
                let span_count := j - i
                let vi ← r.routeVertex bus i
                let vj ← r.routeVertex bus j
                let edge_to_stop_exit : Edge EdgeInfo :=
                  { from_ := vi
                    to_ := vj + r.stop_id_to_stop_.length
                    weight :=
                      { time := r.CalculateDriveTimeMinutes accumulated_distance
                        span_count := span_count
                        bus_name := bus.name } }
                pure (accumulated_distance, st.2.AddEdge edge_to_stop_exit))
              (0, g)
            pure inner.2)
          g = .ok { g with edges_ := g.edges_ ++ groups.flatten } ∧
        List.Forall₂
          (fun i grp => List.Forall₂ (fun j e => IsRideEdge m r bus i j e)
            (List.range' (i + 1) (bus.route.length - (i + 1))) grp)
          is groups := by
  induction is with
  | nil =>
    intro _ g
    exact ⟨[], by simp [pure, Except.pure], List.Forall₂.nil⟩
  | cons i is ih =>
    intro his g
    have hi := his i (List.mem_cons_self _ _)
    obtain ⟨D, added, hfold, _, hall⟩ := round_inner m r hkeys bus hv i g
      (bus.route.length - (i + 1)) (by omega)
    obtain ⟨groups, hrest, hgroups⟩ := ih (fun k hk => his k (List.mem_cons_of_mem _ hk))
      { g with edges_ := g.edges_ ++ added }
    refine ⟨added :: groups, ?_, List.Forall₂.cons hall hgroups⟩
    rw [List.foldlM_cons, Except.bind_eq_ok]
    refine ⟨{ g with edges_ := g.edges_ ++ added }, ?_, ?_⟩
    · rw [hfold]; rfl
    · rw [hrest]; simp

/-- C27: for a bus with the materialized route r0..r(m-1) whose stops are stops of
the catalogue known to the name index, `AddRoundTrip` returns and appends to the
graph exactly one edge for every pair i < j in [0, m), in the order of the pairs,
and no other edge: the edge goes from idx(ri) to idx(rj) + N, spans j - i stops,
carries the name of the bus and takes (D / 1000) / bus_velocity * 60 minutes, D
being the sum of GetDistance(r(k-1), r(k)) for k in (i, j]; these are m(m-1)/2
edges. -/
theorem AddRoundTrip_adds_one_edge_per_pair (m : Libm) (r : TransportRouter)
    (hkeys : ∀ s ∈ r.transport_catalogue_.stops_,
      (r.stop_name_to_index_.find? s.name).isSome = true)
    (bus : Bus) (hv : ∀ p ∈ bus.route, p < r.transport_catalogue_.stops_.length)
    (g : DirectedWeightedGraph EdgeInfo) :
    ∃ added,
      AddRoundTrip m r bus g = .ok { g with edges_ := g.edges_ ++ added } ∧
      List.Forall₂ (fun (ij : Nat × Nat) e => IsRideEdge m r bus ij.1 ij.2 e)
        (pairs bus.route.length) added ∧
      (pairs bus.route.length).Nodup ∧
      (∀ i j, (i, j) ∈ pairs bus.route.length ↔ i < j ∧ j < bus.route.length) ∧
      added.length * 2 = bus.route.length * (bus.route.length - 1) ∧
      ∀ D, r.CalculateDriveTimeMinutes D = D / 1000 / r.router_settings_.bus_velocity * 60 := by
  obtain ⟨groups, hfold, hgroups⟩ := round_outer m r hkeys bus hv
    (List.range bus.route.length) (fun i hi => List.mem_range.1 hi) g
  have hall := forall₂_flatten_pairs (fun i j e => IsRideEdge m r bus i j e)
    (fun i => List.range' (i + 1) (bus.route.length - (i + 1)))
    (List.range bus.route.length) groups hgroups
  refine ⟨groups.flatten, hfold, hall, pairs_nodup _, mem_pairs _, ?_, fun D => rfl⟩
  have hlen : (pairs bus.route.length).length = groups.flatten.length := hall.length_eq
  rw [← hlen]
  exact pairs_length _

/-- Witness of C27: the round-trip bus `l` of `roundAB` over `A, B, A`, with
`A -> B = 1000` m at 40 km/h: the edge of the pair (0, 1) takes 1.5 minutes. -/
theorem AddRoundTrip_adds_one_edge_per_pair_witness :
    (∃ added,
      AddRoundTrip Example.libm Example.routerAB
          { name := "l", route := [0, 1, 0], is_roundtrip := true }
          (DirectedWeightedGraph.ofVertexCount 4) =
        .ok { (DirectedWeightedGraph.ofVertexCount 4 : DirectedWeightedGraph EdgeInfo) with
          edges_ := [] ++ added } ∧
      added.length * 2 = 3 * (3 - 1)) ∧
    Example.routerAB.CalculateDriveTimeMinutes 1000 = 3 / 2 := by
  obtain ⟨added, h1, _, _, _, h5, _⟩ := AddRoundTrip_adds_one_edge_per_pair Example.libm
    Example.routerAB (by decide!) { name := "l", route := [0, 1, 0], is_roundtrip := true }
    (by decide!) (DirectedWeightedGraph.ofVertexCount 4)
  exact ⟨⟨added, h1, h5⟩, by decide!⟩

end TransportRouter

namespace TransportRouter

theorem linear_inner (m : Libm) (r : TransportRouter)
    (hkeys : ∀ s ∈ r.transport_catalogue_.stops_,
      (r.stop_name_to_index_.find? s.name).isSome = true)
    (bus : Bus) (hv : ∀ p ∈ bus.route, p < r.transport_catalogue_.stops_.length)
    (i : Nat) (g : DirectedWeightedGraph EdgeInfo) :
    ∀ n, i + 1 + n ≤ bus.route.length / 2 + 1 →
      ∃ D groups,
        (List.range' (i + 1) n).foldlM
          (fun (st : (ℚ × ℚ) × DirectedWeightedGraph EdgeInfo) j => do
            let a ← vectorAt bus.route (j - 1)
            let b ← vectorAt bus.route j
            let d ← TransportCatalogue.GetDistance m r.transport_catalogue_ a b
            let accumulated_distance := st.1.1 + d
            let d_reverse ← TransportCatalogue.GetDistance m r.transport_catalogue_ b a
            let accumulated_distance_reverse := st.1.2 + d_reverse
            let span_count := j - i
            let vi ← r.routeVertex bus i
            let vj ← r.routeVertex bus j
            let edge_to_stop_exit : Edge EdgeInfo :=
              { from_ := vi
                to_ := vj + r.stop_id_to_stop_.length
                weight :=
                  { time := r.CalculateDriveTimeMinutes accumulated_distance
                    span_count := span_count
                    bus_name := bus.name } }
            let edge_to_stop_exit_reverse : Edge EdgeInfo :=
              { from_ := vj
                to_ := vi + r.stop_id_to_stop_.length
                weight :=
                  { time := r.CalculateDriveTimeMinutes accumulated_distance_reverse
                    span_count := span_count
                    bus_name := bus.name } }
            pure ((accumulated_distance, accumulated_distance_reverse),
              (st.2.AddEdge edge_to_stop_exit).AddEdge edge_to_stop_exit_reverse))
          ((0, 0), g) = .ok (D, { g with edges_ := g.edges_ ++ groups.flatten }) ∧
        segmentDistance m r.transport_catalogue_ bus.route i (i + n) = .ok D.1 ∧
        segmentDistanceReverse m r.transport_catalogue_ bus.route i (i + n) = .ok D.2 ∧
        List.Forall₂
          (fun j es => ∃ forward backward, es = [forward, backward] ∧
            IsRideEdge m r bus i j forward ∧ IsReverseRideEdge m r bus i j backward)
          (List.range' (i + 1) n) groups := by
  intro n
  induction n with
  | zero =>
    intro _
    exact ⟨(0, 0), [], by simp [pure, Except.pure], segmentDistance_self m _ _ i,
      segmentDistanceReverse_self m _ _ i, by simp⟩
  | succ n ih =>
    intro hn
    obtain ⟨D, groups, hfold, hD, hDr, hall⟩ := ih (by omega)
    have hj : i + 1 + n < bus.route.length := by omega
    have hj1 : i + 1 + n - 1 < bus.route.length := by omega
    have hi : i < bus.route.length := by omega
    have ha := vectorAt_ok_of_lt bus.route (i + 1 + n - 1) hj1
    have hb := vectorAt_ok_of_lt bus.route (i + 1 + n) hj
    obtain ⟨d, hd⟩ := TransportCatalogue.GetDistance_ok_of_valid m r.transport_catalogue_
      bus.route[i + 1 + n - 1] bus.route[i + 1 + n]
      (hv _ (List.getElem_mem hj1)) (hv _ (List.getElem_mem hj))
    obtain ⟨d', hd'⟩ := TransportCatalogue.GetDistance_ok_of_valid m r.transport_catalogue_
      bus.route[i + 1 + n] bus.route[i + 1 + n - 1]
      (hv _ (List.getElem_mem hj)) (hv _ (List.getElem_mem hj1))
    obtain ⟨vi, hvi⟩ := routeVertex_ok r hkeys bus hv i hi
    obtain ⟨vj, hvj⟩ := routeVertex_ok r hkeys bus hv (i + 1 + n) hj
    have hs := segmentDistance_succ m r.transport_catalogue_ bus.route i n D.1 d _ _ hD ha hb hd
    have hsr := segmentDistanceReverse_succ m r.transport_catalogue_ bus.route i n D.2 d' _ _
      hDr ha hb hd'
    refine ⟨(D.1 + d, D.2 + d'), groups ++
      [[{ from_ := vi
          to_ := vj + r.stop_id_to_stop_.length
          weight :=
            { time := r.CalculateDriveTimeMinutes (D.1 + d)
              span_count := i + 1 + n - i
              bus_name := bus.name } },
        { from_ := vj
          to_ := vi + r.stop_id_to_stop_.length
          weight :=
            { time := r.CalculateDriveTimeMinutes (D.2 + d')
              span_count := i + 1 + n - i
              bus_name := bus.name } }]], ?_, ?_, ?_, ?_⟩
    · rw [List.range'_1_concat, List.foldlM_append, hfold]
      simp only [bind, Except.bind, List.foldlM_cons, List.foldlM_nil, ha, hb, hd, hd', hvi,
        hvj, pure, Except.pure, DirectedWeightedGraph.AddEdge, List.append_assoc,
        List.flatten_append, List.flatten_cons, List.flatten_nil, List.append_nil,
        List.cons_append, List.nil_append]
    · rw [show i + (n + 1) = i + 1 + n by omega]
      exact hs
    · rw [show i + (n + 1) = i + 1 + n by omega]
      exact hsr
    · rw [List.range'_1_concat]
      refine List.rel_append hall (List.Forall₂.cons ?_ List.Forall₂.nil)
      exact ⟨_, _, rfl, ⟨vi, vj, D.1 + d, hvi, hvj, hs, rfl⟩, ⟨vi, vj, D.2 + d', hvi, hvj, hsr, rfl⟩⟩

end TransportRouter

namespace TransportRouter

theorem linear_outer (m : Libm) (r : TransportRouter)
    (hkeys : ∀ s ∈ r.transport_catalogue_.stops_,
      (r.stop_name_to_index_.find? s.name).isSome = true)
    (bus : Bus) (hv : ∀ p ∈ bus.route, p < r.transport_catalogue_.stops_.length)
    (is : List Nat) :
    (∀ i ∈ is, i < bus.route.length / 2 + 1) → ∀ g : DirectedWeightedGraph EdgeInfo,
      ∃ groups : List (List (List (Edge EdgeInfo))),
        is.foldlM
          (fun g i => do
            let inner ← (List.range' (i + 1) (bus.route.length / 2 + 1 - (i + 1))).foldlM
              (fun (st : (ℚ × ℚ) × DirectedWeightedGraph EdgeInfo) j => do
                let a ← vectorAt bus.route (j - 1)
                let b ← vectorAt bus.route j
                let d ← TransportCatalogue.GetDistance m r.transport_catalogue_ a b
                let accumulated_distance := st.1.1 + d
                let d_reverse ← TransportCatalogue.GetDistance m r.transport_catalogue_ b a
                let accumulated_distance_reverse := st.1.2 + d_reverse
                let span_count := j - i
                let vi ← r.routeVertex bus i
                let vj ← r.routeVertex bus j
                let edge_to_stop_exit : Edge EdgeInfo :=
                  { from_ := vi
                    to_ := vj + r.stop_id_to_stop_.length
                    weight :=
                      { time := r.CalculateDriveTimeMinutes accumulated_distance
                        span_count := span_count
                        bus_name := bus.name } }
                let edge_to_stop_exit_reverse : Edge EdgeInfo :=
                  { from_ := vj
                    to_ := vi + r.stop_id_to_stop_.length
                    weight :=
                      { time := r.CalculateDriveTimeMinutes accumulated_distance_reverse
                        span_count := span_count
                        bus_name := bus.name } }
                pure ((accumulated_distance, accumulated_distance_reverse),
                  (st.2.AddEdge edge_to_stop_exit).AddEdge edge_to_stop_exit_reverse))
              ((0, 0), g)
            pure inner.2)
          g = .ok { g with edges_ := g.edges_ ++ groups.flatten.flatten } ∧
        List.Forall₂
          (fun i grp => List.Forall₂
            (fun j es => ∃ forward backward, es = [forward, backward] ∧
              IsRideEdge m r bus i j forward ∧ IsReverseRideEdge m r bus i j backward)
            (List.range' (i + 1) (bus.route.length / 2 + 1 - (i + 1))) grp)
          is groups := by
  induction is with
  | nil =>
    intro _ g
    exact ⟨[], by simp [pure, Except.pure], List.Forall₂.nil⟩
  | cons i is ih =>
    intro his g
    have hi := his i (List.mem_cons_self _ _)
    obtain ⟨D, grp, hfold, _, _, hall⟩ := linear_inner m r hkeys bus hv i g
      (bus.route.length / 2 + 1 - (i + 1)) (by omega)
    obtain ⟨groups, hrest, hgroups⟩ := ih (fun k hk => his k (List.mem_cons_of_mem _ hk))
      { g with edges_ := g.edges_ ++ grp.flatten }
    refine ⟨grp :: groups, ?_, List.Forall₂.cons hall hgroups⟩
    rw [List.foldlM_cons, Except.bind_eq_ok]
    refine ⟨{ g with edges_ := g.edges_ ++ grp.flatten }, ?_, ?_⟩
    · rw [hfold]; rfl
    · rw [hrest]; simp

/-- C28: for a bus with a materialized route of length m whose stops are stops of
the catalogue known to the name index, and mid = m / 2 + 1, `AddLinearTrip` returns
and appends to the graph, for every pair i < j in [0, mid) in the order of the
pairs and for no other pair, exactly two edges: the forward edge from idx(ri) to
idx(rj) + N, whose time is the drive time of the sum of GetDistance(r(k-1), r(k))
for k in (i, j], then the reverse edge from idx(rj) to idx(ri) + N, whose time is
the drive time of the sum of GetDistance(r(k), r(k-1)) for k in (i, j]; both span
j - i stops and carry the name of the bus. -/
theorem AddLinearTrip_adds_two_edges_per_pair (m : Libm) (r : TransportRouter)
    (hkeys : ∀ s ∈ r.transport_catalogue_.stops_,
      (r.stop_name_to_index_.find? s.name).isSome = true)
    (bus : Bus) (hv : ∀ p ∈ bus.route, p < r.transport_catalogue_.stops_.length)
    (g : DirectedWeightedGraph EdgeInfo) :
    ∃ groups : List (List (Edge EdgeInfo)),
      AddLinearTrip m r bus g = .ok { g with edges_ := g.edges_ ++ groups.flatten } ∧
      List.Forall₂
        (fun (ij : Nat × Nat) es => ∃ forward backward, es = [forward, backward] ∧
          IsRideEdge m r bus ij.1 ij.2 forward ∧ IsReverseRideEdge m r bus ij.1 ij.2 backward)
        (pairs (bus.route.length / 2 + 1)) groups ∧
      (pairs (bus.route.length / 2 + 1)).Nodup ∧
      (∀ i j, (i, j) ∈ pairs (bus.route.length / 2 + 1) ↔
        i < j ∧ j < bus.route.length / 2 + 1) := by
  obtain ⟨groups, hfold, hgroups⟩ := linear_outer m r hkeys bus hv
    (List.range (bus.route.length / 2 + 1)) (fun i hi => List.mem_range.1 hi) g
  have hall := forall₂_flatten_pairs
    (fun i j es => ∃ forward backward, es = [forward, backward] ∧
      IsRideEdge m r bus i j forward ∧ IsReverseRideEdge m r bus i j backward)
    (fun i => List.range' (i + 1) (bus.route.length / 2 + 1 - (i + 1)))
    (List.range (bus.route.length / 2 + 1)) groups hgroups
  exact ⟨groups.flatten, hfold, hall, pairs_nodup _, mem_pairs _⟩

/-- Witness of C28: the bus `l` of `lineL` over `A, B, C, B, A`; m = 5, mid = 3,
three pairs and six edges. -/
theorem AddLinearTrip_adds_two_edges_per_pair_witness :
    ∃ groups : List (List (Edge EdgeInfo)),
      AddLinearTrip Example.libm Example.routerL
          { name := "l", route := [0, 1, 2, 1, 0] }
          (DirectedWeightedGraph.ofVertexCount 6) =
        .ok { (DirectedWeightedGraph.ofVertexCount 6 : DirectedWeightedGraph EdgeInfo) with
          edges_ := [] ++ groups.flatten } ∧
      groups.length = (pairs 3).length := by
  obtain ⟨groups, h1, h2, _⟩ := AddLinearTrip_adds_two_edges_per_pair Example.libm
    Example.routerL (by decide!) { name := "l", route := [0, 1, 2, 1, 0] }
    (by decide!) (DirectedWeightedGraph.ofVertexCount 6)
  exact ⟨groups, h1, h2.length_eq.symm⟩

end TransportRouter

namespace TransportRouter

/-- Every edge that `AddRouteToGraph` adds leaves a ride vertex, enters a wait
vertex and spans at least one stop: a property of graphs that is kept by the
addition of such edges is kept by `AddRouteToGraph`. -/
theorem AddRouteToGraph_inv (m : Libm) (r : TransportRouter) (hr : r.IndexValid)
    (P : DirectedWeightedGraph EdgeInfo → Prop)
    (hP : ∀ g e, P g → e.from_ < r.stop_id_to_stop_.length →
      r.stop_id_to_stop_.length ≤ e.to_ → e.to_ < 2 * r.stop_id_to_stop_.length →
      1 ≤ e.weight.span_count → P (g.AddEdge e))
    (bus : Bus) (g g' : DirectedWeightedGraph EdgeInfo)
    (h : AddRouteToGraph m r bus g = .ok g') (hg : P g) : P g' := by
  unfold AddRouteToGraph at h
  split at h
  · refine foldlM_ok_inv P _ (List.range bus.route.length) g g' hg ?_ h
    intro g1 i g2 _ hg1 hstep
    rw [Except.bind_eq_ok] at hstep
    obtain ⟨inner, hinner, hstep⟩ := hstep
    simp only [pure, Except.pure, Except.ok.injEq] at hstep
    subst hstep
    refine foldlM_ok_inv
      (fun st : ℚ × DirectedWeightedGraph EdgeInfo => P st.2)
      _ _ (0, g1) inner hg1 ?_ hinner
    intro st j st' hj hst hbody
    rw [List.mem_range'_1] at hj
    rw [Except.bind_eq_ok] at hbody
    obtain ⟨a, _, hbody⟩ := hbody
    rw [Except.bind_eq_ok] at hbody
    obtain ⟨b, _, hbody⟩ := hbody
    rw [Except.bind_eq_ok] at hbody
    obtain ⟨d, _, hbody⟩ := hbody
    dsimp only at hbody
    rw [Except.bind_eq_ok] at hbody
    obtain ⟨vi, hvi, hbody⟩ := hbody
    rw [Except.bind_eq_ok] at hbody
    obtain ⟨vj, hvj, hbody⟩ := hbody
    simp only [pure, Except.pure, Except.ok.injEq] at hbody
    subst hbody
    have h1 := routeVertex_lt r hr bus i vi hvi
    have h2 := routeVertex_lt r hr bus j vj hvj
    refine hP _ _ hst h1 ?_ ?_ ?_
    · show r.stop_id_to_stop_.length ≤ vj + r.stop_id_to_stop_.length
      omega
    · show vj + r.stop_id_to_stop_.length < 2 * r.stop_id_to_stop_.length
      omega
    · show 1 ≤ j - i
      omega
  · refine foldlM_ok_inv P _ (List.range (bus.route.length / 2 + 1)) g g' hg ?_ h
    intro g1 i g2 _ hg1 hstep
    rw [Except.bind_eq_ok] at hstep
    obtain ⟨inner, hinner, hstep⟩ := hstep
    simp only [pure, Except.pure, Except.ok.injEq] at hstep
    subst hstep
    refine foldlM_ok_inv
      (fun st : (ℚ × ℚ) × DirectedWeightedGraph EdgeInfo => P st.2)
      _ _ ((0, 0), g1) inner hg1 ?_ hinner
    intro st j st' hj hst hbody
    rw [List.mem_range'_1] at hj
    rw [Except.bind_eq_ok] at hbody
    obtain ⟨a, _, hbody⟩ := hbody
    rw [Except.bind_eq_ok] at hbody
    obtain ⟨b, _, hbody⟩ := hbody
    rw [Except.bind_eq_ok] at hbody
    obtain ⟨d, _, hbody⟩ := hbody
    dsimp only at hbody
    rw [Except.bind_eq_ok] at hbody
    obtain ⟨d', _, hbody⟩ := hbody
    rw [Except.bind_eq_ok] at hbody
    obtain ⟨vi, hvi, hbody⟩ := hbody
    rw [Except.bind_eq_ok] at hbody
    obtain ⟨vj, hvj, hbody⟩ := hbody
    simp only [pure, Except.pure, Except.ok.injEq] at hbody
    subst hbody
    have h1 := routeVertex_lt r hr bus i vi hvi
    have h2 := routeVertex_lt r hr bus j vj hvj
    refine hP _ _ (hP _ _ hst h1 ?_ ?_ ?_) h2 ?_ ?_ ?_
    · show r.stop_id_to_stop_.length ≤ vj + r.stop_id_to_stop_.length
      omega
    · show vj + r.stop_id_to_stop_.length < 2 * r.stop_id_to_stop_.length
      omega
    · show 1 ≤ j - i
      omega
    · show r.stop_id_to_stop_.length ≤ vi + r.stop_id_to_stop_.length
      omega
    · show vi + r.stop_id_to_stop_.length < 2 * r.stop_id_to_stop_.length
      omega
    · show 1 ≤ j - i
      omega

theorem foldl_AddEdge {α : Type} (f : α → Edge EdgeInfo) (l : List α) :
    ∀ g : DirectedWeightedGraph EdgeInfo,
      l.foldl (fun g x => g.AddEdge (f x)) g = { g with edges_ := g.edges_ ++ l.map f } := by
  induction l with
  | nil => intro g; simp
  | cons x xs ih =>
    intro g
    rw [List.foldl_cons, ih]
    simp [DirectedWeightedGraph.AddEdge]

/-- The graph that `BuildGraph` returns: 2N vertices, first the N wait edges in the
order of the stops, then edges that leave ride vertices and span at least a stop. -/
theorem BuildGraph_edges (m : Libm) (r : TransportRouter) (hr : r.IndexValid)
    (g : DirectedWeightedGraph EdgeInfo) (h : BuildGraph m r = .ok g) :
    r.WaitThenRides g := by
  unfold BuildGraph at h
  refine foldlM_ok_inv (fun g : DirectedWeightedGraph EdgeInfo => r.WaitThenRides g)
    _ r.transport_catalogue_.buses_ _ g ?_ ?_ h
  · unfold addWaitEdges
    rw [foldl_AddEdge]
    exact ⟨rfl, [], by simp [DirectedWeightedGraph.ofVertexCount, waitEdge], by simp⟩
  · intro g1 bus g2 _ hg1 hstep
    refine AddRouteToGraph_inv m r hr (fun g => r.WaitThenRides g) ?_ bus g1 g2 hstep hg1
    intro g0 e ⟨hvc, rest, hedges, hrest⟩ hfrom _ _ hspan
    refine ⟨hvc, rest ++ [e], ?_, ?_⟩
    · simp [DirectedWeightedGraph.AddEdge, hedges]
    · intro x hx
      rcases List.mem_append.1 hx with hx | hx
      · exact hrest x hx
      · rw [List.mem_singleton.1 hx]; exact ⟨hfrom, hspan⟩

end TransportRouter

namespace TransportRouter

theorem create_WaitThenRides (m : Libm) (router_settings : Settings) (c : TransportCatalogue)
    (r : TransportRouter) (h : create m router_settings c = .ok r) :
    r.WaitThenRides r.transport_graph_ := by
  unfold create at h
  rw [Except.bind_eq_ok] at h
  obtain ⟨idx, hidx, h⟩ := h
  rw [Except.bind_eq_ok] at h
  obtain ⟨g, hg, h⟩ := h
  simp only [pure, Except.pure, Except.ok.injEq] at h
  subst h
  have hvalid : IndexValid
      { transport_catalogue_ := c
        router_settings_ := router_settings
        stop_id_to_stop_ := InitIdToStop c
        stop_name_to_index_ := idx
        transport_graph_ := DirectedWeightedGraph.ofVertexCount 0
        router_ := { graph_ := DirectedWeightedGraph.ofVertexCount 0 } } :=
    InitStopNameToId_spec c (InitIdToStop c) idx hidx
  exact BuildGraph_edges m _ hvalid g hg

/-- C26: for a catalogue with N stops built through its interface and every router
settings, the constructor of the router returns, and the graph that `BuildGraph`
built has 2N vertices; for every k in [0, N) the edge with id k goes from vertex
k + N to vertex k with time = bus_wait_time, span_count 0 and an empty bus name;
every edge with span_count 0, and every edge that leaves a vertex >= N, is one of
these N edges, so the edge k is the only edge that leaves vertex k + N. -/
theorem BuildGraph_wait_edges (m : Libm) (router_settings : Settings)
    (c : TransportCatalogue) (hc : Built m c) :
    ∃ r, create m router_settings c = .ok r ∧
      r.transport_graph_.vertex_count = 2 * c.stops_.length ∧
      (∀ k, k < c.stops_.length →
        r.transport_graph_.edges_[k]? = some
          { from_ := k + c.stops_.length
            to_ := k
            weight :=
              { time := router_settings.bus_wait_time, span_count := 0, bus_name := "" } }) ∧
      (∀ id e, r.transport_graph_.edges_[id]? = some e →
        (e.weight.span_count = 0 ∨ c.stops_.length ≤ e.from_) → id < c.stops_.length) ∧
      (∀ k id e, k < c.stops_.length → r.transport_graph_.edges_[id]? = some e →
        e.from_ = k + c.stops_.length → id = k) := by
  obtain ⟨r, hr⟩ := create_ok_of_Consistent m router_settings c
    (TransportCatalogue.Consistent_of_Built m c hc)
  obtain ⟨_, hset, hids, _, _, _, _⟩ := create_eq_ok m router_settings c r hr
  have hlen : r.stop_id_to_stop_.length = c.stops_.length := by
    rw [hids]; exact InitIdToStop_length c
  obtain ⟨hvc, rest, hedges, hrest⟩ := create_WaitThenRides m router_settings c r hr
  rw [hlen] at hvc hedges hrest
  have hwaits : ((List.range c.stops_.length).map r.waitEdge).length = c.stops_.length := by
    simp
  have hfirst : ∀ k, k < c.stops_.length →
      r.transport_graph_.edges_[k]? = some
        { from_ := k + c.stops_.length
          to_ := k
          weight :=
            { time := router_settings.bus_wait_time, span_count := 0, bus_name := "" } } := by
    intro k hk
    rw [hedges, List.getElem?_append_left (by rw [hwaits]; exact hk), List.getElem?_map,
      List.getElem?_range hk]
    simp [waitEdge, hlen, hset]
  have hlate : ∀ id e, r.transport_graph_.edges_[id]? = some e →
      (e.weight.span_count = 0 ∨ c.stops_.length ≤ e.from_) → id < c.stops_.length := by
    intro id e he hcase
    by_contra hid
    have hle : ((List.range c.stops_.length).map r.waitEdge).length ≤ id := by
      rw [hwaits]; exact Nat.le_of_not_lt hid
    rw [hedges, List.getElem?_append_right hle] at he
    obtain ⟨hfrom, hspan⟩ := hrest e (List.getElem?_mem he)
    rcases hcase with h0 | hge
    · omega
    · exact absurd hfrom (Nat.not_lt.2 hge)
  refine ⟨r, hr, hvc, hfirst, hlate, ?_⟩
  intro k id e hk he hfrom
  have hid := hlate id e he (Or.inr (by rw [hfrom]; exact Nat.le_add_left _ _))
  have := hfirst id hid
  rw [he] at this
  have hfrom' : e.from_ = id + c.stops_.length := by
    rw [Option.some.inj this]
  rw [hfrom] at hfrom'
  exact (Nat.add_right_cancel hfrom').symm

/-- Witness of C26: the catalogue `roundAB` with two stops and a round-trip bus. -/
theorem BuildGraph_wait_edges_witness :
    ∃ r, create Example.libm Example.settings Example.roundAB = .ok r ∧
      r.transport_graph_.vertex_count = 2 * Example.roundAB.stops_.length := by
  obtain ⟨r, h1, h2, _⟩ := BuildGraph_wait_edges Example.libm Example.settings Example.roundAB
    (Built.add_bus (c := Example.roadAB) "l" ["A", "B", "A"] true
      (Built.add_distance
        (c := (TransportCatalogue.empty.AddStop ⟨0, "A", ⟨0, 0⟩⟩).AddStop ⟨1, "B", ⟨1, 1⟩⟩)
        "A" "B" 1000 (Built.add_stop _ (Built.add_stop _ Built.empty)) (by decide!))
      (by decide!))
  exact ⟨r, h1, h2⟩

end TransportRouter

namespace TransportRouter

/-- C29 (counterexample): in the router over `roundAB` (N = 2) the route from `A`
to `B` that the engine returns is made of the edges 1 and 2; the edge 1 enters the
vertex 1 < N and is decoded as a `WaitItem`, the edge 2 enters the vertex 2 >= N and
is decoded as a `BusItem`. -/
theorem decodeEdge_wait_enters_ride_vertex :
    Example.routerAB.stop_id_to_stop_.length = 2 ∧
    (Example.routerAB.router_.BuildRoute 3 2).map (fun o => o.map (fun raw => raw.edges)) =
      .ok (some [1, 2]) ∧
    (Example.routerAB.transport_graph_.GetEdge 1).map (fun e => e.to_) = .ok 1 ∧
    decodeEdge Example.routerAB 1 = .ok (Item.wait { stop_name := "A", time := 6 }) ∧
    (Example.routerAB.transport_graph_.GetEdge 2).map (fun e => e.to_) = .ok 2 ∧
    decodeEdge Example.routerAB 2 =
      .ok (Item.bus { bus_name := "l", span_count := 1, time := 3 / 2 }) ∧
    Example.routerAB.BuildRoute "A" "B" = .ok (some
      { items := [Item.wait { stop_name := "A", time := 6 },
                  Item.bus { bus_name := "l", span_count := 1, time := 3 / 2 }]
        total_time := 15 / 2 }) := by
  refine ⟨?_, ?_, ?_, ?_, ?_, ?_, ?_⟩ <;> decide!

/-- C29 (amended): in a constructed router over N stops, `BuildRoute` decodes every
edge of the route that the engine returns by its span count: an edge with
span_count 0, which is an edge whose destination vertex id is < N, becomes a
`WaitItem` with the time of the edge and the name of the stop with index
(dest - N) if dest >= N else dest; every other edge, which is an edge whose
destination vertex id is >= N, becomes `BusItem{bus_name, span_count, time}`. -/
theorem BuildRoute_decodes_by_span_count (m : Libm) (router_settings : Settings)
    (c : TransportCatalogue) (r : TransportRouter) (hr : create m router_settings c = .ok r) :
    (∀ from_stop to_stop route, r.BuildRoute from_stop to_stop = .ok (some route) →
      ∃ edges, List.Forall₂ (fun edge_id item => decodeEdge r edge_id = .ok item ∧
        ∃ e, r.transport_graph_.edges_[edge_id]? = some e) edges route.items) ∧
    ∀ (edge_id : EdgeId) (e : Edge EdgeInfo), r.transport_graph_.edges_[edge_id]? = some e →
      (e.weight.span_count = 0 ↔ e.to_ < c.stops_.length) ∧
      (e.to_ < c.stops_.length →
        ∃ p s,
          r.stop_id_to_stop_[if e.to_ ≥ c.stops_.length then e.to_ - c.stops_.length
            else e.to_]? = some p ∧
          c.stopAt p = .ok s ∧
          decodeEdge r edge_id = .ok (Item.wait { stop_name := s.name, time := e.weight.time })) ∧
      (c.stops_.length ≤ e.to_ →
        decodeEdge r edge_id = .ok (Item.bus
          { bus_name := e.weight.bus_name
            span_count := e.weight.span_count
            time := e.weight.time })) := by
  obtain ⟨hcat, _, hids, _, hgraph, _, hgok⟩ := create_eq_ok m router_settings c r hr
  have hlen : r.stop_id_to_stop_.length = c.stops_.length := by
    rw [hids]; exact InitIdToStop_length c
  have hedge : ∀ (edge_id : EdgeId) (e : Edge EdgeInfo),
      r.transport_graph_.edges_[edge_id]? = some e →
      (e.weight.span_count = 0 ↔ e.to_ < c.stops_.length) := by
    intro edge_id e he
    rcases hgok.2 e (List.getElem?_mem he) with ⟨_, hto, hw⟩ | ⟨_, hge, _, hone⟩
    · rw [hlen] at hto
      exact ⟨fun _ => hto, fun _ => by rw [hw]⟩
    · rw [hlen] at hge
      constructor
      · intro h0; omega
      · intro hlt; exact absurd hlt (Nat.not_lt.2 hge)
  constructor
  · intro from_stop to_stop route h
    obtain ⟨i, j, raw, _, _, hraw, hitems, _⟩ := BuildRoute_eq_some r from_stop to_stop route h
    have hw := ((graph.Router.BuildRoute_spec r.router_ _ _).2.1 raw hraw).1
    rw [hgraph] at hw
    have hvalid := Walk_edges_valid _ _ _ _ hw
    refine ⟨raw.edges, ?_⟩
    have hf := (mapM_ok_forall₂ _ _ _).1 hitems
    have hgen : ∀ (ids : List EdgeId) (items : List Item),
        List.Forall₂ (fun edge_id item => decodeEdge r edge_id = .ok item) ids items →
        (∀ id ∈ ids, ∃ e, r.transport_graph_.edges_[id]? = some e) →
        List.Forall₂ (fun edge_id item => decodeEdge r edge_id = .ok item ∧
          ∃ e, r.transport_graph_.edges_[edge_id]? = some e) ids items := by
      intro ids items hall
      induction hall with
      | nil => intro _; exact List.Forall₂.nil
      | cons hd _ ih =>
        intro hv
        exact List.Forall₂.cons ⟨hd, hv _ (List.mem_cons_self _ _)⟩
          (ih (fun id hid => hv id (List.mem_cons_of_mem _ hid)))
    exact hgen _ _ hf hvalid
  · intro edge_id e he
    refine ⟨hedge edge_id e he, ?_, ?_⟩
    · intro hto
      have hspan := (hedge edge_id e he).2 hto
      have hto' : e.to_ < r.stop_id_to_stop_.length := hlen ▸ hto
      have hnot : ¬ e.to_ ≥ c.stops_.length := Nat.not_le.2 hto
      have hp : r.stop_id_to_stop_[e.to_] < c.stops_.length := by
        have hmem : r.stop_id_to_stop_[e.to_] ∈ InitIdToStop c := by
          rw [← hids]; exact List.getElem_mem hto'
        unfold InitIdToStop at hmem
        obtain ⟨k, hk, hkeq⟩ := List.mem_map.1 hmem
        rw [← hkeq]
        have hk' : k < c.stops_.length := List.mem_range.1 hk
        exact Nat.lt_of_le_of_lt (Nat.sub_le _ _)
          (Nat.sub_lt (Nat.lt_of_le_of_lt (Nat.zero_le k) hk') Nat.one_pos)
      obtain ⟨s, hs, _⟩ := TransportCatalogue.stopAt_of_lt c _ hp
      refine ⟨r.stop_id_to_stop_[e.to_], s, ?_, hs, ?_⟩
      · rw [if_neg hnot]
        exact List.getElem?_eq_getElem hto'
      · unfold decodeEdge
        rw [(GetEdge_eq_ok _ _ _).2 he]
        simp only [bind, Except.bind]
        rw [if_pos hspan]
        have hcount : ¬ e.to_ ≥ r.transport_catalogue_.GetStopCount := by
          rw [hcat]; exact hnot
        rw [if_neg hcount, vectorAt_ok_of_lt r.stop_id_to_stop_ e.to_ hto', hcat]
        dsimp only
        rw [hs]
        rfl
    · intro hge
      have hspan : ¬ e.weight.span_count = 0 := fun h0 =>
        absurd ((hedge edge_id e he).1 h0) (Nat.not_lt.2 hge)
      unfold decodeEdge
      rw [(GetEdge_eq_ok _ _ _).2 he]
      simp only [bind, Except.bind]
      rw [if_neg hspan]
      rfl

/-- Witness of C29 (amended): the wait edge of the stop `A` in the router over
`roundAB`, which enters the vertex 1 and is decoded as a `WaitItem`. -/
theorem BuildRoute_decodes_by_span_count_witness :
    create Example.libm Example.settings Example.roundAB = .ok Example.routerAB ∧
    Example.routerAB.transport_graph_.edges_[1]? =
      some ⟨3, 1, { time := 6, span_count := 0, bus_name := "" }⟩ ∧
    ∃ p s,
      Example.routerAB.stop_id_to_stop_[if 1 ≥ Example.roundAB.stops_.length
        then 1 - Example.roundAB.stops_.length else 1]? = some p ∧
      Example.roundAB.stopAt p = .ok s ∧
      decodeEdge Example.routerAB 1 = .ok (Item.wait { stop_name := s.name, time := 6 }) :=
  ⟨by decide!, by decide!,
    ((BuildRoute_decodes_by_span_count Example.libm Example.settings Example.roundAB
      Example.routerAB (by decide!)).2 1
      ⟨3, 1, { time := 6, span_count := 0, bus_name := "" }⟩ (by decide!)).2.1 (by decide!)⟩

end TransportRouter

/-! ### Serialization: the round trip of the catalogue -/

namespace AssocMap

variable {κ ν : Type} [DecidableEq κ]

theorem insert_of_not_mem (m : AssocMap κ ν) (k : κ) (v : ν) (h : k ∉ m.map Prod.fst) :
    insert m k v = m ++ [(k, v)] := by
  induction m with
  | nil => rfl
  | cons kv m ih =>
    obtain ⟨k0, v0⟩ := kv
    have h0 : ¬ k0 = k := fun e => h (by simp [e])
    have h1 : k ∉ m.map Prod.fst := fun e => h (by simp at e ⊢; exact Or.inr e)
    simp [insert, h0, ih h1]

theorem emplace_of_not_mem (m : AssocMap κ ν) (k : κ) (v : ν) (h : k ∉ m.map Prod.fst) :
    emplace m k v = m ++ [(k, v)] := by
  induction m with
  | nil => rfl
  | cons kv m ih =>
    obtain ⟨k0, v0⟩ := kv
    have h0 : ¬ k0 = k := fun e => h (by simp [e])
    have h1 : k ∉ m.map Prod.fst := fun e => h (by simp at e ⊢; exact Or.inr e)
    simp [emplace, h0, ih h1]

theorem modify_of_not_mem (m : AssocMap κ ν) (k : κ) (d : ν) (f : ν → ν)
    (h : k ∉ m.map Prod.fst) : modify m k d f = m ++ [(k, f d)] := by
  induction m with
  | nil => rfl
  | cons kv m ih =>
    obtain ⟨k0, v0⟩ := kv
    have h0 : ¬ k0 = k := fun e => h (by simp [e])
    have h1 : k ∉ m.map Prod.fst := fun e => h (by simp at e ⊢; exact Or.inr e)
    simp [modify, h0, ih h1]

theorem modify_append_last (m : AssocMap κ ν) (k : κ) (v d : ν) (f : ν → ν)
    (h : k ∉ m.map Prod.fst) : modify (m ++ [(k, v)]) k d f = m ++ [(k, f v)] := by
  induction m with
  | nil => simp [modify]
  | cons kv m ih =>
    obtain ⟨k0, v0⟩ := kv
    have h0 : ¬ k0 = k := fun e => h (by simp [e])
    have h1 : k ∉ m.map Prod.fst := fun e => h (by simp at e ⊢; exact Or.inr e)
    simp [modify, h0, ih h1]

theorem find?_eq_none_of_not_mem (m : AssocMap κ ν) (k : κ) (h : k ∉ m.map Prod.fst) :
    find? m k = none := by
  induction m with
  | nil => rfl
  | cons kv m ih =>
    obtain ⟨k0, v0⟩ := kv
    have h0 : ¬ k0 = k := fun e => h (by simp [e])
    have h1 : k ∉ m.map Prod.fst := fun e => h (by simp at e ⊢; exact Or.inr e)
    simp [find?, h0, ih h1]

theorem mem_keys_of_find? (m : AssocMap κ ν) (k : κ) (v : ν) (h : find? m k = some v) :
    (k, v) ∈ m := by
  induction m with
  | nil => simp [find?] at h
  | cons kv m ih =>
    obtain ⟨k0, v0⟩ := kv
    by_cases h0 : k0 = k
    · simp [find?, h0] at h
      simp [h0, h]
    · simp [find?, h0] at h
      exact List.mem_cons_of_mem _ (ih h)

theorem keys_insert (m : AssocMap κ ν) (k : κ) (v : ν) :
    (insert m k v).map Prod.fst =
      if k ∈ m.map Prod.fst then m.map Prod.fst else m.map Prod.fst ++ [k] := by
  induction m with
  | nil => simp [insert]
  | cons kv m ih =>
    obtain ⟨k0, v0⟩ := kv
    by_cases h0 : k0 = k
    · simp [insert, h0]
    · have h0' : ¬ k = k0 := fun e => h0 e.symm
      simp only [insert, h0, if_false, List.map_cons, ih, List.mem_cons, h0', false_or]
      split <;> simp

theorem keys_modify (m : AssocMap κ ν) (k : κ) (d : ν) (f : ν → ν) :
    (modify m k d f).map Prod.fst =
      if k ∈ m.map Prod.fst then m.map Prod.fst else m.map Prod.fst ++ [k] := by
  induction m with
  | nil => simp [modify]
  | cons kv m ih =>
    obtain ⟨k0, v0⟩ := kv
    by_cases h0 : k0 = k
    · simp [modify, h0]
    · have h0' : ¬ k = k0 := fun e => h0 e.symm
      simp only [modify, h0, if_false, List.map_cons, ih, List.mem_cons, h0', false_or]
      split <;> simp

theorem nodup_keys_insert (m : AssocMap κ ν) (k : κ) (v : ν) (h : (m.map Prod.fst).Nodup) :
    ((insert m k v).map Prod.fst).Nodup := by
  rw [keys_insert]
  split
  · exact h
  · rename_i hk
    exact List.Nodup.append h (List.nodup_singleton k)
      (by intro x hx hx2; simp at hx2; exact hk (hx2 ▸ hx))

theorem nodup_keys_modify (m : AssocMap κ ν) (k : κ) (d : ν) (f : ν → ν)
    (h : (m.map Prod.fst).Nodup) : ((modify m k d f).map Prod.fst).Nodup := by
  rw [keys_modify]
  split
  · exact h
  · rename_i hk
    exact List.Nodup.append h (List.nodup_singleton k)
      (by intro x hx hx2; simp at hx2; exact hk (hx2 ▸ hx))

theorem mem_insert (m : AssocMap κ ν) (k : κ) (v : ν) (e : κ × ν) (h : e ∈ insert m k v) :
    e ∈ m ∨ e = (k, v) := by
  induction m with
  | nil => simp [insert] at h; exact Or.inr h
  | cons kv m ih =>
    obtain ⟨k0, v0⟩ := kv
    by_cases h0 : k0 = k
    · simp [insert, h0] at h
      rcases h with h | h
      · exact Or.inr h
      · exact Or.inl (List.mem_cons_of_mem _ h)
    · simp only [insert, h0, if_false, List.mem_cons] at h
      rcases h with h | h
      · exact Or.inl (h ▸ List.mem_cons_self _ _)
      · rcases ih h with h | h
        · exact Or.inl (List.mem_cons_of_mem _ h)
        · exact Or.inr h

theorem mem_modify (m : AssocMap κ ν) (k : κ) (d : ν) (f : ν → ν) (e : κ × ν)
    (h : e ∈ modify m k d f) : e ∈ m ∨ ∃ v, (v = d ∨ (k, v) ∈ m) ∧ e = (k, f v) := by
  induction m with
  | nil => simp [modify] at h; exact Or.inr ⟨d, Or.inl rfl, h⟩
  | cons kv m ih =>
    obtain ⟨k0, v0⟩ := kv
    by_cases h0 : k0 = k
    · simp [modify, h0] at h
      rcases h with h | h
      · exact Or.inr ⟨v0, Or.inr (by simp [h0]), h⟩
      · exact Or.inl (List.mem_cons_of_mem _ h)
    · simp only [modify, h0, if_false, List.mem_cons] at h
      rcases h with h | h
      · exact Or.inl (h ▸ List.mem_cons_self _ _)
      · rcases ih h with h | ⟨v, hv, he⟩
        · exact Or.inl (List.mem_cons_of_mem _ h)
        · refine Or.inr ⟨v, ?_, he⟩
          rcases hv with hv | hv
          · exact Or.inl hv
          · exact Or.inr (List.mem_cons_of_mem _ hv)

theorem insert_ne_nil (m : AssocMap κ ν) (k : κ) (v : ν) : insert m k v ≠ [] := by
  cases m with
  | nil => simp [insert]
  | cons kv m =>
    obtain ⟨k0, v0⟩ := kv
    by_cases h0 : k0 = k <;> simp [insert, h0]

end AssocMap

namespace TransportCatalogue

theorem AddDistance_eq_ok (c c' : TransportCatalogue) (a b : String) (d : ℚ)
    (h : c.AddDistance a b d = .ok c') :
    ∃ p q, c.stop_name_to_stop_.find? a = some p ∧ c.stop_name_to_stop_.find? b = some q ∧
      c' = { c with
        stop_to_stop_to_distance_ :=
          c.stop_to_stop_to_distance_.modify p [] (fun row => row.insert q d) } := by
  unfold AddDistance at h
  rw [Except.bind_eq_ok] at h
  obtain ⟨x, hx, h⟩ := h
  rw [Except.bind_eq_ok] at h
  obtain ⟨y, hy, h⟩ := h
  simp only [pure, Except.pure, Except.ok.injEq] at h
  exact ⟨x, y, (AssocMap.get_eq_ok _ _ _).1 hx, (AssocMap.get_eq_ok _ _ _).1 hy, h.symm⟩

theorem TableValid_put (c : TransportCatalogue) (ht : c.TableValid) (p q : StopPtr) (d : ℚ)
    (hp : p < c.stops_.length) (hq : q < c.stops_.length) :
    TableValid { c with
      stop_to_stop_to_distance_ :=
        c.stop_to_stop_to_distance_.modify p [] (fun row => row.insert q d) } := by
  constructor
  · exact AssocMap.nodup_keys_modify _ _ _ _ ht.keys
  · intro e he
    rcases AssocMap.mem_modify _ _ _ _ _ he with he | ⟨row, hrow, he⟩
    · exact ht.rows e he
    · subst he
      refine ⟨hp, ?_, AssocMap.insert_ne_nil _ _ _, ?_⟩
      · apply AssocMap.nodup_keys_insert
        rcases hrow with hrow | hrow
        · rw [hrow]; exact List.nodup_nil
        · exact (ht.rows _ hrow).2.1
      · intro x hx
        rcases AssocMap.mem_insert _ _ _ _ hx with hx | hx
        · rcases hrow with hrow | hrow
          · rw [hrow] at hx; cases hx
          · exact (ht.rows _ hrow).2.2.2 x hx
        · rw [hx]; exact hq

theorem TableValid_of_Built (m : Libm) (c : TransportCatalogue) (h : Built m c) :
    c.TableValid := by
  induction h with
  | empty => exact ⟨List.nodup_nil, fun e he => by cases he⟩
  | @add_stop c stop _ ih =>
    refine ⟨ih.keys, fun e he => ?_⟩
    obtain ⟨h1, h2, h3, h4⟩ := ih.rows e he
    have hlen : (c.AddStop stop).stops_.length = c.stops_.length + 1 := by
      simp [AddStop]
    rw [hlen]
    exact ⟨Nat.lt_succ_of_lt h1, h2, h3, fun x hx => Nat.lt_succ_of_lt (h4 x hx)⟩
  | @add_distance c c' a b d hb h ih =>
    obtain ⟨p, q, hp, hq, hc'⟩ := AddDistance_eq_ok c c' a b d h
    have hcons := Consistent_of_Built m c hb
    obtain ⟨s, hs, _⟩ := hcons.name_valid a p hp
    obtain ⟨t, ht, _⟩ := hcons.name_valid b q hq
    have hp' : p < c.stops_.length := by
      have := (List.getElem?_eq_some_iff.1 hs).1
      simpa using this
    have hq' : q < c.stops_.length := by
      have := (List.getElem?_eq_some_iff.1 ht).1
      simpa using this
    rw [hc']
    exact TableValid_put c ih p q d hp' hq'
  | @add_bus c c' n r rt _ h ih =>
    obtain ⟨_, full, rl, gl, _, _, _, _, hadd⟩ := AddBus_eq_ok m c c' n r rt h
    obtain ⟨idx, _, hc'⟩ := AddBusObject_eq_ok c c' _ hadd
    rw [hc']
    exact ⟨ih.keys, ih.rows⟩

end TransportCatalogue

namespace Serializer

open TransportCatalogue

theorem mirror_lt (n p : Nat) (h : p < n) : mirror n p < n := by
  unfold mirror
  rw [if_pos h]
  exact Nat.lt_of_le_of_lt (Nat.sub_le _ _)
    (Nat.sub_lt (Nat.lt_of_le_of_lt (Nat.zero_le p) h) Nat.one_pos)

theorem mirror_mirror (n p : Nat) : mirror n (mirror n p) = p := by
  unfold mirror
  by_cases h : p < n
  · rw [if_pos h]
    have : n - 1 - p < n := Nat.lt_of_le_of_lt (Nat.sub_le _ _)
      (Nat.sub_lt (Nat.lt_of_le_of_lt (Nat.zero_le p) h) Nat.one_pos)
    rw [if_pos this]
    exact Nat.sub_sub_self (Nat.le_pred_of_lt h)
  · rw [if_neg h, if_neg h]

theorem mirror_injective (n : Nat) : Function.Injective (mirror n) := by
  intro a b h
  have := congrArg (mirror n) h
  rwa [mirror_mirror, mirror_mirror] at this

theorem ConvertSerStop_ConvertStop (s : Stop) : ConvertSerStop (ConvertStop s) = s := rfl

/-- The first loop of the decoder: the catalogue after the stops `L` were added to
the empty one. -/
theorem stops_phase (L : List Stop) (hid : (L.map Stop.id).Nodup)
    (hnm : (L.map Stop.name).Nodup) :
    (L.foldl (fun (trc : TransportCatalogue) s => trc.AddStop s) empty).stops_ = L.reverse ∧
    (L.foldl (fun (trc : TransportCatalogue) s => trc.AddStop s) empty).buses_ = [] ∧
    (L.foldl (fun (trc : TransportCatalogue) s => trc.AddStop s)
      empty).stop_to_stop_to_distance_ = [] ∧
    (L.foldl (fun (trc : TransportCatalogue) s => trc.AddStop s) empty).Consistent ∧
    ∀ i s, L[i]? = some s →
      (L.foldl (fun (trc : TransportCatalogue) s => trc.AddStop s)
        empty).stop_id_to_stop_.find? s.id = some i ∧
      (L.foldl (fun (trc : TransportCatalogue) s => trc.AddStop s)
        empty).stop_name_to_stop_.find? s.name = some i := by
  induction L using List.reverseRecOn with
  | nil =>
    refine ⟨rfl, rfl, rfl, Consistent_empty, ?_⟩
    intro i s h
    simp at h
  | append_singleton L t ih =>
    have hid' : (L.map Stop.id).Nodup := by
      rw [List.map_append] at hid
      exact (List.nodup_append.1 hid).1
    have hnm' : (L.map Stop.name).Nodup := by
      rw [List.map_append] at hnm
      exact (List.nodup_append.1 hnm).1
    obtain ⟨h1, h2, h3, h4, h5⟩ := ih hid' hnm'
    rw [List.foldl_append, List.foldl_cons, List.foldl_nil]
    generalize L.foldl (fun (trc : TransportCatalogue) s => trc.AddStop s) empty = D at *
    refine ⟨?_, ?_, ?_, Consistent_AddStop D t h4, ?_⟩
    · simp [AddStop, h1]
    · simp [AddStop, h2]
    · simp [AddStop, h3]
    · intro i s hi
      have hlen : D.stops_.length = L.length := by rw [h1, List.length_reverse]
      by_cases hlt : i < L.length
      · rw [List.getElem?_append_left hlt] at hi
        obtain ⟨ha, hb⟩ := h5 i s hi
        have hmem : s ∈ L := List.getElem?_mem hi
        have hne1 : ¬ t.id = s.id := by
          intro e
          rw [List.map_append] at hid
          exact (List.nodup_append.1 hid).2.2 (List.mem_map_of_mem _ hmem)
            (by simp [e])
        have hne2 : ¬ t.name = s.name := by
          intro e
          rw [List.map_append] at hnm
          exact (List.nodup_append.1 hnm).2.2 (List.mem_map_of_mem _ hmem)
            (by simp [e])
        simp only [AddStop, AssocMap.find?_insert, if_neg hne1, if_neg hne2]
        exact ⟨ha, hb⟩
      · have hi' : i = L.length := by
          have := (List.getElem?_eq_some_iff.1 hi).1
          have hlt2 : i < L.length + 1 := by simpa using this
          exact Nat.eq_of_lt_succ_of_not_lt hlt2 hlt
        subst hi'
        simp at hi
        subst hi
        simp [AddStop, AssocMap.find?_insert, hlen]

end Serializer

namespace Serializer

open TransportCatalogue

theorem mapM_ok_rel {α β : Type} (f : α → Except Fault β) (P : α → β → Prop) :
    ∀ (l : List α), (∀ a ∈ l, ∃ b, f a = .ok b ∧ P a b) →
      ∃ r, l.mapM f = .ok r ∧ List.Forall₂ P l r := by
  intro l
  induction l with
  | nil => intro _; exact ⟨[], rfl, List.Forall₂.nil⟩
  | cons a l ih =>
    intro h
    obtain ⟨b, hb, hP⟩ := h a (List.mem_cons_self _ _)
    obtain ⟨r, hr, hF⟩ := ih (fun a' ha' => h a' (List.mem_cons_of_mem _ ha'))
    exact ⟨b :: r, (mapM_ok_forall₂ f _ _).2
      (List.Forall₂.cons hb ((mapM_ok_forall₂ f _ _).1 hr)), List.Forall₂.cons hP hF⟩

theorem stopAt_mirror (c D : TransportCatalogue) (hst : D.stops_ = c.stops_.reverse)
    (p : StopPtr) (hp : p < c.stops_.length) :
    ∃ s, c.stopAt p = .ok s ∧ D.stopAt (mirror c.stops_.length p) = .ok s ∧
      c.stops_[mirror c.stops_.length p]? = some s := by
  have hm := mirror_lt _ _ hp
  refine ⟨c.stops_[mirror c.stops_.length p], ?_, ?_, List.getElem?_eq_getElem hm⟩
  · rw [stopAt_eq_ok, List.getElem?_reverse hp, ← List.getElem?_eq_getElem hm]
    unfold mirror
    rw [if_pos hp]
  · rw [stopAt_eq_ok, hst, List.reverse_reverse]
    exact List.getElem?_eq_getElem hm

theorem stopAt_decoded (c D : TransportCatalogue) (hst : D.stops_ = c.stops_.reverse)
    (q : StopPtr) (hq : q < c.stops_.length) :
    ∃ s, D.stopAt q = .ok s ∧ c.stops_[q]? = some s := by
  refine ⟨c.stops_[q], ?_, List.getElem?_eq_getElem hq⟩
  rw [stopAt_eq_ok, hst, List.reverse_reverse]
  exact List.getElem?_eq_getElem hq

theorem info_roundtrip (c D : TransportCatalogue) (hst : D.stops_ = c.stops_.reverse)
    (hid : ∀ i s, c.stops_[i]? = some s → D.stop_id_to_stop_.find? s.id = some i)
    (x : StopPtr × ℚ) (hx : x.1 < c.stops_.length) :
    ∃ di, ConvertDistanceInfo c x = .ok di ∧
      ConvertSerDistanceInfo di D.stop_id_to_stop_ = .ok (mirror c.stops_.length x.1, x.2) := by
  obtain ⟨s, hs, _, hs'⟩ := stopAt_mirror c D hst x.1 hx
  refine ⟨{ to_stop_id := s.id, distance := x.2 }, ?_, ?_⟩
  · unfold ConvertDistanceInfo
    rw [hs]
    rfl
  · unfold ConvertSerDistanceInfo
    rw [(AssocMap.get_eq_ok _ _ _).2 (hid _ _ hs')]
    rfl

theorem emplace_fold (n : Nat) (idmap : AssocMap Nat StopPtr) :
    ∀ (row : AssocMap StopPtr ℚ) (infos : List trc_serialization.DistanceInfo),
      List.Forall₂ (fun x di => ConvertSerDistanceInfo di idmap = .ok (mirror n x.1, x.2))
        row infos →
      ∀ pre : AssocMap StopPtr ℚ,
        ((pre ++ row.map (fun x => (mirror n x.1, x.2))).map Prod.fst).Nodup →
        infos.foldlM
          (fun (to_stop_to_distance : AssocMap StopPtr ℚ) ser_di => do
            let di ← ConvertSerDistanceInfo ser_di idmap
            pure (to_stop_to_distance.emplace di.1 di.2))
          pre = .ok (pre ++ row.map (fun x => (mirror n x.1, x.2))) := by
  intro row infos h
  induction h with
  | nil => intro pre _; simp [List.foldlM, pure, Except.pure]
  | @cons x di row infos hx _ ih =>
    intro pre hnd
    rw [List.foldlM_cons, hx]
    have hfresh : mirror n x.1 ∉ pre.map Prod.fst := by
      intro hmem
      rw [List.map_append, List.map_cons] at hnd
      exact (List.nodup_append.1 hnd).2.2 hmem (List.mem_cons_self _ _)
    show (do
      let acc ← (pure (AssocMap.emplace pre (mirror n x.1) x.2) : Except Fault _)
      infos.foldlM _ acc) = _
    rw [AssocMap.emplace_of_not_mem _ _ _ hfresh]
    have := ih (pre ++ [(mirror n x.1, x.2)]) (by simpa using hnd)
    simpa using this

end Serializer

namespace Serializer

open TransportCatalogue

/-- One iteration of the inner loop of the decoder of the distances. -/
theorem distance_step (c E : TransportCatalogue) (hst : E.stops_ = c.stops_.reverse)
    (hnm : ∀ i s, c.stops_[i]? = some s → E.stop_name_to_stop_.find? s.name = some i)
    (p q : StopPtr) (hp : p < c.stops_.length) (hq : q < c.stops_.length) (d : ℚ) :
    (do
      let from_stop ← E.stopAt p
      let to_stop ← E.stopAt q
      E.AddDistance from_stop.name to_stop.name d) =
    .ok { E with
      stop_to_stop_to_distance_ :=
        E.stop_to_stop_to_distance_.modify p [] (fun row => row.insert q d) } := by
  obtain ⟨s, hs, hs'⟩ := stopAt_decoded c E hst p hp
  obtain ⟨t, ht, ht'⟩ := stopAt_decoded c E hst q hq
  rw [hs, ht]
  show E.AddDistance s.name t.name d = _
  unfold AddDistance
  rw [(AssocMap.get_eq_ok _ _ _).2 (hnm _ _ hs'), (AssocMap.get_eq_ok _ _ _).2 (hnm _ _ ht')]
  rfl

theorem distance_fold (c D : TransportCatalogue) (hst : D.stops_ = c.stops_.reverse)
    (hnm : ∀ i s, c.stops_[i]? = some s → D.stop_name_to_stop_.find? s.name = some i)
    (Tp : AssocMap StopPtr (AssocMap StopPtr ℚ)) (p : StopPtr) (hp : p < c.stops_.length)
    (hfresh : p ∉ Tp.map Prod.fst) :
    ∀ (rest done : AssocMap StopPtr ℚ), ((done ++ rest).map Prod.fst).Nodup →
      (∀ x ∈ rest, x.1 < c.stops_.length) →
      rest.foldlM
        (fun (trc : TransportCatalogue) (di : StopPtr × ℚ) => do
          let from_stop ← trc.stopAt p
          let to_stop ← trc.stopAt di.1
          trc.AddDistance from_stop.name to_stop.name di.2)
        { D with stop_to_stop_to_distance_ := Tp ++ [(p, done)] } =
      .ok { D with stop_to_stop_to_distance_ := Tp ++ [(p, done ++ rest)] } := by
  intro rest
  induction rest with
  | nil => intro done _ _; simp [List.foldlM, pure, Except.pure]
  | cons x rest ih =>
    intro done hnd hv
    have hx : x.1 ∉ done.map Prod.fst := by
      intro hmem
      rw [List.map_append, List.map_cons] at hnd
      exact (List.nodup_append.1 hnd).2.2 hmem (List.mem_cons_self _ _)
    rw [List.foldlM_cons, Except.bind_eq_ok]
    refine ⟨{ D with stop_to_stop_to_distance_ := Tp ++ [(p, done ++ [(x.1, x.2)])] }, ?_, ?_⟩
    · rw [distance_step c { D with stop_to_stop_to_distance_ := Tp ++ [(p, done)] } hst hnm p
        x.1 hp (hv x (List.mem_cons_self _ _)) x.2]
      show Except.ok ({ D with
        stop_to_stop_to_distance_ :=
          AssocMap.modify (Tp ++ [(p, done)]) p [] (fun row => row.insert x.1 x.2) } :
            TransportCatalogue) = _
      rw [AssocMap.modify_append_last _ _ _ _ _ hfresh, AssocMap.insert_of_not_mem _ _ _ hx]
    · have := ih (done ++ [(x.1, x.2)]) (by simpa using hnd)
        (fun y hy => hv y (List.mem_cons_of_mem _ hy))
      simpa using this

theorem distance_row (c D : TransportCatalogue) (hst : D.stops_ = c.stops_.reverse)
    (hnm : ∀ i s, c.stops_[i]? = some s → D.stop_name_to_stop_.find? s.name = some i)
    (Tp : AssocMap StopPtr (AssocMap StopPtr ℚ)) (p : StopPtr) (hp : p < c.stops_.length)
    (hfresh : p ∉ Tp.map Prod.fst) (row : AssocMap StopPtr ℚ) (hne : row ≠ [])
    (hnd : (row.map Prod.fst).Nodup) (hv : ∀ x ∈ row, x.1 < c.stops_.length) :
    row.foldlM
      (fun (trc : TransportCatalogue) (di : StopPtr × ℚ) => do
        let from_stop ← trc.stopAt p
        let to_stop ← trc.stopAt di.1
        trc.AddDistance from_stop.name to_stop.name di.2)
      { D with stop_to_stop_to_distance_ := Tp } =
    .ok { D with stop_to_stop_to_distance_ := Tp ++ [(p, row)] } := by
  cases row with
  | nil => exact absurd rfl hne
  | cons x rest =>
    rw [List.foldlM_cons, Except.bind_eq_ok]
    refine ⟨{ D with stop_to_stop_to_distance_ := Tp ++ [(p, [(x.1, x.2)])] }, ?_, ?_⟩
    · rw [distance_step c { D with stop_to_stop_to_distance_ := Tp } hst hnm p x.1
        hp (hv x (List.mem_cons_self _ _)) x.2]
      show Except.ok ({ D with
        stop_to_stop_to_distance_ :=
          AssocMap.modify Tp p [] (fun row => row.insert x.1 x.2) } : TransportCatalogue) = _
      rw [AssocMap.modify_of_not_mem _ _ _ _ hfresh]
      rfl
    · have := distance_fold c D hst hnm Tp p hp hfresh rest [(x.1, x.2)] (by simpa using hnd)
        (fun y hy => hv y (List.mem_cons_of_mem _ hy))
      simpa using this

end Serializer

namespace Serializer

open TransportCatalogue

theorem mirror_keys_nodup (n : Nat) (row : AssocMap StopPtr ℚ) (h : (row.map Prod.fst).Nodup) :
    ((row.map (fun x => (mirror n x.1, x.2))).map Prod.fst).Nodup := by
  have : (row.map (fun x => (mirror n x.1, x.2))).map Prod.fst =
      (row.map Prod.fst).map (mirror n) := by
    simp [List.map_map, Function.comp_def]
  rw [this]
  exact h.map (mirror_injective n)

/-- One row of the distance table, encoded and decoded again. -/
theorem row_roundtrip (c D : TransportCatalogue) (hst : D.stops_ = c.stops_.reverse)
    (hid : ∀ i s, c.stops_[i]? = some s → D.stop_id_to_stop_.find? s.id = some i)
    (hnm : ∀ i s, c.stops_[i]? = some s → D.stop_name_to_stop_.find? s.name = some i)
    (Tp : AssocMap StopPtr (AssocMap StopPtr ℚ)) (e : StopPtr × AssocMap StopPtr ℚ)
    (he1 : e.1 < c.stops_.length) (he2 : (e.2.map Prod.fst).Nodup) (he3 : e.2 ≠ [])
    (he4 : ∀ x ∈ e.2, x.1 < c.stops_.length)
    (hfresh : mirror c.stops_.length e.1 ∉ Tp.map Prod.fst) :
    ∃ msg, ConvertStopDistances c e = .ok msg ∧
      (do
        let sd ← ConvertSerStopDistances msg D.stop_id_to_stop_
        sd.2.foldlM
          (fun (trc : TransportCatalogue) (di : StopPtr × ℚ) => do
            let from_stop ← trc.stopAt sd.1
            let to_stop ← trc.stopAt di.1
            trc.AddDistance from_stop.name to_stop.name di.2)
          ({ D with stop_to_stop_to_distance_ := Tp } : TransportCatalogue)) =
      .ok { D with stop_to_stop_to_distance_ := Tp ++ [mirrorRow c.stops_.length e] } := by
  obtain ⟨s, hs, _, hs'⟩ := stopAt_mirror c D hst e.1 he1
  obtain ⟨infos, hinfos, hF⟩ := mapM_ok_rel (ConvertDistanceInfo c)
    (fun x di => ConvertSerDistanceInfo di D.stop_id_to_stop_ =
      .ok (mirror c.stops_.length x.1, x.2)) e.2
    (fun x hx => info_roundtrip c D hst hid x (he4 x hx))
  refine ⟨{ from_stop_id := s.id, distance_info := infos }, ?_, ?_⟩
  · unfold ConvertStopDistances
    rw [hs]
    show (do
      let distance_info ← e.2.mapM (ConvertDistanceInfo c)
      pure ({ from_stop_id := s.id, distance_info := distance_info } :
        trc_serialization.StopDistances)) = _
    rw [hinfos]
    rfl
  · have hdec : ConvertSerStopDistances { from_stop_id := s.id, distance_info := infos }
        D.stop_id_to_stop_ = .ok (mirrorRow c.stops_.length e) := by
      unfold ConvertSerStopDistances
      rw [Except.bind_eq_ok]
      refine ⟨mirror c.stops_.length e.1, (AssocMap.get_eq_ok _ _ _).2 (hid _ _ hs'), ?_⟩
      rw [Except.bind_eq_ok]
      refine ⟨e.2.map (fun (x : StopPtr × ℚ) => (mirror c.stops_.length x.1, x.2)), ?_, rfl⟩
      have := emplace_fold c.stops_.length D.stop_id_to_stop_ e.2 infos hF []
        (by simpa using mirror_keys_nodup _ _ he2)
      simpa using this
    rw [Except.bind_eq_ok]
    refine ⟨_, hdec, ?_⟩
    exact distance_row c D hst hnm Tp (mirror c.stops_.length e.1) (mirror_lt _ _ he1) hfresh
      (e.2.map (fun x => (mirror c.stops_.length x.1, x.2)))
      (by simpa using he3) (mirror_keys_nodup _ _ he2)
      (by
        intro x hx
        obtain ⟨y, hy, hxy⟩ := List.mem_map.1 hx
        rw [← hxy]
        exact mirror_lt _ _ (he4 y hy))

/-- The second loop of the decoder applied to the encoded distance table. -/
theorem rows_roundtrip (c D : TransportCatalogue) (hst : D.stops_ = c.stops_.reverse)
    (hid : ∀ i s, c.stops_[i]? = some s → D.stop_id_to_stop_.find? s.id = some i)
    (hnm : ∀ i s, c.stops_[i]? = some s → D.stop_name_to_stop_.find? s.name = some i) :
    ∀ (T Tp : AssocMap StopPtr (AssocMap StopPtr ℚ)),
      (∀ e ∈ T, e.1 < c.stops_.length ∧ (e.2.map Prod.fst).Nodup ∧ e.2 ≠ [] ∧
        ∀ x ∈ e.2, x.1 < c.stops_.length) →
      ((Tp ++ T.map (mirrorRow c.stops_.length)).map Prod.fst).Nodup →
      ∃ msgs, T.mapM (ConvertStopDistances c) = .ok msgs ∧
        msgs.foldlM
          (fun (trc : TransportCatalogue) ser_sd => do
            let sd ← ConvertSerStopDistances ser_sd trc.stop_id_to_stop_
            sd.2.foldlM
              (fun (trc : TransportCatalogue) (di : StopPtr × ℚ) => do
                let from_stop ← trc.stopAt sd.1
                let to_stop ← trc.stopAt di.1
                trc.AddDistance from_stop.name to_stop.name di.2)
              trc)
          ({ D with stop_to_stop_to_distance_ := Tp } : TransportCatalogue) =
        .ok { D with
          stop_to_stop_to_distance_ := Tp ++ T.map (mirrorRow c.stops_.length) } := by
  intro T
  induction T with
  | nil =>
    intro Tp _ _
    exact ⟨[], rfl, by simp [List.foldlM, pure, Except.pure]⟩
  | cons e T ih =>
    intro Tp hv hnd
    obtain ⟨he1, he2, he3, he4⟩ := hv e (List.mem_cons_self _ _)
    have hfresh : mirror c.stops_.length e.1 ∉ Tp.map Prod.fst := by
      intro hmem
      rw [List.map_append, List.map_cons, List.map_cons] at hnd
      exact (List.nodup_append.1 hnd).2.2 hmem (List.mem_cons_self _ _)
    obtain ⟨msg, hmsg, hstep⟩ := row_roundtrip c D hst hid hnm Tp e he1 he2 he3 he4 hfresh
    obtain ⟨msgs, hmsgs, hrest⟩ := ih (Tp ++ [mirrorRow c.stops_.length e])
      (fun e' he' => hv e' (List.mem_cons_of_mem _ he')) (by simpa using hnd)
    refine ⟨msg :: msgs, ?_, ?_⟩
    · exact (mapM_ok_forall₂ _ _ _).2
        (List.Forall₂.cons hmsg ((mapM_ok_forall₂ _ _ _).1 hmsgs))
    · rw [List.foldlM_cons, Except.bind_eq_ok]
      refine ⟨_, hstep, ?_⟩
      simpa using hrest

end Serializer

namespace Serializer

open TransportCatalogue

/-- One bus, encoded and decoded again. -/
theorem bus_roundtrip (c D : TransportCatalogue) (hst : D.stops_ = c.stops_.reverse)
    (hid : ∀ i s, c.stops_[i]? = some s → D.stop_id_to_stop_.find? s.id = some i)
    (b : Bus) (hv : ∀ p ∈ b.route, p < c.stops_.length) :
    ∃ msg, ConvertBus c b = .ok msg ∧
      ConvertSerBus msg D.stop_id_to_stop_ = .ok (mirrorBus c.stops_.length b) := by
  obtain ⟨ids, hids, hF⟩ := mapM_ok_rel
    (fun stop => do
      let s ← c.stopAt stop
      pure s.id)
    (fun p id => D.stop_id_to_stop_.get id = .ok (mirror c.stops_.length p)) b.route
    (fun p hp => by
      obtain ⟨s, hs, _, hs'⟩ := stopAt_mirror c D hst p (hv p hp)
      refine ⟨s.id, ?_, (AssocMap.get_eq_ok _ _ _).2 (hid _ _ hs')⟩
      dsimp only
      rw [hs]
      rfl)
  refine ⟨{ name := b.name, stop := ids, route_length := b.route_length,
            curvature := b.curvature, is_roundtrip := b.is_roundtrip }, ?_, ?_⟩
  · unfold ConvertBus
    rw [hids]
    rfl
  · unfold ConvertSerBus
    have : ids.mapM (fun id => D.stop_id_to_stop_.get id) =
        .ok (b.route.map (mirror c.stops_.length)) := by
      rw [mapM_ok_forall₂]
      rw [List.forall₂_map_right_iff]
      exact hF.flip
    show (do
      let route ← ids.mapM (fun id => D.stop_id_to_stop_.get id)
      pure ({ name := b.name, route := route, route_length := b.route_length,
              curvature := b.curvature, is_roundtrip := b.is_roundtrip } : Bus)) = _
    rw [this]
    rfl

/-- The third loop of the decoder applied to the encoded buses. -/
theorem buses_roundtrip (c : TransportCatalogue) :
    ∀ (Bs : List Bus) (E : TransportCatalogue), E.stops_ = c.stops_.reverse →
      (∀ i s, c.stops_[i]? = some s → E.stop_id_to_stop_.find? s.id = some i) →
      E.Consistent → (∀ b ∈ Bs, ∀ p ∈ b.route, p < c.stops_.length) →
      ∃ msgs, Bs.mapM (ConvertBus c) = .ok msgs ∧
        ∃ E', msgs.foldlM
            (fun (trc : TransportCatalogue) ser_b => do
              let bus ← ConvertSerBus ser_b trc.stop_id_to_stop_
              trc.AddBusObject bus)
            E = .ok E' ∧
          E'.stops_ = E.stops_ ∧ E'.stop_name_to_stop_ = E.stop_name_to_stop_ ∧
          E'.stop_to_stop_to_distance_ = E.stop_to_stop_to_distance_ ∧
          E'.buses_ = (Bs.map (mirrorBus c.stops_.length)).reverse ++ E.buses_ ∧
          E'.Consistent := by
  intro Bs
  induction Bs with
  | nil =>
    intro E _ _ hE _
    exact ⟨[], rfl, E, rfl, rfl, rfl, rfl, by simp, hE⟩
  | cons b Bs ih =>
    intro E hst hid hE hv
    have hvb := hv b (List.mem_cons_self _ _)
    obtain ⟨msg, hmsg, hdec⟩ := bus_roundtrip c E hst hid b hvb
    have hvalid : ∀ p ∈ (mirrorBus c.stops_.length b).route, p < E.stops_.length := by
      intro p hp
      obtain ⟨q, hq, hqp⟩ := List.mem_map.1 hp
      rw [← hqp, hst, List.length_reverse]
      exact mirror_lt _ _ (hvb q hq)
    obtain ⟨E1, hE1⟩ := AddBusObject_ok_of_valid E _ hE hvalid
    have hcons1 := Consistent_AddBusObject E E1 _ hE hvalid hE1
    obtain ⟨idx, _, hshape⟩ := AddBusObject_eq_ok E E1 _ hE1
    have h1 : E1.stops_ = E.stops_ := by rw [hshape]
    have h2 : E1.stop_id_to_stop_ = E.stop_id_to_stop_ := by rw [hshape]
    have h3 : E1.stop_name_to_stop_ = E.stop_name_to_stop_ := by rw [hshape]
    have h4 : E1.stop_to_stop_to_distance_ = E.stop_to_stop_to_distance_ := by rw [hshape]
    have h5 : E1.buses_ = mirrorBus c.stops_.length b :: E.buses_ := by rw [hshape]
    obtain ⟨msgs, hmsgs, E', hfold, g1, g3, g4, g5, g6⟩ := ih E1 (h1.trans hst)
      (fun i s hs => by rw [h2]; exact hid i s hs) hcons1
      (fun b' hb' => hv b' (List.mem_cons_of_mem _ hb'))
    refine ⟨msg :: msgs, ?_, E', ?_, g1.trans h1, g3.trans h3, g4.trans h4, ?_, g6⟩
    · exact (mapM_ok_forall₂ _ _ _).2
        (List.Forall₂.cons hmsg ((mapM_ok_forall₂ _ _ _).1 hmsgs))
    · rw [List.foldlM_cons, Except.bind_eq_ok]
      refine ⟨E1, ?_, hfold⟩
      rw [hdec]
      exact hE1
    · rw [g5, h5]
      simp

/-- The decoder applied to the encoded catalogue returns, and the catalogue it
returns holds the same stops, buses and distances with their pointers mirrored. -/
theorem decode_encode (c : TransportCatalogue) (hc : c.Consistent) (ht : c.TableValid)
    (hid : (c.stops_.map Stop.id).Nodup) (hnm : (c.stops_.map Stop.name).Nodup) :
    ∃ msg c', ConvertTransportCatalogue c = .ok msg ∧
      ConvertSerTransportCatalogue msg = .ok c' ∧
      c'.stops_ = c.stops_.reverse ∧
      c'.buses_ = (c.buses_.map (mirrorBus c.stops_.length)).reverse ∧
      c'.stop_to_stop_to_distance_ =
        c.stop_to_stop_to_distance_.map (mirrorRow c.stops_.length) ∧
      c'.Consistent ∧
      ∀ i s, c.stops_[i]? = some s → c'.stop_name_to_stop_.find? s.name = some i := by
  obtain ⟨h1, h2, h3, h4, h5⟩ := stops_phase c.stops_ hid hnm
  generalize hD : c.stops_.foldl (fun (trc : TransportCatalogue) s => trc.AddStop s) empty = D
    at h1 h2 h3 h4 h5
  have hkeys : (([] ++ c.stop_to_stop_to_distance_.map (mirrorRow c.stops_.length)).map
      Prod.fst).Nodup := by
    have : ([] ++ c.stop_to_stop_to_distance_.map (mirrorRow c.stops_.length)).map Prod.fst =
        (c.stop_to_stop_to_distance_.map Prod.fst).map (mirror c.stops_.length) := by
      simp [List.map_map, Function.comp_def, mirrorRow]
    rw [this]
    exact ht.keys.map (mirror_injective _)
  obtain ⟨rows, hrows, hrowsdec⟩ := rows_roundtrip c D h1 (fun i s hs => (h5 i s hs).1)
    (fun i s hs => (h5 i s hs).2) c.stop_to_stop_to_distance_ [] ht.rows hkeys
  have hDeq : ({ D with stop_to_stop_to_distance_ := [] } : TransportCatalogue) = D := by
    cases D
    simp only at h3
    subst h3
    rfl
  rw [hDeq] at hrowsdec
  obtain ⟨buses, hbuses, c', hfold, g1, g3, g4, g5, g6⟩ := buses_roundtrip c c.buses_
    { D with
      stop_to_stop_to_distance_ :=
        [] ++ c.stop_to_stop_to_distance_.map (mirrorRow c.stops_.length) }
    h1 (fun i s hs => (h5 i s hs).1)
    ⟨h4.name_valid, h4.name_known, h4.route_valid, h4.bus_index_some, h4.bus_index_none,
      h4.buses_keys, h4.buses_count⟩
    hc.route_valid
  refine ⟨{ stop := c.stops_.map ConvertStop, distance := rows, bus := buses }, c', ?_, ?_,
    g1.trans h1, ?_, ?_, g6, ?_⟩
  · unfold ConvertTransportCatalogue
    rw [hrows]
    show (do
      let bus ← c.buses_.mapM (ConvertBus c)
      pure ({ stop := c.stops_.map ConvertStop, distance := rows, bus := bus } :
        trc_serialization.TransportCatalogue)) = _
    rw [hbuses]
    rfl
  · unfold ConvertSerTransportCatalogue
    have hstops : (c.stops_.map ConvertStop).foldl
        (fun (trc : TransportCatalogue) ser_s => trc.AddStop (ConvertSerStop ser_s))
        TransportCatalogue.empty = D := by
      rw [List.foldl_map, ← hD]
      rfl
    dsimp only
    rw [hstops, Except.bind_eq_ok]
    exact ⟨_, hrowsdec, hfold⟩
  · rw [g5]
    show _ ++ D.buses_ = _
    rw [h2, List.append_nil]
  · rw [g4]
    rfl
  · intro i s hs
    rw [g3]
    exact (h5 i s hs).2

end Serializer

namespace AssocMap

theorem find?_map_injective {κ ν μ : Type} [DecidableEq κ] (φ : κ → κ)
    (hφ : Function.Injective φ) (g : ν → μ) (m : AssocMap κ ν) (k : κ) :
    find? (m.map (fun e => (φ e.1, g e.2))) (φ k) = (find? m k).map g := by
  induction m with
  | nil => rfl
  | cons kv m ih =>
    obtain ⟨k0, v0⟩ := kv
    by_cases h : k0 = k
    · simp [find?, h]
    · have h' : ¬ φ k0 = φ k := fun e => h (hφ e)
      simp only [List.map_cons, find?, h, h', if_false]
      exact ih

end AssocMap

namespace TransportCatalogue

theorem find?_unique {α : Type} (key : α → String) (l : List α) (h : (l.map key).Nodup)
    (n : String) (b : α) :
    l.find? (fun x => decide (key x = n)) = some b ↔ b ∈ l ∧ key b = n := by
  constructor
  · intro hf
    exact ⟨List.mem_of_find?_eq_some hf, by simpa using List.find?_some hf⟩
  · rintro ⟨hb, hk⟩
    cases hf : l.find? (fun x => decide (key x = n)) with
    | none =>
      have := List.find?_eq_none.1 hf b hb
      simp [hk] at this
    | some b' =>
      have hb' := List.mem_of_find?_eq_some hf
      have hk' : key b' = n := by simpa using List.find?_some hf
      rw [List.inj_on_of_nodup_map h hb' hb (hk'.trans hk.symm)]

theorem find?_reverse_unique {α : Type} (key : α → String) (l : List α)
    (h : (l.map key).Nodup) (n : String) :
    l.reverse.find? (fun x => decide (key x = n)) = l.find? (fun x => decide (key x = n)) := by
  have h' : (l.reverse.map key).Nodup := by
    rw [List.map_reverse]
    exact List.nodup_reverse.2 h
  apply Option.ext
  intro b
  rw [Option.mem_def, Option.mem_def, find?_unique key l h, find?_unique key l.reverse h',
    List.mem_reverse]

/-- The answer of `GetBusInfo` in a consistent catalogue: the counts and lengths of
the first bus of the deque with that name. -/
theorem GetBusInfo_char (c : TransportCatalogue) (hc : c.Consistent) (bus_name : String) :
    GetBusInfo c bus_name = .ok
      ((c.buses_.find? (fun b => decide (b.name = bus_name))).map (fun bus =>
        { stop_count := bus.route.length
          unique_stop_count := bus.route.dedup.length
          route_length := bus.route_length
          curvature := bus.curvature })) := by
  cases hfind : c.bus_name_to_bus_.find? bus_name with
  | none =>
    have hno := hc.bus_index_none bus_name hfind
    have : c.buses_.find? (fun b => decide (b.name = bus_name)) = none := by
      rw [List.find?_eq_none]
      intro b hb
      simpa using hno b hb
    rw [this]
    simp [GetBusInfo, hfind]
  | some p =>
    obtain ⟨b, hb, _, hfirst⟩ := hc.bus_index_some bus_name p hfind
    rw [hfirst]
    simp only [GetBusInfo, hfind, (c.busAt_eq_ok p b).2 hb]
    rfl

/-- The answer of `GetStopInfo` in a consistent catalogue with unique stop names. -/
theorem GetStopInfo_char (c : TransportCatalogue) (hcons : c.Consistent)
    (hu : (c.stops_.map Stop.name).Nodup) (stop_name : String) :
    ((∀ s ∈ c.stops_, s.name ≠ stop_name) → GetStopInfo c stop_name = .ok none) ∧
    (∀ p s, c.stops_.reverse[p]? = some s → s.name = stop_name →
      ∃ buses, GetStopInfo c stop_name = .ok (some buses) ∧ buses.Sorted (· < ·) ∧
        ∀ x, x ∈ buses ↔ ∃ b ∈ c.buses_, b.name = x ∧ p ∈ b.route) := by
  constructor
  · intro hno
    cases hfind : c.stop_name_to_buses_.find? stop_name with
    | none => simp [GetStopInfo, hfind]
    | some l =>
      have hkey : (c.stop_name_to_buses_.find? stop_name).isSome = true := by rw [hfind]; rfl
      obtain ⟨s, hs, hsn⟩ := (hcons.buses_keys stop_name).1 hkey
      exact absurd hsn (hno s hs)
  · intro p s hs hsn
    subst hsn
    have hmemS : s ∈ c.stops_ := List.mem_reverse.1 (List.getElem?_mem hs)
    have hnamed : ∀ q, c.stopNamed s.name q = true ↔ q = p := fun q =>
      stopNamed_iff_eq c hu p q s hs
    obtain ⟨l, hl⟩ := Option.isSome_iff_exists.1 ((hcons.buses_keys s.name).2 ⟨s, hmemS, rfl⟩)
    have hcount := hcons.buses_count s.name l hl
    have hvalid : ∀ bp ∈ l, ∃ b, c.buses_.reverse[bp]? = some b := by
      intro bp hbp
      have hpos : 0 < l.count bp := List.count_pos_iff.2 hbp
      rw [hcount bp] at hpos
      cases hb : c.buses_.reverse[bp]? with
      | none => rw [hb] at hpos; simp at hpos
      | some b => exact ⟨b, rfl⟩
    obtain ⟨res, hres, hsorted, hmem⟩ := names_fold c l [] hvalid (List.sorted_nil)
    refine ⟨res, ?_, hsorted, ?_⟩
    · simp only [GetStopInfo, hl]
      rw [Except.bind_eq_ok]
      exact ⟨res, hres, rfl⟩
    · intro x
      rw [hmem x]
      simp only [List.not_mem_nil, false_or]
      constructor
      · rintro ⟨bp, hbp, b, hb, hx⟩
        have hpos : 0 < l.count bp := List.count_pos_iff.2 hbp
        rw [hcount bp, hb] at hpos
        obtain ⟨q, hq, hqn⟩ := List.countP_pos_iff.1 hpos
        rw [(hnamed q).1 hqn] at hq
        exact ⟨b, List.mem_reverse.1 (List.getElem?_mem hb), hx, hq⟩
      · rintro ⟨b, hb, hx, hroute⟩
        obtain ⟨bp, hbp⟩ := List.getElem?_of_mem (List.mem_reverse.2 hb)
        refine ⟨bp, ?_, b, hbp, hx⟩
        apply List.count_pos_iff.1
        rw [hcount bp, hbp]
        exact List.countP_pos_iff.2 ⟨p, hroute, (hnamed p).2 rfl⟩

theorem sorted_ext (l l' : List String) (h : l.Sorted (· < ·)) (h' : l'.Sorted (· < ·))
    (hmem : ∀ x, x ∈ l ↔ x ∈ l') : l = l' :=
  List.eq_of_perm_of_sorted ((List.perm_ext_iff_of_nodup h.nodup h'.nodup).2 hmem) h h'

end TransportCatalogue

namespace Serializer

open TransportCatalogue

theorem dedup_length_map_mirror (n : Nat) (l : List StopPtr) :
    (l.map (mirror n)).dedup.length = l.dedup.length := by
  rw [List.dedup_map_of_injective (mirror_injective n), List.length_map]

theorem mem_mirrored_buses (n : Nat) (B : List Bus) (x : String) (p : StopPtr) :
    (∃ b ∈ (B.map (mirrorBus n)).reverse, b.name = x ∧ mirror n p ∈ b.route) ↔
      ∃ b ∈ B, b.name = x ∧ p ∈ b.route := by
  constructor
  · rintro ⟨b', hb', hx, hr⟩
    obtain ⟨b, hb, hbb⟩ := List.mem_map.1 (List.mem_reverse.1 hb')
    subst hbb
    refine ⟨b, hb, hx, ?_⟩
    exact (List.mem_map_of_injective (mirror_injective n)).1 hr
  · rintro ⟨b, hb, hx, hr⟩
    exact ⟨mirrorBus n b, List.mem_reverse.2 (List.mem_map_of_mem _ hb), hx,
      List.mem_map_of_mem _ hr⟩

theorem tableEntry_mirror (c c' : TransportCatalogue)
    (ht : c'.stop_to_stop_to_distance_ =
      c.stop_to_stop_to_distance_.map (mirrorRow c.stops_.length)) (p q : StopPtr) :
    c'.tableEntry (mirror c.stops_.length p) (mirror c.stops_.length q) = c.tableEntry p q := by
  unfold tableEntry
  rw [ht]
  have h1 := AssocMap.find?_map_injective (mirror c.stops_.length) (mirror_injective _)
    (fun (row : AssocMap StopPtr ℚ) => row.map (fun x => (mirror c.stops_.length x.1, x.2)))
    c.stop_to_stop_to_distance_ p
  have h1' : AssocMap.find? (c.stop_to_stop_to_distance_.map (mirrorRow c.stops_.length))
      (mirror c.stops_.length p) =
      (AssocMap.find? c.stop_to_stop_to_distance_ p).map
        (fun (row : AssocMap StopPtr ℚ) =>
          row.map (fun x => (mirror c.stops_.length x.1, x.2))) := h1
  rw [h1']
  cases AssocMap.find? c.stop_to_stop_to_distance_ p with
  | none => rfl
  | some row =>
    have h2 := AssocMap.find?_map_injective (mirror c.stops_.length) (mirror_injective _)
      (fun (d : ℚ) => d) row q
    have h3 : Option.map (fun (d : ℚ) => d) (AssocMap.find? row q) = AssocMap.find? row q := by
      cases AssocMap.find? row q <;> rfl
    rw [h3] at h2
    exact h2

theorem GetDistance_mirror (m : Libm) (c c' : TransportCatalogue)
    (hst : c'.stops_ = c.stops_.reverse)
    (ht : c'.stop_to_stop_to_distance_ =
      c.stop_to_stop_to_distance_.map (mirrorRow c.stops_.length))
    (p q : StopPtr) (hp : p < c.stops_.length) (hq : q < c.stops_.length) :
    GetDistance m c' (mirror c.stops_.length p) (mirror c.stops_.length q) =
      GetDistance m c p q := by
  obtain ⟨s, hs, hs', _⟩ := stopAt_mirror c c' hst p hp
  obtain ⟨t, ht1, ht', _⟩ := stopAt_mirror c c' hst q hq
  unfold GetDistance
  rw [tableEntry_mirror c c' ht p q, tableEntry_mirror c c' ht q p, hs, hs', ht1, ht']

end Serializer

namespace Serializer

open TransportCatalogue

/-- C15: for a catalogue built through its interface with unique stop names, unique
bus names and unique stop ids, encoding returns a message and decoding that message
returns a catalogue that answers identically: `GetStopInfo(n)` and `GetBusInfo(n)`
return the same value for every name n, and `GetDistance` between the stops named a
and b is the same for every pair of names (a number when both names are known,
the exception of `GetStopByName` otherwise). -/
theorem Convert_catalogue_round_trip_answers (m : Libm) (c : TransportCatalogue)
    (hc : Built m c) (hnm : (c.stops_.map Stop.name).Nodup)
    (hbn : (c.buses_.map Bus.name).Nodup) (hid : (c.stops_.map Stop.id).Nodup) :
    ∃ msg c', ConvertTransportCatalogue c = .ok msg ∧
      ConvertSerTransportCatalogue msg = .ok c' ∧
      (∀ n, ∃ r, c.GetStopInfo n = .ok r ∧ c'.GetStopInfo n = .ok r) ∧
      (∀ n, ∃ r, c.GetBusInfo n = .ok r ∧ c'.GetBusInfo n = .ok r) ∧
      (∀ a b,
        (do
          let p ← c'.GetStopByName a
          let q ← c'.GetStopByName b
          GetDistance m c' p q) =
        (do
          let p ← c.GetStopByName a
          let q ← c.GetStopByName b
          GetDistance m c p q)) ∧
      (∀ s ∈ c.stops_, ∀ t ∈ c.stops_, ∃ p q d,
        c.GetStopByName s.name = .ok p ∧ c.GetStopByName t.name = .ok q ∧
        GetDistance m c p q = .ok d) := by
  have hcons := Consistent_of_Built m c hc
  have htv := TableValid_of_Built m c hc
  obtain ⟨msg, c', henc, hdec, hstops, hbuses, htable, hcons', hnames⟩ :=
    decode_encode c hcons htv hid hnm
  have hnm' : (c'.stops_.map Stop.name).Nodup := by
    rw [hstops, List.map_reverse]
    exact List.nodup_reverse.2 hnm
  have hlookup : ∀ a, (∀ p, c.stop_name_to_stop_.find? a = some p →
        p < c.stops_.length ∧
          c'.stop_name_to_stop_.find? a = some (mirror c.stops_.length p)) ∧
      (c.stop_name_to_stop_.find? a = none → c'.stop_name_to_stop_.find? a = none) := by
    intro a
    constructor
    · intro p hp
      obtain ⟨s, hs, hsn⟩ := hcons.name_valid a p hp
      have hlt : p < c.stops_.length := by
        have := (List.getElem?_eq_some_iff.1 hs).1
        simpa using this
      obtain ⟨s', hs1, _, hs2⟩ := stopAt_mirror c c' hstops p hlt
      have : s' = s := by
        have := (c.stopAt_eq_ok p s').1 hs1
        rw [hs] at this
        simpa using this.symm
      subst this
      rw [← hsn]
      exact ⟨hlt, hnames _ _ hs2⟩
    · intro hnone
      rw [find?_eq_none_iff c' hcons' a, hstops]
      intro s hs
      exact (find?_eq_none_iff c hcons a).1 hnone s (List.mem_reverse.1 hs)
  refine ⟨msg, c', henc, hdec, ?_, ?_, ?_, ?_⟩
  · intro n
    by_cases hex : ∃ s ∈ c.stops_, s.name = n
    · obtain ⟨s, hs, hsn⟩ := hex
      obtain ⟨p, hp⟩ := List.getElem?_of_mem (List.mem_reverse.2 hs)
      have hlt : p < c.stops_.length := by
        have := (List.getElem?_eq_some_iff.1 hp).1
        simpa using this
      obtain ⟨s', hs1, hs2, _⟩ := stopAt_mirror c c' hstops p hlt
      have : s' = s := by
        have := (c.stopAt_eq_ok p s').1 hs1
        rw [hp] at this
        simpa using this.symm
      subst this
      obtain ⟨l, hl, hsorted, hmem⟩ := (GetStopInfo_char c hcons hnm n).2 p s' hp hsn
      obtain ⟨l', hl', hsorted', hmem'⟩ := (GetStopInfo_char c' hcons' hnm' n).2
        (mirror c.stops_.length p) s' ((c'.stopAt_eq_ok _ _).1 hs2) hsn
      have : l' = l := by
        apply sorted_ext l' l hsorted' hsorted
        intro x
        rw [hmem x, hmem' x, hbuses]
        exact mem_mirrored_buses _ _ x p
      exact ⟨some l, hl, this ▸ hl'⟩
    · have hno : ∀ s ∈ c.stops_, s.name ≠ n := fun s hs hsn => hex ⟨s, hs, hsn⟩
      refine ⟨none, (GetStopInfo_char c hcons hnm n).1 hno,
        (GetStopInfo_char c' hcons' hnm' n).1 ?_⟩
      intro s hs
      rw [hstops] at hs
      exact hno s (List.mem_reverse.1 hs)
  · intro n
    refine ⟨_, GetBusInfo_char c hcons n, ?_⟩
    rw [GetBusInfo_char c' hcons' n, hbuses]
    have hnd : ((c.buses_.map (mirrorBus c.stops_.length)).map Bus.name).Nodup := by
      have : (c.buses_.map (mirrorBus c.stops_.length)).map Bus.name =
          c.buses_.map Bus.name := by
        simp [List.map_map, Function.comp_def, mirrorBus]
      rw [this]
      exact hbn
    rw [find?_reverse_unique Bus.name _ hnd n, List.find?_map]
    have hcomp : ((fun b => decide (b.name = n)) ∘ mirrorBus c.stops_.length) =
        (fun (b : Bus) => decide (b.name = n)) := rfl
    rw [hcomp]
    cases c.buses_.find? (fun b => decide (b.name = n)) with
    | none => rfl
    | some b =>
      simp only [Option.map_some', mirrorBus, List.length_map]
      rw [dedup_length_map_mirror]
  · intro a b
    unfold GetStopByName AssocMap.get
    cases ha : c.stop_name_to_stop_.find? a with
    | none =>
      rw [(hlookup a).2 ha]
      rfl
    | some p =>
      obtain ⟨hp, ha'⟩ := (hlookup a).1 p ha
      rw [ha']
      cases hb : c.stop_name_to_stop_.find? b with
      | none =>
        rw [(hlookup b).2 hb]
        rfl
      | some q =>
        obtain ⟨hq, hb'⟩ := (hlookup b).1 q hb
        rw [hb']
        exact GetDistance_mirror m c c' hstops htable p q hp hq
  · intro s hs t ht
    obtain ⟨p, hp⟩ := Option.isSome_iff_exists.1 (hcons.name_known s hs)
    obtain ⟨q, hq⟩ := Option.isSome_iff_exists.1 (hcons.name_known t ht)
    have hp' := ((hlookup s.name).1 p hp).1
    have hq' := ((hlookup t.name).1 q hq).1
    obtain ⟨d, hd⟩ := GetDistance_ok_of_valid m c p q hp' hq'
    exact ⟨p, q, d, (AssocMap.get_eq_ok _ _ _).2 hp, (AssocMap.get_eq_ok _ _ _).2 hq, hd⟩

end Serializer

/-! ### Serialization: the round trip of the map -/

namespace render

theorem setInsertBy_map {α : Type} (key : α → String) (f : α → α)
    (hf : ∀ a, key (f a) = key a) (a : α) (l : List α) :
    setInsertBy key (f a) (l.map f) = (setInsertBy key a l).map f := by
  induction l with
  | nil => rfl
  | cons x xs ih =>
    simp only [List.map_cons, setInsertBy, hf]
    split
    · rfl
    · split
      · rw [List.map_cons, ← ih]
      · rfl

theorem sortedBuses_map (f : Bus → Bus) (hf : ∀ b, (f b).name = b.name) (buses : List Bus) :
    sortedBuses (buses.map f) = (sortedBuses buses).map f := by
  unfold sortedBuses
  have : ∀ (bs init : List Bus),
      (bs.map f).foldl (fun sorted b => insertBus b sorted) (init.map f) =
        (bs.foldl (fun sorted b => insertBus b sorted) init).map f := by
    intro bs
    induction bs with
    | nil => intro init; rfl
    | cons b bs ih =>
      intro init
      rw [List.map_cons, List.foldl_cons, List.foldl_cons]
      have : insertBus (f b) (init.map f) = (insertBus b init).map f :=
        setInsertBy_map Bus.name f hf b init
      rw [this]
      exact ih _
  exact this buses []

theorem sortedBuses_reverse (buses : List Bus) (h : (buses.map Bus.name).Nodup) :
    sortedBuses buses.reverse = sortedBuses buses := by
  have h' : (buses.reverse.map Bus.name).Nodup := by
    rw [List.map_reverse]
    exact List.nodup_reverse.2 h
  obtain ⟨s1, _, p1⟩ := sortedBuses_spec buses
  obtain ⟨s2, _, p2⟩ := sortedBuses_spec buses.reverse
  haveI : IsAntisymm Bus (fun x y => x.name < y.name) :=
    ⟨fun a b h1 h2 => absurd h1 (lt_asymm h2)⟩
  exact List.eq_of_perm_of_sorted (((p2 h').trans (List.reverse_perm buses)).trans (p1 h).symm)
    s2 s1

end render

namespace Serializer

open TransportCatalogue render

theorem resolveBus_mirror (c c' : TransportCatalogue) (hst : c'.stops_ = c.stops_.reverse)
    (b : Bus) (d : DrawnBus) (h : resolveBus c b = .ok d) :
    resolveBus c' (mirrorBus c.stops_.length b) = .ok d := by
  rw [resolveBus_eq_ok] at h ⊢
  obtain ⟨h1, h2, h3⟩ := h
  refine ⟨h1, h2, ?_⟩
  show List.Forall₂ _ (b.route.map (mirror c.stops_.length)) d.stops
  rw [List.forall₂_map_left_iff]
  refine h3.imp ?_
  intro p s hp
  have hlt : p < c.stops_.length := by
    have := (List.getElem?_eq_some_iff.1 ((c.stopAt_eq_ok p s).1 hp)).1
    simpa using this
  obtain ⟨s', hs1, hs2, _⟩ := stopAt_mirror c c' hst p hlt
  rw [hp] at hs1
  cases hs1
  exact hs2

theorem color_print_round_trip (fmt : ℚ → String) (color : svg.Color) :
    (ConvertSerColor (ConvertColor color)).print fmt = color.print fmt := by
  cases color <;> rfl

theorem settings_round_trip (rs : RenderSettings) :
    ConvertSerRenderSettings (ConvertRenderSettings rs) =
      { rs with
        underlayer_color := ConvertSerColor (ConvertColor rs.underlayer_color)
        color_palette := rs.color_palette.map (fun color => ConvertSerColor (ConvertColor color)) } := by
  unfold ConvertSerRenderSettings ConvertRenderSettings
  simp only [List.map_map]
  rfl

end Serializer

namespace render

theorem getD_rel {α : Type} (P : α → α → Prop) :
    ∀ (l' l : List α), List.Forall₂ P l' l → ∀ (i : Nat) (d : α), P d d →
      P (l'.getD i d) (l.getD i d) := by
  intro l' l h
  induction h with
  | nil => intro i d hd; simpa using hd
  | cons hab _ ih =>
    intro i d hd
    cases i with
    | zero => simpa using hab
    | succ i => simpa using ih i d hd

theorem paletteColor_print (fmt : ℚ → String) (rs : RenderSettings) (u' : svg.Color)
    (pal' : List svg.Color)
    (hpal : List.Forall₂ (fun c' c => svg.Color.print fmt c' = svg.Color.print fmt c)
      pal' rs.color_palette) (i : Nat) :
    (paletteColor { rs with underlayer_color := u', color_palette := pal' } i).print fmt =
      (paletteColor rs i).print fmt := by
  unfold paletteColor
  show svg.Color.print fmt (pal'.getD (i % pal'.length) .none) = _
  rw [hpal.length_eq]
  exact getD_rel (fun c' c => svg.Color.print fmt c' = svg.Color.print fmt c) _ _ hpal _ _ rfl

theorem lineObject_render (fmt : ℚ → String) (projector : SphereProjector)
    (rs : RenderSettings) (u' : svg.Color) (pal' : List svg.Color) (color' color : svg.Color)
    (hc : color'.print fmt = color.print fmt) (stops : List Stop) :
    (lineObject projector { rs with underlayer_color := u', color_palette := pal' } color'
      stops).RenderObject fmt = (lineObject projector rs color stops).RenderObject fmt := by
  simp only [lineObject, svg.Object.RenderObject, svg.Polyline.RenderObject,
    svg.Polyline.FormatPoints, svg.PathProps.RenderAttrs, hc]

theorem busLabelPair_render (fmt : ℚ → String) (rs : RenderSettings) (u' : svg.Color)
    (pal' : List svg.Color) (hu : u'.print fmt = rs.underlayer_color.print fmt)
    (color' color : svg.Color) (hc : color'.print fmt = color.print fmt) (name : String)
    (position : svg.Point) :
    (busLabelPair name
      (busTextProperties { rs with underlayer_color := u', color_palette := pal' } color')
      position).map (svg.Object.RenderObject fmt) =
    (busLabelPair name (busTextProperties rs color) position).map
      (svg.Object.RenderObject fmt) := by
  simp only [busLabelPair, busTextProperties, PreBuildUnderLayerAndName, List.map_cons,
    List.map_nil, svg.Object.RenderObject, svg.Text.RenderObject, svg.PathProps.RenderAttrs,
    hu, hc]

theorem busLabels_render (fmt : ℚ → String) (projector : SphereProjector)
    (rs : RenderSettings) (u' : svg.Color)
    (pal' : List svg.Color) (hu : u'.print fmt = rs.underlayer_color.print fmt)
    (color' color : svg.Color) (hc : color'.print fmt = color.print fmt) (d : DrawnBus) :
    (busLabels projector { rs with underlayer_color := u', color_palette := pal' } color'
      d).map (svg.Object.RenderObject fmt) =
    (busLabels projector rs color d).map (svg.Object.RenderObject fmt) := by
  unfold busLabels
  cases d.stops[0]? with
  | none => rfl
  | some first =>
    cases d.stops[d.stops.length / 2]? with
    | none => rfl
    | some mid =>
      simp only [List.map_append]
      rw [busLabelPair_render fmt rs u' pal' hu color' color hc]
      split
      · rfl
      · rw [busLabelPair_render fmt rs u' pal' hu color' color hc]

theorem stopLabelPair_render (fmt : ℚ → String) (projector : SphereProjector)
    (rs : RenderSettings) (u' : svg.Color)
    (pal' : List svg.Color) (hu : u'.print fmt = rs.underlayer_color.print fmt) (s : Stop) :
    (stopLabelPair projector { rs with underlayer_color := u', color_palette := pal' }
      s).map (svg.Object.RenderObject fmt) =
    (stopLabelPair projector rs s).map (svg.Object.RenderObject fmt) := by
  simp only [stopLabelPair, stopTextProperties, PreBuildUnderLayerAndName, List.map_cons,
    List.map_nil, svg.Object.RenderObject, svg.Text.RenderObject, svg.PathProps.RenderAttrs,
    hu]

/-- The text of the four layers depends on the colours of the settings through
their printed text only. -/
theorem layers_render (fmt : ℚ → String) (rs : RenderSettings) (u' : svg.Color)
    (pal' : List svg.Color) (hu : u'.print fmt = rs.underlayer_color.print fmt)
    (hpal : List.Forall₂ (fun c' c => svg.Color.print fmt c' = svg.Color.print fmt c)
      pal' rs.color_palette) (ds : List DrawnBus) :
    (layer1 { rs with underlayer_color := u', color_palette := pal' } ds ++
      layer2 { rs with underlayer_color := u', color_palette := pal' } ds ++
      layer3 { rs with underlayer_color := u', color_palette := pal' } ds ++
      layer4 { rs with underlayer_color := u', color_palette := pal' } ds).map
        (svg.Object.RenderObject fmt) =
    (layer1 rs ds ++ layer2 rs ds ++ layer3 rs ds ++ layer4 rs ds).map
      (svg.Object.RenderObject fmt) := by
  have hproj : projectorOf { rs with underlayer_color := u', color_palette := pal' } ds =
      projectorOf rs ds := rfl
  have h1 : (layer1 { rs with underlayer_color := u', color_palette := pal' } ds).map
      (svg.Object.RenderObject fmt) = (layer1 rs ds).map (svg.Object.RenderObject fmt) := by
    unfold layer1
    rw [List.map_map, List.map_map, hproj]
    apply List.map_congr_left
    intro id _
    exact lineObject_render fmt _ rs u' pal' _ _ (paletteColor_print fmt rs u' pal' hpal id.1) _
  have h2 : (layer2 { rs with underlayer_color := u', color_palette := pal' } ds).map
      (svg.Object.RenderObject fmt) = (layer2 rs ds).map (svg.Object.RenderObject fmt) := by
    unfold layer2
    rw [List.map_flatten, List.map_flatten, List.map_map, List.map_map, hproj]
    apply congrArg List.flatten
    apply List.map_congr_left
    intro id _
    exact busLabels_render fmt _ rs u' pal' hu _ _
      (paletteColor_print fmt rs u' pal' hpal id.1) _
  have h3 : layer3 { rs with underlayer_color := u', color_palette := pal' } ds =
      layer3 rs ds := rfl
  have h4 : (layer4 { rs with underlayer_color := u', color_palette := pal' } ds).map
      (svg.Object.RenderObject fmt) = (layer4 rs ds).map (svg.Object.RenderObject fmt) := by
    unfold layer4
    rw [List.map_flatten, List.map_flatten, List.map_map, List.map_map, hproj]
    apply congrArg List.flatten
    apply List.map_congr_left
    intro s _
    exact stopLabelPair_render fmt _ rs u' pal' hu s
  simp only [List.map_append]
  rw [h1, h2, h4, h3]

theorem Document_Render_congr (fmt : ℚ → String) (d' d : svg.Document)
    (h : d'.objects_.map (svg.Object.RenderObject fmt) =
      d.objects_.map (svg.Object.RenderObject fmt)) :
    d'.Render fmt = d.Render fmt := by
  have hmap : ∀ (l : List svg.Object) (context : svg.RenderContext),
      l.map (fun object => svg.Object.Render fmt context object) =
        (l.map (svg.Object.RenderObject fmt)).map
          (fun s => context.RenderIndent ++ s ++ "\n") := by
    intro l context
    rw [List.map_map]
    apply List.map_congr_left
    intro o _
    simp only [Function.comp, svg.Object.Render]
  unfold svg.Document.Render
  dsimp only
  rw [svg.foldl_render_eq, svg.foldl_render_eq, hmap, hmap, h]

end render

namespace Serializer

open TransportCatalogue render

/-- C16 (amended): for a catalogue built through its interface with unique stop
names, bus names and stop ids, and render settings with a non-empty palette of
colours of any kind, encoding the triple and decoding the message return, and a
fresh `MapRenderer` built from the decoded settings and rendering the buses of the
decoded catalogue writes the same text, character for character, as a fresh
`MapRenderer` built from the settings and rendering the buses of the catalogue. -/
theorem Render_after_round_trip (m : Libm) (fmt : ℚ → String) (c : TransportCatalogue)
    (hc : Built m c) (hnm : (c.stops_.map Stop.name).Nodup)
    (hbn : (c.buses_.map Bus.name).Nodup) (hid : (c.stops_.map Stop.id).Nodup)
    (rs : RenderSettings) (hP : rs.color_palette ≠ []) (router_settings : Settings) :
    ∃ msg data r r' text,
      Convert c rs router_settings = .ok msg ∧
      ConvertSerializationData msg = .ok data ∧
      MapRenderer.Render fmt (MapRenderer.create rs) c c.buses_ = .ok (r, text) ∧
      MapRenderer.Render fmt (MapRenderer.create data.render_settings) data.trc
        data.trc.buses_ = .ok (r', text) := by
  have hcons := Consistent_of_Built m c hc
  have htv := TableValid_of_Built m c hc
  obtain ⟨msg, c', henc, hdec, hstops, hbuses, _, _, _⟩ := decode_encode c hcons htv hid hnm
  obtain ⟨ds, hds⟩ := resolve_ok c (sortedBuses c.buses_)
    (fun b hb => hcons.route_valid b ((sortedBuses_spec c.buses_).2.1 b hb))
  have hds' : List.Forall₂ (fun bus d => resolveBus c' bus = .ok d) (sortedBuses c'.buses_)
      ds := by
    have hnd : ((c.buses_.map (mirrorBus c.stops_.length)).map Bus.name).Nodup := by
      have : (c.buses_.map (mirrorBus c.stops_.length)).map Bus.name =
          c.buses_.map Bus.name := by
        simp [List.map_map, Function.comp_def, mirrorBus]
      rw [this]
      exact hbn
    rw [hbuses, sortedBuses_reverse _ hnd,
      sortedBuses_map (mirrorBus c.stops_.length) (fun _ => rfl), List.forall₂_map_left_iff]
    exact hds.imp (fun b d h => resolveBus_mirror c c' hstops b d h)
  have hdraw := draw_eq (MapRenderer.create rs) c c.buses_ ds hds hP rfl
  have hP' : (ConvertSerRenderSettings (ConvertRenderSettings rs)).color_palette ≠ [] := by
    rw [settings_round_trip]
    intro h
    exact hP (List.map_eq_nil_iff.1 h)
  have hdraw' := draw_eq (MapRenderer.create (ConvertSerRenderSettings (ConvertRenderSettings rs)))
    c' c'.buses_ ds hds' hP' rfl
  have htext : svg.Document.Render fmt
      ⟨([] : List svg.Object) ++
        layer1 (ConvertSerRenderSettings (ConvertRenderSettings rs)) ds ++
        layer2 (ConvertSerRenderSettings (ConvertRenderSettings rs)) ds ++
        layer3 (ConvertSerRenderSettings (ConvertRenderSettings rs)) ds ++
        layer4 (ConvertSerRenderSettings (ConvertRenderSettings rs)) ds⟩ =
      svg.Document.Render fmt
        ⟨([] : List svg.Object) ++ layer1 rs ds ++ layer2 rs ds ++ layer3 rs ds ++
          layer4 rs ds⟩ := by
    apply Document_Render_congr
    show (([] : List svg.Object) ++ _ ++ _ ++ _ ++ _).map _ =
      (([] : List svg.Object) ++ _ ++ _ ++ _ ++ _).map _
    rw [List.nil_append, List.nil_append, settings_round_trip]
    exact layers_render fmt rs _ _ (color_print_round_trip fmt _)
      (by
        rw [List.forall₂_map_left_iff]
        exact List.forall₂_same.2 (fun color _ => color_print_round_trip fmt color))
      ds
  refine ⟨{ transport_catalogue := msg
            render_settings := ConvertRenderSettings rs
            router_settings := ConvertRouterSettings router_settings },
    { trc := c'
      render_settings := ConvertSerRenderSettings (ConvertRenderSettings rs)
      router_settings := ConvertSerRouterSettings (ConvertRouterSettings router_settings) },
    { settings_ := rs
      current_color_ := 0
      document_ := ⟨([] : List svg.Object) ++ layer1 rs ds ++ layer2 rs ds ++ layer3 rs ds ++
        layer4 rs ds⟩ },
    { settings_ := ConvertSerRenderSettings (ConvertRenderSettings rs)
      current_color_ := 0
      document_ := ⟨([] : List svg.Object) ++
        layer1 (ConvertSerRenderSettings (ConvertRenderSettings rs)) ds ++
        layer2 (ConvertSerRenderSettings (ConvertRenderSettings rs)) ds ++
        layer3 (ConvertSerRenderSettings (ConvertRenderSettings rs)) ds ++
        layer4 (ConvertSerRenderSettings (ConvertRenderSettings rs)) ds⟩ },
    svg.Document.Render fmt
      ⟨([] : List svg.Object) ++ layer1 rs ds ++ layer2 rs ds ++ layer3 rs ds ++
        layer4 rs ds⟩,
    ?_, ?_, ?_, ?_⟩
  · unfold Convert
    rw [henc]
    rfl
  · unfold ConvertSerializationData
    rw [hdec]
    rfl
  · unfold MapRenderer.Render
    rw [hdraw]
    rfl
  · unfold MapRenderer.Render
    show (do
      let r' ← MapRenderer.draw
        (MapRenderer.create (ConvertSerRenderSettings (ConvertRenderSettings rs))) c' c'.buses_
      pure (r', r'.document_.Render fmt)) = _
    rw [hdraw', ← htext]
    rfl

end Serializer

namespace Serializer

open TransportCatalogue render

/-- Witness of C15: the catalogue `lineL` with the stops `A`, `B`, `C`, two road
distances and the bus `l`. -/
theorem Convert_catalogue_round_trip_answers_witness :
    ∃ msg c', ConvertTransportCatalogue Example.lineL = .ok msg ∧
      ConvertSerTransportCatalogue msg = .ok c' ∧
      (∀ n, ∃ r, Example.lineL.GetStopInfo n = .ok r ∧ c'.GetStopInfo n = .ok r) ∧
      (∀ n, ∃ r, Example.lineL.GetBusInfo n = .ok r ∧ c'.GetBusInfo n = .ok r) := by
  obtain ⟨msg, c', h1, h2, h3, h4, _⟩ :=
    Convert_catalogue_round_trip_answers Example.libm Example.lineL
      (Built.add_bus (c := Example.roads) "l" ["A", "B", "C"] false
        (Built.add_distance (c := match Example.stopsABC.AddDistance "A" "B" 600 with
            | .ok c => c
            | .error _ => empty) "B" "C" 400
          (Built.add_distance (c := Example.stopsABC) "A" "B" 600
            (Built.add_stop _ (Built.add_stop _ (Built.add_stop _ Built.empty)))
            (by decide!))
          (by decide!))
        (by decide!))
      (by decide!) (by decide!) (by decide!)
  exact ⟨msg, c', h1, h2, h3, h4⟩

/-- C16 (counterexample): the stops `A` and `B` of `sameId` have unique names but
the same id 0, the bus names are unique and the palette is not empty; both renders
return, the document drawn from the decoded data holds one circle and the document
drawn from the catalogue two, and the texts written differ. -/
theorem Render_differs_for_shared_stop_id :
    (Example.sameId.stops_.map Stop.name).Nodup ∧
    (Example.sameId.buses_.map Bus.name).Nodup ∧
    Example.renderSettings.color_palette ≠ [] ∧
    (do
      let msg ← Convert Example.sameId Example.renderSettings Example.settings
      let data ← ConvertSerializationData msg
      let r' ← MapRenderer.draw (MapRenderer.create data.render_settings) data.trc
        data.trc.buses_
      pure (r'.document_.objects_.filter
        (fun (o : svg.Object) => match o with
          | .circle _ => true
          | _ => false)).length) = .ok 1 ∧
    (MapRenderer.draw (MapRenderer.create Example.renderSettings) Example.sameId
        Example.sameId.buses_).map
      (fun r => (r.document_.objects_.filter
        (fun o => match o with
          | .circle _ => true
          | _ => false)).length) = .ok 2 ∧
    (do
      let msg ← Convert Example.sameId Example.renderSettings Example.settings
      let data ← ConvertSerializationData msg
      let out ← MapRenderer.Render Example.fmt (MapRenderer.create data.render_settings)
        data.trc data.trc.buses_
      pure out.2) ≠
    (do
      let out ← MapRenderer.Render Example.fmt (MapRenderer.create Example.renderSettings)
        Example.sameId Example.sameId.buses_
      pure out.2) := by
  refine ⟨by decide!, by decide!, by decide!, by decide!, by decide!, by decide!⟩

/-- Witness of C16 (amended): the catalogue `lineL` and the render settings of the
examples. -/
theorem Render_after_round_trip_witness :
    ∃ msg data r r' text,
      Convert Example.lineL Example.renderSettings Example.settings = .ok msg ∧
      ConvertSerializationData msg = .ok data ∧
      MapRenderer.Render Example.fmt (MapRenderer.create Example.renderSettings) Example.lineL
        Example.lineL.buses_ = .ok (r, text) ∧
      MapRenderer.Render Example.fmt (MapRenderer.create data.render_settings) data.trc
        data.trc.buses_ = .ok (r', text) :=
  Render_after_round_trip Example.libm Example.fmt Example.lineL
    (Built.add_bus (c := Example.roads) "l" ["A", "B", "C"] false
      (Built.add_distance (c := match Example.stopsABC.AddDistance "A" "B" 600 with
          | .ok c => c
          | .error _ => empty) "B" "C" 400
        (Built.add_distance (c := Example.stopsABC) "A" "B" 600
          (Built.add_stop _ (Built.add_stop _ (Built.add_stop _ Built.empty)))
          (by decide!))
        (by decide!))
      (by decide!))
    (by decide!) (by decide!) (by decide!) Example.renderSettings (by decide!) Example.settings

end Serializer

namespace Serializer

/-- C39: a color that is a string, an `Rgb` or an `Rgba` is returned unchanged by
`Convert` followed by `Convert`; the unset color comes back as the string color
`none`, which is another alternative of the variant, and the color printer writes
the same text `none` for both. -/
theorem Convert_color_round_trip (fmt : ℚ → String) :
    (∀ str, ConvertSerColor (ConvertColor (.str str)) = .str str) ∧
    (∀ rgb, ConvertSerColor (ConvertColor (.rgb rgb)) = .rgb rgb) ∧
    (∀ rgba, ConvertSerColor (ConvertColor (.rgba rgba)) = .rgba rgba) ∧
    ConvertSerColor (ConvertColor .none) = .str "none" ∧
    svg.Color.str "none" ≠ svg.Color.none ∧
    svg.Color.print fmt (ConvertSerColor (ConvertColor .none)) = "none" ∧
    svg.Color.print fmt .none = "none" := by
  refine ⟨fun _ => rfl, fun _ => rfl, fun _ => rfl, rfl, ?_, rfl, rfl⟩
  intro h
  cases h

end Serializer

namespace rh

namespace BaseRequestHandler

open TransportCatalogue

end BaseRequestHandler

end rh

namespace render

open TransportCatalogue

theorem join_length_pos (f : svg.Object → String) (hf : ∀ o, 0 < (f o).length)
    (l : List svg.Object) (hl : l ≠ []) : 0 < (String.join (l.map f)).length := by
  cases l with
  | nil => exact absurd rfl hl
  | cons o l =>
    have : String.join ((o :: l).map f) = f o ++ String.join (l.map f) := by
      unfold String.join
      rw [List.map_cons, List.foldl_cons]
      have h1 := svg.foldl_append_eq (l.map f) ("" ++ f o)
      rw [h1]
      simp
    rw [this, String.length_append]
    exact Nat.lt_of_lt_of_le (hf o) (Nat.le_add_right _ _)

theorem Object_Render_length_pos (fmt : ℚ → String) (context : svg.RenderContext)
    (o : svg.Object) : 0 < (o.Render fmt context).length := by
  unfold svg.Object.Render
  rw [String.length_append]
  exact Nat.lt_of_lt_of_le (by decide : 0 < "\n".length) (Nat.le_add_left _ _)

/-- Two successive calls of `Render` on a fresh renderer: the second document holds
the objects of the first one twice. -/
theorem Render_twice (fmt : ℚ → String) (c : TransportCatalogue)
    (buses : List Bus) (settings : RenderSettings) (hP : settings.color_palette ≠ [])
    (hvalid : ∀ b ∈ buses, ∀ p ∈ b.route, p < c.stops_.length) :
    ∃ r1 text1 r2 text2,
      MapRenderer.Render fmt (MapRenderer.create settings) c buses = .ok (r1, text1) ∧
      MapRenderer.Render fmt r1 c buses = .ok (r2, text2) ∧
      r2.document_.objects_ = r1.document_.objects_ ++ r1.document_.objects_ ∧
      (r1.document_.objects_ ≠ [] → text1.length < text2.length ∧ text2 ≠ text1) := by
  obtain ⟨ds, hds⟩ := resolve_ok c (sortedBuses buses)
    (fun b hb => hvalid b ((sortedBuses_spec buses).2.1 b hb))
  have hdraw1 := draw_eq (MapRenderer.create settings) c buses ds hds hP rfl
  have hdraw2 := draw_eq
    { settings_ := settings
      current_color_ := 0
      document_ := ⟨([] : List svg.Object) ++ layer1 settings ds ++ layer2 settings ds ++
        layer3 settings ds ++ layer4 settings ds⟩ } c buses ds hds hP rfl
  refine ⟨{ settings_ := settings
            current_color_ := 0
            document_ := ⟨([] : List svg.Object) ++ layer1 settings ds ++ layer2 settings ds ++
              layer3 settings ds ++ layer4 settings ds⟩ },
    svg.Document.Render fmt ⟨([] : List svg.Object) ++ layer1 settings ds ++
      layer2 settings ds ++ layer3 settings ds ++ layer4 settings ds⟩,
    { settings_ := settings
      current_color_ := 0
      document_ := ⟨(([] : List svg.Object) ++ layer1 settings ds ++ layer2 settings ds ++
        layer3 settings ds ++ layer4 settings ds) ++ layer1 settings ds ++
        layer2 settings ds ++ layer3 settings ds ++ layer4 settings ds⟩ },
    svg.Document.Render fmt ⟨(([] : List svg.Object) ++ layer1 settings ds ++
      layer2 settings ds ++ layer3 settings ds ++ layer4 settings ds) ++ layer1 settings ds ++
      layer2 settings ds ++ layer3 settings ds ++ layer4 settings ds⟩, ?_, ?_, ?_, ?_⟩
  · unfold MapRenderer.Render
    rw [hdraw1]
    rfl
  · unfold MapRenderer.Render
    rw [hdraw2]
    rfl
  · simp only [List.nil_append, List.append_assoc]
  · intro hne
    generalize hX : ([] : List svg.Object) ++ layer1 settings ds ++ layer2 settings ds ++
      layer3 settings ds ++ layer4 settings ds = X at hne ⊢
    have hXX : X ++ layer1 settings ds ++ layer2 settings ds ++ layer3 settings ds ++
        layer4 settings ds = X ++ X := by
      rw [← hX]
      simp only [List.nil_append, List.append_assoc]
    rw [hXX]
    have hX' : X ≠ [] := hne
    have hlen : (svg.Document.Render fmt ⟨X ++ X⟩).length =
        (svg.Document.Render fmt ⟨X⟩).length +
          (String.join (X.map (svg.Object.Render fmt
            (svg.RenderContext.Indented { indent_step := 2, indent := 0 })))).length := by
      unfold svg.Document.Render
      dsimp only
      rw [List.foldl_append, svg.foldl_render_eq _ X (List.foldl _ _ X)]
      simp only [String.length_append]
      omega
    have hpos := join_length_pos
      (svg.Object.Render fmt (svg.RenderContext.Indented { indent_step := 2, indent := 0 }))
      (fun o => Object_Render_length_pos fmt _ o) X hX'
    constructor
    · rw [hlen]
      omega
    · intro heq
      rw [heq] at hlen
      omega

end render

namespace rh

namespace StatHandler

/-- C33: a second `Render` on the same `MapRenderer` with the same buses does not
start from an empty document.  For a fresh renderer with a non-empty palette and a
consistent catalogue both calls return, the document after the second call holds
every object of the first call twice, and the text written by the second call is
longer than the text of the first one whenever the first call drew an object; two
Map requests handled one after the other receive these two texts. -/
theorem Render_twice_repeats_objects (fmt : ℚ → String) (h : StatHandler)
    (hc : h.transport_catalogue_.Consistent) (settings : render.RenderSettings)
    (hP : settings.color_palette ≠ []) (first second : io.GetMapRequest) :
    ∃ r1 text1 r2 text2,
      render.MapRenderer.Render fmt (render.MapRenderer.create settings)
        h.transport_catalogue_ h.transport_catalogue_.buses_ = .ok (r1, text1) ∧
      render.MapRenderer.Render fmt r1 h.transport_catalogue_ h.transport_catalogue_.buses_ =
        .ok (r2, text2) ∧
      r2.document_.objects_ = r1.document_.objects_ ++ r1.document_.objects_ ∧
      (r1.document_.objects_ ≠ [] → text1.length < text2.length ∧ text2 ≠ text1) ∧
      (do
        let st ← h.handleMap fmt (render.MapRenderer.create settings) first
        st.1.handleMap fmt st.2 second) =
      .ok ({ h with
          responses_ := h.responses_ ++
            [json.Node.dict [("map", .string text1), ("request_id", .int first.id)]] ++
            [json.Node.dict [("map", .string text2), ("request_id", .int second.id)]] },
        r2) := by
  obtain ⟨r1, text1, r2, text2, h1, h2, h3, h4⟩ := render.Render_twice fmt
    h.transport_catalogue_ h.transport_catalogue_.buses_ settings hP hc.route_valid
  refine ⟨r1, text1, r2, text2, h1, h2, h3, h4, ?_⟩
  unfold handleMap
  rw [h1]
  show (do
    let rendered ← render.MapRenderer.Render fmt r1 h.transport_catalogue_
      h.transport_catalogue_.buses_
    let closed ← ((((({} : json.Builder).StartDict.Key "map").Value (.string rendered.2)).Key
      "request_id").Value (.int second.id)).EndDict
    let response ← closed.Build
    pure ({ h with
        responses_ := h.responses_ ++
          [json.Node.dict [("map", .string text1), ("request_id", .int first.id)]] ++
          [response] }, rendered.1)) = _
  rw [h2]
  rfl

/-- Witness of C33: the catalogue `roundAB` with the render settings of the
examples; the first call draws objects, so the second text is longer. -/
theorem Render_twice_repeats_objects_witness :
    ∃ r1 text1 r2 text2,
      render.MapRenderer.Render Example.fmt (render.MapRenderer.create Example.renderSettings)
        Example.roundAB Example.roundAB.buses_ = .ok (r1, text1) ∧
      render.MapRenderer.Render Example.fmt r1 Example.roundAB Example.roundAB.buses_ =
        .ok (r2, text2) ∧
      r2.document_.objects_ = r1.document_.objects_ ++ r1.document_.objects_ ∧
      text1.length < text2.length ∧ text2 ≠ text1 := by
  obtain ⟨r1, text1, r2, text2, h1, h2, h3, h4, _⟩ :=
    Render_twice_repeats_objects Example.fmt Example.handler
      (TransportCatalogue.Consistent_of_Built Example.libm Example.roundAB
        (Built.add_bus (c := Example.roadAB) "l" ["A", "B", "A"] true
          (Built.add_distance
            (c := (TransportCatalogue.empty.AddStop ⟨0, "A", ⟨0, 0⟩⟩).AddStop
              ⟨1, "B", ⟨1, 1⟩⟩)
            "A" "B" 1000 (Built.add_stop _ (Built.add_stop _ Built.empty)) (by decide!))
          (by decide!)))
      Example.renderSettings (by decide!) { id := 1 } { id := 2 }
  have hne : (render.MapRenderer.Render Example.fmt
      (render.MapRenderer.create Example.renderSettings) Example.roundAB
      Example.roundAB.buses_).map (fun x => x.1.document_.objects_.isEmpty) = .ok false := by
    decide!
  have h1' : render.MapRenderer.Render Example.fmt
      (render.MapRenderer.create Example.renderSettings) Example.roundAB
      Example.roundAB.buses_ = .ok (r1, text1) := h1
  rw [h1'] at hne
  have hne' : r1.document_.objects_ ≠ [] := by
    intro hnil
    have : r1.document_.objects_.isEmpty = false := by
      simpa [Except.map] using hne
    rw [hnil] at this
    cases this
  exact ⟨r1, text1, r2, text2, h1, h2, h3, (h4 hne').1, (h4 hne').2⟩

end StatHandler

end rh

namespace TransportRouter

open TransportCatalogue render graph

theorem drawLines_skip (c : TransportCatalogue) (projector : SphereProjector)
    (before after : List Bus) (bus : Bus) (hb : bus.route = []) (r : MapRenderer) :
    MapRenderer.drawLines c projector (before ++ bus :: after) r =
      MapRenderer.drawLines c projector (before ++ after) r := by
  unfold MapRenderer.drawLines
  rw [List.foldlM_append, List.foldlM_append]
  congr 1
  funext r1
  rw [List.foldlM_cons]
  simp [hb]

theorem drawNames_skip (c : TransportCatalogue) (projector : SphereProjector)
    (before after : List Bus) (bus : Bus) (hb : bus.route = []) (r : MapRenderer) :
    MapRenderer.drawNames c projector (before ++ bus :: after) r =
      MapRenderer.drawNames c projector (before ++ after) r := by
  unfold MapRenderer.drawNames
  rw [List.foldlM_append, List.foldlM_append]
  congr 1
  funext r1
  rw [List.foldlM_cons]
  simp [hb]

theorem foldlM_skip {α σ : Type} (f : σ → α → Except Fault σ) :
    ∀ (l : List α) (s : σ), (∀ a ∈ l, ∀ s, f s a = .ok s) → l.foldlM f s = .ok s := by
  intro l
  induction l with
  | nil => intro s _; rfl
  | cons a l ih =>
    intro s h
    rw [List.foldlM_cons, h a (List.mem_cons_self _ _) s]
    exact ih s (fun a' ha' => h a' (List.mem_cons_of_mem _ ha'))

theorem draw_all_empty (r : MapRenderer) (c : TransportCatalogue) (buses : List Bus)
    (hall : ∀ b ∈ buses, b.route = []) :
    MapRenderer.draw r c buses = .ok { r with current_color_ := 0 } := by
  have hs : ∀ b ∈ sortedBuses buses, b.route = [] := fun b hb =>
    hall b ((sortedBuses_spec buses).2.1 b hb)
  unfold MapRenderer.draw
  dsimp only
  generalize sortedBuses buses = S at hs
  have hbox : MapRenderer.MinMaxLatLng c S = .ok (0, 0, 0, 0) := by
    unfold MapRenderer.MinMaxLatLng
    have : S.find? (fun bus => !bus.route.isEmpty) = none := by
      rw [List.find?_eq_none]
      intro b hb
      simp [hs b hb]
    rw [this]
  have hlines : ∀ projector r0, MapRenderer.drawLines c projector S r0 = .ok r0 := by
    intro projector r0
    unfold MapRenderer.drawLines
    apply foldlM_skip
    intro b hb s
    simp [hs b hb]
    rfl
  have hnames : ∀ projector r0, MapRenderer.drawNames c projector S r0 = .ok r0 := by
    intro projector r0
    unfold MapRenderer.drawNames
    apply foldlM_skip
    intro b hb s
    simp [hs b hb]
    rfl
  have hstops : MapRenderer.collectStops c S = .ok [] := by
    unfold MapRenderer.collectStops
    apply foldlM_skip
    intro b hb s
    rw [hs b hb]
    rfl
  rw [hbox]
  simp only [bind, Except.bind, hlines, hnames, hstops]
  rfl

/-- C32: a bus with an empty materialized route, round trip or not.  `AddBus` with
no declared stop returns and stores a bus with an empty route: the loop of the
reverse half starts at `size - 2 = -2` and does not run, and only a declared route
without stops gives an empty materialized route.  `AddRoundTrip` and `AddLinearTrip`
return the graph unchanged, although `mid_stop = 0 / 2 + 1 = 1` and a read of
`route.at(0)` would throw.  The two loops of `Render` that draw the polylines and
the labels pass over the bus, and a render of buses that all have an empty route
returns and writes a document without objects. -/
theorem empty_route_bus_is_inert (m : Libm) (fmt : ℚ → String) (c : TransportCatalogue)
    (bus_name : String) (is_roundtrip : Bool) (r : TransportRouter)
    (g : DirectedWeightedGraph EdgeInfo) (projector : SphereProjector)
    (before after : List Bus) (renderer : MapRenderer) (bus : Bus) (hb : bus.route = []) :
    (reverseStart 0 = -2 ∧ expandRoute [] is_roundtrip = .ok [] ∧
      ∃ stored, AddBus m c bus_name [] is_roundtrip = .ok
          { c with
            buses_ := stored :: c.buses_
            bus_name_to_bus_ := c.bus_name_to_bus_.insert bus_name c.buses_.length } ∧
        stored.name = bus_name ∧ stored.route = [] ∧ stored.route_length = 0 ∧
        stored.is_roundtrip = is_roundtrip) ∧
    (∀ route c', AddBus m c bus_name route is_roundtrip = .ok c' →
      ∃ stored, c'.buses_ = stored :: c.buses_ ∧ (stored.route = [] → route = [])) ∧
    (bus.route.length / 2 + 1 = 1 ∧ vectorAt bus.route 0 = .error .out_of_range ∧
      AddRoundTrip m r bus g = .ok g ∧ AddLinearTrip m r bus g = .ok g ∧
      AddRouteToGraph m r bus g = .ok g) ∧
    (MapRenderer.drawLines c projector (before ++ bus :: after) renderer =
        MapRenderer.drawLines c projector (before ++ after) renderer ∧
      MapRenderer.drawNames c projector (before ++ bus :: after) renderer =
        MapRenderer.drawNames c projector (before ++ after) renderer) ∧
    (∀ buses : List Bus, (∀ b ∈ buses, b.route = []) →
      MapRenderer.Render fmt renderer c buses =
        .ok ({ renderer with current_color_ := 0 }, renderer.document_.Render fmt)) := by
  have hround : AddRoundTrip m r bus g = .ok g := by
    unfold AddRoundTrip
    rw [hb]
    rfl
  have hlinear : AddLinearTrip m r bus g = .ok g := by
    unfold AddLinearTrip
    rw [hb]
    rfl
  refine ⟨⟨by decide, ?_, ?_⟩, ?_, ⟨?_, ?_, hround, hlinear, ?_⟩,
    ⟨drawLines_skip c projector before after bus hb renderer,
      drawNames_skip c projector before after bus hb renderer⟩, ?_⟩
  · cases is_roundtrip <;> rfl
  · refine ⟨{ name := bus_name, route := [], route_length := 0, curvature := 0 / 0,
              is_roundtrip := is_roundtrip }, ?_, rfl, rfl, rfl, rfl⟩
    cases is_roundtrip <;> rfl
  · intro route c' h
    obtain ⟨declared, full, rl, gl, hdecl, hfull, _, _, hadd⟩ :=
      AddBus_eq_ok m c c' bus_name route is_roundtrip h
    obtain ⟨idx, _, hc'⟩ := AddBusObject_eq_ok c c' _ hadd
    refine ⟨_, by rw [hc'], ?_⟩
    intro hempty
    have hfull0 : full = [] := hempty
    have hdecl0 : declared = [] := by
      rw [hfull] at hfull0
      cases is_roundtrip with
      | true => simpa using hfull0
      | false =>
        simp only [Bool.false_eq_true, if_false] at hfull0
        exact (List.append_eq_nil.1 hfull0).1
    have hlen := forall₂_length_eq ((mapM_ok_forall₂ _ _ _).1 hdecl)
    rw [hdecl0] at hlen
    exact List.length_eq_zero.1 hlen
  · rw [hb]
    rfl
  · rw [hb]
    rfl
  · unfold AddRouteToGraph
    cases bus.is_roundtrip
    · simpa using hlinear
    · simpa using hround
  · intro buses hall
    unfold MapRenderer.Render
    rw [draw_all_empty renderer c buses hall]
    rfl

/-- Witness of C32: the bus `e` without stops. -/
theorem empty_route_bus_is_inert_witness :
    AddRoundTrip Example.libm Example.routerAB { name := "e" }
      Example.routerAB.transport_graph_ = .ok Example.routerAB.transport_graph_ ∧
    AddLinearTrip Example.libm Example.routerAB { name := "e" }
      Example.routerAB.transport_graph_ = .ok Example.routerAB.transport_graph_ :=
  ⟨(empty_route_bus_is_inert Example.libm Example.fmt Example.roundAB "e" false
      Example.routerAB Example.routerAB.transport_graph_ {} [] [] Example.rendererAB
      { name := "e" } rfl).2.2.1.2.2.1,
    (empty_route_bus_is_inert Example.libm Example.fmt Example.roundAB "e" false
      Example.routerAB Example.routerAB.transport_graph_ {} [] [] Example.rendererAB
      { name := "e" } rfl).2.2.1.2.2.2.1⟩

end TransportRouter

namespace TransportRouter

open TransportCatalogue graph

/-- The item that `BuildRoute` decodes from an edge of the built graph: a `WaitItem`
from an edge without span, a `BusItem` from an edge with a span. -/
theorem decodeEdge_kind (m : Libm) (router_settings : Settings) (c : TransportCatalogue)
    (r : TransportRouter) (hr : create m router_settings c = .ok r) (edge_id : EdgeId)
    (e : Edge EdgeInfo) (he : r.transport_graph_.edges_[edge_id]? = some e) :
    (e.weight.span_count = 0 → ∃ w, decodeEdge r edge_id = .ok (Item.wait w)) ∧
    (1 ≤ e.weight.span_count → ∃ b, decodeEdge r edge_id = .ok (Item.bus b)) := by
  obtain ⟨item, hitem⟩ := decodeEdge_ok m router_settings c r hr edge_id e he
  constructor
  · intro hspan
    unfold decodeEdge at hitem ⊢
    rw [(GetEdge_eq_ok _ _ _).2 he] at hitem ⊢
    simp only [bind, Except.bind] at hitem ⊢
    rw [if_pos hspan] at hitem ⊢
    cases hp : vectorAt r.stop_id_to_stop_ (if e.to_ ≥ r.transport_catalogue_.GetStopCount
        then e.to_ - r.transport_catalogue_.GetStopCount else e.to_) with
    | error err => rw [hp] at hitem; cases hitem
    | ok p =>
      rw [hp] at hitem
      dsimp only at hitem ⊢
      cases hs : r.transport_catalogue_.stopAt p with
      | error err => rw [hs] at hitem; cases hitem
      | ok s => exact ⟨_, rfl⟩
  · intro hspan
    have hne : ¬ e.weight.span_count = 0 := by omega
    unfold decodeEdge
    rw [(GetEdge_eq_ok _ _ _).2 he]
    simp only [bind, Except.bind]
    rw [if_neg hne]
    exact ⟨_, rfl⟩

/-- A walk of the built graph between two vertices of the wait side, decoded: it
is made of pairs of a wait edge and a ride edge. -/
theorem walk_pairs (m : Libm) (router_settings : Settings) (c : TransportCatalogue)
    (r : TransportRouter) (hr : create m router_settings c = .ok r) (t : VertexId)
    (ht : c.stops_.length ≤ t) :
    ∀ (edges : List EdgeId) (u : VertexId), c.stops_.length ≤ u →
      Walk r.transport_graph_ u edges t →
      ∃ pairs : List (WaitItem × BusItem),
        edges.mapM (decodeEdge r) =
          .ok (pairs.map (fun p => [Item.wait p.1, Item.bus p.2])).flatten ∧
        edges.length = 2 * pairs.length
  | [], _, _, _ => ⟨[], rfl, rfl⟩
  | [e1], u, hu, hw => by
    exfalso
    obtain ⟨_, _, hids, _, _, _, hgok⟩ := create_eq_ok m router_settings c r hr
    have hlen : r.stop_id_to_stop_.length = c.stops_.length := by
      rw [hids]; exact InitIdToStop_length c
    cases hw with
    | cons e he hfrom hrest =>
      cases hrest
      rcases hgok.2 e (List.getElem?_mem he) with ⟨_, hto, _⟩ | ⟨hlt, _, _, _⟩
      · rw [hlen] at hto
        exact absurd ht (Nat.not_le.2 hto)
      · rw [hlen, hfrom] at hlt
        exact absurd hu (Nat.not_le.2 hlt)
  | e1 :: e2 :: rest, u, hu, hw => by
    obtain ⟨_, _, hids, _, _, _, hgok⟩ := create_eq_ok m router_settings c r hr
    have hlen : r.stop_id_to_stop_.length = c.stops_.length := by
      rw [hids]; exact InitIdToStop_length c
    cases hw with
    | cons a ha hfrom hrest =>
      cases hrest with
      | cons b hb hfrom' hrest' =>
        have hawait : a.weight.span_count = 0 ∧ a.to_ < c.stops_.length := by
          rcases hgok.2 a (List.getElem?_mem ha) with ⟨_, hto, hw⟩ | ⟨hlt, _, _, _⟩
          · rw [hlen] at hto
            exact ⟨by rw [hw], hto⟩
          · rw [hlen, hfrom] at hlt
            exact absurd hu (Nat.not_le.2 hlt)
        have hbride : 1 ≤ b.weight.span_count ∧ c.stops_.length ≤ b.to_ := by
          rcases hgok.2 b (List.getElem?_mem hb) with ⟨hfr, hto, _⟩ | ⟨_, hge, _, hone⟩
          · rw [hlen] at hfr
            have h1 : b.from_ < c.stops_.length := hfrom' ▸ hawait.2
            rw [hfr] at h1
            exact absurd h1 (Nat.not_lt.2 (Nat.le_add_left _ _))
          · rw [hlen] at hge
            exact ⟨hone, hge⟩
        obtain ⟨w, hw1⟩ := (decodeEdge_kind m router_settings c r hr e1 a ha).1 hawait.1
        obtain ⟨bi, hb1⟩ := (decodeEdge_kind m router_settings c r hr e2 b hb).2 hbride.1
        obtain ⟨pairs, hp1, hp2⟩ := walk_pairs m router_settings c r hr t ht rest b.to_
          hbride.2 hrest'
        refine ⟨(w, bi) :: pairs, ?_, ?_⟩
        · rw [mapM_ok_forall₂]
          exact List.Forall₂.cons hw1 (List.Forall₂.cons hb1 ((mapM_ok_forall₂ _ _ _).1 hp1))
        · simp only [List.length_cons, hp2]
          omega

theorem pairs_getLast :
    ∀ (ps : List (WaitItem × BusItem)), ps ≠ [] →
      ∃ b, (ps.map (fun p => [Item.wait p.1, Item.bus p.2])).flatten.getLast? =
        some (Item.bus b)
  | [], h => absurd rfl h
  | [p], _ => ⟨p.2, rfl⟩
  | p :: q :: ps, _ => by
    obtain ⟨b, hb⟩ := pairs_getLast (q :: ps) (List.cons_ne_nil _ _)
    refine ⟨b, ?_⟩
    rw [← hb]
    simp only [List.map_cons, List.flatten_cons, List.cons_append, List.nil_append,
      List.getLast?_cons_cons]

/-- C34: in the graph that `BuildGraph` built over N stops every edge with
span_count 0 goes from a vertex >= N to a vertex < N and every edge with span_count
>= 1 goes from a vertex < N to a vertex >= N; so for every walk of the graph from
from + N to to + N the items that `BuildRoute` decodes from its edges are a
sequence of pairs of a `WaitItem` followed by a `BusItem`: their number is even,
and a walk with an edge starts with a `WaitItem` and ends with a `BusItem`. -/
theorem walk_items_alternate (m : Libm) (router_settings : Settings) (c : TransportCatalogue)
    (r : TransportRouter) (hr : create m router_settings c = .ok r) :
    (∀ e ∈ r.transport_graph_.edges_,
      (e.weight.span_count = 0 → c.stops_.length ≤ e.from_ ∧ e.to_ < c.stops_.length) ∧
      (1 ≤ e.weight.span_count → e.from_ < c.stops_.length ∧ c.stops_.length ≤ e.to_)) ∧
    ∀ (from_index to_index : Nat) (edges : List EdgeId),
      Walk r.transport_graph_ (from_index + c.stops_.length) edges
        (to_index + c.stops_.length) →
      ∃ pairs : List (WaitItem × BusItem),
        edges.mapM (decodeEdge r) =
          .ok (pairs.map (fun p => [Item.wait p.1, Item.bus p.2])).flatten ∧
        edges.length = 2 * pairs.length ∧
        (pairs.map (fun p => [Item.wait p.1, Item.bus p.2])).flatten.length =
          2 * pairs.length ∧
        (edges ≠ [] → ∃ w b,
          (pairs.map (fun p => [Item.wait p.1, Item.bus p.2])).flatten.head? =
            some (Item.wait w) ∧
          (pairs.map (fun p => [Item.wait p.1, Item.bus p.2])).flatten.getLast? =
            some (Item.bus b)) := by
  obtain ⟨_, _, hids, _, _, _, hgok⟩ := create_eq_ok m router_settings c r hr
  have hlen : r.stop_id_to_stop_.length = c.stops_.length := by
    rw [hids]; exact InitIdToStop_length c
  constructor
  · intro e he
    rcases hgok.2 e he with ⟨hfr, hto, hw⟩ | ⟨hlt, hge, _, hone⟩
    · rw [hlen] at hfr hto
      refine ⟨fun _ => ⟨by rw [hfr]; exact Nat.le_add_left _ _, hto⟩, fun h1 => ?_⟩
      rw [hw] at h1
      exact absurd h1 (Nat.not_succ_le_zero 0)
    · rw [hlen] at hlt hge
      exact ⟨fun h0 => absurd hone (by rw [h0]; decide), fun _ => ⟨hlt, hge⟩⟩
  · intro from_index to_index edges hw
    obtain ⟨pairs, hp1, hp2⟩ := walk_pairs m router_settings c r hr
      (to_index + c.stops_.length) (Nat.le_add_left _ _) edges
      (from_index + c.stops_.length) (Nat.le_add_left _ _) hw
    have hflat : ∀ (ps : List (WaitItem × BusItem)),
        (ps.map (fun p => [Item.wait p.1, Item.bus p.2])).flatten.length = 2 * ps.length := by
      intro ps
      induction ps with
      | nil => rfl
      | cons p ps ih =>
        simp only [List.map_cons, List.flatten_cons, List.length_append, List.length_cons,
          List.length_nil, ih]
        omega
    refine ⟨pairs, hp1, hp2, hflat pairs, ?_⟩
    intro hne
    cases pairs with
    | nil =>
      have : edges.length = 0 := by simpa using hp2
      exact absurd (List.length_eq_zero.1 this) hne
    | cons p ps =>
      obtain ⟨b, hb⟩ := pairs_getLast (p :: ps) (List.cons_ne_nil _ _)
      exact ⟨p.1, b, rfl, hb⟩

/-- Witness of C34: the walk over the edges 1 and 2 of the router over `roundAB`,
from the wait side of `A` (vertex 3) to the wait side of `B` (vertex 2). -/
theorem walk_items_alternate_witness :
    ∃ pairs : List (WaitItem × BusItem),
      [1, 2].mapM (decodeEdge Example.routerAB) =
        .ok (pairs.map (fun p => [Item.wait p.1, Item.bus p.2])).flatten ∧
      [1, 2].length = 2 * pairs.length := by
  obtain ⟨pairs, h1, h2, _⟩ :=
    (walk_items_alternate Example.libm Example.settings Example.roundAB Example.routerAB
      (by decide!)).2 1 0 [1, 2]
      (Walk.cons ⟨3, 1, { time := 6, span_count := 0, bus_name := "" }⟩ (by decide!)
        (by decide!)
        (Walk.cons ⟨1, 2, { time := 3 / 2, span_count := 1, bus_name := "l" }⟩ (by decide!)
          (by decide!) (Walk.nil _)))
  exact ⟨pairs, h1, h2⟩

end TransportRouter

namespace render

open TransportCatalogue

end render

namespace svg

theorem unescapeChars_escape (c : Char) (rest : List Char) (fuel : Nat)
    (hf : ((escapeOf c).data ++ rest).length ≤ fuel) :
    ∃ fuel', rest.length ≤ fuel' ∧
      unescapeChars fuel ((escapeOf c).data ++ rest) = c :: unescapeChars fuel' rest := by
  have hpos : 1 ≤ (escapeOf c).data.length := by
    rcases escapeOf_cases c with h | h | h | h | h | ⟨h, -⟩ <;>
      · rw [h]
        simp [String.singleton]
  simp only [List.length_append] at hf
  cases fuel with
  | zero => omega
  | succ fuel =>
    refine ⟨fuel, by omega, ?_⟩
    · unfold escapeOf
      by_cases h1 : c = Char.ofNat 34
      · subst h1
        simp [unescapeChars, stripEntity, entityTable, List.isPrefixOf]
      · by_cases h2 : c = Char.ofNat 39
        · subst h2
          simp [unescapeChars, stripEntity, entityTable, List.isPrefixOf]
        · by_cases h3 : c = '<'
          · subst h3
            simp [unescapeChars, stripEntity, entityTable, List.isPrefixOf]
          · by_cases h4 : c = '>'
            · subst h4
              simp [unescapeChars, stripEntity, entityTable, List.isPrefixOf]
            · by_cases h5 : c = '&'
              · subst h5
                simp [unescapeChars, stripEntity, entityTable, List.isPrefixOf]
              · have h5' : ¬ '&' = c := fun e => h5 e.symm
                simp [h1, h2, h3, h4, h5, h5', unescapeChars, stripEntity, entityTable,
                  List.isPrefixOf, String.singleton]

theorem unescapeChars_escaped (l : List Char) :
    ∀ fuel, ((l.map (fun c => (escapeOf c).data)).flatten).length ≤ fuel →
      unescapeChars fuel (l.map (fun c => (escapeOf c).data)).flatten = l := by
  induction l with
  | nil =>
    intro fuel _
    cases fuel <;> rfl
  | cons c l ih =>
    intro fuel hf
    simp only [List.map_cons, List.flatten_cons] at hf ⊢
    obtain ⟨fuel', hle, heq⟩ := unescapeChars_escape c _ fuel hf
    rw [heq, ih fuel' hle]

theorem FormatStringData_data (s : String) :
    (Text.FormatStringData s).data = (s.data.map (fun c => (escapeOf c).data)).flatten := by
  have h := format_fold_data s.data ""
  simpa [Text.FormatStringData] using h

/-- C37: replacing the five entities in the output of `FormatStringData`, scanning
left to right, gives back the input, and therefore two strings with equal escaped
outputs are equal. -/
theorem FormatStringData_left_inverse :
    (∀ s : String, unescapeEntities (Text.FormatStringData s) = s) ∧
    (∀ s t : String, Text.FormatStringData s = Text.FormatStringData t → s = t) := by
  have hinv : ∀ s : String, unescapeEntities (Text.FormatStringData s) = s := by
    intro s
    unfold unescapeEntities
    have hd := FormatStringData_data s
    have : unescapeChars (Text.FormatStringData s).length (Text.FormatStringData s).data
        = s.data := by
      rw [String.length, hd]
      exact unescapeChars_escaped s.data _ (le_refl _)
    rw [this]
  refine ⟨hinv, ?_⟩
  intro s t h
  rw [← hinv s, ← hinv t, h]

end svg

namespace json

theorem data_lt_trichotomy (a b : String) : a.data < b.data ∨ a = b ∨ b.data < a.data := by
  rcases lt_trichotomy a b with h | h | h
  · exact Or.inl (String.lt_iff_toList_lt.1 h)
  · exact Or.inr (Or.inl h)
  · exact Or.inr (Or.inr (String.lt_iff_toList_lt.1 h))

theorem data_lt_trans (a b c : String) (h1 : a.data < b.data) (h2 : b.data < c.data) :
    a.data < c.data :=
  String.lt_iff_toList_lt.1
    (lt_trans (String.lt_iff_toList_lt.2 h1) (String.lt_iff_toList_lt.2 h2))

theorem dictInsert_mem (key : String) (value : Node) (l : List (String × Node)) :
    ∀ p, p ∈ dictInsert key value l → p ∈ l ∨ p = (key, value) := by
  induction l with
  | nil =>
    intro p hp
    simp only [dictInsert, List.mem_singleton] at hp
    exact Or.inr hp
  | cons x rest ih =>
    obtain ⟨k, v⟩ := x
    intro p hp
    unfold dictInsert at hp
    split_ifs at hp with h1 h2
    · rcases List.mem_cons.1 hp with hp | hp
      · exact Or.inr hp
      · exact Or.inl hp
    · rcases List.mem_cons.1 hp with hp | hp
      · exact Or.inl (hp ▸ List.mem_cons_self _ _)
      · rcases ih p hp with h | h
        · exact Or.inl (List.mem_cons_of_mem _ h)
        · exact Or.inr h
    · exact Or.inl hp

theorem mem_dictInsert_of_mem (key : String) (value : Node) (l : List (String × Node)) :
    ∀ p, p ∈ l → p ∈ dictInsert key value l := by
  induction l with
  | nil =>
    intro p hp
    exact absurd hp (List.not_mem_nil p)
  | cons x rest ih =>
    obtain ⟨k, v⟩ := x
    intro p hp
    unfold dictInsert
    split_ifs with h1 h2
    · exact List.mem_cons_of_mem _ hp
    · rcases List.mem_cons.1 hp with hp | hp
      · exact hp ▸ List.mem_cons_self _ _
      · exact List.mem_cons_of_mem _ (ih p hp)
    · exact hp

theorem mem_dictInsert_self (key : String) (value : Node) (l : List (String × Node))
    (hk : key ∉ l.map Prod.fst) : (key, value) ∈ dictInsert key value l := by
  induction l with
  | nil => simp [dictInsert]
  | cons x rest ih =>
    obtain ⟨k, v⟩ := x
    have hne : key ≠ k := fun e => hk (by simp [e])
    have hrest : key ∉ rest.map Prod.fst := fun h => hk (by
      rw [List.map_cons]
      exact List.mem_cons_of_mem _ h)
    unfold dictInsert
    split_ifs with h1 h2
    · exact List.mem_cons_self _ _
    · exact List.mem_cons_of_mem _ (ih hrest)
    · rcases data_lt_trichotomy key k with h | h | h
      · exact absurd h h1
      · exact absurd h hne
      · exact absurd h h2

theorem dictInsert_sorted (key : String) (value : Node) (l : List (String × Node))
    (hs : l.Pairwise (fun a b => a.1.data < b.1.data)) :
    (dictInsert key value l).Pairwise (fun a b => a.1.data < b.1.data) := by
  induction l with
  | nil => simp [dictInsert]
  | cons x rest ih =>
    obtain ⟨k, v⟩ := x
    rw [List.pairwise_cons] at hs
    unfold dictInsert
    split_ifs with h1 h2
    · refine List.pairwise_cons.2 ⟨?_, List.pairwise_cons.2 hs⟩
      intro p hp
      rcases List.mem_cons.1 hp with hp | hp
      · rw [hp]
        exact h1
      · exact data_lt_trans _ _ _ h1 (hs.1 p hp)
    · refine List.pairwise_cons.2 ⟨?_, ih hs.2⟩
      intro p hp
      rcases dictInsert_mem key value rest p hp with h | h
      · exact hs.1 p h
      · rw [h]
        exact h2
    · exact List.pairwise_cons.2 hs

theorem dictInsert_length (key : String) (value : Node) (l : List (String × Node))
    (hk : key ∉ l.map Prod.fst) : (dictInsert key value l).length = l.length + 1 := by
  induction l with
  | nil => simp [dictInsert]
  | cons x rest ih =>
    obtain ⟨k, v⟩ := x
    have hne : key ≠ k := fun e => hk (by simp [e])
    have hrest : key ∉ rest.map Prod.fst := fun h => hk (by
      rw [List.map_cons]
      exact List.mem_cons_of_mem _ h)
    unfold dictInsert
    split_ifs with h1 h2
    · simp
    · simp [ih hrest]
    · rcases data_lt_trichotomy key k with h | h | h
      · exact absurd h h1
      · exact absurd h hne
      · exact absurd h h2

/-- The dict that `EndDict` assembles from entries in call order: the last entry
is inserted first. -/
theorem dict_of_entries (entries : List (String × Node))
    (hk : (entries.map Prod.fst).Nodup) :
    (∀ p, p ∈ entries.foldr (fun e acc => dictInsert e.1 e.2 acc) [] ↔ p ∈ entries) ∧
    (entries.foldr (fun e acc => dictInsert e.1 e.2 acc) []).Pairwise
      (fun a b => a.1.data < b.1.data) ∧
    (entries.foldr (fun e acc => dictInsert e.1 e.2 acc) []).length = entries.length := by
  induction entries with
  | nil => simp
  | cons e es ih =>
    rw [List.map_cons, List.nodup_cons] at hk
    obtain ⟨hmem, hsorted, hlen⟩ := ih hk.2
    rw [List.foldr_cons]
    have hnot : e.1 ∉ (es.foldr (fun e acc => dictInsert e.1 e.2 acc) []).map Prod.fst := by
      intro hin
      obtain ⟨q, hq, hqe⟩ := List.mem_map.1 hin
      exact hk.1 (List.mem_map.2 ⟨q, (hmem q).1 hq, hqe⟩)
    refine ⟨?_, dictInsert_sorted _ _ _ hsorted, ?_⟩
    swap
    · rw [dictInsert_length _ _ _ hnot, hlen, List.length_cons]
    intro p
    constructor
    · intro hp
      rcases dictInsert_mem _ _ _ p hp with h | h
      · exact List.mem_cons_of_mem _ ((hmem p).1 h)
      · rw [h]
        exact List.mem_cons_self _ _
    · intro hp
      rcases List.mem_cons.1 hp with h | h
      · rw [h]
        exact mem_dictInsert_self _ _ _ hnot
      · exact mem_dictInsert_of_mem _ _ _ p ((hmem p).2 h)

namespace Builder

theorem popArrayItems_nodes (arr : HelperNode) (harr : arr.state = .ARRAY_START)
    (below : List HelperNode) (ns : List Node) :
    ∀ popped, popArrayItems
      (ns.map (fun n => (⟨.COMPLETE_OBJ, some n⟩ : HelperNode)) ++ arr :: below) popped
      = .ok (popped ++ ns, arr :: below) := by
  induction ns with
  | nil =>
    intro popped
    simp [popArrayItems, harr]
  | cons n ns ih =>
    intro popped
    rw [List.map_cons, List.cons_append]
    unfold popArrayItems
    rw [if_neg (by simp), if_neg (by simp)]
    simp only [deref, bind, Except.bind]
    rw [ih]
    simp

theorem popDictEntries_nodes (ds : HelperNode) (hds : ds.state = .DICT_START)
    (below : List HelperNode) (es : List (String × Node)) :
    ∀ entries, popDictEntries
      ((es.map (fun e => [(⟨.COMPLETE_OBJ, some e.2⟩ : HelperNode),
        ⟨.KEY, some (.string e.1)⟩])).flatten ++ ds :: below) entries
      = .ok (es.foldl (fun acc e => dictInsert e.1 e.2 acc) entries, ds :: below) := by
  induction es with
  | nil =>
    intro entries
    exact popDictEntries_start ds hds below entries
  | cons e es ih =>
    intro entries
    rw [List.map_cons, List.flatten_cons, List.append_assoc]
    show popDictEntries (_ :: _ :: (_ ++ ds :: below)) entries = _
    rw [popDictEntries]
    rw [if_neg (by simp), if_neg (by simp), if_neg (by simp), if_neg (by simp)]
    simp only [deref, Node.AsString, bind, Except.bind]
    rw [ih]
    rfl

theorem run_items_nodes (items : List (List Call × Node))
    (h : ∀ p ∈ items, ∀ b : Builder,
      run p.1 b = .ok ⟨⟨.COMPLETE_OBJ, some p.2⟩ :: b.nodes_⟩) :
    ∀ b : Builder, run (items.map Prod.fst).flatten b
      = .ok ⟨(items.map Prod.snd).reverse.map
          (fun n => (⟨.COMPLETE_OBJ, some n⟩ : HelperNode)) ++ b.nodes_⟩ := by
  induction items with
  | nil =>
    intro b
    rfl
  | cons p items ih =>
    intro b
    rw [List.map_cons, List.flatten_cons, run_append, h p (List.mem_cons_self _ _) b]
    simp only [bind, Except.bind]
    rw [ih (fun q hq => h q (List.mem_cons_of_mem _ hq))]
    simp

theorem run_entries_nodes (entries : List (String × List Call × Node))
    (h : ∀ e ∈ entries, ∀ b : Builder,
      run e.2.1 b = .ok ⟨⟨.COMPLETE_OBJ, some e.2.2⟩ :: b.nodes_⟩) :
    ∀ b : Builder, run (entries.map (fun e => Call.Key e.1 :: e.2.1)).flatten b
      = .ok ⟨((entries.map (fun e => (e.1, e.2.2))).reverse.map
          (fun e => [(⟨.COMPLETE_OBJ, some e.2⟩ : HelperNode),
            ⟨.KEY, some (.string e.1)⟩])).flatten ++ b.nodes_⟩ := by
  induction entries with
  | nil =>
    intro b
    rfl
  | cons e entries ih =>
    intro b
    rw [List.map_cons, List.flatten_cons, run_append, run_cons]
    simp only [call, bind, Except.bind]
    rw [h e (List.mem_cons_self _ _) (b.Key e.1)]
    simp only []
    rw [ih (fun q hq => h q (List.mem_cons_of_mem _ hq))]
    simp [Key]

theorem run_array_nodes (items : List (List Call × Node))
    (h : ∀ p ∈ items, ∀ b : Builder,
      run p.1 b = .ok ⟨⟨.COMPLETE_OBJ, some p.2⟩ :: b.nodes_⟩) (b : Builder) :
    run (Call.StartArray :: ((items.map Prod.fst).flatten ++ [Call.EndArray])) b
      = .ok ⟨⟨.COMPLETE_OBJ, some (.array (items.map Prod.snd))⟩ :: b.nodes_⟩ := by
  rw [run_cons]
  simp only [call, bind, Except.bind]
  rw [run_append, run_items_nodes items h]
  simp only [bind, Except.bind]
  rw [run_cons]
  simp only [call, EndArray, StartArray, bind, Except.bind]
  rw [popArrayItems_nodes ⟨.ARRAY_START, none⟩ rfl]
  simp [run]
  rfl

theorem run_dict_nodes (entries : List (String × List Call × Node))
    (h : ∀ e ∈ entries, ∀ b : Builder,
      run e.2.1 b = .ok ⟨⟨.COMPLETE_OBJ, some e.2.2⟩ :: b.nodes_⟩) (b : Builder) :
    run (Call.StartDict ::
        ((entries.map (fun e => Call.Key e.1 :: e.2.1)).flatten ++ [Call.EndDict])) b
      = .ok ⟨⟨.COMPLETE_OBJ, some (.dict ((entries.map (fun e => (e.1, e.2.2))).foldr
          (fun e acc => dictInsert e.1 e.2 acc) []))⟩ :: b.nodes_⟩ := by
  rw [run_cons]
  simp only [call, bind, Except.bind]
  rw [run_append, run_entries_nodes entries h]
  simp only [bind, Except.bind]
  rw [run_cons]
  simp only [call, EndDict, StartDict, bind, Except.bind]
  rw [popDictEntries_nodes ⟨.DICT_START, none⟩ rfl]
  simp only [List.foldl_reverse]
  rfl

theorem choose_nodes {α β : Type} (P : α → β → Prop) (l : List α)
    (h : ∀ a ∈ l, ∃ b, P a b) :
    ∃ l' : List (α × β), l'.map Prod.fst = l ∧ ∀ p ∈ l', P p.1 p.2 := by
  induction l with
  | nil => exact ⟨[], rfl, fun p hp => absurd hp (List.not_mem_nil p)⟩
  | cons a l ih =>
    obtain ⟨b, hb⟩ := h a (List.mem_cons_self _ _)
    obtain ⟨l', hl, hp⟩ := ih (fun x hx => h x (List.mem_cons_of_mem _ hx))
    refine ⟨(a, b) :: l', by simp [hl], ?_⟩
    intro p hp'
    rcases List.mem_cons.1 hp' with e | e
    · rw [e]
      exact hb
    · exact hp p e

/-- A sequence that describes one complete value pushes the same node on every
builder. -/
theorem run_IsValue_frame (s : List Call) (h : IsValue s) :
    ∃ n, ∀ b : Builder, run s b = .ok ⟨⟨.COMPLETE_OBJ, some n⟩ :: b.nodes_⟩ := by
  induction h with
  | value v => exact ⟨v, fun b => rfl⟩
  | array items _ ih =>
    obtain ⟨l, hl, hp⟩ := choose_nodes
      (fun (s : List Call) (n : Node) =>
        ∀ b : Builder, run s b = .ok ⟨⟨.COMPLETE_OBJ, some n⟩ :: b.nodes_⟩) items ih
    refine ⟨.array (l.map Prod.snd), fun b => ?_⟩
    rw [← hl]
    exact run_array_nodes l hp b
  | dict entries _ ih =>
    obtain ⟨l, hl, hp⟩ := choose_nodes
      (fun (e : String × List Call) (n : Node) =>
        ∀ b : Builder, run e.2 b = .ok ⟨⟨.COMPLETE_OBJ, some n⟩ :: b.nodes_⟩) entries
      (fun e he => ih e he)
    have h' := run_dict_nodes (l.map (fun p => (p.1.1, p.1.2, p.2)))
      (by
        intro e he b
        obtain ⟨p, hp', rfl⟩ := List.mem_map.1 he
        exact hp p hp' b)
    refine ⟨.dict (List.foldr (fun e acc => dictInsert e.1 e.2 acc) []
      (List.map (fun (e : String × List Call × Node) => (e.1, e.2.2))
        (List.map (fun (p : (String × List Call) × Node) => (p.1.1, p.1.2, p.2)) l))),
      fun b => ?_⟩
    have hb := h' b
    rw [List.map_map] at hb
    have hmap : List.map ((fun (e : String × List Call × Node) => Call.Key e.1 :: e.2.1) ∘
        fun (p : (String × List Call) × Node) => (p.1.1, p.1.2, p.2)) l
        = entries.map (fun e => Call.Key e.1 :: e.2) := by
      rw [← hl, List.map_map]
      rfl
    rw [hmap] at hb
    exact hb

theorem run_of_buildFrom (s : List Call) (h : IsValue s) (n : Node)
    (hn : buildFrom s = .ok n) :
    ∀ b : Builder, run s b = .ok ⟨⟨.COMPLETE_OBJ, some n⟩ :: b.nodes_⟩ := by
  obtain ⟨n', hn'⟩ := run_IsValue_frame s h
  have h0 := hn' {}
  unfold buildFrom at hn
  rw [h0] at hn
  simp only [bind, Except.bind, Build, deref] at hn
  have : n' = n := by
    injection hn
  rw [← this]
  exact hn'

/-- C38: for complete JSON values, each given by its calls and the node these
calls build on a fresh builder, `StartArray`, the values, `EndArray`, `Build`
returns the array of the nodes in call order; and `StartDict`, a `Key` before each
value, `EndDict`, `Build` with distinct keys returns a dict, ascending in the key,
whose entries are exactly the pairs of a key and the node of its value.  Every
complete value builds such a node. -/
theorem Build_array_and_dict_of_values :
    (∀ s, IsValue s → ∃ n, buildFrom s = .ok n) ∧
    (∀ items : List (List Call × Node),
      (∀ p ∈ items, IsValue p.1 ∧ buildFrom p.1 = .ok p.2) →
      buildFrom (Call.StartArray :: ((items.map Prod.fst).flatten ++ [Call.EndArray]))
        = .ok (.array (items.map Prod.snd))) ∧
    (∀ entries : List (String × List Call × Node),
      (∀ e ∈ entries, IsValue e.2.1 ∧ buildFrom e.2.1 = .ok e.2.2) →
      (entries.map (fun e => e.1)).Nodup →
      ∃ d, buildFrom (Call.StartDict ::
          ((entries.map (fun e => Call.Key e.1 :: e.2.1)).flatten ++ [Call.EndDict]))
          = .ok (.dict d) ∧
        (∀ k v, (k, v) ∈ d ↔ ∃ e ∈ entries, e.1 = k ∧ e.2.2 = v) ∧
        d.Pairwise (fun a b => a.1.data < b.1.data) ∧
        d.length = entries.length) := by
  refine ⟨?_, ?_, ?_⟩
  · intro s hs
    obtain ⟨n, hn⟩ := run_IsValue_frame s hs
    refine ⟨n, ?_⟩
    unfold buildFrom
    rw [hn {}]
    rfl
  · intro items h
    unfold buildFrom
    rw [run_array_nodes items (fun p hp => run_of_buildFrom p.1 (h p hp).1 p.2 (h p hp).2)]
    rfl
  · intro entries h hk
    have hk' : ((entries.map (fun e => (e.1, e.2.2))).map Prod.fst).Nodup := by
      rw [List.map_map]
      exact hk
    obtain ⟨hmem, hsorted, hlen⟩ := dict_of_entries (entries.map (fun e => (e.1, e.2.2))) hk'
    refine ⟨_, ?_, ?_, hsorted, ?_⟩
    · unfold buildFrom
      rw [run_dict_nodes entries
        (fun e he => run_of_buildFrom e.2.1 (h e he).1 e.2.2 (h e he).2)]
      rfl
    · intro k v
      rw [hmem]
      constructor
      · intro hp
        obtain ⟨e, he, heq⟩ := List.mem_map.1 hp
        injection heq with h1 h2
        exact ⟨e, he, h1, h2⟩
      · rintro ⟨e, he, h1, h2⟩
        exact List.mem_map.2 ⟨e, he, by rw [h1, h2]⟩
    · rw [hlen, List.length_map]

theorem Build_array_and_dict_of_values_witness :
    buildFrom (Call.StartArray :: ((([([Call.Value (.int 1)], Node.int 1),
        ([Call.StartArray, Call.Value (.bool true), Call.EndArray],
          Node.array [.bool true])] : List (List Call × Node)).map Prod.fst).flatten
        ++ [Call.EndArray]))
      = .ok (.array [.int 1, .array [.bool true]]) ∧
    ∃ d, buildFrom (Call.StartDict ::
        (((([("b", [Call.Value (.int 2)], Node.int 2),
          ("a", [Call.StartDict, Call.EndDict], Node.dict [])] :
            List (String × List Call × Node)).map
          (fun e => Call.Key e.1 :: e.2.1)).flatten) ++ [Call.EndDict]))
        = .ok (.dict d) ∧
      (∀ k v, (k, v) ∈ d ↔
        ∃ e ∈ ([("b", [Call.Value (.int 2)], Node.int 2),
          ("a", [Call.StartDict, Call.EndDict], Node.dict [])] :
            List (String × List Call × Node)), e.1 = k ∧ e.2.2 = v) ∧
      d.Pairwise (fun a b => a.1.data < b.1.data) ∧
      d.length = 2 :=
  ⟨Build_array_and_dict_of_values.2.1 _ (by
      intro p hp
      simp only [List.mem_cons, List.mem_singleton, List.not_mem_nil, or_false] at hp
      rcases hp with rfl | rfl
      · exact ⟨IsValue.value _, rfl⟩
      · exact ⟨IsValue.array [[Call.Value (.bool true)]] (by
          intro s hs
          rw [List.mem_singleton.1 hs]
          exact IsValue.value _), rfl⟩),
    Build_array_and_dict_of_values.2.2 _ (by
      intro e he
      simp only [List.mem_cons, List.mem_singleton, List.not_mem_nil, or_false] at he
      rcases he with rfl | rfl
      · exact ⟨IsValue.value _, rfl⟩
      · exact ⟨IsValue.dict [] (by simp), rfl⟩) (by simp)⟩

end Builder

end json

namespace TransportRouter

open TransportCatalogue graph

theorem forall₂_eq_map {α β : Type} (R : α → β → Prop) (f : α → β) (l1 : List α)
    (l2 : List β) (h : List.Forall₂ R l1 l2) (hf : ∀ a ∈ l1, ∀ b, R a b → b = f a) :
    l2 = l1.map f := by
  induction h with
  | nil => rfl
  | cons hab _ ih =>
    rw [List.map_cons, hf _ (List.mem_cons_self _ _) _ hab,
      ih (fun a ha b hb => hf a (List.mem_cons_of_mem _ ha) b hb)]

theorem IsRideEdge_eq (m : Libm) (r : TransportRouter) (bus : Bus) (i j : Nat)
    (e : Edge EdgeInfo) (h : IsRideEdge m r bus i j e) : e = rideEdgeOf m r bus (i, j) := by
  obtain ⟨vi, vj, D, h1, h2, h3, rfl⟩ := h
  simp only [rideEdgeOf, h1, h2, h3]

theorem palindrome_getElem? {α : Type} (l : List α) (hp : l.reverse = l) (x : Nat)
    (hx : x < l.length) : l[l.length - 1 - x]? = l[x]? := by
  have h := List.getElem?_reverse hx
  rw [hp] at h
  exact h.symm

theorem routeVertex_mirror (r : TransportRouter) (bus : Bus)
    (hp : bus.route.reverse = bus.route) (x : Nat) (hx : x < bus.route.length) :
    r.routeVertex bus (bus.route.length - 1 - x) = r.routeVertex bus x := by
  unfold routeVertex TransportCatalogue.index
  rw [palindrome_getElem? bus.route hp x hx]

theorem sum_reflect (F : Nat → ℚ) (n : Nat) :
    ((List.range n).map (fun t => F (n - 1 - t))).sum = ((List.range n).map F).sum := by
  induction n with
  | zero => rfl
  | succ n ih =>
    rw [List.range_succ_eq_map, List.map_cons, List.sum_cons, List.map_map]
    have h1 : List.map ((fun t => F (n + 1 - 1 - t)) ∘ Nat.succ) (List.range n)
        = List.map (fun t => F (n - 1 - t)) (List.range n) := by
      apply List.map_congr_left
      intro t _
      show F (n + 1 - 1 - (t + 1)) = F (n - 1 - t)
      congr 1
      omega
    rw [h1, ih]
    have h2 : List.range (n + 1) = List.range n ++ [n] := List.range_succ n
    rw [← List.range_succ_eq_map, h2, List.map_append, List.sum_append]
    simp
    ring

theorem foldlM_add_values (ks : List Nat) (body : ℚ → Nat → Except Fault ℚ) (val : Nat → ℚ)
    (h : ∀ k ∈ ks, ∀ acc, body acc k = .ok (acc + val k)) :
    ∀ acc, ks.foldlM body acc = .ok (acc + (ks.map val).sum) := by
  induction ks with
  | nil =>
    intro acc
    simp [pure, Except.pure]
  | cons k ks ih =>
    intro acc
    rw [List.foldlM_cons, h k (List.mem_cons_self _ _) acc]
    show ks.foldlM body (acc + val k) = _
    rw [ih (fun k' hk' => h k' (List.mem_cons_of_mem _ hk'))]
    simp [add_assoc]

theorem segmentDistance_closed (m : Libm) (c : TransportCatalogue) (route : List StopPtr)
    (hv : ∀ p ∈ route, p < c.stops_.length) (a b : Nat) (hb : b < route.length) :
    segmentDistance m c route a b = .ok
      (((List.range' (a + 1) (b - a)).map
        (fun k => distanceOrZero m c (route.getD (k - 1) 0) (route.getD k 0))).sum) := by
  unfold segmentDistance
  rw [foldlM_add_values _ _ (fun k => distanceOrZero m c (route.getD (k - 1) 0) (route.getD k 0))]
  · simp
  · intro k hk acc
    rw [List.mem_range'_1] at hk
    have hk1 : k - 1 < route.length := by omega
    have hk2 : k < route.length := by omega
    obtain ⟨d, hd⟩ := TransportCatalogue.GetDistance_ok_of_valid m c route[k - 1] route[k]
      (hv _ (List.getElem_mem hk1)) (hv _ (List.getElem_mem hk2))
    rw [vectorAt_ok_of_lt route (k - 1) hk1, vectorAt_ok_of_lt route k hk2]
    simp only [bind, Except.bind, hd, pure, Except.pure, distanceOrZero,
      List.getD_eq_getElem?_getD, List.getElem?_eq_getElem hk1, List.getElem?_eq_getElem hk2,
      Option.getD_some]

theorem segmentDistanceReverse_closed (m : Libm) (c : TransportCatalogue)
    (route : List StopPtr) (hv : ∀ p ∈ route, p < c.stops_.length) (a b : Nat)
    (hb : b < route.length) :
    segmentDistanceReverse m c route a b = .ok
      (((List.range' (a + 1) (b - a)).map
        (fun k => distanceOrZero m c (route.getD k 0) (route.getD (k - 1) 0))).sum) := by
  unfold segmentDistanceReverse
  rw [foldlM_add_values _ _ (fun k => distanceOrZero m c (route.getD k 0) (route.getD (k - 1) 0))]
  · simp
  · intro k hk acc
    rw [List.mem_range'_1] at hk
    have hk1 : k - 1 < route.length := by omega
    have hk2 : k < route.length := by omega
    obtain ⟨d, hd⟩ := TransportCatalogue.GetDistance_ok_of_valid m c route[k] route[k - 1]
      (hv _ (List.getElem_mem hk2)) (hv _ (List.getElem_mem hk1))
    rw [vectorAt_ok_of_lt route (k - 1) hk1, vectorAt_ok_of_lt route k hk2]
    simp only [bind, Except.bind, hd, pure, Except.pure, distanceOrZero,
      List.getD_eq_getElem?_getD, List.getElem?_eq_getElem hk1, List.getElem?_eq_getElem hk2,
      Option.getD_some]

theorem palindrome_getD (route : List StopPtr) (hp : route.reverse = route) (x : Nat)
    (hx : x < route.length) : route.getD (route.length - 1 - x) 0 = route.getD x 0 := by
  rw [List.getD_eq_getElem?_getD, List.getD_eq_getElem?_getD,
    palindrome_getElem? route hp x hx]

/-- On a route that reads the same in both directions, the distance of the way back
from position `j` to position `i` is the distance along the mirrored positions. -/
theorem segmentDistance_mirror (m : Libm) (c : TransportCatalogue) (route : List StopPtr)
    (hv : ∀ p ∈ route, p < c.stops_.length) (hp : route.reverse = route) (i j : Nat)
    (hij : i < j) (hj : j < route.length) :
    segmentDistance m c route (route.length - 1 - j) (route.length - 1 - i)
      = segmentDistanceReverse m c route i j := by
  rw [segmentDistance_closed m c route hv _ _ (by omega),
    segmentDistanceReverse_closed m c route hv _ _ hj]
  have hn : route.length - 1 - i - (route.length - 1 - j) = j - i := by omega
  rw [hn, List.range'_eq_map_range, List.range'_eq_map_range, List.map_map, List.map_map,
    ← sum_reflect (fun t => ((fun k => distanceOrZero m c (route.getD k 0)
      (route.getD (k - 1) 0)) ∘ fun x => i + 1 + x) t) (j - i)]
  congr 2
  apply List.map_congr_left
  intro t ht
  rw [List.mem_range] at ht
  simp only [Function.comp]
  have e1 : route.length - 1 - j + 1 + t - 1 = route.length - 1 - (i + 1 + (j - i - 1 - t)) := by
    omega
  have e2 : route.length - 1 - j + 1 + t
      = route.length - 1 - (i + 1 + (j - i - 1 - t) - 1) := by omega
  rw [e1, e2, palindrome_getD route hp _ (by omega), palindrome_getD route hp _ (by omega)]

theorem IsReverseRideEdge_eq (m : Libm) (r : TransportRouter) (bus : Bus)
    (hv : ∀ p ∈ bus.route, p < r.transport_catalogue_.stops_.length)
    (hp : bus.route.reverse = bus.route) (i j : Nat) (hij : i < j)
    (hj : j < bus.route.length) (e : Edge EdgeInfo)
    (h : IsReverseRideEdge m r bus i j e) :
    e = rideEdgeOf m r bus (bus.route.length - 1 - j, bus.route.length - 1 - i) := by
  obtain ⟨vi, vj, D, h1, h2, h3, rfl⟩ := h
  have hs : bus.route.length - 1 - i - (bus.route.length - 1 - j) = j - i := by omega
  simp only [rideEdgeOf, routeVertex_mirror r bus hp j hj,
    routeVertex_mirror r bus hp i (by omega), h1, h2,
    segmentDistance_mirror m r.transport_catalogue_ bus.route hv hp i j hij hj, h3, hs]

theorem zip_filter_map {α β : Type} (f : α → β) (c : α → Bool) (l : List α) :
    ((l.zip (l.map f)).filter (fun p => c p.1)).map Prod.snd = (l.filter c).map f := by
  induction l with
  | nil => rfl
  | cons a l ih =>
    rw [List.map_cons, List.zip_cons_cons]
    by_cases h : c a = true
    · rw [List.filter_cons_of_pos (by exact h), List.filter_cons_of_pos h, List.map_cons,
        List.map_cons, ih]
    · rw [List.filter_cons_of_neg (by exact h), List.filter_cons_of_neg h, ih]

theorem flatten_pairs_perm {α β : Type} (f g : α → β) (l : List α) :
    ((l.map (fun a => [f a, g a])).flatten).Perm (l.map f ++ l.map g) := by
  induction l with
  | nil => exact List.Perm.refl _
  | cons a l ih =>
    rw [List.map_cons, List.flatten_cons, List.map_cons, List.map_cons]
    show (f a :: g a :: _).Perm (f a :: (l.map f ++ g a :: l.map g))
    exact List.Perm.cons _ ((List.Perm.cons _ ih).trans List.perm_middle.symm)

/-- The pairs within the outbound half together with their mirror images are the
pairs that lie within one half. -/
theorem pairs_halves_perm (n : Nat) (hn : n = 0 ∨ n % 2 = 1) :
    (pairs (n / 2 + 1) ++ (pairs (n / 2 + 1)).map
        (fun ij => (n - 1 - ij.2, n - 1 - ij.1))).Perm
      ((pairs n).filter (fun ij => decide (ij.2 ≤ n / 2) || decide (n / 2 ≤ ij.1))) := by
  rw [List.perm_ext_iff_of_nodup]
  · rintro ⟨a, b⟩
    simp only [List.mem_append, List.mem_map, List.mem_filter, Bool.or_eq_true,
      decide_eq_true_eq, Prod.mk.injEq, Prod.exists, mem_pairs]
    constructor
    · rintro (h | ⟨i, j, h, h1, h2⟩) <;> omega
    · rintro ⟨h, h' | h'⟩
      · exact Or.inl (by omega)
      · exact Or.inr ⟨n - 1 - b, n - 1 - a, by omega, by omega, by omega⟩
  · rw [List.nodup_append]
    refine ⟨pairs_nodup _, ?_, ?_⟩
    · refine (pairs_nodup _).map_on ?_
      rintro ⟨i, j⟩ h1 ⟨i', j'⟩ h2 heq
      rw [mem_pairs] at h1 h2
      simp only [Prod.mk.injEq] at heq ⊢
      omega
    · rintro ⟨a, b⟩ h1 h2
      rw [mem_pairs] at h1
      simp only [List.mem_map, Prod.mk.injEq, Prod.exists, mem_pairs] at h2
      obtain ⟨i, j, h, h3, h4⟩ := h2
      omega
  · exact (pairs_nodup n).filter _

theorem AddRoundTrip_closed (m : Libm) (r : TransportRouter)
    (hkeys : ∀ s ∈ r.transport_catalogue_.stops_,
      (r.stop_name_to_index_.find? s.name).isSome = true)
    (bus : Bus) (hv : ∀ p ∈ bus.route, p < r.transport_catalogue_.stops_.length)
    (g : DirectedWeightedGraph EdgeInfo) :
    ∃ added,
      AddRoundTrip m r bus g = .ok { g with edges_ := g.edges_ ++ added } ∧
      List.Forall₂ (fun (ij : Nat × Nat) e => IsRideEdge m r bus ij.1 ij.2 e)
        (pairs bus.route.length) added := by
  obtain ⟨groups, hfold, hgroups⟩ := round_outer m r hkeys bus hv
    (List.range bus.route.length) (fun i hi => List.mem_range.1 hi) g
  exact ⟨groups.flatten, hfold, forall₂_flatten_pairs (fun i j e => IsRideEdge m r bus i j e)
    (fun i => List.range' (i + 1) (bus.route.length - (i + 1)))
    (List.range bus.route.length) groups hgroups⟩

theorem AddLinearTrip_closed (m : Libm) (r : TransportRouter)
    (hkeys : ∀ s ∈ r.transport_catalogue_.stops_,
      (r.stop_name_to_index_.find? s.name).isSome = true)
    (bus : Bus) (hv : ∀ p ∈ bus.route, p < r.transport_catalogue_.stops_.length)
    (g : DirectedWeightedGraph EdgeInfo) :
    ∃ groups : List (List (Edge EdgeInfo)),
      AddLinearTrip m r bus g = .ok { g with edges_ := g.edges_ ++ groups.flatten } ∧
      List.Forall₂
        (fun (ij : Nat × Nat) es => ∃ forward backward, es = [forward, backward] ∧
          IsRideEdge m r bus ij.1 ij.2 forward ∧ IsReverseRideEdge m r bus ij.1 ij.2 backward)
        (pairs (bus.route.length / 2 + 1)) groups := by
  obtain ⟨groups, hfold, hgroups⟩ := linear_outer m r hkeys bus hv
    (List.range (bus.route.length / 2 + 1)) (fun i hi => List.mem_range.1 hi) g
  exact ⟨groups.flatten, hfold, forall₂_flatten_pairs
    (fun i j es => ∃ forward backward, es = [forward, backward] ∧
      IsRideEdge m r bus i j forward ∧ IsReverseRideEdge m r bus i j backward)
    (fun i => List.range' (i + 1) (bus.route.length / 2 + 1 - (i + 1)))
    (List.range (bus.route.length / 2 + 1)) groups hgroups⟩

/-- On a route that reads the same in both directions and is empty or of odd
length, the edges of `AddLinearTrip` are a rearrangement of the edges of
`AddRoundTrip` whose pair of positions lies within one half of the route. -/
theorem linear_perm_round (m : Libm) (r : TransportRouter)
    (hkeys : ∀ s ∈ r.transport_catalogue_.stops_,
      (r.stop_name_to_index_.find? s.name).isSome = true)
    (bus : Bus) (hv : ∀ p ∈ bus.route, p < r.transport_catalogue_.stops_.length)
    (hp : bus.route.reverse = bus.route)
    (hn : bus.route.length = 0 ∨ bus.route.length % 2 = 1)
    (g : DirectedWeightedGraph EdgeInfo) :
    ∃ round linear,
      AddRoundTrip m r bus g = .ok { g with edges_ := g.edges_ ++ round } ∧
      AddLinearTrip m r bus g = .ok { g with edges_ := g.edges_ ++ linear } ∧
      List.Forall₂ (fun (ij : Nat × Nat) e => IsRideEdge m r bus ij.1 ij.2 e)
        (pairs bus.route.length) round ∧
      linear.Perm (roundTripEdgesWithinHalves bus.route.length round) := by
  obtain ⟨round, hround, hr2⟩ := AddRoundTrip_closed m r hkeys bus hv g
  obtain ⟨groups, hlinear, hl2⟩ := AddLinearTrip_closed m r hkeys bus hv g
  refine ⟨round, groups.flatten, hround, hlinear, hr2, ?_⟩
  have hre : round = (pairs bus.route.length).map (rideEdgeOf m r bus) :=
    forall₂_eq_map _ _ _ _ hr2 (fun ij _ e he => IsRideEdge_eq m r bus ij.1 ij.2 e he)
  have hge : groups = (pairs (bus.route.length / 2 + 1)).map
      (fun ij => [rideEdgeOf m r bus ij,
        rideEdgeOf m r bus (bus.route.length - 1 - ij.2, bus.route.length - 1 - ij.1)]) := by
    refine forall₂_eq_map _ _ _ _ hl2 ?_
    rintro ⟨i, j⟩ hij es ⟨f, b, rfl, hf, hb⟩
    rw [mem_pairs] at hij
    rw [IsRideEdge_eq m r bus i j f hf,
      IsReverseRideEdge_eq m r bus hv hp i j hij.1 (by omega) b hb]
  unfold roundTripEdgesWithinHalves
  rw [hre, zip_filter_map (rideEdgeOf m r bus)
    (fun ij => decide (ij.2 ≤ bus.route.length / 2) || decide (bus.route.length / 2 ≤ ij.1)),
    hge]
  refine (flatten_pairs_perm _ _ _).trans ?_
  have hmm : (pairs (bus.route.length / 2 + 1)).map
      (fun ij => rideEdgeOf m r bus (bus.route.length - 1 - ij.2, bus.route.length - 1 - ij.1))
      = ((pairs (bus.route.length / 2 + 1)).map
        (fun ij => (bus.route.length - 1 - ij.2, bus.route.length - 1 - ij.1))).map
          (rideEdgeOf m r bus) := by
    rw [List.map_map]
    rfl
  rw [hmm, ← List.map_append]
  exact (pairs_halves_perm bus.route.length hn).map _

/-- C36: for a bus that `AddBus` stored from `k` stop names (fewer than `2^31`, the
range of the `int` loop counter) as not a round trip, the stored route is the
declared stops followed by the way back, reads the same in both directions and has
`2k - 1` positions when `k >= 1`; `AddRoundTrip` and `AddLinearTrip` both return on
it, and the edges that `AddLinearTrip` appends are a rearrangement of those edges
of `AddRoundTrip` whose pair of positions `i < j` has `j <= k - 1` or `k - 1 <= i`
(`k - 1` being half the route length), so exactly the edges of the pairs with
`i < k - 1 < j` are left out. -/
theorem AddLinearTrip_is_round_trip_rule_within_halves (m : Libm)
    (c c' : TransportCatalogue) (bus_name : String) (names : List String)
    (hsize : names.length < 2 ^ 31)
    (hadd : TransportCatalogue.AddBus m c bus_name names false = .ok c')
    (bus : Bus) (hbus : c'.buses_.head? = some bus)
    (r : TransportRouter)
    (hkeys : ∀ s ∈ r.transport_catalogue_.stops_,
      (r.stop_name_to_index_.find? s.name).isSome = true)
    (hv : ∀ p ∈ bus.route, p < r.transport_catalogue_.stops_.length)
    (g : DirectedWeightedGraph EdgeInfo) :
    bus.is_roundtrip = false ∧
    bus.route.reverse = bus.route ∧
    (1 ≤ names.length →
      bus.route.length = 2 * names.length - 1 ∧ bus.route.length / 2 = names.length - 1) ∧
    ∃ round linear,
      AddRoundTrip m r bus g = .ok { g with edges_ := g.edges_ ++ round } ∧
      AddLinearTrip m r bus g = .ok { g with edges_ := g.edges_ ++ linear } ∧
      AddRouteToGraph m r bus g = .ok { g with edges_ := g.edges_ ++ linear } ∧
      List.Forall₂ (fun (ij : Nat × Nat) e => IsRideEdge m r bus ij.1 ij.2 e)
        (pairs bus.route.length) round ∧
      linear.Perm (roundTripEdgesWithinHalves bus.route.length round) ∧
      ∀ i j, (i, j) ∈ pairs bus.route.length →
        (¬ (j ≤ bus.route.length / 2 ∨ bus.route.length / 2 ≤ i) ↔
          i < bus.route.length / 2 ∧ bus.route.length / 2 < j) := by
  obtain ⟨declared, full, rl, gl, hdecl, hfull, _, _, hobj⟩ :=
    TransportCatalogue.AddBus_eq_ok m c c' bus_name names false hadd
  obtain ⟨idx, _, hceq⟩ := TransportCatalogue.AddBusObject_eq_ok c c' _ hobj
  have hlen : names.length = declared.length :=
    forall₂_length_eq ((mapM_ok_forall₂ _ _ _).1 hdecl)
  have hb : bus = ({ name := bus_name, route := full, route_length := rl
                     curvature := rl / gl, is_roundtrip := false } : Bus) := by
    rw [hceq] at hbus
    simp only [List.head?_cons, Option.some.injEq] at hbus
    exact hbus.symm
  have hroute : bus.route = declared ++ declared.reverse.tail := by
    rw [hb]
    show full = _
    rw [hfull, TransportCatalogue.reverseStart_add_one_toNat _ (hlen ▸ hsize),
      TransportCatalogue.take_pred_reverse]
    simp
  have hpal : bus.route.reverse = bus.route := by
    rw [hroute]
    exact TransportCatalogue.append_reverse_tail_palindrome declared
  have hk : 1 ≤ names.length → bus.route.length = 2 * names.length - 1 := by
    intro h1
    rw [hroute, TransportCatalogue.length_append_reverse_tail declared (hlen ▸ h1), hlen]
  have hn : bus.route.length = 0 ∨ bus.route.length % 2 = 1 := by
    rcases Nat.eq_zero_or_pos names.length with h0 | h1
    · left
      have hd : declared = [] := List.length_eq_zero.1 (hlen ▸ h0)
      rw [hroute, hd]
      rfl
    · right
      have := hk h1
      omega
  obtain ⟨round, linear, h1, h2, h3, h4⟩ := linear_perm_round m r hkeys bus hv hpal hn g
  have hrt : bus.is_roundtrip = false := by rw [hb]
  refine ⟨hrt, hpal, ?_, round, linear, h1, h2, ?_, h3, h4, ?_⟩
  · intro hone
    have := hk hone
    exact ⟨this, by omega⟩
  · unfold AddRouteToGraph
    rw [hrt]
    exact h2
  · intro i j hij
    rw [mem_pairs] at hij
    omega

/-- Witness of C36: the bus `l` of `lineL`, declared `A, B, C`, over the router of
`lineL`. -/
theorem AddLinearTrip_is_round_trip_rule_within_halves_witness :
    Example.busL.route = [0, 1, 2, 1, 0] ∧
    ∃ round linear,
      AddRoundTrip Example.libm Example.routerL Example.busL
          (DirectedWeightedGraph.ofVertexCount 6) =
        .ok { (DirectedWeightedGraph.ofVertexCount 6 : DirectedWeightedGraph EdgeInfo) with
          edges_ := [] ++ round } ∧
      AddLinearTrip Example.libm Example.routerL Example.busL
          (DirectedWeightedGraph.ofVertexCount 6) =
        .ok { (DirectedWeightedGraph.ofVertexCount 6 : DirectedWeightedGraph EdgeInfo) with
          edges_ := [] ++ linear } ∧
      linear.Perm (roundTripEdgesWithinHalves 5 round) := by
  refine ⟨by decide!, ?_⟩
  obtain ⟨_, _, _, round, linear, h1, h2, _, _, h4, _⟩ :=
    AddLinearTrip_is_round_trip_rule_within_halves Example.libm Example.roads Example.lineL
      "l" ["A", "B", "C"] (by norm_num) (by decide!) Example.busL (by decide!)
      Example.routerL (by decide!) (by decide!) (DirectedWeightedGraph.ofVertexCount 6)
  exact ⟨round, linear, h1, h2, h4⟩

end TransportRouter

namespace AssocMap

theorem mem_emplace {κ ν : Type} [DecidableEq κ] (m : AssocMap κ ν) (k : κ) (v : ν)
    (e : κ × ν) (h : e ∈ emplace m k v) : e ∈ m ∨ e = (k, v) := by
  induction m with
  | nil =>
    simp only [emplace, List.mem_singleton] at h
    exact Or.inr h
  | cons kv m ih =>
    obtain ⟨k0, v0⟩ := kv
    unfold emplace at h
    split_ifs at h with h0
    · exact Or.inl h
    · rcases List.mem_cons.1 h with h | h
      · exact Or.inl (h ▸ List.mem_cons_self _ _)
      · rcases ih h with h | h
        · exact Or.inl (List.mem_cons_of_mem _ h)
        · exact Or.inr h

end AssocMap

namespace Serializer

open TransportCatalogue

theorem mapM_ok_all {α β : Type} (f : α → Except Fault β) (P : β → Prop) :
    ∀ (l : List α), (∀ a ∈ l, ∃ b, f a = .ok b ∧ P b) →
      ∃ r, l.mapM f = .ok r ∧ (∀ b ∈ r, P b) ∧ r.length = l.length := by
  intro l h
  obtain ⟨r, hr, hF⟩ := mapM_ok_rel f (fun _ b => P b) l h
  refine ⟨r, hr, ?_, (forall₂_length_eq hF).symm⟩
  clear hr h
  induction hF with
  | nil => intro b hb; cases hb
  | cons hP _ ih =>
    intro b hb
    rcases List.mem_cons.1 hb with hb | hb
    · rw [hb]; exact hP
    · exact ih b hb

theorem encode_row (c : TransportCatalogue) (e : StopPtr × AssocMap StopPtr ℚ)
    (h1 : e.1 < c.stops_.length) (h2 : ∀ x ∈ e.2, x.1 < c.stops_.length) :
    ∃ ser, ConvertStopDistances c e = .ok ser ∧
      (∃ s ∈ c.stops_, s.id = ser.from_stop_id) ∧
      ∀ di ∈ ser.distance_info, ∃ s ∈ c.stops_, s.id = di.to_stop_id := by
  obtain ⟨s, hs, hmem⟩ := c.stopAt_of_lt e.1 h1
  obtain ⟨infos, hinfos, hall, _⟩ := mapM_ok_all (ConvertDistanceInfo c)
    (fun di => ∃ s ∈ c.stops_, s.id = di.to_stop_id) e.2 (by
      intro x hx
      obtain ⟨t, ht, htmem⟩ := c.stopAt_of_lt x.1 (h2 x hx)
      refine ⟨{ to_stop_id := t.id, distance := x.2 }, ?_, t, htmem, rfl⟩
      unfold ConvertDistanceInfo
      rw [ht]
      rfl)
  refine ⟨{ from_stop_id := s.id, distance_info := infos }, ?_, ⟨s, hmem, rfl⟩, hall⟩
  unfold ConvertStopDistances
  rw [hs]
  show (e.2.mapM (ConvertDistanceInfo c) >>= _) = _
  rw [hinfos]
  rfl

theorem encode_bus (c : TransportCatalogue) (b : Bus)
    (hv : ∀ p ∈ b.route, p < c.stops_.length) :
    ∃ ser, ConvertBus c b = .ok ser ∧ ser.name = b.name ∧
      ser.route_length = b.route_length ∧ ser.curvature = b.curvature ∧
      ser.is_roundtrip = b.is_roundtrip ∧ ser.stop.length = b.route.length ∧
      ∀ id ∈ ser.stop, ∃ s ∈ c.stops_, s.id = id := by
  obtain ⟨ids, hids, hall, hlen⟩ := mapM_ok_all
    (fun stop => do
      let s ← c.stopAt stop
      pure s.id)
    (fun id => ∃ s ∈ c.stops_, s.id = id) b.route (by
      intro p hp
      obtain ⟨t, ht, htmem⟩ := c.stopAt_of_lt p (hv p hp)
      refine ⟨t.id, ?_, t, htmem, rfl⟩
      show (c.stopAt p >>= fun s => pure s.id) = _
      rw [ht]
      rfl)
  refine ⟨{ name := b.name, stop := ids, route_length := b.route_length,
            curvature := b.curvature, is_roundtrip := b.is_roundtrip }, ?_, rfl, rfl, rfl, rfl,
    hlen, hall⟩
  unfold ConvertBus
  rw [hids]
  rfl

/-- The first loop of the decoder on any list of stops. -/
theorem stops_phase_any (L : List Stop) :
    (L.foldl (fun (trc : TransportCatalogue) s => trc.AddStop s) empty).stops_ = L.reverse ∧
    (L.foldl (fun (trc : TransportCatalogue) s => trc.AddStop s) empty).buses_ = [] ∧
    (L.foldl (fun (trc : TransportCatalogue) s => trc.AddStop s)
      empty).stop_to_stop_to_distance_ = [] ∧
    (L.foldl (fun (trc : TransportCatalogue) s => trc.AddStop s) empty).Consistent ∧
    ∀ s ∈ L, ∃ p,
      (L.foldl (fun (trc : TransportCatalogue) s => trc.AddStop s)
        empty).stop_id_to_stop_.find? s.id = some p ∧ p < L.length := by
  induction L using List.reverseRecOn with
  | nil =>
    exact ⟨rfl, rfl, rfl, Consistent_empty, fun s hs => absurd hs (List.not_mem_nil s)⟩
  | append_singleton L x ih =>
    obtain ⟨h1, h2, h3, h4, h5⟩ := ih
    rw [List.foldl_append]
    simp only [List.foldl_cons, List.foldl_nil]
    generalize L.foldl (fun (trc : TransportCatalogue) s => trc.AddStop s) empty = D
      at h1 h2 h3 h4 h5
    refine ⟨?_, ?_, ?_, Consistent_AddStop D x h4, ?_⟩
    · show x :: D.stops_ = _
      rw [h1]
      simp
    · exact h2
    · exact h3
    · intro s hs
      show ∃ p, (D.stop_id_to_stop_.insert x.id D.stops_.length).find? s.id = some p ∧ _
      rw [AssocMap.find?_insert]
      have hlen : D.stops_.length = L.length := by rw [h1]; simp
      by_cases hx : x.id = s.id
      · rw [if_pos hx]
        exact ⟨_, rfl, by rw [hlen]; simp⟩
      · rw [if_neg hx]
        rcases List.mem_append.1 hs with hs | hs
        · obtain ⟨p, hp, hlt⟩ := h5 s hs
          exact ⟨p, hp, by
            rw [List.length_append]
            exact Nat.lt_of_lt_of_le hlt (Nat.le_add_right _ _)⟩
        · rw [List.mem_singleton.1 hs] at hx
          exact absurd rfl hx

theorem AddDistance_step_ok (t : TransportCatalogue) (hc : t.Consistent) (ht : t.TableValid)
    (p q : StopPtr) (hp : p < t.stops_.length) (hq : q < t.stops_.length) (d : ℚ) :
    ∃ t', (do
        let from_stop ← t.stopAt p
        let to_stop ← t.stopAt q
        t.AddDistance from_stop.name to_stop.name d) = .ok t' ∧
      t'.stops_ = t.stops_ ∧ t'.stop_id_to_stop_ = t.stop_id_to_stop_ ∧
      t'.buses_ = t.buses_ ∧ t'.Consistent ∧ t'.TableValid := by
  obtain ⟨s, hs, hsmem⟩ := t.stopAt_of_lt p hp
  obtain ⟨u, hu, humem⟩ := t.stopAt_of_lt q hq
  obtain ⟨p', hp'⟩ := Option.isSome_iff_exists.1 (hc.name_known s hsmem)
  obtain ⟨q', hq'⟩ := Option.isSome_iff_exists.1 (hc.name_known u humem)
  have hadd : t.AddDistance s.name u.name d = .ok { t with
      stop_to_stop_to_distance_ :=
        t.stop_to_stop_to_distance_.modify p' [] (fun row => row.insert q' d) } := by
    unfold AddDistance
    rw [(AssocMap.get_eq_ok _ _ _).2 hp', (AssocMap.get_eq_ok _ _ _).2 hq']
    rfl
  obtain ⟨s', hs', _⟩ := hc.name_valid _ _ hp'
  obtain ⟨u', hu', _⟩ := hc.name_valid _ _ hq'
  refine ⟨{ t with
      stop_to_stop_to_distance_ :=
        t.stop_to_stop_to_distance_.modify p' [] (fun row => row.insert q' d) },
    ?_, rfl, rfl, rfl, Consistent_AddDistance t _ s.name u.name d hc hadd,
    TableValid_put t ht p' q' d (reverse_getElem?_lt _ _ _ hs') (reverse_getElem?_lt _ _ _ hu')⟩
  rw [hs, hu]
  exact hadd

theorem decode_row_step (D trc : TransportCatalogue) (K : Nat → Prop)
    (hK : ∀ id, K id → ∃ p, D.stop_id_to_stop_.find? id = some p ∧ p < D.stops_.length)
    (hinv : DecodeInv D trc ∧ trc.buses_ = []) (ser : trc_serialization.StopDistances)
    (h1 : K ser.from_stop_id) (h2 : ∀ di ∈ ser.distance_info, K di.to_stop_id) :
    ∃ trc', (do
        let sd ← ConvertSerStopDistances ser trc.stop_id_to_stop_
        sd.2.foldlM
          (fun (trc : TransportCatalogue) (di : StopPtr × ℚ) => do
            let from_stop ← trc.stopAt sd.1
            let to_stop ← trc.stopAt di.1
            trc.AddDistance from_stop.name to_stop.name di.2)
          trc) = .ok trc' ∧
      DecodeInv D trc' ∧ trc'.buses_ = [] := by
  obtain ⟨⟨hst, hid, hcons, htv⟩, hb⟩ := hinv
  obtain ⟨p, hp, hplt⟩ := hK _ h1
  obtain ⟨row, hrow, hrowv⟩ := foldlM_ok_of_step
    (fun row : AssocMap StopPtr ℚ => ∀ x ∈ row, x.1 < D.stops_.length)
    (fun (to_stop_to_distance : AssocMap StopPtr ℚ) ser_di => do
      let di ← ConvertSerDistanceInfo ser_di D.stop_id_to_stop_
      pure (to_stop_to_distance.emplace di.1 di.2))
    ser.distance_info [] (fun x hx => absurd hx (List.not_mem_nil x)) (by
      intro b di hdi hbv
      obtain ⟨q, hq, hqlt⟩ := hK _ (h2 di hdi)
      refine ⟨b.emplace q di.distance, ?_, ?_⟩
      · dsimp only
        unfold ConvertSerDistanceInfo
        rw [(AssocMap.get_eq_ok _ _ _).2 hq]
        rfl
      · intro x hx
        rcases AssocMap.mem_emplace _ _ _ _ hx with hx | hx
        · exact hbv x hx
        · rw [hx]; exact hqlt)
  have hconv : ConvertSerStopDistances ser trc.stop_id_to_stop_ = .ok (p, row) := by
    unfold ConvertSerStopDistances
    rw [hid, (AssocMap.get_eq_ok _ _ _).2 hp, Except.bind_eq_ok]
    refine ⟨p, rfl, ?_⟩
    rw [Except.bind_eq_ok]
    exact ⟨row, hrow, rfl⟩
  obtain ⟨r, hr, hq⟩ := foldlM_ok_of_step
    (fun t : TransportCatalogue => DecodeInv D t ∧ t.buses_ = [])
    (fun (trc : TransportCatalogue) (di : StopPtr × ℚ) => do
      let from_stop ← trc.stopAt p
      let to_stop ← trc.stopAt di.1
      trc.AddDistance from_stop.name to_stop.name di.2)
    row trc ⟨⟨hst, hid, hcons, htv⟩, hb⟩ (by
      rintro t di hdi ⟨⟨hst', hid', hcons', htv'⟩, hb'⟩
      obtain ⟨t', ht', e1, e2, e3, e4, e5⟩ := AddDistance_step_ok t hcons' htv' p di.1
        (by rw [hst']; exact hplt) (by rw [hst']; exact hrowv di hdi) di.2
      exact ⟨t', ht', ⟨e1.trans hst', e2.trans hid', e4, e5⟩, e3.trans hb'⟩)
  refine ⟨r, ?_, hq⟩
  rw [hconv]
  exact hr

theorem decode_bus_step (D trc : TransportCatalogue) (K : Nat → Prop)
    (hK : ∀ id, K id → ∃ p, D.stop_id_to_stop_.find? id = some p ∧ p < D.stops_.length)
    (hinv : DecodeInv D trc) (ser : trc_serialization.Bus) (h : ∀ id ∈ ser.stop, K id) :
    ∃ trc' b, (do
        let bus ← ConvertSerBus ser trc.stop_id_to_stop_
        trc.AddBusObject bus) = .ok trc' ∧
      DecodeInv D trc' ∧ trc'.buses_ = b :: trc.buses_ ∧
      b.name = ser.name ∧ b.route_length = ser.route_length ∧ b.curvature = ser.curvature ∧
      b.is_roundtrip = ser.is_roundtrip ∧ b.route.length = ser.stop.length := by
  obtain ⟨hst, hid, hcons, htv⟩ := hinv
  obtain ⟨route, hroute, hall, hlen⟩ := mapM_ok_all
    (fun id => D.stop_id_to_stop_.get id) (fun p => p < D.stops_.length) ser.stop (by
      intro id hid'
      obtain ⟨p, hp, hplt⟩ := hK id (h id hid')
      exact ⟨p, (AssocMap.get_eq_ok _ _ _).2 hp, hplt⟩)
  have hconv : ConvertSerBus ser trc.stop_id_to_stop_ = .ok
      ({ name := ser.name, route := route, route_length := ser.route_length
         curvature := ser.curvature, is_roundtrip := ser.is_roundtrip } : Bus) := by
    unfold ConvertSerBus
    rw [hid, hroute]
    rfl
  have hv : ∀ p ∈ route, p < trc.stops_.length := by
    intro p hp
    rw [hst]
    exact hall p hp
  obtain ⟨c', hc'⟩ := AddBusObject_ok_of_valid trc
    ({ name := ser.name, route := route, route_length := ser.route_length
       curvature := ser.curvature, is_roundtrip := ser.is_roundtrip } : Bus) hcons hv
  have hcons' := Consistent_AddBusObject trc c' _ hcons hv hc'
  obtain ⟨idx, _, heq⟩ := AddBusObject_eq_ok trc c' _ hc'
  refine ⟨c', ({ name := ser.name, route := route, route_length := ser.route_length
                 curvature := ser.curvature, is_roundtrip := ser.is_roundtrip } : Bus),
    ?_, ⟨?_, ?_, hcons', ?_⟩, ?_, rfl, rfl, rfl, rfl, hlen⟩
  · rw [hconv]
    exact hc'
  · rw [heq]; exact hst
  · rw [heq]; exact hid
  · rw [heq]; exact ⟨htv.keys, htv.rows⟩
  · rw [heq]

theorem decode_buses (D : TransportCatalogue) (K : Nat → Prop)
    (hK : ∀ id, K id → ∃ p, D.stop_id_to_stop_.find? id = some p ∧ p < D.stops_.length) :
    ∀ (sers : List trc_serialization.Bus) (trc : TransportCatalogue), DecodeInv D trc →
      (∀ ser ∈ sers, ∀ id ∈ ser.stop, K id) →
      ∃ trc' added, sers.foldlM
          (fun (trc : TransportCatalogue) ser_b => do
            let bus ← ConvertSerBus ser_b trc.stop_id_to_stop_
            trc.AddBusObject bus)
          trc = .ok trc' ∧
        DecodeInv D trc' ∧ trc'.buses_ = added.reverse ++ trc.buses_ ∧
        List.Forall₂ (fun (ser : trc_serialization.Bus) (b : Bus) =>
          b.name = ser.name ∧ b.route_length = ser.route_length ∧
          b.curvature = ser.curvature ∧ b.is_roundtrip = ser.is_roundtrip ∧
          b.route.length = ser.stop.length) sers added := by
  intro sers
  induction sers with
  | nil =>
    intro trc hinv _
    exact ⟨trc, [], rfl, hinv, rfl, List.Forall₂.nil⟩
  | cons ser rest ih =>
    intro trc hinv hall
    obtain ⟨t1, b, hstep, hinv1, hb1, hf⟩ := decode_bus_step D trc K hK hinv ser
      (hall ser (List.mem_cons_self _ _))
    obtain ⟨t2, added, hfold, hinv2, hb2, hF⟩ := ih t1 hinv1
      (fun s hs => hall s (List.mem_cons_of_mem _ hs))
    refine ⟨t2, b :: added, ?_, hinv2, ?_, List.Forall₂.cons hf hF⟩
    · rw [List.foldlM_cons, Except.bind_eq_ok]
      exact ⟨t1, hstep, hfold⟩
    · rw [hb2, hb1, List.reverse_cons, List.append_assoc]
      rfl

theorem forall₂_right {α β : Type} (R : α → β → Prop) (Q : β → Prop)
    (h : ∀ a b, R a b → Q b) :
    ∀ (l1 : List α) (l2 : List β), List.Forall₂ R l1 l2 → ∀ b ∈ l2, Q b := by
  intro l1 l2 hF
  induction hF with
  | nil => intro b hb; cases hb
  | cons hab _ ih =>
    intro b hb
    rcases List.mem_cons.1 hb with hb | hb
    · rw [hb]; exact h _ _ hab
    · exact ih b hb

theorem forall₂_trans {α β γ : Type} (R : α → β → Prop) (S : β → γ → Prop)
    (T : α → γ → Prop) (hRS : ∀ a b c, R a b → S b c → T a c) :
    ∀ (l1 : List α) (l2 : List β) (l3 : List γ),
      List.Forall₂ R l1 l2 → List.Forall₂ S l2 l3 → List.Forall₂ T l1 l3 := by
  intro l1 l2 l3 h
  induction h generalizing l3 with
  | nil =>
    intro h2
    cases h2
    exact List.Forall₂.nil
  | cons hab _ ih =>
    intro h2
    cases h2 with
    | cons hbc hrest => exact List.Forall₂.cons (hRS _ _ _ hab hbc) (ih _ hrest)

/-- The decoder applied to the encoded catalogue returns for every well-formed
catalogue; the decoded catalogue holds the stops in the reverse order and the buses
in the reverse order, and it is well formed again. -/
theorem decode_encode_any (c : TransportCatalogue) (hc : c.Consistent) (ht : c.TableValid) :
    ∃ msg c', ConvertTransportCatalogue c = .ok msg ∧
      ConvertSerTransportCatalogue msg = .ok c' ∧
      c'.stops_ = c.stops_.reverse ∧
      List.Forall₂ SameBus c.buses_.reverse c'.buses_ ∧
      c'.Consistent ∧ c'.TableValid := by
  obtain ⟨distance, hdist, hdall, _⟩ := mapM_ok_all (ConvertStopDistances c)
    (fun ser => (∃ s ∈ c.stops_, s.id = ser.from_stop_id) ∧
      ∀ di ∈ ser.distance_info, ∃ s ∈ c.stops_, s.id = di.to_stop_id)
    c.stop_to_stop_to_distance_ (by
      intro e he
      obtain ⟨h1, _, _, h4⟩ := ht.rows e he
      exact encode_row c e h1 h4)
  obtain ⟨bus, hbus, hball⟩ := mapM_ok_rel (ConvertBus c)
    (fun b ser => ser.name = b.name ∧
      ser.route_length = b.route_length ∧ ser.curvature = b.curvature ∧
      ser.is_roundtrip = b.is_roundtrip ∧ ser.stop.length = b.route.length ∧
      ∀ id ∈ ser.stop, ∃ s ∈ c.stops_, s.id = id)
    c.buses_ (fun b hb => encode_bus c b (hc.route_valid b hb))
  have henc : ConvertTransportCatalogue c = .ok
      { stop := c.stops_.map ConvertStop, distance := distance, bus := bus } := by
    unfold ConvertTransportCatalogue
    rw [hdist, hbus]
    rfl
  obtain ⟨h1, h2, h3, h4, h5⟩ := stops_phase_any c.stops_
  generalize hD : c.stops_.foldl (fun (trc : TransportCatalogue) s => trc.AddStop s) empty = D
    at h1 h2 h3 h4 h5
  have hlen : D.stops_.length = c.stops_.length := by rw [h1]; simp
  have hK : ∀ id, (∃ s ∈ c.stops_, s.id = id) →
      ∃ p, D.stop_id_to_stop_.find? id = some p ∧ p < D.stops_.length := by
    rintro id ⟨s, hs, rfl⟩
    obtain ⟨p, hp, hlt⟩ := h5 s hs
    exact ⟨p, hp, by rw [hlen]; exact hlt⟩
  have hDt : D.TableValid := by
    refine ⟨by rw [h3]; exact List.nodup_nil, ?_⟩
    intro e he
    rw [h3] at he
    cases he
  obtain ⟨E, hE, hEinv, hEb⟩ := foldlM_ok_of_step
    (fun t : TransportCatalogue => DecodeInv D t ∧ t.buses_ = [])
    (fun (trc : TransportCatalogue) ser_sd => do
      let sd ← ConvertSerStopDistances ser_sd trc.stop_id_to_stop_
      sd.2.foldlM
        (fun (trc : TransportCatalogue) (di : StopPtr × ℚ) => do
          let from_stop ← trc.stopAt sd.1
          let to_stop ← trc.stopAt di.1
          trc.AddDistance from_stop.name to_stop.name di.2)
        trc)
    distance D ⟨⟨rfl, rfl, h4, hDt⟩, h2⟩ (by
      intro t ser hser hq
      exact decode_row_step D t _ hK hq ser (hdall ser hser).1 (hdall ser hser).2)
  have hbk : ∀ ser ∈ bus, ∀ id ∈ ser.stop, ∃ s ∈ c.stops_, s.id = id :=
    forall₂_right _ _ (fun _ _ h => h.2.2.2.2.2) _ _ hball
  obtain ⟨c', added, hfold, hinv, hbuses, hadded⟩ := decode_buses D _ hK bus E hEinv hbk
  refine ⟨_, c', henc, ?_, ?_, ?_, hinv.2.2.1, hinv.2.2.2⟩
  · unfold ConvertSerTransportCatalogue
    simp only [List.foldl_map, ConvertSerStop_ConvertStop]
    rw [hD, Except.bind_eq_ok]
    exact ⟨E, hE, hfold⟩
  · rw [hinv.1, h1]
  · rw [hbuses, hEb, List.append_nil]
    apply List.rel_reverse
    refine forall₂_trans _ _ _ ?_ _ _ _ hball hadded
    rintro b ser b' ⟨e1, e2, e3, e4, e5, _⟩ ⟨f1, f2, f3, f4, f5⟩
    exact ⟨f1.trans e1, f2.trans e2, f3.trans e3, f4.trans e4, f5.trans e5⟩

theorem SameBus_trans (a b c : Bus) (h1 : SameBus a b) (h2 : SameBus b c) : SameBus a c :=
  ⟨h2.1.trans h1.1, h2.2.1.trans h1.2.1, h2.2.2.1.trans h1.2.2.1,
    h2.2.2.2.1.trans h1.2.2.2.1, h2.2.2.2.2.trans h1.2.2.2.2⟩

theorem mirrorBus_mirrorBus (n : Nat) (b : Bus) : mirrorBus n (mirrorBus n b) = b := by
  cases b
  simp [mirrorBus, Function.comp_def, mirror_mirror]

/-- The name index of a router over a catalogue with unique stop names maps the
name of the `i`-th stop of the deque to `i`. -/
theorem router_name_index (m : Libm) (router_settings : Settings)
    (X : TransportCatalogue) (hnm : (X.stops_.map Stop.name).Nodup) (r : TransportRouter)
    (hr : TransportRouter.create m router_settings X = .ok r) :
    ∀ i s, X.stops_[i]? = some s → r.stop_name_to_index_.find? s.name = some i := by
  intro i s hi
  obtain ⟨_, _, _, hidx, _, _, _⟩ := TransportRouter.create_eq_ok m router_settings X r hr
  have hlt : i < X.stops_.length := (List.getElem?_eq_some_iff.1 hi).1
  have hsome : (r.stop_name_to_index_.find? s.name).isSome = true :=
    (TransportRouter.InitStopNameToId_keys X (TransportRouter.InitIdToStop X) _ [] _ hidx).2 i
      (List.mem_range.2 (by rw [TransportRouter.InitIdToStop_length]; exact hlt))
      (X.stops_.length - 1 - i) s
      (by
        unfold TransportRouter.InitIdToStop
        rw [List.getElem?_map, List.getElem?_range hlt]
        rfl)
      (by
        rw [stopAt_eq_ok, List.getElem?_reverse (by omega)]
        have : X.stops_.length - 1 - (X.stops_.length - 1 - i) = i := by omega
        rw [this]; exact hi)
  obtain ⟨j, hj⟩ := Option.isSome_iff_exists.1 hsome
  obtain ⟨hjlt, p, s', hp, hs', hname⟩ :=
    TransportRouter.InitStopNameToId_spec X (TransportRouter.InitIdToStop X) _ hidx _ _ hj
  rw [TransportRouter.InitIdToStop_length] at hjlt
  have hp' : p = X.stops_.length - 1 - j := by
    unfold TransportRouter.InitIdToStop at hp
    rw [List.getElem?_map, List.getElem?_range hjlt] at hp
    simp only [Option.map_some', Option.some.injEq] at hp
    exact hp.symm
  have hsj : X.stops_[j]? = some s' := by
    rw [stopAt_eq_ok, hp', List.getElem?_reverse (by omega)] at hs'
    have : X.stops_.length - 1 - (X.stops_.length - 1 - j) = j := by omega
    rw [this] at hs'
    exact hs'
  have hij : i = j := by
    have h1 : (X.stops_.map Stop.name)[i]? = some s.name := by
      rw [List.getElem?_map, hi]; rfl
    have h2 : (X.stops_.map Stop.name)[j]? = some s.name := by
      rw [List.getElem?_map, hsj, ← hname]; rfl
    have hi' : i < (X.stops_.map Stop.name).length := by simpa using hlt
    have hj' : j < (X.stops_.map Stop.name).length := by simpa using hjlt
    rw [List.getElem?_eq_getElem hi'] at h1
    rw [List.getElem?_eq_getElem hj'] at h2
    exact (List.Nodup.getElem_inj_iff hnm).1
      ((Option.some.inj h1).trans (Option.some.inj h2).symm)
  rw [hij]
  exact hj

/-- C40 (counterexample): the catalogue `sameName` holds two stops that were both
named `A`; encoding and decoding return, the router over the decoded catalogue is
built, and its name index maps `A`, the name of the stop at position 1 of the two
stops of `sameName`, to vertex 1 and not to vertex 2 - 1 - 1 = 0. -/
theorem name_index_after_round_trip_of_shared_name :
    Example.sameName.stops_.map Stop.name = ["A", "A"] ∧
    (do
      let msg ← ConvertTransportCatalogue Example.sameName
      let c' ← ConvertSerTransportCatalogue msg
      let r' ← TransportRouter.create Example.libm Example.settings c'
      pure (c'.stops_.map Stop.id, r'.stop_id_to_stop_,
        r'.stop_name_to_index_.find? "A")) = .ok ([0, 1], [1, 0], some 1) ∧
    Example.sameName.stops_.length - 1 - 1 = 0 := by
  decide!

/-- C40 (amended): for every well-formed catalogue C with N stops (every catalogue
built through the interface and every decoded catalogue is one), encoding and
decoding return a catalogue whose deque of stops is the reverse of that of C and
whose buses are those of C in the reverse order (with the same name, lengths, flag
and number of route positions; with the routes of C translated stop by stop when
the stop ids and names are unique); encoding and decoding once more restores the
order of the stops and of the buses of C; the router over the decoded catalogue is
built, its vertex N - 1 - i designates the i-th stop of C, and when the stop names
of C are unique its name index maps the name of the i-th stop of C to N - 1 - i,
while the router over C maps it to i. -/
theorem Convert_round_trip_reverses_order (m : Libm) (router_settings : Settings)
    (c : TransportCatalogue) (hc : c.Consistent) (ht : c.TableValid) :
    ∃ msg c' msg' c'' r r',
      ConvertTransportCatalogue c = .ok msg ∧ ConvertSerTransportCatalogue msg = .ok c' ∧
      ConvertTransportCatalogue c' = .ok msg' ∧ ConvertSerTransportCatalogue msg' = .ok c'' ∧
      c'.stops_ = c.stops_.reverse ∧
      List.Forall₂ SameBus c.buses_.reverse c'.buses_ ∧
      c''.stops_ = c.stops_ ∧
      List.Forall₂ SameBus c.buses_ c''.buses_ ∧
      ((c.stops_.map Stop.id).Nodup → (c.stops_.map Stop.name).Nodup →
        c'.buses_ = (c.buses_.map (mirrorBus c.stops_.length)).reverse ∧
        c''.buses_ = c.buses_) ∧
      TransportRouter.create m router_settings c = .ok r ∧
      TransportRouter.create m router_settings c' = .ok r' ∧
      ∀ i s, c.stops_[i]? = some s →
        (∃ p, r'.stop_id_to_stop_[c.stops_.length - 1 - i]? = some p ∧ c'.stopAt p = .ok s) ∧
        ((c.stops_.map Stop.name).Nodup →
          r.stop_name_to_index_.find? s.name = some i ∧
          r'.stop_name_to_index_.find? s.name = some (c.stops_.length - 1 - i)) := by
  obtain ⟨msg, c', henc, hdec, hstops, hbuses, hc', ht'⟩ := decode_encode_any c hc ht
  obtain ⟨msg', c'', henc', hdec', hstops', hbuses', _, _⟩ := decode_encode_any c' hc' ht'
  obtain ⟨r, hr⟩ := TransportRouter.create_ok_of_Consistent m router_settings c hc
  obtain ⟨r', hr'⟩ := TransportRouter.create_ok_of_Consistent m router_settings c' hc'
  have hlen : c'.stops_.length = c.stops_.length := by rw [hstops]; simp
  refine ⟨msg, c', msg', c'', r, r', henc, hdec, henc', hdec', hstops, hbuses, ?_, ?_, ?_,
    hr, hr', ?_⟩
  · rw [hstops', hstops, List.reverse_reverse]
  · have h1 : List.Forall₂ SameBus c.buses_ c'.buses_.reverse := by
      have := List.rel_reverse hbuses
      rwa [List.reverse_reverse] at this
    exact forall₂_trans _ _ _ (fun a b d h1 h2 => SameBus_trans a b d h1 h2) _ _ _ h1 hbuses'
  · intro hid hnm
    obtain ⟨msg1, c1, e1, d1, _, hb1, _⟩ := decode_encode c hc ht hid hnm
    rw [henc] at e1
    injection e1 with e1
    subst e1
    rw [hdec] at d1
    injection d1 with d1
    subst d1
    have hid' : (c'.stops_.map Stop.id).Nodup := by
      rw [hstops, List.map_reverse]
      exact List.nodup_reverse.2 hid
    have hnm' : (c'.stops_.map Stop.name).Nodup := by
      rw [hstops, List.map_reverse]
      exact List.nodup_reverse.2 hnm
    obtain ⟨msg2, c2, e2, d2, _, hb2, _⟩ := decode_encode c' hc' ht' hid' hnm'
    rw [henc'] at e2
    injection e2 with e2
    subst e2
    rw [hdec'] at d2
    injection d2 with d2
    subst d2
    refine ⟨hb1, ?_⟩
    rw [hb2, hb1, hlen, List.map_reverse, List.reverse_reverse, List.map_map]
    have : (mirrorBus c.stops_.length ∘ mirrorBus c.stops_.length) = id := by
      funext b
      exact mirrorBus_mirrorBus _ b
    rw [this, List.map_id]
  · intro i s hi
    have hlt : i < c.stops_.length := (List.getElem?_eq_some_iff.1 hi).1
    have hlt' : c.stops_.length - 1 - i < c'.stops_.length := by rw [hlen]; omega
    obtain ⟨_, _, hvec, _⟩ := TransportRouter.create_eq_ok m router_settings c' r' hr'
    refine ⟨⟨i, ?_, ?_⟩, ?_⟩
    · rw [hvec]
      unfold TransportRouter.InitIdToStop
      rw [List.getElem?_map, List.getElem?_range hlt', hlen]
      show some (c.stops_.length - 1 - (c.stops_.length - 1 - i)) = some i
      have hle : i ≤ c.stops_.length - 1 := Nat.le_pred_of_lt hlt
      rw [Nat.sub_sub_self hle]
    · rw [stopAt_eq_ok, hstops, List.reverse_reverse]
      exact hi
    · intro hnm
      have hnm' : (c'.stops_.map Stop.name).Nodup := by
        rw [hstops, List.map_reverse]
        exact List.nodup_reverse.2 hnm
      refine ⟨router_name_index m router_settings c hnm r hr i s hi,
        router_name_index m router_settings c' hnm' r' hr' _ s ?_⟩
      rw [hstops, List.getElem?_reverse (by omega)]
      have : c.stops_.length - 1 - (c.stops_.length - 1 - i) = i := by omega
      rw [this]
      exact hi

/-- Witness of C40: the catalogue `lineL` with the stops `A`, `B`, `C` and the bus
`l`. -/
theorem Convert_round_trip_reverses_order_witness :
    ∃ msg c' msg' c'' r',
      ConvertTransportCatalogue Example.lineL = .ok msg ∧
      ConvertSerTransportCatalogue msg = .ok c' ∧
      ConvertTransportCatalogue c' = .ok msg' ∧
      ConvertSerTransportCatalogue msg' = .ok c'' ∧
      c'.stops_ = Example.lineL.stops_.reverse ∧
      c''.stops_ = Example.lineL.stops_ ∧
      c''.buses_ = Example.lineL.buses_ ∧
      TransportRouter.create Example.libm Example.settings c' = .ok r' ∧
      r'.stop_name_to_index_.find? "C" = some 2 := by
  have hB : Built Example.libm Example.lineL :=
    Built.add_bus (c := Example.roads) "l" ["A", "B", "C"] false
      (Built.add_distance (c := match Example.stopsABC.AddDistance "A" "B" 600 with
          | .ok c => c
          | .error _ => empty) "B" "C" 400
        (Built.add_distance (c := Example.stopsABC) "A" "B" 600
          (Built.add_stop _ (Built.add_stop _ (Built.add_stop _ Built.empty)))
          (by decide!))
        (by decide!))
      (by decide!)
  obtain ⟨msg, c', msg', c'', r, r', h1, h2, h3, h4, h5, _, h7, _, h9, _, h11, h12⟩ :=
    Convert_round_trip_reverses_order Example.libm Example.settings Example.lineL
      (Consistent_of_Built _ _ hB) (TableValid_of_Built _ _ hB)
  exact ⟨msg, c', msg', c'', r', h1, h2, h3, h4, h5, h7, (h9 (by decide!) (by decide!)).2, h11,
    ((h12 0 ⟨2, "C", ⟨2, 2⟩⟩ (by decide!)).2 (by decide!)).2⟩

end Serializer

end trc
